import Mathlib

/-!
# Shallow embedding of the DSO `FullSystem` orchestration core

Sources embedded: `src/FullSystem/FullSystem.cpp` and
`src/FullSystem/FullSystemMarginalize.cpp`.

Modelling conventions.

* Heap objects are values; a pointer to a `FrameShell` is the position of the
  shell in `allFrameHistory` (the list that owns every shell), and a pointer to
  a `FrameHessian` is the position of its shell, since every `FrameHessian` is
  created together with its own shell. A null pointer is `none`.
* `std::vector<T*>` is `List (Option T)` where the source stores null entries,
  `List T` otherwise.
* Floating-point numbers are rationals. Where the source itself separates
  finite from non-finite values (`NAN`, `std::isfinite`, divisions, tests on
  values that may be NaN) the model uses `Flt`: a rational, an infinity or NaN,
  with the IEEE comparison rules.
* Poses (`SE3`), distances and the density controller are computed without
  rounding. Where a value computed in `float`, or narrowed to `float`, decides a
  test or is written out (the casts of the hypothesis loop, the bound of the key
  frame rate, the pixel and the distance of the candidate loop, the translation
  written by `printResult`), every operation is followed by the rounding of the
  machine, `Ext.roundF` (to `float`) or `Ext.roundD` (to `double`), which is
  left arbitrary: the theorems hold for every rounding. The rounding of
  IEEE 754 is `roundFloat` and `roundDouble`; the examples named `_machine` run
  the embedded code with it.
* Code of other translation units (coarse tracker, energy functional, pixel
  selector, point optimisation, settings) is a field of `Ext` or `Settings`:
  every theorem holds for all of their values.
* Dereferencing a null or dangling pointer is a failure: the function returns
  `none`.
* Output (log files, `printf`, output wrappers) and the statistics counters
  are left out. An `assert` on modelled state that fails is a failure; an
  `assert` on state of another translation unit is left out.
-/

namespace dso

/-! ## Numbers -/

/-- A `float`/`double` value: a rational, an infinity or NaN. -/
inductive Flt where
  | fin (q : ℚ)
  | pinf
  | ninf
  | nan
deriving DecidableEq

namespace Flt

/-- The test `std::isfinite`. -/
def isfinite : Flt → Bool
  | fin _ => true
  | _ => false

/-- IEEE `a < b`: false as soon as one side is NaN. -/
def lt : Flt → Flt → Bool
  | fin a, fin b => decide (a < b)
  | fin _, pinf => true
  | ninf, fin _ => true
  | ninf, pinf => true
  | _, _ => false

/-- IEEE `a > b`. -/
def gt (a b : Flt) : Bool := lt b a

/-- IEEE `a >= b`: false as soon as one side is NaN. -/
def ge : Flt → Flt → Bool
  | nan, _ => false
  | _, nan => false
  | a, b => !(lt a b)

/-- Unary minus. -/
def neg : Flt → Flt
  | fin a => fin (-a)
  | pinf => ninf
  | ninf => pinf
  | nan => nan

/-- The function `fabs`. -/
def abs : Flt → Flt
  | fin a => fin |a|
  | pinf => pinf
  | ninf => pinf
  | nan => nan

/-- IEEE addition (`inf - inf` is NaN). -/
def add : Flt → Flt → Flt
  | fin a, fin b => fin (a + b)
  | nan, _ => nan
  | _, nan => nan
  | pinf, ninf => nan
  | ninf, pinf => nan
  | pinf, _ => pinf
  | _, pinf => pinf
  | ninf, _ => ninf
  | _, ninf => ninf

/-- An infinity with the sign of `q`, NaN when `q = 0` (`0 * inf`). -/
def infOfSign (q : ℚ) : Flt :=
  if q = 0 then nan else if 0 < q then pinf else ninf

/-- IEEE multiplication (`0 * inf` is NaN). -/
def mul : Flt → Flt → Flt
  | fin a, fin b => fin (a * b)
  | nan, _ => nan
  | _, nan => nan
  | fin a, pinf => infOfSign a
  | fin a, ninf => infOfSign (-a)
  | pinf, fin b => infOfSign b
  | ninf, fin b => infOfSign (-b)
  | pinf, pinf => pinf
  | ninf, ninf => pinf
  | pinf, ninf => ninf
  | ninf, pinf => ninf

/-- IEEE division; a zero divisor counts as `+0` (`x / 0` is an infinity with
the sign of `x`, `0 / 0` is NaN). -/
def div : Flt → Flt → Flt
  | fin a, fin b => if b = 0 then infOfSign a else fin (a / b)
  | nan, _ => nan
  | _, nan => nan
  | fin _, pinf => fin 0
  | fin _, ninf => fin 0
  | pinf, fin b => if 0 ≤ b then pinf else ninf
  | ninf, fin b => if 0 ≤ b then ninf else pinf
  | pinf, pinf => nan
  | pinf, ninf => nan
  | ninf, pinf => nan
  | ninf, ninf => nan

/-- IEEE subtraction. -/
def sub (a b : Flt) : Flt := add a (neg b)

/-- The function `floorf`. -/
def floor : Flt → Flt
  | fin a => fin ⌊a⌋
  | x => x

/-- Conversion to `int`: the value is truncated toward zero. For a value that
is not finite or does not fit 32 bits the conversion is undefined; `invalid` is
the number that it leaves then. -/
def toInt (invalid : Int) : Flt → Int
  | fin a =>
    let z : Int := if 0 ≤ a then ⌊a⌋ else ⌈a⌉
    if -2147483648 ≤ z ∧ z ≤ 2147483647 then z else invalid
  | _ => invalid

/-- The rounding that follows an operation: `r` gives the machine number next
to a real number (an infinity when it is out of range); an infinity or NaN is
left as it is. -/
def rnd (r : ℚ → Flt) : Flt → Flt
  | fin q => r q
  | x => x

end Flt

/-- The type `Vec5`: five residuals, one per pyramid level. -/
abbrev Vec5 := Fin 5 → Flt

/-- The type `Vec3` of flow indicators. -/
abbrev Vec3 := Fin 3 → Flt

/-- The type `Vec4`: the value returned by `trackNewCoarse`. -/
abbrev Vec4 := Fin 4 → Flt

/-- The vector `Vec5::Constant(x)`. -/
def Vec5.constant (x : Flt) : Vec5 := fun _ => x

/-! ## Rigid transforms -/

/-- The type `SE3`: a rotation matrix and a translation. -/
structure SE3 where
  R : Matrix (Fin 3) (Fin 3) ℚ
  t : Fin 3 → ℚ

namespace SE3

/-- The identity transform `SE3()`. -/
def identity : SE3 := ⟨1, 0⟩

/-- Composition `a * b`, the map `x ↦ a.R (b.R x + b.t) + a.t`. -/
def comp (a b : SE3) : SE3 := ⟨a.R * b.R, a.R.mulVec b.t + a.t⟩

/-- The inverse `a.inverse()`: the rotation is inverted by transposition (conjugation). -/
def inverse (a : SE3) : SE3 := ⟨a.R.transpose, -(a.R.transpose.mulVec a.t)⟩

end SE3

instance : One SE3 := ⟨SE3.identity⟩

instance : Mul SE3 := ⟨SE3.comp⟩

/-- The type `AffLight`: affine brightness parameters. -/
structure AffLight where
  a : ℚ
  b : ℚ
deriving DecidableEq

/-! ## Data model -/

/-- The record `FrameShell`, one per input image, owned by `allFrameHistory`.
`trackingRef` points to another shell (its position in `allFrameHistory`). -/
structure FrameShell where
  id : Int
  incoming_id : Int
  timestamp : ℚ
  file_prefix_str : String
  camToTrackingRef : SE3
  trackingRef : Option Nat
  camToWorld : SE3
  aff_g2l : AffLight
  poseValid : Bool
  marginalizedAt : Int
  movedByOpt : ℚ

/-- The enumeration `ResState` of a residual. -/
inductive ResState where
  | IN
  | OOB
  | OUTLIER
deriving DecidableEq

/-- The enumeration `EFPointStatus` (`efPoint->stateFlag`). -/
inductive EFPointStatus where
  | PS_GOOD
  | PS_MARGINALIZE
  | PS_DROP
deriving DecidableEq

/-- The enumeration `ImmaturePointStatus`. -/
inductive ImmaturePointStatus where
  | IPS_GOOD
  | IPS_OOB
  | IPS_OUTLIER
  | IPS_SKIPPED
  | IPS_BADCONDITION
  | IPS_UNINITIALIZED
deriving DecidableEq

/-- A residual `PointFrameResidual`: `addr` is the address of the object (what
`lastResiduals[k].first` compares against), `host` and `target` point to
frames. -/
structure PointFrameResidual where
  addr : Nat
  host : Nat
  target : Nat
  state_state : ResState
deriving DecidableEq

/-- An active point `PointHessian`. `stateFlag` is `efPoint->stateFlag`;
`lastResiduals0` and `lastResiduals1` are `lastResiduals[0]` and
`lastResiduals[1]`, whose first component is a residual address or null. The
members `idepth_scaled` and `idepth_hessian` are of type `float` and are written
by the optimisation: they may be NaN. -/
structure PointHessian where
  u : ℚ
  v : ℚ
  idepth_scaled : Flt
  idepth_hessian : Flt
  maxRelBaseline : ℚ
  numGoodResiduals : Int
  residuals : List PointFrameResidual
  lastResiduals0 : Option Nat × ResState
  lastResiduals1 : Option Nat × ResState
  stateFlag : EFPointStatus
deriving DecidableEq

/-- A candidate point `ImmaturePoint`; `host` points to a frame. -/
structure ImmaturePoint where
  host : Nat
  u : ℚ
  v : ℚ
  my_type : ℚ
  idepth_min : Flt
  idepth_max : Flt
  quality : ℚ
  energyTH : Flt
  lastTracePixelInterval : ℚ
  lastTraceStatus : ImmaturePointStatus
  idxInImmaturePoints : Int
deriving DecidableEq

/-- What `optimizeImmaturePoint` returns, a `PointHessian*`: null, the marker
`(PointHessian*)((long)(-1))`, or a new `PointHessian` with its `host` member. -/
inductive OptimizedPtr where
  | null
  | minusOne
  | point (host : Nat) (p : PointHessian)
deriving DecidableEq

/-- One entry of `targetPrecalc`: host and target frame and their distance. -/
structure FrameFramePrecalc where
  host : Nat
  target : Nat
  distanceLL : Flt
deriving DecidableEq

/-- A window frame `FrameHessian`. `shell` is `fh->shell` and also stands for
the address of the frame itself; `aff_g2l` is the value of `aff_g2l()`. -/
structure FrameHessian where
  shell : Nat
  frameID : Int
  idx : Int
  ab_exposure : ℚ
  aff_g2l : AffLight
  flaggedForMarginalization : Bool
  frameEnergyTH : ℚ
  pointHessians : List (Option PointHessian)
  pointHessiansMarginalized : List PointHessian
  pointHessiansOut : List PointHessian
  immaturePoints : List (Option ImmaturePoint)
  targetPrecalc : List FrameFramePrecalc
deriving DecidableEq

/-- The array of `CoarseDistanceMap` that `activatePointsMT` reads, by index. -/
structure CoarseDistanceMap where
  fwdWarpedIDDistFinal : Int → Flt

/-- The fields of `CoarseTracker` that `FullSystem` reads or writes. -/
structure CoarseTracker where
  refFrameID : Int
  lastRef : Option Nat
  lastRef_aff_g2l : AffLight
  firstCoarseRMSE : Flt

/-- The fields of `CoarseInitializer` that `FullSystem` reads. -/
structure CoarseInitializer where
  frameID : Int
  firstFrame : Option FrameHessian
  thisToNext : SE3

/-- The input `ImageAndExposure` (pixels left out). -/
structure ImageAndExposure where
  timestamp : ℚ
  exposure_time : ℚ

/-- The state of `FullSystem`. Pointers in `allKeyFramesHistory` are positions
in `allFrameHistory`. -/
structure FullSystem where
  isLost : Bool
  initialized : Bool
  initFailed : Bool
  linearizeOperation : Bool
  allFrameHistory : List FrameShell
  allKeyFramesHistory : List Nat
  frameHessians : List FrameHessian
  unmappedTrackedFrames : List FrameHessian
  needNewKFAfter : Int
  coarseTracker : CoarseTracker
  coarseTracker_forNewKF : CoarseTracker
  coarseInitializer : CoarseInitializer
  lastCoarseRMSE : Vec5
  currentMinActDist : ℚ

/-- The global settings (`util/settings.h`) and image size read by the code. -/
structure Settings where
  setting_minFrameAge : Int
  setting_maxFrames : Int
  setting_minFrames : Int
  setting_minPointsRemaining : ℚ
  setting_maxLogAffFacInWindow : ℚ
  setting_keyframesPerSecond : ℚ
  setting_kfGlobalWeight : ℚ
  setting_maxShiftWeightT : ℚ
  setting_maxShiftWeightR : ℚ
  setting_maxShiftWeightRT : ℚ
  setting_maxAffineWeight : ℚ
  setting_reTrackThreshold : ℚ
  setting_minIdepthH_marg : ℚ
  setting_desiredPointDensity : ℚ
  setting_minTraceQuality : ℚ
  setting_onlyLogKFPoses : Bool
  multiThreading : Bool
  wG0 : Int
  hG0 : Int
  wG1 : Int
  hG1 : Int

/-- What one call of `CoarseTracker::trackNewestCoarse` leaves behind: its
return value, the two in/out arguments and the tracker members read later. -/
structure TrackResult where
  trackingIsGood : Bool
  lastToNew_out : SE3
  aff_g2l_out : AffLight
  lastResiduals : Vec5
  lastFlowIndicators : Vec3

/-- Code of other translation units, left arbitrary.

* `trackNewestCoarse i guess aff minRes`: the `i`-th call of the coarse tracker
  in one `trackNewCoarse`, started from `guess` and `aff`.
* `setFirst`: `CoarseInitializer::setFirst`.
* `setCTRefForFirstFrame`: `CoarseTracker::setCTRefForFirstFrame`.
* `initializerPoints`: the points `initializeFromInitializerCNN` keeps for the
  first frame (random sub-selection, depth prior, `energyTH` test).
* `halfMotion x`: `SE3::exp(x.log() * 0.5)`.
* `precalcSet host target`: `FrameFramePrecalc::set`.
* `fromToVecExposure`: first component of `AffLight::fromToVecExposure`.
* `sqrtf`, `logf`: the C library functions.
* `traceOn newFrame host p`: `ImmaturePoint::traceOn`.
* `isOOB p toKeep toMarg`, `isInlierNew p`: the `PointHessian` methods (the
  two frame lists are lists of frame pointers).
* `relinearize r`: the effect of `resetOOB`, `linearize`, `applyRes` and
  `fixLinearizationF` on the residual `r`.
* `optimizeWindow`: lines 1233-1280 of `makeKeyFrame` (new residuals for old
  points, `activatePointsMT`, `optimize`, the initialisation-failure tests).
* `afterOptimize`: lines 1286-1298 (`removeOutliers`, the new tracking
  reference, debug plots).
* `afterFlagPoints`: lines 1303-1315 (`dropPointsF`, `marginalizePointsF`,
  `makeNewTraces`, publishing).
* `movedByOpt`: `frame->w2c_leftEps().norm()`.
* `newFrameShell`, `newFrameHessian`: the objects built by `new FrameShell()`
  and `new FrameHessian()` (constructors of `HessianBlocks.h`).
* `optimizeImmaturePoint w p`: `optimizeImmaturePoint(p, 1, tr)` while the
  window is `w`.
* `makeDistanceMap w newest`: the array left by
  `coarseDistanceMap->makeDistanceMap(frameHessians, newestHs)`.
* `addIntoDistFinal m u v`: the array after `addIntoDistFinal(u, v)`.
* `ptp newest host p`: the vector `ptp` of lines 838-839 of `activatePointsMT`,
  `KRKi * Vec3f(u, v, 1) + Kt * (0.5f * (idepth_max + idepth_min))`, which Eigen
  computes in `float` from the matrix and the vector of lines 794-798.
* `roundF x`, `roundD x`: the `float` and the `double` next to the real number
  `x`, as the machine rounds the result of an operation or of a conversion (an
  infinity when `x` is out of range).
* `invalidInt`: what the conversion of a `float` to `int` leaves when the value
  is not finite or does not fit (undefined in C++). -/
structure Ext where
  newFrameShell : FrameShell
  newFrameHessian : FrameHessian
  trackNewestCoarse : Nat → SE3 → AffLight → Vec5 → TrackResult
  setFirst : CoarseInitializer → FrameHessian → CoarseInitializer
  setCTRefForFirstFrame : List FrameHessian → CoarseTracker → CoarseTracker
  initializerPoints : FrameHessian → List PointHessian
  halfMotion : SE3 → SE3
  precalcSet : FrameHessian → FrameHessian → FrameFramePrecalc
  fromToVecExposure : ℚ → ℚ → AffLight → AffLight → Flt
  sqrtf : Flt → Flt
  logf : Flt → Flt
  traceOn : FrameHessian → FrameHessian → ImmaturePoint → ImmaturePoint
  isOOB : PointHessian → List Nat → List Nat → Bool
  relinearize : PointFrameResidual → PointFrameResidual
  isInlierNew : PointHessian → Bool
  movedByOpt : FrameHessian → ℚ
  optimizeWindow : FullSystem → FullSystem
  afterOptimize : FullSystem → FullSystem
  afterFlagPoints : FullSystem → FullSystem
  optimizeImmaturePoint : List FrameHessian → ImmaturePoint → OptimizedPtr
  makeDistanceMap : List FrameHessian → FrameHessian → CoarseDistanceMap
  addIntoDistFinal : CoarseDistanceMap → Int → Int → CoarseDistanceMap
  ptp : FrameHessian → FrameHessian → ImmaturePoint → Fin 3 → Flt
  roundF : ℚ → Flt
  roundD : ℚ → Flt
  invalidInt : Int

/-! ## Machine arithmetic -/

/-- The cast `(float)x` of a `double`: the value is rounded to `float`, which
turns a number beyond the range of `float` into an infinity. -/
def toFloat (ext : Ext) (x : Flt) : Flt := Flt.rnd ext.roundF x

/-- The `float` literal `0.95f`: the `float` next to 0.95. -/
def literal095f : ℚ := 15938355 / 16777216

/-- An addition in `float`. -/
def addF (ext : Ext) (a b : Flt) : Flt := Flt.rnd ext.roundF (Flt.add a b)

/-- A subtraction in `float`. -/
def subF (ext : Ext) (a b : Flt) : Flt := Flt.rnd ext.roundF (Flt.sub a b)

/-- A multiplication in `float`. -/
def mulF (ext : Ext) (a b : Flt) : Flt := Flt.rnd ext.roundF (Flt.mul a b)

/-- A division in `float`. -/
def divF (ext : Ext) (a b : Flt) : Flt := Flt.rnd ext.roundF (Flt.div a b)

/-- An addition in `double`. -/
def addD (ext : Ext) (a b : Flt) : Flt := Flt.rnd ext.roundD (Flt.add a b)

/-- A multiplication in `double`. -/
def mulD (ext : Ext) (a b : Flt) : Flt := Flt.rnd ext.roundD (Flt.mul a b)

/-! ## Pointers into `allFrameHistory` -/

/-- Write through a shell pointer: `none` when the pointer is dangling. -/
def writeShell (hist : List FrameShell) (p : Nat) (f : FrameShell → FrameShell) :
    Option (List FrameShell) :=
  (hist[p]?).map fun sh => hist.set p (f sh)

/-- The frame of the window whose address is `p`. -/
def lookupFrame (w : List FrameHessian) (p : Nat) : Option FrameHessian :=
  w.find? fun f => f.shell == p

/-- The function `setPrecalcValues`: every window frame recomputes its
`targetPrecalc`, one entry per window frame. -/
def setPrecalcValues (ext : Ext) (w : List FrameHessian) : List FrameHessian :=
  w.map fun fh => { fh with targetPrecalc := w.map fun t => ext.precalcSet fh t }

/-! ## `trackNewCoarse` -/

/-- Rotation matrix of the normalised quaternion `(w, x, y, z)`. -/
def quatRotation (w x y z : ℚ) : Matrix (Fin 3) (Fin 3) ℚ :=
  let n := w * w + x * x + y * y + z * z
  !![(w * w + x * x - y * y - z * z) / n, 2 * (x * y - w * z) / n, 2 * (x * z + w * y) / n;
     2 * (x * y + w * z) / n, (w * w - x * x + y * y - z * z) / n, 2 * (y * z - w * x) / n;
     2 * (x * z - w * y) / n, 2 * (y * z + w * x) / n, (w * w - x * x - y * y + z * z) / n]

/-- The transform `SE3(Sophus::Quaterniond(1, x, y, z), Vec3(0, 0, 0))`. -/
def rotSE3 (x y z : ℚ) : SE3 := ⟨quatRotation 1 x y z, 0⟩

/-- The 26 sign patterns of the rotation fan, in source order. -/
def rotationFan : List (ℚ × ℚ × ℚ) :=
  [(1, 0, 0), (0, 1, 0), (0, 0, 1), (-1, 0, 0), (0, -1, 0), (0, 0, -1),
   (1, 1, 0), (0, 1, 1), (1, 0, 1), (-1, 1, 0), (0, -1, 1), (-1, 0, 1),
   (1, -1, 0), (0, 1, -1), (1, 0, -1), (-1, -1, 0), (0, -1, -1), (-1, 0, -1),
   (-1, -1, -1), (-1, -1, 1), (-1, 1, -1), (-1, 1, 1),
   (1, -1, -1), (1, -1, 1), (1, 1, -1), (1, 1, 1)]

/-- One round of the fan at magnitude `rotDelta`, each rotation composed on the
right of `base`. -/
def fanAt (base : SE3) (rotDelta : ℚ) : List SE3 :=
  rotationFan.map fun (a, b, c) => base * rotSE3 (a * rotDelta) (b * rotDelta) (c * rotDelta)

/-- The values of `rotDelta` for which the body of a loop
`for (float rotDelta = 0.02; rotDelta < 0.05; rotDelta = next(rotDelta))` runs:
the values from `rotDelta` on, `fuel` being the number of times that the loop
test may be made. -/
def rotDeltas (next : ℚ → ℚ) : Nat → ℚ → List ℚ
  | 0, _ => []
  | fuel + 1, rotDelta =>
    if rotDelta < 5 / 100 then rotDelta :: rotDeltas next fuel (next rotDelta) else []

/-- Hypotheses of the two-frame case: the identity, then the loop
`for (rotDelta = 0.02; rotDelta < 0.05; rotDelta = rotDelta + 0.02)`, whose body
is one round of the fan on the identity. The third loop test fails. -/
def triesTwoFrames : List SE3 :=
  (1 : SE3) :: (rotDeltas (fun rotDelta => rotDelta + 2 / 100) 3 (2 / 100)).flatMap (fanAt 1)

/-- Hypotheses of the case with three or more frames: five motion guesses,
then the loop `for (rotDelta = 0.02; rotDelta < 0.05; rotDelta++)`, whose body is
one round of the fan on `fh_2_slast.inverse() * lastF_2_slast` (the second loop
test fails); everything is replaced by the identity when a pose is not valid. -/
def triesMoreFrames (ext : Ext) (slast sprelast lastFShell : FrameShell) : List SE3 :=
  let slast_2_sprelast := sprelast.camToWorld.inverse * slast.camToWorld
  let lastF_2_slast := slast.camToWorld.inverse * lastFShell.camToWorld
  let fh_2_slast := slast_2_sprelast
  let tries :=
    [fh_2_slast.inverse * lastF_2_slast,
     fh_2_slast.inverse * fh_2_slast.inverse * lastF_2_slast,
     (ext.halfMotion fh_2_slast).inverse * lastF_2_slast,
     lastF_2_slast,
     (1 : SE3)] ++
      (rotDeltas (fun rotDelta => rotDelta + 1) 2 (2 / 100)).flatMap
        (fanAt (fh_2_slast.inverse * lastF_2_slast))
  if !slast.poseValid || !sprelast.poseValid || !lastFShell.poseValid then [(1 : SE3)]
  else tries

/-- Local variables of the hypothesis loop of `trackNewCoarse`. -/
structure TrackLoop where
  achievedRes : Vec5
  haveOneGood : Bool
  tryIterations : Nat
  flowVecs : Vec3
  aff_g2l : AffLight
  lastF_2_fh : SE3

/-- The inner loop "take over achieved res": entry `i` is replaced when
`(float)achievedRes[i]` is not finite or `achievedRes[i]` is greater than the new
residual. -/
def takeOverRes (ext : Ext) (achievedRes lastResiduals : Vec5) : Vec5 := fun i =>
  if !(toFloat ext (achievedRes i)).isfinite || Flt.gt (achievedRes i) (lastResiduals i)
  then lastResiduals i else achievedRes i

/-- The test "do we have a new winner?" of the hypothesis loop:
`trackingIsGood && std::isfinite((float)lastResiduals[0]) &&
!(lastResiduals[0] >= achievedRes[0])`. -/
def newWinner (ext : Ext) (r : TrackResult) (achievedRes : Vec5) : Bool :=
  r.trackingIsGood && (toFloat ext (r.lastResiduals 0)).isfinite &&
    !(Flt.ge (r.lastResiduals 0) (achievedRes 0))

/-- One iteration of the hypothesis loop, for the hypothesis `h` of index `i`. -/
def trackStep (ext : Ext) (aff_last_2_l : AffLight) (i : Nat) (h : SE3) (st : TrackLoop) :
    TrackLoop :=
  let r := ext.trackNewestCoarse i h aff_last_2_l st.achievedRes
  let st1 : TrackLoop :=
    if newWinner ext r st.achievedRes then
      { st with flowVecs := r.lastFlowIndicators, aff_g2l := r.aff_g2l_out,
                lastF_2_fh := r.lastToNew_out, haveOneGood := true }
    else st
  let st2 : TrackLoop :=
    if st1.haveOneGood then
      { st1 with achievedRes := takeOverRes ext st1.achievedRes r.lastResiduals }
    else st1
  { st2 with tryIterations := st2.tryIterations + 1 }

/-- The hypothesis loop `for (i = 0; i < lastF_2_fh_tries.size(); i++)` with its
`break`, run on the hypotheses from index `i` on. -/
def trackLoop (ext : Ext) (cfg : Settings) (lastCoarseRMSE : Vec5) (aff_last_2_l : AffLight) :
    List SE3 → Nat → TrackLoop → TrackLoop
  | [], _, st => st
  | h :: rest, i, st =>
    let st1 := trackStep ext aff_last_2_l i h st
    if st1.haveOneGood &&
        Flt.lt (st1.achievedRes 0)
          (Flt.mul (lastCoarseRMSE 0) (Flt.fin cfg.setting_reTrackThreshold))
    then st1
    else trackLoop ext cfg lastCoarseRMSE aff_last_2_l rest (i + 1) st1

/-- The hypothesis loop from its initial state, followed by the fallback
`if (!haveOneGood)`. -/
def trackHypotheses (ext : Ext) (cfg : Settings) (lastCoarseRMSE : Vec5)
    (aff_last_2_l : AffLight) (tries : List SE3) : TrackLoop :=
  let st := trackLoop ext cfg lastCoarseRMSE aff_last_2_l tries 0
    { achievedRes := Vec5.constant Flt.nan, haveOneGood := false, tryIterations := 0,
      flowVecs := fun _ => Flt.fin 100, aff_g2l := ⟨0, 0⟩, lastF_2_fh := 1 }
  if !st.haveOneGood then
    { st with flowVecs := fun _ => Flt.fin 0, aff_g2l := aff_last_2_l,
              lastF_2_fh := tries.headD 1 }
  else st

/-- The function `initializeFromInitializerCNN`: the first frame enters the
window with its points, and both shells get their poses. -/
def initializeFromInitializerCNN (ext : Ext) (s : FullSystem) (newFrame : FrameHessian) :
    Option FullSystem := do
  let firstFrame0 ← s.coarseInitializer.firstFrame
  let firstFrame : FrameHessian :=
    { firstFrame0 with idx := s.frameHessians.length, frameID := s.allKeyFramesHistory.length }
  let w1 := setPrecalcValues ext (s.frameHessians ++ [firstFrame])
  let w2 := w1.map fun f =>
    if f.shell == firstFrame.shell then
      { f with pointHessians :=
          f.pointHessians ++ (ext.initializerPoints firstFrame).map some }
    else f
  let firstToNew := s.coarseInitializer.thisToNext
  let h1 ← writeShell s.allFrameHistory firstFrame.shell fun sh =>
    { sh with camToWorld := 1, aff_g2l := ⟨0, 0⟩, trackingRef := none, camToTrackingRef := 1 }
  let h2 ← writeShell h1 newFrame.shell fun sh => { sh with camToWorld := firstToNew.inverse }
  let h3 ← writeShell h2 newFrame.shell fun sh =>
    { sh with aff_g2l := ⟨0, 0⟩, trackingRef := some firstFrame.shell,
              camToTrackingRef := firstToNew.inverse }
  pure { s with frameHessians := w2,
                allKeyFramesHistory := s.allKeyFramesHistory ++ [firstFrame.shell],
                allFrameHistory := h3, initialized := true }

/-- The write of the tracked pose at the end of `trackNewCoarse`:
`camToTrackingRef`, `trackingRef`, `aff_g2l`, then
`camToWorld = trackingRef->camToWorld * camToTrackingRef`. -/
def writeTrackedPose (hist : List FrameShell) (fhShell lastFShell : Nat) (st : TrackLoop) :
    Option (List FrameShell) := do
  let h1 ← writeShell hist fhShell fun sh =>
    { sh with camToTrackingRef := st.lastF_2_fh.inverse, trackingRef := some lastFShell,
              aff_g2l := st.aff_g2l }
  let sh ← h1[fhShell]?
  let ref ← h1[lastFShell]?
  writeShell h1 fhShell fun x => { x with camToWorld := ref.camToWorld * sh.camToTrackingRef }

/-- The first part of `trackNewCoarse`, up to the hypothesis loop: the state,
the hypotheses `lastF_2_fh_tries` and `aff_last_2_l`. With two frames in the
history the system is initialised first. -/
def trackSetup (ext : Ext) (s : FullSystem) (fh : FrameHessian) :
    Option (FullSystem × List SE3 × AffLight) :=
  if s.allFrameHistory.length == 2 then
    (initializeFromInitializerCNN ext s fh).map fun s1 =>
      ({ s1 with coarseTracker := ext.setCTRefForFirstFrame s1.frameHessians s1.coarseTracker },
        triesTwoFrames, (⟨0, 0⟩ : AffLight))
  else do
    let lastF ← s.coarseTracker.lastRef
    let slast ←
      (if 2 ≤ s.allFrameHistory.length then s.allFrameHistory[s.allFrameHistory.length - 2]?
       else none)
    let sprelast ←
      (if 3 ≤ s.allFrameHistory.length then s.allFrameHistory[s.allFrameHistory.length - 3]?
       else none)
    let lastFShell ← s.allFrameHistory[lastF]?
    pure (s, triesMoreFrames ext slast sprelast lastFShell, slast.aff_g2l)

/-- The end of `trackNewCoarse` after the pose was written: `lastCoarseRMSE`,
`firstCoarseRMSE` and the returned vector
`Vec4(achievedRes[0], flowVecs[0], flowVecs[1], flowVecs[2])`. -/
def trackResult (s1 : FullSystem) (st : TrackLoop) (hist : List FrameShell) :
    Vec4 × FullSystem :=
  (![st.achievedRes 0, st.flowVecs 0, st.flowVecs 1, st.flowVecs 2],
    { s1 with
        lastCoarseRMSE := st.achievedRes, allFrameHistory := hist,
        coarseTracker :=
          if Flt.lt s1.coarseTracker.firstCoarseRMSE (Flt.fin 0) then
            { s1.coarseTracker with firstCoarseRMSE := st.achievedRes 0 }
          else s1.coarseTracker })

/-- The function `trackNewCoarse`: the returned vector and the new state. -/
def trackNewCoarse (ext : Ext) (cfg : Settings) (s : FullSystem) (fh : FrameHessian) :
    Option (Vec4 × FullSystem) :=
  (trackSetup ext s fh).bind fun x =>
    x.1.coarseTracker.lastRef.bind fun lastF =>
      (writeTrackedPose x.1.allFrameHistory fh.shell lastF
        (trackHypotheses ext cfg x.1.lastCoarseRMSE x.2.2 x.2.1)).map
        (trackResult x.1 (trackHypotheses ext cfg x.1.lastCoarseRMSE x.2.2 x.2.1))

/-! ## `flagFramesForMarginalization` -/

/-- Set `flaggedForMarginalization` on the first `k` frames. -/
def flagFirst : Nat → List FrameHessian → List FrameHessian
  | 0, w => w
  | _ + 1, [] => []
  | k + 1, fh :: rest => { fh with flaggedForMarginalization := true } :: flagFirst k rest

/-- The branch `setting_minFrameAge > setting_maxFrames`: the loop
`for (i = maxFrames; i < size; i++) frameHessians[i - maxFrames]->flagged = true`.
With a negative `setting_maxFrames` the loop runs past the end of the vector. -/
def flagOldest (cfg : Settings) (w : List FrameHessian) : Option (List FrameHessian) :=
  if cfg.setting_maxFrames < 0 then none
  else some (flagFirst (w.length - cfg.setting_maxFrames.toNat) w)

/-- The test of the first pass on the frame `fh`, `latest` being
`frameHessians.back()`: too few points left, or too large a brightness change. -/
def notEnoughPoints (ext : Ext) (cfg : Settings) (latest fh : FrameHessian) : Bool :=
  let nIn : Int := fh.pointHessians.length + fh.immaturePoints.length
  let nOut : Int := fh.pointHessiansMarginalized.length + fh.pointHessiansOut.length
  let refToFh0 :=
    ext.fromToVecExposure latest.ab_exposure fh.ab_exposure latest.aff_g2l fh.aff_g2l
  decide ((nIn : ℚ) < cfg.setting_minPointsRemaining * ((nIn + nOut : Int) : ℚ)) ||
    Flt.gt (Flt.abs (ext.logf refToFh0)) (Flt.fin cfg.setting_maxLogAffFacInWindow)

/-- The first pass, on the frames from the current one on: `size` is
`frameHessians.size()`, `flagged` the counter; returns the frames and the
counter. -/
def flagFirstPass (ext : Ext) (cfg : Settings) (latest : FrameHessian) (size : Int) :
    List FrameHessian → Int → List FrameHessian × Int
  | [], flagged => ([], flagged)
  | fh :: rest, flagged =>
    if notEnoughPoints ext cfg latest fh && decide (size - flagged > cfg.setting_minFrames) then
      let r := flagFirstPass ext cfg latest size rest (flagged + 1)
      ({ fh with flaggedForMarginalization := true } :: r.1, r.2)
    else
      let r := flagFirstPass ext cfg latest size rest flagged
      (fh :: r.1, r.2)

/-- The sum `distScore` over `fh->targetPrecalc` in the second pass; `none` when
a target pointer is dangling. -/
def distScoreSum (cfg : Settings) (w : List FrameHessian) (latest : FrameHessian) :
    List FrameFramePrecalc → Flt → Option Flt
  | [], acc => some acc
  | ffh :: rest, acc => do
    let target ← lookupFrame w ffh.target
    if target.frameID > latest.frameID - cfg.setting_minFrameAge + 1 || ffh.target == ffh.host
    then distScoreSum cfg w latest rest acc
    else
      distScoreSum cfg w latest rest
        (Flt.add acc (Flt.div (Flt.fin 1) (Flt.add (Flt.fin (1 / 100000)) ffh.distanceLL)))

/-- The value of `distScore` of the frame `fh` in the second pass. -/
def distScore (ext : Ext) (cfg : Settings) (w : List FrameHessian) (latest fh : FrameHessian) :
    Option Flt := do
  let sum ← distScoreSum cfg w latest fh.targetPrecalc (Flt.fin 0)
  let last ← fh.targetPrecalc.getLast?
  pure (Flt.mul sum (Flt.neg (ext.sqrtf last.distanceLL)))

/-- The loop of the second pass over the frames from the current one on:
`smallestScore` and `toMarginalize` (a frame pointer or null). -/
def selectToMarginalize (ext : Ext) (cfg : Settings) (w : List FrameHessian)
    (latest : FrameHessian) : List FrameHessian → Flt → Option Nat → Option (Flt × Option Nat)
  | [], smallestScore, toMarginalize => some (smallestScore, toMarginalize)
  | fh :: rest, smallestScore, toMarginalize =>
    if fh.frameID > latest.frameID - cfg.setting_minFrameAge || fh.frameID == 0 then
      selectToMarginalize ext cfg w latest rest smallestScore toMarginalize
    else do
      let d ← distScore ext cfg w latest fh
      if Flt.lt d smallestScore then
        selectToMarginalize ext cfg w latest rest d (some fh.shell)
      else selectToMarginalize ext cfg w latest rest smallestScore toMarginalize

/-- Write `flaggedForMarginalization = true` through a frame pointer. -/
def flagFrame (w : List FrameHessian) (p : Nat) : List FrameHessian :=
  w.map fun f => if f.shell == p then { f with flaggedForMarginalization := true } else f

/-- The function `flagFramesForMarginalization`, on the window. It fails when
`toMarginalize` is still null where it is dereferenced. -/
def flagFramesForMarginalization (ext : Ext) (cfg : Settings) (w : List FrameHessian) :
    Option (List FrameHessian) :=
  if cfg.setting_minFrameAge > cfg.setting_maxFrames then flagOldest cfg w
  else
    match w.getLast? with
    | none => if (0 : Int) ≥ cfg.setting_maxFrames then none else some w
    | some latest =>
      let r := flagFirstPass ext cfg latest w.length w 0
      if (w.length : Int) - r.2 ≥ cfg.setting_maxFrames then do
        let sel ← selectToMarginalize ext cfg r.1 latest r.1 (Flt.fin 1) none
        let toMarginalize ← sel.2
        pure (flagFrame r.1 toMarginalize)
      else some r.1

/-! ## `marginalizeFrame` -/

/-- The statements `v[i] = v.back(); v.pop_back();`. -/
def swapPop {α : Type} (v : List α) (i : Nat) : List α :=
  match v.getLast? with
  | none => v
  | some l => (v.set i l).dropLast

/-- Modelled from the spec: `deleteOut` of `util/globalFuncs.h`, which is not
under `src/`: entry `i` is deleted by swap-with-last-and-pop. -/
def deleteOut {α : Type} (v : List α) (i : Nat) : List α := swapPop v i

/-- Modelled from the spec: `deleteOutOrder` of `util/globalFuncs.h`, which is
not under `src/`: the first entry equal to the pointer is removed and the order
of the others is kept. -/
def deleteOutOrder (w : List FrameHessian) (frame : Nat) : List FrameHessian :=
  w.eraseP fun f => f.shell == frame

/-- Index and value of the first residual whose target is `frame`, searching
from index `i` on: the search of the loop `for (i = 0; i < residuals.size(); i++)`. -/
def findTarget (frame : Nat) : List PointFrameResidual → Nat → Option (Nat × PointFrameResidual)
  | [], _ => none
  | r :: rest, i => if r.target == frame then some (i, r) else findTarget frame rest (i + 1)

/-- The body of the loop over the points in `marginalizeFrame`: the first
residual whose target is `frame` is dropped, after the cached `lastResiduals`
entry that equals it was cleared. -/
def dropObservation (frame : Nat) (ph : PointHessian) : PointHessian :=
  match findTarget frame ph.residuals 0 with
  | none => ph
  | some (i, r) =>
    let ph1 : PointHessian :=
      if ph.lastResiduals0.1 == some r.addr then
        { ph with lastResiduals0 := (none, ph.lastResiduals0.2) }
      else if ph.lastResiduals1.1 == some r.addr then
        { ph with lastResiduals1 := (none, ph.lastResiduals1.2) }
      else ph
    { ph1 with residuals := deleteOut ph.residuals i }

/-- The loop `for (i = 0; i < frameHessians.size(); i++) frameHessians[i]->idx = i`,
from index `i` on. -/
def renumberFrom : Nat → List FrameHessian → List FrameHessian
  | _, [] => []
  | i, fh :: rest => { fh with idx := i } :: renumberFrom (i + 1) rest

/-- The body of the loop over the window frames in `marginalizeFrame`: the frame
itself is skipped, every point of another frame drops its observation of
`frame`. -/
def dropObservations (frame : Nat) (fh : FrameHessian) : FrameHessian :=
  if fh.shell == frame then fh
  else { fh with pointHessians := fh.pointHessians.map (Option.map (dropObservation frame)) }

/-- Whether the loop `for (PointHessian* ph : fh->pointHessians)` of
`marginalizeFrame(frame)`, which reads `ph->residuals` of every entry of every
window frame other than `frame`, meets no null entry. -/
def pointsNonNull (frame : Nat) (w : List FrameHessian) : Bool :=
  w.all fun fh => fh.shell == frame || fh.pointHessians.all Option.isSome

/-- The function `marginalizeFrame(frame)`. It fails when
`assert(frame->pointHessians.size() == 0)` fails, when the loop over the points
meets a null entry, and when a pointer it follows is dangling. `savePoints`, the
calls into the energy functional and the output wrappers act on state that is
not part of `FullSystem` here. -/
def marginalizeFrame (ext : Ext) (s : FullSystem) (frame : Nat) : Option FullSystem := do
  let fr ← lookupFrame s.frameHessians frame
  if fr.pointHessians.length != 0 || !pointsNonNull frame s.frameHessians then none
  else
    let w1 := s.frameHessians.map (dropObservations frame)
    let latest ← s.frameHessians.getLast?
    let latestShell ← s.allFrameHistory[latest.shell]?
    let hist ← writeShell s.allFrameHistory frame fun sh =>
      { sh with marginalizedAt := latestShell.id, movedByOpt := ext.movedByOpt fr }
    let w2 := renumberFrom 0 (deleteOutOrder w1 frame)
    pure { s with frameHessians := setPrecalcValues ext w2, allFrameHistory := hist }

/-- The loop at the end of `makeKeyFrame`,
`for (i = 0; i < size; i++) if (flagged[i]) { marginalizeFrame(frameHessians[i]); i = 0; }`,
from index `i` on; after a removal the next index looked at is `1`. -/
def marginalizeLoop (ext : Ext) : Nat → FullSystem → Nat → Option FullSystem
  | 0, s, _ => some s
  | fuel + 1, s, i =>
    match s.frameHessians[i]? with
    | none => some s
    | some fh =>
      if fh.flaggedForMarginalization then
        (marginalizeFrame ext s fh.shell).bind fun s1 => marginalizeLoop ext fuel s1 1
      else marginalizeLoop ext fuel s (i + 1)

/-- The frame-marginalisation loop of `makeKeyFrame`, with fuel for all its
iterations (at most `(size + 1)^2`). -/
def marginalizeFlaggedFrames (ext : Ext) (s : FullSystem) : Option FullSystem :=
  marginalizeLoop ext ((s.frameHessians.length + 1) * (s.frameHessians.length + 1)) s 0

/-! ## `flagPointsForRemoval` -/

/-- The compaction loop
`for (i = 0; i < size; i++) if (v[i] == 0) { v[i] = v.back(); v.pop_back(); i--; }`,
from index `i` on. -/
def compactLoop {α : Type} : Nat → List (Option α) → Nat → List (Option α)
  | 0, v, _ => v
  | fuel + 1, v, i =>
    match v[i]? with
    | none => v
    | some (some _) => compactLoop fuel v (i + 1)
    | some none => compactLoop fuel (swapPop v i) i

/-- The compaction loop with fuel for all its iterations (at most `size`). -/
def compact {α : Type} (v : List (Option α)) : List (Option α) :=
  compactLoop v.length v 0

/-- The list `fhsToKeepPoints`: the loop
`for (i = size - 1; i >= 0 && i >= size; i--) if (!flagged[i]) push`. -/
def fhsToKeepPoints (w : List FrameHessian) : List Nat :=
  ((List.range w.length).reverse.takeWhile fun i => decide (w.length ≤ i)).filterMap fun i =>
    (w[i]?).bind fun f => if !f.flaggedForMarginalization then some f.shell else none

/-- The list `fhsToMargPoints`: the flagged frames, in window order. -/
def fhsToMargPoints (w : List FrameHessian) : List Nat :=
  (w.filter fun f => f.flaggedForMarginalization).map fun f => f.shell

/-- What the loop body of `flagPointsForRemoval` does with one non-null point:
`none` when the point stays, else the point as stored and whether it goes to
`pointHessiansMarginalized` (`true`) or to `pointHessiansOut` (`false`). -/
def classifyPoint (ext : Ext) (cfg : Settings) (toKeep toMarg : List Nat) (hostFlagged : Bool)
    (ph : PointHessian) : Option (Bool × PointHessian) :=
  if Flt.lt ph.idepth_scaled (Flt.fin 0) || ph.residuals.length == 0 then
    some (false, { ph with stateFlag := EFPointStatus.PS_DROP })
  else if ext.isOOB ph toKeep toMarg || hostFlagged then
    if ext.isInlierNew ph then
      let ph1 : PointHessian := { ph with residuals := ph.residuals.map ext.relinearize }
      if Flt.gt ph1.idepth_hessian (Flt.fin cfg.setting_minIdepthH_marg) then
        some (true, { ph1 with stateFlag := EFPointStatus.PS_MARGINALIZE })
      else some (false, { ph1 with stateFlag := EFPointStatus.PS_DROP })
    else some (false, { ph with stateFlag := EFPointStatus.PS_DROP })
  else none

/-- The loop over `host->pointHessians` in `flagPointsForRemoval`, from the
current entry on: the entries (null where a point left), then
`pointHessiansMarginalized` and `pointHessiansOut`. -/
def flagPointsLoop (ext : Ext) (cfg : Settings) (toKeep toMarg : List Nat) (hostFlagged : Bool) :
    List (Option PointHessian) → List PointHessian → List PointHessian →
      List (Option PointHessian) × List PointHessian × List PointHessian
  | [], marg, out => ([], marg, out)
  | none :: rest, marg, out =>
    let r := flagPointsLoop ext cfg toKeep toMarg hostFlagged rest marg out
    (none :: r.1, r.2)
  | some ph :: rest, marg, out =>
    match classifyPoint ext cfg toKeep toMarg hostFlagged ph with
    | none =>
      let r := flagPointsLoop ext cfg toKeep toMarg hostFlagged rest marg out
      (some ph :: r.1, r.2)
    | some (true, p) =>
      let r := flagPointsLoop ext cfg toKeep toMarg hostFlagged rest (marg ++ [p]) out
      (none :: r.1, r.2)
    | some (false, p) =>
      let r := flagPointsLoop ext cfg toKeep toMarg hostFlagged rest marg (out ++ [p])
      (none :: r.1, r.2)

/-- The body of the loop over the hosts in `flagPointsForRemoval`: the points
of one host are classified, then its `pointHessians` is compacted. -/
def flagPointsHost (ext : Ext) (cfg : Settings) (toKeep toMarg : List Nat) (host : FrameHessian) :
    FrameHessian :=
  let r := flagPointsLoop ext cfg toKeep toMarg host.flaggedForMarginalization
    host.pointHessians host.pointHessiansMarginalized host.pointHessiansOut
  { host with pointHessians := compact r.1, pointHessiansMarginalized := r.2.1,
              pointHessiansOut := r.2.2 }

/-- The function `flagPointsForRemoval`, on the window. The flag
`EFIndicesValid` of its `assert` belongs to the energy functional and is not
part of the state here. -/
def flagPointsForRemoval (ext : Ext) (cfg : Settings) (w : List FrameHessian) :
    List FrameHessian :=
  w.map (flagPointsHost ext cfg (fhsToKeepPoints w) (fhsToMargPoints w))

/-! ## `makeNonKeyFrame`, `makeKeyFrame`, `deliverTrackedFrame` -/

/-- The first block of `makeKeyFrame` and of `makeNonKeyFrame`:
`fh->shell->camToWorld = fh->shell->trackingRef->camToWorld * fh->shell->camToTrackingRef`. -/
def setPoseFromTrackingRef (hist : List FrameShell) (fhShell : Nat) :
    Option (List FrameShell) := do
  let sh ← hist[fhShell]?
  let refp ← sh.trackingRef
  let ref ← hist[refp]?
  writeShell hist fhShell fun x => { x with camToWorld := ref.camToWorld * sh.camToTrackingRef }

/-- The function `traceNewCoarse(fh)`: every candidate of every window frame is
traced on `fh`. The loop calls `ph->traceOn` on every entry of
`host->immaturePoints`: the result is `none` when an entry is null. -/
def traceNewCoarse (ext : Ext) (fh : FrameHessian) (w : List FrameHessian) :
    Option (List FrameHessian) :=
  if w.all fun host => host.immaturePoints.all Option.isSome then
    some (w.map fun host =>
      { host with immaturePoints := host.immaturePoints.map (Option.map (ext.traceOn fh host)) })
  else none

/-- The function `makeNonKeyFrame(fh)`. -/
def makeNonKeyFrame (ext : Ext) (s : FullSystem) (fh : FrameHessian) : Option FullSystem :=
  (setPoseFromTrackingRef s.allFrameHistory fh.shell).bind fun hist =>
    (traceNewCoarse ext fh s.frameHessians).map fun w =>
      { s with allFrameHistory := hist, frameHessians := w }

/-- Lines 1225-1231 of `makeKeyFrame`: the new frame `fh` enters the window
behind the frames `w1`, `hist` being the history with its pose. -/
def insertKeyFrame (ext : Ext) (s : FullSystem) (hist : List FrameShell)
    (w1 : List FrameHessian) (fh : FrameHessian) : FullSystem :=
  { s with allFrameHistory := hist,
           frameHessians := setPrecalcValues ext
             (w1 ++ [{ fh with idx := w1.length, frameID := s.allKeyFramesHistory.length }]),
           allKeyFramesHistory := s.allKeyFramesHistory ++ [fh.shell] }

/-- The statement `flagPointsForRemoval();` of `makeKeyFrame`. -/
def flagPointsStep (ext : Ext) (cfg : Settings) (s : FullSystem) : FullSystem :=
  { s with frameHessians := flagPointsForRemoval ext cfg s.frameHessians }

/-- Lines 1233-1323 of `makeKeyFrame`: optimisation, the test `if (isLost) return;`,
point removal and the frame-marginalisation loop. -/
def finishKeyFrame (ext : Ext) (cfg : Settings) (s1 : FullSystem) : Option FullSystem :=
  if (ext.optimizeWindow s1).isLost then some (ext.optimizeWindow s1)
  else
    marginalizeFlaggedFrames ext
      (ext.afterFlagPoints (flagPointsStep ext cfg (ext.afterOptimize (ext.optimizeWindow s1))))

/-- The function `makeKeyFrame(fh)`. -/
def makeKeyFrame (ext : Ext) (cfg : Settings) (s : FullSystem) (fh : FrameHessian) :
    Option FullSystem :=
  (setPoseFromTrackingRef s.allFrameHistory fh.shell).bind fun hist =>
    (traceNewCoarse ext fh s.frameHessians).bind fun w0 =>
      (flagFramesForMarginalization ext cfg w0).bind fun w1 =>
        finishKeyFrame ext cfg (insertKeyFrame ext s hist w1 fh)

/-- The function `deliverTrackedFrame(fh, needKF)`. In the branch
`!linearizeOperation` the frame is queued for the mapping thread; the wait for
that thread is not modelled, nor is the key handling of the branch
`linearizeOperation`. -/
def deliverTrackedFrame (ext : Ext) (cfg : Settings) (s : FullSystem) (fh : FrameHessian)
    (needKF : Bool) : Option FullSystem :=
  if s.linearizeOperation then
    if needKF then makeKeyFrame ext cfg s fh else makeNonKeyFrame ext s fh
  else
    let s1 : FullSystem := { s with unmappedTrackedFrames := s.unmappedTrackedFrames ++ [fh] }
    if needKF then do
      let sh ← s.allFrameHistory[fh.shell]?
      let refp ← sh.trackingRef
      let ref ← s.allFrameHistory[refp]?
      pure { s1 with needNewKFAfter := ref.id }
    else some s1

/-! ## `addActiveFrame` -/

/-- The value of `needToMakeKF` computed by `addActiveFrame` from the result
`tres` of `trackNewCoarse`; `s` is the state after tracking. The difference of
the time stamps is computed in `double`, the bound
`0.95f / setting_keyframesPerSecond` in `float`; the weighted sum of the other
branch is computed without rounding. -/
def needToMakeKF (ext : Ext) (cfg : Settings) (s : FullSystem) (fh : FrameHessian)
    (tres : Vec4) : Option Bool :=
  if cfg.setting_keyframesPerSecond > 0 then
    if s.allFrameHistory.length == 1 then some true
    else do
      let sh ← s.allFrameHistory[fh.shell]?
      let lastKF ← s.allKeyFramesHistory.getLast?
      let lastKFShell ← s.allFrameHistory[lastKF]?
      pure (Flt.gt (ext.roundD (sh.timestamp - lastKFShell.timestamp))
        (divF ext (Flt.fin literal095f) (Flt.fin cfg.setting_keyframesPerSecond)))
  else do
    let lastRefPtr ← s.coarseTracker.lastRef
    let lastRef ← lookupFrame s.frameHessians lastRefPtr
    let sh ← s.allFrameHistory[fh.shell]?
    let refToFh0 :=
      ext.fromToVecExposure lastRef.ab_exposure fh.ab_exposure
        s.coarseTracker.lastRef_aff_g2l sh.aff_g2l
    let size : Flt := Flt.fin ((cfg.wG0 + cfg.hG0 : Int) : ℚ)
    let term (weight : ℚ) (x : Flt) : Flt :=
      Flt.div (Flt.mul (Flt.fin (cfg.setting_kfGlobalWeight * weight)) (ext.sqrtf x)) size
    let sum :=
      Flt.add
        (Flt.add
          (Flt.add (term cfg.setting_maxShiftWeightT (tres 1))
            (term cfg.setting_maxShiftWeightR (tres 2)))
          (term cfg.setting_maxShiftWeightRT (tres 3)))
        (Flt.mul (Flt.fin (cfg.setting_kfGlobalWeight * cfg.setting_maxAffineWeight))
          (Flt.abs (ext.logf refToFh0)))
    pure (s.allFrameHistory.length == 1 || Flt.gt sum (Flt.fin 1) ||
      Flt.lt (Flt.mul (Flt.fin 2) s.coarseTracker.firstCoarseRMSE) (tres 0))

/-- The shell that `addActiveFrame` creates: `new FrameShell()`, then the
assignments of lines 1002-1008. -/
def addActiveFrameShell (ext : Ext) (s : FullSystem) (image : ImageAndExposure) (id : Int)
    (filePrefix : String) : FrameShell :=
  { ext.newFrameShell with
      camToWorld := 1, aff_g2l := ⟨0, 0⟩,
      marginalizedAt := s.allFrameHistory.length, id := s.allFrameHistory.length,
      timestamp := image.timestamp, incoming_id := id, file_prefix_str := filePrefix }

/-- The frame that `addActiveFrame` creates: `new FrameHessian()` with its
shell and exposure. -/
def addActiveFrameHessian (ext : Ext) (s : FullSystem) (image : ImageAndExposure) :
    FrameHessian :=
  { ext.newFrameHessian with shell := s.allFrameHistory.length,
                             ab_exposure := image.exposure_time }

/-- The statement `allFrameHistory.push_back(shell)`. -/
def pushShell (s : FullSystem) (shell : FrameShell) : FullSystem :=
  { s with allFrameHistory := s.allFrameHistory ++ [shell] }

/-- The block "SWAP tracking reference?" of `addActiveFrame`. -/
def swapTrackingReference (s : FullSystem) : FullSystem :=
  if s.coarseTracker_forNewKF.refFrameID > s.coarseTracker.refFrameID then
    { s with coarseTracker := s.coarseTracker_forNewKF,
             coarseTracker_forNewKF := s.coarseTracker }
  else s

/-- The rest of `addActiveFrame` after `trackNewCoarse` returned `r`, up to the
call `deliverTrackedFrame(fh, needToMakeKF)`. -/
def afterTrackNewCoarse (ext : Ext) (cfg : Settings) (fh : FrameHessian)
    (r : Vec4 × FullSystem) : Option (FullSystem × Option (FrameHessian × Bool)) :=
  if !(r.1 0).isfinite || !(r.1 1).isfinite || !(r.1 2).isfinite || !(r.1 3).isfinite
  then some ({ r.2 with isLost := true }, none)
  else (needToMakeKF ext cfg r.2 fh r.1).map fun kf => (r.2, some (fh, kf))

/-- The function `addActiveFrame(image, id, prefix)` up to its last statement,
the call `deliverTrackedFrame(fh, needToMakeKF)`: the state reached, and the
arguments of that call when it is reached (`none` when the function returns
before it). -/
def addActiveFrameTrack (ext : Ext) (cfg : Settings) (s : FullSystem) (image : ImageAndExposure)
    (id : Int) (filePrefix : String) : Option (FullSystem × Option (FrameHessian × Bool)) :=
  if s.isLost then some (s, none)
  else
    let fh := addActiveFrameHessian ext s image
    let s1 := pushShell s (addActiveFrameShell ext s image id filePrefix)
    if !s1.initialized then
      if s1.coarseInitializer.frameID < 0 then
        some ({ s1 with coarseInitializer := ext.setFirst s1.coarseInitializer fh,
                        initialized := true }, none)
      else some (s1, none)
    else
      (trackNewCoarse ext cfg (swapTrackingReference s1) fh).bind
        (afterTrackNewCoarse ext cfg fh)

/-- The function `addActiveFrame(image, id, prefix)`. -/
def addActiveFrame (ext : Ext) (cfg : Settings) (s : FullSystem) (image : ImageAndExposure)
    (id : Int) (filePrefix : String) : Option FullSystem :=
  (addActiveFrameTrack ext cfg s image id filePrefix).bind fun r =>
    match r.2 with
    | none => some r.1
    | some (fh, needKF) => deliverTrackedFrame ext cfg r.1 fh needKF

/-! ## `activatePointsMT` -/

/-- Lines 751-767 of `activatePointsMT`: the steps that the density controller
adds to `currentMinActDist`, `nPoints` being `ef->nPoints`. -/
def densitySteps (cfg : Settings) (nPoints : Int) (currentMinActDist : ℚ) : ℚ :=
  let n : ℚ := nPoints
  let d0 := currentMinActDist
  let d1 := if n < cfg.setting_desiredPointDensity * (66 / 100) then d0 - 8 / 10 else d0
  let d2 :=
    if n < cfg.setting_desiredPointDensity * (8 / 10) then d1 - 5 / 10
    else if n < cfg.setting_desiredPointDensity * (9 / 10) then d1 - 2 / 10
    else if n < cfg.setting_desiredPointDensity then d1 - 1 / 10
    else d1
  let d3 := if n > cfg.setting_desiredPointDensity * (15 / 10) then d2 + 8 / 10 else d2
  let d4 := if n > cfg.setting_desiredPointDensity * (13 / 10) then d3 + 5 / 10 else d3
  let d5 := if n > cfg.setting_desiredPointDensity * (115 / 100) then d4 + 2 / 10 else d4
  if n > cfg.setting_desiredPointDensity then d5 + 1 / 10 else d5

/-- Lines 769-772 of `activatePointsMT`:
`if (d < 0) d = 0; if (d > 4) d = 4;`. -/
def clampMinActDist (d : ℚ) : ℚ :=
  let d1 := if d < 0 then 0 else d
  if d1 > 4 then 4 else d1

/-- The density controller at the start of `activatePointsMT` (lines 751-772):
the new value of `currentMinActDist`, `nPoints` being `ef->nPoints`. -/
def densityController (cfg : Settings) (nPoints : Int) (currentMinActDist : ℚ) : ℚ :=
  clampMinActDist (densitySteps cfg nPoints currentMinActDist)

/-- Local state of the candidate loop of `activatePointsMT`: the distance map
and the list `toOptimize`. -/
structure ActivateScan where
  coarseDistanceMap : CoarseDistanceMap
  toOptimize : List ImmaturePoint

/-- The flag `canActivate` of the candidate loop. -/
def canActivate (cfg : Settings) (ph : ImmaturePoint) : Bool :=
  (ph.lastTraceStatus == ImmaturePointStatus.IPS_GOOD ||
      ph.lastTraceStatus == ImmaturePointStatus.IPS_SKIPPED ||
      ph.lastTraceStatus == ImmaturePointStatus.IPS_BADCONDITION ||
      ph.lastTraceStatus == ImmaturePointStatus.IPS_OOB) &&
    decide (ph.lastTracePixelInterval < 8) &&
    decide (ph.quality > cfg.setting_minTraceQuality) &&
    Flt.gt (Flt.add ph.idepth_max ph.idepth_min) (Flt.fin 0)

/-- The pixel `(u, v)` of the candidate loop for the vector `x = ptp`:
`int u = ptp[0] / ptp[2] + 0.5f; int v = ptp[1] / ptp[2] + 0.5f;`, a division
and an addition in `float`, then the conversion to `int`. -/
def ptpPixel (ext : Ext) (x : Fin 3 → Flt) : Int × Int :=
  (Flt.toInt ext.invalidInt (addF ext (divF ext (x 0) (x 2)) (Flt.fin (1 / 2))),
   Flt.toInt ext.invalidInt (addF ext (divF ext (x 1) (x 2)) (Flt.fin (1 / 2))))

/-- The value `dist` of the candidate loop:
`fwdWarpedIDDistFinal[u + wG[1] * v] + (ptp[0] - floorf((float)(ptp[0])))`, a
subtraction and an addition in `float`. -/
def distFinal (ext : Ext) (cfg : Settings) (m : CoarseDistanceMap) (x : Fin 3 → Flt)
    (u v : Int) : Flt :=
  addF ext (m.fwdWarpedIDDistFinal (u + cfg.wG1 * v)) (subF ext (x 0) (Flt.floor (x 0)))

/-- The bound `currentMinActDist * ph->my_type` of the distance test, a
multiplication in `float`. -/
def minDist (ext : Ext) (minActDist : ℚ) (ph : ImmaturePoint) : Flt :=
  mulF ext (Flt.fin minActDist) (Flt.fin ph.my_type)

/-- Lines 804-855 of `activatePointsMT`: the body of the loop over
`host->immaturePoints` after the statement `ph->idxInImmaturePoints = i`, for
the non-null candidate `ph`: the new entry of `host->immaturePoints` (null when
the candidate is deleted) and the new local state. `w` is `frameHessians`,
`minActDist` is `currentMinActDist`. -/
def scanCandidateBody (ext : Ext) (cfg : Settings) (w : List FrameHessian)
    (newestHs host : FrameHessian) (minActDist : ℚ) (ph : ImmaturePoint)
    (st : ActivateScan) : Option (Option ImmaturePoint × ActivateScan) :=
  if !ph.idepth_max.isfinite || ph.lastTraceStatus == ImmaturePointStatus.IPS_OUTLIER then
    some (none, st)
  else if !canActivate cfg ph then
    (lookupFrame w ph.host).map fun phHost =>
      if phHost.flaggedForMarginalization ||
          ph.lastTraceStatus == ImmaturePointStatus.IPS_OOB then (none, st)
      else (some ph, st)
  else
    let uv := ptpPixel ext (ext.ptp newestHs host ph)
    if uv.1 > 0 && uv.2 > 0 && uv.1 < cfg.wG1 && uv.2 < cfg.hG1 then
      if Flt.ge (distFinal ext cfg st.coarseDistanceMap (ext.ptp newestHs host ph) uv.1 uv.2)
          (minDist ext minActDist ph) then
        some (some ph,
          { coarseDistanceMap := ext.addIntoDistFinal st.coarseDistanceMap uv.1 uv.2,
            toOptimize := st.toOptimize ++ [ph] })
      else some (some ph, st)
    else some (none, st)

/-- The body of the loop over `host->immaturePoints` in `activatePointsMT`
(lines 801-855) for the non-null candidate `ph0` at index `i`. -/
def scanCandidate (ext : Ext) (cfg : Settings) (w : List FrameHessian)
    (newestHs host : FrameHessian) (minActDist : ℚ) (i : Nat) (ph0 : ImmaturePoint)
    (st : ActivateScan) : Option (Option ImmaturePoint × ActivateScan) :=
  scanCandidateBody ext cfg w newestHs host minActDist
    { ph0 with idxInImmaturePoints := i } st

/-- The loop `for (i = 0; i < host->immaturePoints.size(); i += 1)` of
`activatePointsMT`, from index `i` on. A null entry is dereferenced: `none`. -/
def scanCandidates (ext : Ext) (cfg : Settings) (w : List FrameHessian)
    (newestHs host : FrameHessian) (minActDist : ℚ) :
    Nat → List (Option ImmaturePoint) → ActivateScan →
      Option (List (Option ImmaturePoint) × ActivateScan)
  | _, [], st => some ([], st)
  | _, none :: _, _ => none
  | i, some ph :: rest, st =>
    (scanCandidate ext cfg w newestHs host minActDist i ph st).bind fun r =>
      (scanCandidates ext cfg w newestHs host minActDist (i + 1) rest r.2).map fun rs =>
        (r.1 :: rs.1, rs.2)

/-- The loop `for (FrameHessian* host : frameHessians)` of lines 789-857, over
the hosts from the current one on; the newest frame is skipped. -/
def scanHosts (ext : Ext) (cfg : Settings) (w : List FrameHessian) (newestHs : FrameHessian)
    (minActDist : ℚ) : List FrameHessian → ActivateScan →
      Option (List FrameHessian × ActivateScan)
  | [], st => some ([], st)
  | host :: rest, st =>
    if host.shell == newestHs.shell then
      (scanHosts ext cfg w newestHs minActDist rest st).map fun rs => (host :: rs.1, rs.2)
    else
      (scanCandidates ext cfg w newestHs host minActDist 0 host.immaturePoints st).bind fun r =>
        (scanHosts ext cfg w newestHs minActDist rest r.2).map fun rs =>
          ({ host with immaturePoints := r.1 } :: rs.1, rs.2)

/-- The loop `for (k = min; k < max; k++) optimized[k] = f(toOptimize[k])` of
`activatePointsMT_Reductor`, with `fuel` iterations left; an index outside one
of the two vectors is a failure. -/
def reductorLoop (f : ImmaturePoint → OptimizedPtr) (toOptimize : List ImmaturePoint) :
    Nat → Nat → List OptimizedPtr → Option (List OptimizedPtr)
  | 0, _, optimized => some optimized
  | fuel + 1, k, optimized =>
    match toOptimize[k]? with
    | none => none
    | some ph =>
      if k < optimized.length then
        reductorLoop f toOptimize fuel (k + 1) (optimized.set k (f ph))
      else none

/-- The function `activatePointsMT_Reductor(optimized, toOptimize, min, max)`,
while the window is `w`. -/
def activatePointsMT_Reductor (ext : Ext) (w : List FrameHessian)
    (optimized : List OptimizedPtr) (toOptimize : List ImmaturePoint) (min max : Nat) :
    Option (List OptimizedPtr) :=
  reductorLoop (ext.optimizeImmaturePoint w) toOptimize (max - min) min optimized

/-- Modelled from the spec: `IndexThreadReduce::reduce` of
`util/IndexThreadReduce.h`, which is not under `src/`: the function is called
once for each sub-range of a partition of the index range. `schedule` lists the
sub-ranges in the order in which the calls take effect; the calls write
different entries, so running them on several threads is one such order. -/
def reduce (call : List OptimizedPtr → Nat → Nat → Option (List OptimizedPtr))
    (schedule : List (Nat × Nat)) (optimized : List OptimizedPtr) :
    Option (List OptimizedPtr) :=
  schedule.foldlM (fun o r => call o r.1 r.2) optimized

/-- The statement `host->immaturePoints[idx] = 0` through the frame pointer
`host`: `none` when the frame is not in the window or the index is outside the
vector. -/
def clearCandidate (w : List FrameHessian) (host : Nat) (idx : Int) :
    Option (List FrameHessian) :=
  (lookupFrame w host).bind fun fh =>
    if 0 ≤ idx ∧ idx < fh.immaturePoints.length then
      some (w.map fun f =>
        if f.shell == host then
          { f with immaturePoints := f.immaturePoints.set idx.toNat none }
        else f)
    else none

/-- The body of the loop of lines 875-894 for the optimisation result
`newpoint` of the candidate `ph`. In the second branch the source reads
`ph->host` after `delete ph`; the read is taken to give the value before the
deletion. -/
def takeOptimized (w : List FrameHessian) (newpoint : OptimizedPtr) (ph : ImmaturePoint) :
    Option (List FrameHessian) :=
  match newpoint with
  | OptimizedPtr.point host p =>
    (clearCandidate w host ph.idxInImmaturePoints).map fun w1 =>
      w1.map fun f =>
        if f.shell == host then { f with pointHessians := f.pointHessians ++ [some p] } else f
  | OptimizedPtr.minusOne => clearCandidate w ph.host ph.idxInImmaturePoints
  | OptimizedPtr.null =>
    if ph.lastTraceStatus == ImmaturePointStatus.IPS_OOB then
      clearCandidate w ph.host ph.idxInImmaturePoints
    else some w

/-- The loop `for (k = 0; k < toOptimize.size(); k++)` of lines 875-894, over the
candidates from the current one on; `optimized` holds one entry for each. -/
def takeAllOptimized : List FrameHessian → List OptimizedPtr → List ImmaturePoint →
    Option (List FrameHessian)
  | w, _, [] => some w
  | _, [], _ :: _ => none
  | w, newpoint :: optimized, ph :: toOptimize =>
    (takeOptimized w newpoint ph).bind fun w1 => takeAllOptimized w1 optimized toOptimize

/-- The last loop of `activatePointsMT`: the null entries of every
`immaturePoints` are removed by swap-with-last-and-pop. -/
def compactCandidates (w : List FrameHessian) : List FrameHessian :=
  w.map fun host => { host with immaturePoints := compact host.immaturePoints }

/-- The optimisation step of `activatePointsMT` (lines 863-873): `optimized` is
resized to the size of `toOptimize`, then filled by one call of
`activatePointsMT_Reductor`, or through `reduce` when `multiThreading` is set;
`schedule n` is the list of sub-ranges that `reduce` makes of `[0, n)`. -/
def optimizeCandidates (ext : Ext) (cfg : Settings) (schedule : Nat → List (Nat × Nat))
    (w : List FrameHessian) (toOptimize : List ImmaturePoint) : Option (List OptimizedPtr) :=
  let optimized := List.replicate toOptimize.length OptimizedPtr.null
  if cfg.multiThreading then
    reduce (fun o a b => activatePointsMT_Reductor ext w o toOptimize a b)
      (schedule toOptimize.length) optimized
  else activatePointsMT_Reductor ext w optimized toOptimize 0 toOptimize.length

/-- The function `activatePointsMT`; `nPoints` is `ef->nPoints`. The calls into
the energy functional (`insertPoint`, `insertResidual`) act on state that is not
part of `FullSystem` here. -/
def activatePointsMT (ext : Ext) (cfg : Settings) (nPoints : Int)
    (schedule : Nat → List (Nat × Nat)) (s : FullSystem) : Option FullSystem :=
  let d := densityController cfg nPoints s.currentMinActDist
  (s.frameHessians.getLast?).bind fun newestHs =>
    (scanHosts ext cfg s.frameHessians newestHs d s.frameHessians
      ⟨ext.makeDistanceMap s.frameHessians newestHs, []⟩).bind fun r =>
      (optimizeCandidates ext cfg schedule r.1 r.2.toOptimize).bind fun optimized =>
        (takeAllOptimized r.1 optimized r.2.toOptimize).map fun w2 =>
          { s with currentMinActDist := d, frameHessians := compactCandidates w2 }

/-! ## `printResult` -/

/-- Eigen's `m(k)` on a 3 x 3 matrix, as `rotationMatrix()(k)` in `printResult`:
the matrix is stored column by column, so element `k` is at row `k % 3` and
column `k / 3`. -/
def coeff (m : Matrix (Fin 3) (Fin 3) ℚ) (k : Fin 9) : ℚ :=
  m ⟨k.val % 3, Nat.mod_lt _ (by decide)⟩ ⟨k.val / 3, Nat.div_lt_of_lt_mul k.isLt⟩

/-- One line of the file that `printResult` writes: the values handed to the
stream, in the order in which they are written (three values `T[k]` of type
`float`, then nine rotation values of type `double`). The stream writes each
number with 15 significant digits; that formatting is left out. -/
structure ResultRow where
  timestamp : ℚ
  file_prefix_str : String
  translation : List Flt
  rotation : List ℚ
deriving DecidableEq

/-- The value of a variable `float tk = x0 * p(0) + x1 * p(1) + x2 * p(2)` of
`printResult` (lines 290-303), `x0`, `x1`, `x2` being three entries of the
rotation matrix: the products and the sums are computed in `double`, from left
to right, and the result is narrowed to `float`. -/
def rowDot (ext : Ext) (x0 x1 x2 : ℚ) (p : Fin 3 → ℚ) : Flt :=
  toFloat ext
    (addD ext
      (addD ext (mulD ext (Flt.fin x0) (Flt.fin (p 0))) (mulD ext (Flt.fin x1) (Flt.fin (p 1))))
      (mulD ext (Flt.fin x2) (Flt.fin (p 2))))

/-- The value that `T.push_back(-1.0 * t)` stores in the `std::vector<float>`:
the product is computed in `double` and narrowed to `float`. -/
def pushNegated (ext : Ext) (t : Flt) : Flt :=
  toFloat ext (mulD ext (Flt.fin (-1)) t)

/-- The line that `printResult` writes for the shell `s` (lines 290-324). -/
def printResultRow (ext : Ext) (s : FrameShell) : ResultRow :=
  let t0 := rowDot ext (coeff s.camToWorld.R 0) (coeff s.camToWorld.R 1) (coeff s.camToWorld.R 2)
    s.camToWorld.t
  let t1 := rowDot ext (coeff s.camToWorld.R 3) (coeff s.camToWorld.R 4) (coeff s.camToWorld.R 5)
    s.camToWorld.t
  let t2 := rowDot ext (coeff s.camToWorld.R 6) (coeff s.camToWorld.R 7) (coeff s.camToWorld.R 8)
    s.camToWorld.t
  { timestamp := s.timestamp
    file_prefix_str := s.file_prefix_str
    translation := [pushNegated ext t0, pushNegated ext t1, pushNegated ext t2]
    rotation :=
      [coeff s.camToWorld.R 0, coeff s.camToWorld.R 1, coeff s.camToWorld.R 2,
       coeff s.camToWorld.R 3, coeff s.camToWorld.R 4, coeff s.camToWorld.R 5,
       coeff s.camToWorld.R 6, coeff s.camToWorld.R 7, coeff s.camToWorld.R 8] }

/-- The loop `for (FrameShell* s : allFrameHistory)` of `printResult`, over the
shells from the current one on: the lines written. -/
def printResultLoop (ext : Ext) (cfg : Settings) : List FrameShell → List ResultRow
  | [] => []
  | s :: rest =>
    if !s.poseValid then printResultLoop ext cfg rest
    else if cfg.setting_onlyLogKFPoses && s.marginalizedAt == s.id then
      printResultLoop ext cfg rest
    else printResultRow ext s :: printResultLoop ext cfg rest

/-- The header line of the file that `printResult` writes. -/
def resultHeader : List String :=
  ["timestamp", "file_prefix", "translation[0]", "translation[1]", "translation[2]",
   "rotation[0][0]", "rotation[0][1]", "rotation[0][2]", "rotation[1][0]", "rotation[1][1]",
   "rotation[1][2]", "rotation[2][0]", "rotation[2][1]", "rotation[2][2]"]

/-- The function `printResult(file)`: the header line and the lines of the
file. -/
def printResult (ext : Ext) (cfg : Settings) (s : FullSystem) : List String × List ResultRow :=
  (resultHeader, printResultLoop ext cfg s.allFrameHistory)

/-! ## The compaction loop with counted iterations -/

/-- The compaction loop as `compactLoop`, with the fuel counting the executions
of the loop body: `none` when the fuel runs out before the loop test
`i < size` fails. -/
def compactSteps {α : Type} : Nat → List (Option α) → Nat → Option (List (Option α))
  | 0, v, i => if v.length ≤ i then some v else none
  | fuel + 1, v, i =>
    match v[i]? with
    | none => some v
    | some (some _) => compactSteps fuel v (i + 1)
    | some none => compactSteps fuel (swapPop v i) i

/-! ## `shellPoseMutex`

The statements of the two source files that take `shellPoseMutex`, read or
write the pose `camToWorld` of a frame record, or block, as events: every
function below gives the events of one run of a function of `FullSystem`, in
the order in which the statements are executed, the branches being those that
the function takes in the given state. A run that is cut short (a failed
`assert`, a pointer that cannot be followed) emits an initial part of these
events. The other mutexes, the waits for a key (`IOWrap::waitKey`) and what the
functions of other translation units do (the tracker, the optimiser, the output
wrappers) are not part of the events. -/

/-- A line of one of the two source files: of `FullSystem.cpp`, or of
`FullSystemMarginalize.cpp`. -/
inductive SourceLine where
  | fullSystem (line : Nat)
  | marginalize (line : Nat)
deriving DecidableEq

/-- What a statement does, as far as `shellPoseMutex` goes, with the line of
the statement: `lockPose` is the declaration
`boost::unique_lock<boost::mutex> crlock(shellPoseMutex)`, `unlockPose` the end
of the scope of that declaration; `readPose` and `writePose` are a read and a
write of `camToWorld` of a `FrameShell`, a write with the position of the record
in `allFrameHistory`; `wait` is a wait on a condition variable, or the call
`treadReduce.reduce`, which returns when the worker threads are done; `join` is
the call `mappingThread.join()`. -/
inductive Event where
  | lockPose (line : SourceLine)
  | unlockPose (line : SourceLine)
  | readPose (line : SourceLine)
  | writePose (line : SourceLine) (shell : Nat)
  | wait (line : SourceLine)
  | join (line : SourceLine)
deriving DecidableEq

/-- The line of the statement of an event. -/
def Event.line : Event → SourceLine
  | Event.lockPose l => l
  | Event.unlockPose l => l
  | Event.readPose l => l
  | Event.writePose l _ => l
  | Event.wait l => l
  | Event.join l => l

/-- The events of the scope of `printResult` (lines 245-327): the four
statements of the loop body that read `s->camToWorld` (lines 291-304 and
310-324) run once for every line written. -/
def printResultEvents (ext : Ext) (cfg : Settings) (s : FullSystem) : List Event :=
  [Event.lockPose (SourceLine.fullSystem 245)] ++
    ((printResult ext cfg s).2.flatMap fun _ =>
      [Event.readPose (SourceLine.fullSystem 292), Event.readPose (SourceLine.fullSystem 297),
       Event.readPose (SourceLine.fullSystem 302), Event.readPose (SourceLine.fullSystem 316)]) ++
    [Event.unlockPose (SourceLine.fullSystem 327)]

/-- The events of `printPC` (lines 329-355): the mutex is taken for the whole
body, which writes `point_cloud` to a file. -/
def printPCEvents : List Event :=
  [Event.lockPose (SourceLine.fullSystem 331), Event.unlockPose (SourceLine.fullSystem 355)]

/-- The events of `initializeFromInitializer(newFrame)` in the state `s`: the
block that sets the poses of the first frame and of the new frame (lines
1399-1414). The function follows `coarseInitializer->firstFrame` before it. -/
def initializeFromInitializerEvents (s : FullSystem) (newFrame : FrameHessian) : List Event :=
  match s.coarseInitializer.firstFrame with
  | none => []
  | some firstFrame =>
    [Event.lockPose (SourceLine.fullSystem 1400),
     Event.writePose (SourceLine.fullSystem 1401) firstFrame.shell,
     Event.readPose (SourceLine.fullSystem 1403),
     Event.writePose (SourceLine.fullSystem 1408) newFrame.shell,
     Event.readPose (SourceLine.fullSystem 1410), Event.unlockPose (SourceLine.fullSystem 1414)]

/-- The events of `initializeFromInitializerCNN(newFrame)` in the state `s`:
the block that sets the poses of the first frame and of the new frame (lines
1508-1523). The function follows `coarseInitializer->firstFrame` before it. -/
def initializeFromInitializerCNNEvents (s : FullSystem) (newFrame : FrameHessian) :
    List Event :=
  match s.coarseInitializer.firstFrame with
  | none => []
  | some firstFrame =>
    [Event.lockPose (SourceLine.fullSystem 1509),
     Event.writePose (SourceLine.fullSystem 1510) firstFrame.shell,
     Event.readPose (SourceLine.fullSystem 1512),
     Event.writePose (SourceLine.fullSystem 1517) newFrame.shell,
     Event.readPose (SourceLine.fullSystem 1519), Event.unlockPose (SourceLine.fullSystem 1523)]

/-- The events of `trackNewCoarse(fh)` in the state `s`. With two frames in
the history the system is initialised (line 371); otherwise the motion model
reads three poses in a scope of the mutex (lines 459-464). When the hypothesis
list has been built, the loop over the hypotheses runs (the tracker is in
another translation unit), then the pose of the tracking reference is read and
the pose of the new frame is written (lines 662-663), and read again for the
log when `setting_logStuff` is set (line 675). -/
def trackNewCoarseEvents (ext : Ext) (setting_logStuff : Bool) (s : FullSystem)
    (fh : FrameHessian) : List Event :=
  (if s.allFrameHistory.length == 2 then initializeFromInitializerCNNEvents s fh
   else
    [Event.lockPose (SourceLine.fullSystem 460), Event.readPose (SourceLine.fullSystem 461),
     Event.readPose (SourceLine.fullSystem 462), Event.unlockPose (SourceLine.fullSystem 464)]) ++
  (if (trackSetup ext s fh).isSome then
    [Event.readPose (SourceLine.fullSystem 663),
     Event.writePose (SourceLine.fullSystem 662) fh.shell] ++
      (if setting_logStuff then [Event.readPose (SourceLine.fullSystem 675)] else [])
   else [])

/-- The events of `makeNonKeyFrame(fh)` (lines 1193-1199): the pose of the
tracking reference is read, the pose of the frame is written and read again for
`setEvalPT_scaled`. `traceNewCoarse` touches no pose. -/
def makeNonKeyFrameEvents (fh : FrameHessian) : List Event :=
  [Event.lockPose (SourceLine.fullSystem 1194), Event.readPose (SourceLine.fullSystem 1197),
   Event.writePose (SourceLine.fullSystem 1196) fh.shell,
   Event.readPose (SourceLine.fullSystem 1198), Event.unlockPose (SourceLine.fullSystem 1199)]

/-- The events of `savePoints` (`FullSystemMarginalize.cpp`, line 242):
`SE3 camToWorld = frame->shell->camToWorld`. -/
def savePointsEvents : List Event :=
  [Event.readPose (SourceLine.marginalize 242)]

/-- The events of `marginalizeFrame(frame)` in the state `s`: `savePoints` is
called when `frame->shell->marginalizedAt != frameHessians.back()->shell->id`
(lines 162-165). -/
def marginalizeFrameEvents (s : FullSystem) (frame : Nat) : List Event :=
  match s.allFrameHistory[frame]?,
    (s.frameHessians.getLast?).bind fun latest => s.allFrameHistory[latest.shell]? with
  | some sh, some latestShell =>
    if sh.marginalizedAt != latestShell.id then savePointsEvents else []
  | _, _ => []

/-- The events of the loop at the end of `makeKeyFrame`, as `marginalizeLoop`. -/
def marginalizeLoopEvents (ext : Ext) : Nat → FullSystem → Nat → List Event
  | 0, _, _ => []
  | fuel + 1, s, i =>
    match s.frameHessians[i]? with
    | none => []
    | some fh =>
      if fh.flaggedForMarginalization then
        marginalizeFrameEvents s fh.shell ++
          match marginalizeFrame ext s fh.shell with
          | none => []
          | some s1 => marginalizeLoopEvents ext fuel s1 1
      else marginalizeLoopEvents ext fuel s (i + 1)

/-- The events of `makeKeyFrame(fh)` in the state `s`: the scope that sets the
pose (lines 1207-1213); the call `treadReduce.reduce` of `activatePointsMT`
(line 867) when `multiThreading` is set; after the test `if (isLost) return;`
the loop that marginalises the flagged frames. The optimiser is in another
translation unit. -/
def makeKeyFrameEvents (ext : Ext) (cfg : Settings) (s : FullSystem) (fh : FrameHessian) :
    List Event :=
  [Event.lockPose (SourceLine.fullSystem 1208), Event.readPose (SourceLine.fullSystem 1211),
   Event.writePose (SourceLine.fullSystem 1210) fh.shell,
   Event.readPose (SourceLine.fullSystem 1212), Event.unlockPose (SourceLine.fullSystem 1213)] ++
  match (setPoseFromTrackingRef s.allFrameHistory fh.shell).bind fun hist =>
      (traceNewCoarse ext fh s.frameHessians).bind fun w0 =>
        (flagFramesForMarginalization ext cfg w0).map fun w1 =>
          insertKeyFrame ext s hist w1 fh with
  | none => []
  | some s1 =>
    (if cfg.multiThreading then [Event.wait (SourceLine.fullSystem 867)] else []) ++
    if (ext.optimizeWindow s1).isLost then []
    else
      let s2 :=
        ext.afterFlagPoints (flagPointsStep ext cfg (ext.afterOptimize (ext.optimizeWindow s1)))
      marginalizeLoopEvents ext
        ((s2.frameHessians.length + 1) * (s2.frameHessians.length + 1)) s2 0

/-- The events of `deliverTrackedFrame(fh, needKF)` in the state `s`. In the
branch `!linearizeOperation` the thread waits at line 1110 until the mapping
thread has set a tracking reference: `waits` is the number of times the wait is
entered. -/
def deliverTrackedFrameEvents (ext : Ext) (cfg : Settings) (waits : Nat) (s : FullSystem)
    (fh : FrameHessian) (needKF : Bool) : List Event :=
  if s.linearizeOperation then
    if needKF then makeKeyFrameEvents ext cfg s fh else makeNonKeyFrameEvents fh
  else List.replicate waits (Event.wait (SourceLine.fullSystem 1110))

/-- The events of `addActiveFrame(image, id, prefix)` in the state `s`, on the
tracking thread: the pose of the new record is written (line 1002); when the
system is initialised `trackNewCoarse` is called, and when its result is finite
`deliverTrackedFrame` is called. -/
def addActiveFrameEvents (ext : Ext) (cfg : Settings) (setting_logStuff : Bool) (waits : Nat)
    (s : FullSystem) (image : ImageAndExposure) (id : Int) (filePrefix : String) :
    List Event :=
  if s.isLost then []
  else
    let fh := addActiveFrameHessian ext s image
    let s1 := pushShell s (addActiveFrameShell ext s image id filePrefix)
    Event.writePose (SourceLine.fullSystem 1002) s.allFrameHistory.length ::
      if !s1.initialized then []
      else
        trackNewCoarseEvents ext setting_logStuff (swapTrackingReference s1) fh ++
          match addActiveFrameTrack ext cfg s image id filePrefix with
          | some (s2, some (fh1, needKF)) => deliverTrackedFrameEvents ext cfg waits s2 fh1 needKF
          | _ => []

/-- One pass of the loop `while (runMapping)` of `mappingLoop`: `waits` is the
number of times the thread waits at line 1122 for a frame, `state` is the state
when the frame is taken from the queue (an empty queue: the loop has been told
to end), `needToKetchupMapping` the value of that variable at that moment. -/
structure MappingPass where
  waits : Nat
  needToKetchupMapping : Bool
  state : FullSystem

/-- The events of one pass of the loop of `mappingLoop` (lines 1120-1177), on
the mapping thread. -/
def mappingPassEvents (ext : Ext) (cfg : Settings) (setting_realTimeMaxKF : Bool)
    (pass : MappingPass) : List Event :=
  List.replicate pass.waits (Event.wait (SourceLine.fullSystem 1122)) ++
  match pass.state.unmappedTrackedFrames with
  | [] => []
  | fh :: queue =>
    let s : FullSystem := { pass.state with unmappedTrackedFrames := queue }
    if s.allKeyFramesHistory.length ≤ 2 then makeKeyFrameEvents ext cfg s fh
    else if 0 < queue.length then
      makeNonKeyFrameEvents fh ++
        match makeNonKeyFrame ext s fh with
        | none => []
        | some s1 =>
          if pass.needToKetchupMapping || decide (3 < queue.length) then
            match s1.unmappedTrackedFrames with
            | [] => []
            | fh1 :: _ =>
              [Event.lockPose (SourceLine.fullSystem 1153),
               Event.readPose (SourceLine.fullSystem 1156),
               Event.writePose (SourceLine.fullSystem 1155) fh1.shell,
               Event.readPose (SourceLine.fullSystem 1157),
               Event.unlockPose (SourceLine.fullSystem 1159)]
          else []
    else
      if setting_realTimeMaxKF then makeKeyFrameEvents ext cfg s fh
      else
        match (s.frameHessians.getLast?).bind fun latest => s.allFrameHistory[latest.shell]? with
        | none => []
        | some latestShell =>
          if s.needNewKFAfter ≥ latestShell.id then makeKeyFrameEvents ext cfg s fh
          else makeNonKeyFrameEvents fh

/-- The events of `mappingLoop`: those of its passes, one after the other. -/
def mappingLoopEvents (ext : Ext) (cfg : Settings) (setting_realTimeMaxKF : Bool)
    (passes : List MappingPass) : List Event :=
  passes.flatMap (mappingPassEvents ext cfg setting_realTimeMaxKF)

/-- The events of `blockUntilMappingIsFinished` (line 1187). -/
def blockUntilMappingIsFinishedEvents : List Event :=
  [Event.join (SourceLine.fullSystem 1187)]

/-- Whether `shellPoseMutex` is held by the thread: `free` when it is not,
`fresh` when it has been taken and no pose has been read or written since,
`used` when it is held and a pose has been read or written in the scope. -/
inductive Held where
  | free
  | fresh
  | used
deriving DecidableEq

/-- The state of the mutex after an event. -/
def Held.step : Held → Event → Held
  | _, Event.lockPose _ => Held.fresh
  | _, Event.unlockPose _ => Held.free
  | Held.fresh, Event.readPose _ => Held.used
  | Held.fresh, Event.writePose _ _ => Held.used
  | h, _ => h

/-- The state of the mutex after a sequence of events. -/
def heldAfter : Held → List Event → Held
  | h, [] => h
  | h, e :: rest => heldAfter (h.step e) rest

/-- The events of a sequence that satisfy `f`, a test on the state of the mutex
before the event and on the event. -/
def scanEvents (f : Held → Event → Bool) : Held → List Event → List Event
  | _, [] => []
  | h, e :: rest =>
    if f h e then e :: scanEvents f (h.step e) rest else scanEvents f (h.step e) rest

/-- A wait or a join while the mutex is held. -/
def isBlocked : Held → Event → Bool
  | Held.free, _ => false
  | _, Event.wait _ => true
  | _, Event.join _ => true
  | _, _ => false

/-- A read or a write of a pose while the mutex is not held. -/
def isUnguarded : Held → Event → Bool
  | Held.free, Event.readPose _ => true
  | Held.free, Event.writePose _ _ => true
  | _, _ => false

/-- The end of a scope of the mutex in which no pose was read or written. -/
def closesEmpty : Held → Event → Bool
  | Held.fresh, Event.unlockPose _ => true
  | _, _ => false

/-! ## The rounding of IEEE 754

The rounding of the machine is a parameter of the embedding (`Ext.roundF`,
`Ext.roundD`). The functions of this section are the rounding of the formats
`binary32` and `binary64`, to the nearest number with ties to even, for the
examples that run the embedded code as the machine does. -/

/-- The integer nearest to `x`, the even one of the two when `x` is half way. -/
def roundHalfEven (x : ℚ) : Int :=
  if x - ⌊x⌋ < 1 / 2 then ⌊x⌋
  else if 1 / 2 < x - ⌊x⌋ then ⌊x⌋ + 1
  else if ⌊x⌋ % 2 = 0 then ⌊x⌋ else ⌊x⌋ + 1

/-- The number of the binary format with `prec` bits of precision and the
exponents `emin` to `emax` that is nearest to `q`, ties to even: `q` is rounded
to a multiple of the unit in the last place of its binade (of the lowest binade
for a subnormal number); a result of magnitude `2 ^ (emax + 1)` or more is an
infinity. -/
def roundBinary (prec : Nat) (emin emax : Int) (q : ℚ) : Flt :=
  if q = 0 then Flt.fin 0
  else
    let ulp : ℚ := 2 ^ (max (Int.log 2 |q|) emin - (prec - 1))
    let r : ℚ := roundHalfEven (q / ulp) * ulp
    if (2 : ℚ) ^ (emax + 1) ≤ |r| then (if 0 < q then Flt.pinf else Flt.ninf) else Flt.fin r

/-- The rounding to `float` (`binary32`). -/
def roundFloat : ℚ → Flt := roundBinary 24 (-126) 127

/-- The rounding to `double` (`binary64`). -/
def roundDouble : ℚ → Flt := roundBinary 53 (-1022) 1023

/-! ## Properties named by the specification -/

/-- The record at position `p` of the history has a tracking reference: a
pointer to another record of the history. -/
def hasTrackingRef (hist : List FrameShell) (p : Nat) : Prop :=
  ∃ sh r, hist[p]? = some sh ∧ sh.trackingRef = some r ∧ r ≠ p ∧ r < hist.length

/-- The pose invariant of the record at position `p`:
`camToWorld = trackingRef->camToWorld * camToTrackingRef`. -/
def poseComposed (hist : List FrameShell) (p : Nat) : Prop :=
  ∃ sh r ref, hist[p]? = some sh ∧ sh.trackingRef = some r ∧ hist[r]? = some ref ∧
    sh.camToWorld = ref.camToWorld * sh.camToTrackingRef

/-- What `marginalizeFrame` and the steps between flagging and marginalising
keep of a window frame: its identity, its flag and its active points. -/
def frameCore (f : FrameHessian) : Nat × Bool × List (Option PointHessian) :=
  (f.shell, f.flaggedForMarginalization, f.pointHessians)

/-- Identity and flag of every window frame, in window order. -/
def frameFlags (w : List FrameHessian) : List (Nat × Bool) :=
  w.map fun f => (f.shell, f.flaggedForMarginalization)

/-- An external step keeps the window frames and their flags, and does not
touch `isLost`. -/
def keepsWindow (g : FullSystem → FullSystem) : Prop :=
  ∀ x, frameFlags (g x).frameHessians = frameFlags x.frameHessians ∧ (g x).isLost = x.isLost

/-- A candidate may stay in its host's list after `activatePointsMT`: its
`idepth_max` is finite, its last trace is no outlier, and it passes
`canActivate` or else its host frame (looked up in the window `w`) is not
flagged and its last trace was not out of bounds. -/
def mayStay (cfg : Settings) (w : List FrameHessian) (ph : ImmaturePoint) : Prop :=
  ph.idepth_max.isfinite = true ∧ ph.lastTraceStatus ≠ ImmaturePointStatus.IPS_OUTLIER ∧
  (canActivate cfg ph = true ∨
    ∃ phHost, lookupFrame w ph.host = some phHost ∧ phHost.flaggedForMarginalization = false ∧
      ph.lastTraceStatus ≠ ImmaturePointStatus.IPS_OOB)

/-- Every candidate of the window satisfies `Q`, a property of the shell of the
host and of the candidate. -/
def allCandidates (Q : Nat → ImmaturePoint → Prop) (w : List FrameHessian) : Prop :=
  ∀ f ∈ w, ∀ x, some x ∈ f.immaturePoints → Q f.shell x

/-- The entries of a 3 x 3 matrix in row-major order. -/
def rowMajor (m : Matrix (Fin 3) (Fin 3) ℚ) : List ℚ :=
  [m 0 0, m 0 1, m 0 2, m 1 0, m 1 1, m 1 2, m 2 0, m 2 1, m 2 2]

/-- The components of a vector of length 3. -/
def components (v : Fin 3 → ℚ) : List ℚ := [v 0, v 1, v 2]

/-- The real numbers that the computation of one translation value of
`printResult` goes through, `x0`, `x1`, `x2` being three entries of the rotation
matrix and `p` the translation: the three products, the two sums and the
negated sum. -/
def dotSteps (x0 x1 x2 : ℚ) (p : Fin 3 → ℚ) : List ℚ :=
  [x0 * p 0, x1 * p 1, x2 * p 2, x0 * p 0 + x1 * p 1, x0 * p 0 + x1 * p 1 + x2 * p 2,
   -1 * (x0 * p 0 + x1 * p 1 + x2 * p 2)]

/-- No operation of the translation part of the row of the shell `s` rounds:
every number that the computation goes through is a `float`. -/
def exactRow (ext : Ext) (s : FrameShell) : Prop :=
  ∀ q ∈
    dotSteps (s.camToWorld.R 0 0) (s.camToWorld.R 1 0) (s.camToWorld.R 2 0) s.camToWorld.t ++
      dotSteps (s.camToWorld.R 0 1) (s.camToWorld.R 1 1) (s.camToWorld.R 2 1) s.camToWorld.t ++
      dotSteps (s.camToWorld.R 0 2) (s.camToWorld.R 1 2) (s.camToWorld.R 2 2) s.camToWorld.t,
    ext.roundD q = Flt.fin q ∧ ext.roundF q = Flt.fin q

/-- What identifies a record of the history: the fields that `addActiveFrame`
sets when it creates the record. -/
def shellKey (sh : FrameShell) : Int × Int × ℚ × String :=
  (sh.id, sh.incoming_id, sh.timestamp, sh.file_prefix_str)

/-- An external step leaves the records of `allFrameHistory` in place: the same
records in the same order. -/
def keepsHistory (g : FullSystem → FullSystem) : Prop :=
  ∀ x, (g x).allFrameHistory.map shellKey = x.allFrameHistory.map shellKey

/-- The states reached from a state with an empty history by calls of
`addActiveFrame` that return. -/
inductive Reachable (ext : Ext) (cfg : Settings) : FullSystem → Prop where
  | init (s : FullSystem) : s.allFrameHistory = [] → Reachable ext cfg s
  | step (s s1 : FullSystem) (image : ImageAndExposure) (id : Int) (filePrefix : String) :
      Reachable ext cfg s → addActiveFrame ext cfg s image id filePrefix = some s1 →
      Reachable ext cfg s1

/-- Whether the entry `e` of an active list stays, `c` being the decision on a
point. -/
def pointStays (c : PointHessian → Option (Bool × PointHessian)) (e : Option PointHessian) :
    Bool :=
  match e with
  | some ph => (c ph).isNone
  | none => false

/-- The point that the entry `e` of an active list adds to
`pointHessiansMarginalized`, if any. -/
def pointMarginalized (c : PointHessian → Option (Bool × PointHessian))
    (e : Option PointHessian) : Option PointHessian :=
  e.bind fun ph =>
    match c ph with
    | some (true, p) => some p
    | _ => none

/-- The point that the entry `e` of an active list adds to `pointHessiansOut`,
if any. -/
def pointDropped (c : PointHessian → Option (Bool × PointHessian))
    (e : Option PointHessian) : Option PointHessian :=
  e.bind fun ph =>
    match c ph with
    | some (false, p) => some p
    | _ => none

/-- The condition of the specification for a hypothesis to be taken over as
the winner, `r` being what the tracker left and `achievedRes` the best residuals
so far: success, a finite residual `lastResiduals[0]`, and that residual no
worse than (less than or equal to) `achievedRes[0]`, or no residual achieved
yet (`achievedRes[0]` is NaN). -/
def winnerNoWorse (r : TrackResult) (achievedRes : Vec5) : Prop :=
  r.trackingIsGood = true ∧ (r.lastResiduals 0).isfinite = true ∧
    (Flt.ge (achievedRes 0) (r.lastResiduals 0) = true ∨ achievedRes 0 = Flt.nan)

/-- The same condition with a residual that is finite as a `float`
(`(float)lastResiduals[0]` is finite) and strictly below `achievedRes[0]`. -/
def winnerBetter (ext : Ext) (r : TrackResult) (achievedRes : Vec5) : Prop :=
  r.trackingIsGood = true ∧ (toFloat ext (r.lastResiduals 0)).isfinite = true ∧
    (Flt.lt (r.lastResiduals 0) (achievedRes 0) = true ∨ achievedRes 0 = Flt.nan)

/-- A frame may be chosen by the second pass of `flagFramesForMarginalization`:
its `frameID` is not 0 and at most `latest.frameID - setting_minFrameAge`. -/
def oldEnough (cfg : Settings) (latest fh : FrameHessian) : Prop :=
  fh.frameID ≤ latest.frameID - cfg.setting_minFrameAge ∧ fh.frameID ≠ 0

/-- What the second pass of `flagFramesForMarginalization` reads of a window
frame: its address, its `frameID` and its `targetPrecalc`. -/
def frameKey (f : FrameHessian) : Nat × Int × List FrameFramePrecalc :=
  (f.shell, f.frameID, f.targetPrecalc)

/-- The table `targetPrecalc` of the frame `f` when it holds one entry per
window frame, in window order, `dist a b` being the distance `distanceLL` from
the frame at address `a` to the frame at address `b`. -/
def precalcOf (dist : Nat → Nat → Flt) (w : List FrameHessian) (f : FrameHessian) :
    List FrameFramePrecalc :=
  w.map fun t => ⟨f.shell, t.shell, dist f.shell t.shell⟩

/-- Whether the frame `t` counts in the score of the frame `fh`: it is another
frame and its `frameID` is at most `latest.frameID - setting_minFrameAge + 1`. -/
def scoreTarget (cfg : Settings) (latest fh t : FrameHessian) : Bool :=
  decide (t.frameID ≤ latest.frameID - cfg.setting_minFrameAge + 1) && t.shell != fh.shell

/-- The score of the specification for the frame `fh`: the sum of
`1 / (1e-5 + d(fh, t))` over the other window frames `t` with
`frameID <= latest.frameID - setting_minFrameAge + 1`, times
`-sqrt(d(fh, latest))`. -/
def windowScore (ext : Ext) (cfg : Settings) (dist : Nat → Nat → Flt) (w : List FrameHessian)
    (latest fh : FrameHessian) : Flt :=
  Flt.mul
    ((w.filter (scoreTarget cfg latest fh)).foldl
      (fun acc t =>
        Flt.add acc (Flt.div (Flt.fin 1) (Flt.add (Flt.fin (1 / 100000)) (dist fh.shell t.shell))))
      (Flt.fin 0))
    (Flt.neg (ext.sqrtf (dist fh.shell latest.shell)))

/-- Every window frame that is flagged for marginalisation has an empty list of
active points: the assertion of `marginalizeFrame` holds for it. -/
def flaggedEmpty (w : List FrameHessian) : Prop :=
  ∀ f ∈ w, f.flaggedForMarginalization = true → f.pointHessians = []

/-- The state in which the frame-marginalisation loop of `makeKeyFrame` meets
neither a failing assertion nor a dangling pointer: the window frames are
distinct, their shells are records of the history, no list of active points
holds a null entry, and the flagged frames have no active point. -/
def loopReady (s : FullSystem) : Prop :=
  (s.frameHessians.map fun f => f.shell).Nodup ∧
  (∀ f ∈ s.frameHessians, f.shell < s.allFrameHistory.length) ∧
  (∀ f ∈ s.frameHessians, none ∉ f.pointHessians) ∧
  flaggedEmpty s.frameHessians

/-- What `printResult` compares of a record: its `id` and its `marginalizedAt`. -/
def shellLog (sh : FrameShell) : Int × Int := (sh.id, sh.marginalizedAt)

/-- The addresses of the window frames, in window order. -/
def windowShells (s : FullSystem) : List Nat := s.frameHessians.map fun f => f.shell

/-- An external step keeps the book of the key frames: `id` and
`marginalizedAt` of every record, the list of the key frames, and the window
frames with their flags. -/
def keepsLog (g : FullSystem → FullSystem) : Prop :=
  ∀ x, (g x).allFrameHistory.map shellLog = x.allFrameHistory.map shellLog ∧
    (g x).allKeyFramesHistory = x.allKeyFramesHistory ∧
    frameFlags (g x).frameHessians = frameFlags x.frameHessians

/-- The states reached from the state `s0` by calls of `addActiveFrame` that
return. -/
inductive ReachableFrom (ext : Ext) (cfg : Settings) (s0 : FullSystem) : FullSystem → Prop where
  | start : ReachableFrom ext cfg s0 s0
  | step (s s1 : FullSystem) (image : ImageAndExposure) (id : Int) (filePrefix : String) :
      ReachableFrom ext cfg s0 s → addActiveFrame ext cfg s image id filePrefix = some s1 →
      ReachableFrom ext cfg s0 s1

/-- The frame of the record at position `i` of the history has been
marginalised: it was made a key frame and is no longer in the window. -/
def marginalizedOut (s : FullSystem) (i : Nat) : Prop :=
  i ∈ s.allKeyFramesHistory ∧ i ∉ windowShells s

/-- The book of the key frames is in order, for the list `L` of the pairs
(`id`, `marginalizedAt`) of the records, the list `K` of the key frames, the
addresses `W` of the window frames and a bound `b` on the addresses in use:
every `id` is the position of its record, the window frames are distinct key
frames, and `marginalizedAt` differs from `id` exactly for the key frames that
have left the window. -/
def logInvV (L : List (Int × Int)) (K W : List Nat) (b : Nat) : Prop :=
  (∀ (i : Nat) (x : Int × Int), L[i]? = some x → x.1 = i) ∧
  (∀ p ∈ W, p < b ∧ p ∈ K) ∧
  W.Nodup ∧
  (∀ p ∈ K, p < b) ∧
  (∀ (i : Nat) (x : Int × Int), L[i]? = some x → (x.2 ≠ x.1 ↔ i ∈ K ∧ i ∉ W)) ∧
  b ≤ L.length

/-- The invariant `logInvV` of a state, all addresses being positions of the
history. -/
def logInv (s : FullSystem) : Prop :=
  logInvV (s.allFrameHistory.map shellLog) s.allKeyFramesHistory (windowShells s)
    s.allFrameHistory.length

/-- Before the second frame there is no key frame, and the frame that the
initialiser keeps is the first frame. -/
def initInv (s : FullSystem) : Prop :=
  (s.allFrameHistory.length ≤ 1 → s.frameHessians = [] ∧ s.allKeyFramesHistory = []) ∧
  (s.allFrameHistory.length = 1 → s.initialized = true →
    ∀ ff, s.coarseInitializer.firstFrame = some ff → ff.shell = 0)

/-- The last frame of the window is not flagged for marginalisation. -/
def lastUnflagged (w : List FrameHessian) : Prop :=
  ∃ l, w.getLast? = some l ∧ l.flaggedForMarginalization = false

/-- The waits and joins of a sequence of events that happen while
`shellPoseMutex` is held. -/
def blockedFrom (h : Held) (l : List Event) : List Event := scanEvents isBlocked h l

/-- The reads and writes of a pose that happen while `shellPoseMutex` is not
held. -/
def unguardedFrom (h : Held) (l : List Event) : List Event := scanEvents isUnguarded h l

/-- The ends of the scopes of `shellPoseMutex` in which no pose is read or
written. -/
def emptyScopesFrom (h : Held) (l : List Event) : List Event := scanEvents closesEmpty h l

/-- The discipline of `shellPoseMutex` on the events of a thread that starts
without the mutex: at the end the mutex is not held, and at every moment of the
run (for every initial part `p` of the events) no wait or join has happened
while the mutex was held, and every read or write of a pose that happened while
the mutex was not held is a statement of one of the lines `allowed`. -/
def Disciplined (allowed : List SourceLine) (l : List Event) : Prop :=
  heldAfter Held.free l = Held.free ∧
  ∀ p t, l = p ++ t →
    blockedFrom Held.free p = [] ∧ ∀ e ∈ unguardedFrom Held.free p, e.line ∈ allowed

/-- The pose `camToWorld` of the record at position `i` of the history, when
there is one. -/
def poseAt (s : FullSystem) (i : Nat) : Option SE3 :=
  (s.allFrameHistory[i]?).map fun sh => sh.camToWorld

/-- The reads and writes of a pose on the tracking thread that are made without
`shellPoseMutex`: the write of the pose of the new record in `addActiveFrame`
(line 1002), the read of the pose of the tracking reference and the write of the
pose of the new frame at the end of `trackNewCoarse` (lines 662-663), the read
for the log (line 675), and the read of `savePoints`. -/
def unguardedTracking : List SourceLine :=
  [SourceLine.fullSystem 1002, SourceLine.fullSystem 663, SourceLine.fullSystem 662,
   SourceLine.fullSystem 675, SourceLine.marginalize 242]

/-- The read of a pose on the mapping thread that is made without
`shellPoseMutex`: that of `savePoints`. -/
def unguardedMapping : List SourceLine :=
  [SourceLine.marginalize 242]

/-! ## Concrete inputs -/

/-- The default settings of `util/settings.cpp`, for a 640 x 480 image. -/
def defaultSettings : Settings where
  setting_minFrameAge := 1
  setting_maxFrames := 7
  setting_minFrames := 5
  setting_minPointsRemaining := 5 / 100
  setting_maxLogAffFacInWindow := 7 / 10
  setting_keyframesPerSecond := 0
  setting_kfGlobalWeight := 1
  setting_maxShiftWeightT := 4 / 100 * (640 + 480)
  setting_maxShiftWeightR := 0
  setting_maxShiftWeightRT := 2 / 100 * (640 + 480)
  setting_maxAffineWeight := 2
  setting_reTrackThreshold := 3 / 2
  setting_minIdepthH_marg := 50
  setting_desiredPointDensity := 2000
  setting_minTraceQuality := 3
  setting_onlyLogKFPoses := true
  multiThreading := true
  wG0 := 640
  hG0 := 480
  wG1 := 320
  hG1 := 240

/-- A shell as `new FrameShell()` leaves it. -/
def shell0 : FrameShell where
  id := 0
  incoming_id := 0
  timestamp := 0
  file_prefix_str := ""
  camToTrackingRef := 1
  trackingRef := none
  camToWorld := 1
  aff_g2l := ⟨0, 0⟩
  poseValid := true
  marginalizedAt := -1
  movedByOpt := 0

/-- A frame as `new FrameHessian()` leaves it. -/
def frame0 : FrameHessian where
  shell := 0
  frameID := -1
  idx := -1
  ab_exposure := 1
  aff_g2l := ⟨0, 0⟩
  flaggedForMarginalization := false
  frameEnergyTH := 512
  pointHessians := []
  pointHessiansMarginalized := []
  pointHessiansOut := []
  immaturePoints := []
  targetPrecalc := []

/-- A coarse tracker without reference frame. -/
def tracker0 : CoarseTracker where
  refFrameID := -1
  lastRef := none
  lastRef_aff_g2l := ⟨0, 0⟩
  firstCoarseRMSE := Flt.fin (-1)

/-- External code for the examples: the coarse tracker fails on every
hypothesis, distances are 1, nothing is out of bounds, the point optimisation
returns null, the distance map is 0 everywhere, candidates project to their own
pixel. The numbers of the examples are small integers and halves, which no
operation rounds: the roundings return their argument. -/
def extFail : Ext where
  newFrameShell := shell0
  newFrameHessian := frame0
  trackNewestCoarse := fun _ g a _ =>
    { trackingIsGood := false, lastToNew_out := g, aff_g2l_out := a,
      lastResiduals := fun _ => Flt.fin 1, lastFlowIndicators := fun _ => Flt.fin 0 }
  setFirst := fun ci fh => { ci with frameID := 0, firstFrame := some fh }
  setCTRefForFirstFrame := fun w ct =>
    { ct with lastRef := (w.getLast?).map fun f => f.shell, refFrameID := 0,
              firstCoarseRMSE := Flt.fin (-1) }
  initializerPoints := fun _ => []
  halfMotion := fun x => x
  precalcSet := fun h t => ⟨h.shell, t.shell, Flt.fin 1⟩
  fromToVecExposure := fun _ _ _ _ => Flt.fin 1
  sqrtf := fun x => x
  logf := fun _ => Flt.fin 0
  traceOn := fun _ _ p => p
  isOOB := fun _ _ _ => false
  relinearize := fun r => r
  isInlierNew := fun _ => true
  movedByOpt := fun _ => 0
  optimizeWindow := fun s => s
  afterOptimize := fun s => s
  afterFlagPoints := fun s => s
  optimizeImmaturePoint := fun _ _ => OptimizedPtr.null
  makeDistanceMap := fun _ _ => ⟨fun _ => Flt.fin 0⟩
  addIntoDistFinal := fun m _ _ => m
  ptp := fun _ _ p => ![Flt.fin p.u, Flt.fin p.v, Flt.fin 1]
  roundF := Flt.fin
  roundD := Flt.fin
  invalidInt := -2147483648

/-- The system as its constructor leaves it. -/
def system0 : FullSystem where
  isLost := false
  initialized := false
  initFailed := false
  linearizeOperation := true
  allFrameHistory := []
  allKeyFramesHistory := []
  frameHessians := []
  unmappedTrackedFrames := []
  needNewKFAfter := -1
  coarseTracker := tracker0
  coarseTracker_forNewKF := tracker0
  coarseInitializer := ⟨-1, none, 1⟩
  lastCoarseRMSE := Vec5.constant (Flt.fin 100)
  currentMinActDist := 2

/-- A lost system with three frames in its history. -/
def systemLost : FullSystem :=
  { system0 with isLost := true, initialized := true,
                 allFrameHistory := [shell0, { shell0 with id := 1 }, { shell0 with id := 2 }] }

/-- A system that tracks: three frames in the history, the first is the
reference of both coarse trackers. -/
def systemTracking : FullSystem :=
  { system0 with
      initialized := true,
      allFrameHistory := [shell0, { shell0 with id := 1, trackingRef := some 0 },
                          { shell0 with id := 2, trackingRef := some 0 }],
      allKeyFramesHistory := [0],
      frameHessians := [{ frame0 with frameID := 0, idx := 0 }],
      coarseTracker := { tracker0 with refFrameID := 0, lastRef := some 0 },
      coarseTracker_forNewKF := { tracker0 with refFrameID := 0, lastRef := some 0 } }

/-- A residual of address `addr` with target frame `target`, in state `IN`. -/
def residualTo (addr target : Nat) : PointFrameResidual :=
  ⟨addr, 0, target, ResState.IN⟩

/-- An active point with scaled inverse depth `d` and the residuals `rs`. -/
def pointWith (d : ℚ) (rs : List PointFrameResidual) : PointHessian where
  u := 10
  v := 10
  idepth_scaled := Flt.fin d
  idepth_hessian := Flt.fin 100
  maxRelBaseline := 1
  numGoodResiduals := 0
  residuals := rs
  lastResiduals0 := (none, ResState.OUTLIER)
  lastResiduals1 := (none, ResState.OUTLIER)
  stateFlag := EFPointStatus.PS_GOOD

/-- A window of two frames; the first hosts a point of negative depth, a point
without residual and a sound point. -/
def windowPoints : List FrameHessian :=
  [{ frame0 with
       shell := 0, frameID := 0, idx := 0,
       pointHessians := [some (pointWith (-1) [residualTo 1 1]), some (pointWith 1 []),
                         some (pointWith 1 [residualTo 2 1])] },
   { frame0 with shell := 1, frameID := 1, idx := 1 }]

/-- An active point with one residual whose scaled inverse depth is NaN. -/
def pointNaNDepth : PointHessian :=
  { pointWith 1 [residualTo 2 1] with idepth_scaled := Flt.nan }

/-- A window of two frames; the first hosts `pointNaNDepth`. -/
def windowNaNDepth : List FrameHessian :=
  [{ frame0 with shell := 0, frameID := 0, idx := 0, pointHessians := [some pointNaNDepth] },
   { frame0 with shell := 1, frameID := 1, idx := 1 }]

/-- A history of two shells. -/
def historyTwo : List FrameShell := [shell0, { shell0 with id := 1, trackingRef := some 0 }]

/-- A system whose window holds two frames; the only active point, hosted by
the first frame, has one residual, whose target is the second frame. -/
def systemOneResidual : FullSystem :=
  { system0 with
      initialized := true,
      allFrameHistory := historyTwo,
      allKeyFramesHistory := [0, 1],
      frameHessians :=
        [{ frame0 with
             shell := 0, frameID := 0, idx := 0,
             pointHessians := [some (pointWith 1 [residualTo 7 1])] },
         { frame0 with shell := 1, frameID := 1, idx := 1 }] }

/-- A point with residuals to the frames 1 and 2. -/
def pointTwoResiduals : PointHessian := pointWith 1 [residualTo 7 1, residualTo 8 2]

/-- A system whose window holds three frames; the only active point, hosted by
the first frame, has a residual to each of the other two. -/
def systemTwoResiduals : FullSystem :=
  { system0 with
      initialized := true,
      allFrameHistory := historyTwo ++ [{ shell0 with id := 2, trackingRef := some 0 }],
      allKeyFramesHistory := [0, 1, 2],
      frameHessians :=
        [{ frame0 with shell := 0, frameID := 0, idx := 0,
                       pointHessians := [some pointTwoResiduals] },
         { frame0 with shell := 1, frameID := 1, idx := 1 },
         { frame0 with shell := 2, frameID := 2, idx := 2 }] }

/-- A key frame without points, `i`-th of the session. -/
def frameAt (i : Nat) : FrameHessian :=
  { frame0 with shell := i, frameID := i, idx := i }

/-- A key frame all of whose points have left: one point in `pointHessiansOut`,
none active, no candidate. -/
def wornFrameAt (i : Nat) : FrameHessian :=
  { frame0 with shell := i, frameID := i, idx := i, pointHessiansOut := [pointWith 1 []] }

/-- A history of `n` shells, all tracked against the first. -/
def historyOf (n : Nat) : List FrameShell :=
  (List.range n).map fun i => { shell0 with id := i, trackingRef := some 0 }

/-- A full window under the default settings: seven key frames, the two oldest
have lost all their points. -/
def windowSeven : List FrameHessian :=
  [wornFrameAt 0, wornFrameAt 1, frameAt 2, frameAt 3, frameAt 4, frameAt 5, frameAt 6]

/-- A system with the window `windowSeven` and eight frames in its history; the
last frame has been tracked and is about to become a key frame. -/
def systemSeven : FullSystem :=
  { system0 with
      initialized := true,
      allFrameHistory := historyOf 8,
      allKeyFramesHistory := [0, 1, 2, 3, 4, 5, 6],
      frameHessians := windowSeven,
      coarseTracker := { tracker0 with refFrameID := 6, lastRef := some 6 },
      coarseTracker_forNewKF := { tracker0 with refFrameID := 6, lastRef := some 6 } }

/-- The eighth frame, as `addActiveFrame` hands it to `makeKeyFrame`. -/
def frameSeven : FrameHessian := { frame0 with shell := 7 }

/-- Settings with `setting_minFrameAge > setting_maxFrames`: frames age out
oldest first, the window size being 1. -/
def settingsAgeOut : Settings :=
  { defaultSettings with setting_minFrameAge := 2, setting_maxFrames := 1,
                         setting_minFrames := 1 }

/-- A system with one key frame in its window and two frames in its history;
the second frame has been tracked and is about to become a key frame. -/
def systemOneFrame : FullSystem :=
  { system0 with
      initialized := true,
      allFrameHistory := historyOf 2,
      allKeyFramesHistory := [0],
      frameHessians := [frameAt 0],
      coarseTracker := { tracker0 with refFrameID := 0, lastRef := some 0 },
      coarseTracker_forNewKF := { tracker0 with refFrameID := 0, lastRef := some 0 } }

/-- External code for the examples: as `extFail`, but the coarse tracker
succeeds on every hypothesis, with residual 1 on every level and no flow. -/
def extGood : Ext :=
  { extFail with
      trackNewestCoarse := fun _ g a _ =>
        { trackingIsGood := true, lastToNew_out := g, aff_g2l_out := a,
          lastResiduals := fun _ => Flt.fin 1, lastFlowIndicators := fun _ => Flt.fin 0 } }

/-- The default settings with a fixed key frame rate of one per second. -/
def settingsKfps : Settings :=
  { defaultSettings with setting_keyframesPerSecond := 1 }

/-- The first image, at time 0. -/
def imageFirst : ImageAndExposure := ⟨0, 1⟩

/-- The second image, half a second later. -/
def imageSecond : ImageAndExposure := ⟨1 / 2, 1⟩

/-- The system after `addActiveFrame` took the first image: its shell is in
the history and its frame is kept by the initialiser. -/
def systemFirst : FullSystem :=
  { system0 with
      initialized := true,
      allFrameHistory := [addActiveFrameShell extGood system0 imageFirst 0 "frame0"],
      coarseInitializer :=
        extGood.setFirst system0.coarseInitializer
          (addActiveFrameHessian extGood system0 imageFirst) }

/-- A full window under the default settings in which only the frame at
position 5, one of the five most recent, has lost all its points. -/
def windowRecentWorn : List FrameHessian :=
  [frameAt 0, frameAt 1, frameAt 2, frameAt 3, frameAt 4, wornFrameAt 5, frameAt 6]

/-- The number of window frames that are not flagged for marginalisation. -/
def unflaggedCount (w : List FrameHessian) : Nat :=
  (w.filter fun f => !f.flaggedForMarginalization).length

/-- The default settings with `setting_maxFrames` lowered to
`setting_minFrames = 5`. -/
def settingsMaxEqMin : Settings :=
  { defaultSettings with setting_maxFrames := 5 }

/-- A window of five key frames without points, `targetPrecalc` set. -/
def windowFive : List FrameHessian :=
  setPrecalcValues extFail [frameAt 0, frameAt 1, frameAt 2, frameAt 3, frameAt 4]

/-- Settings of the age-out branch (`setting_minFrameAge > setting_maxFrames`)
with `setting_maxFrames = 1` below `setting_minFrames = 5`. -/
def settingsAgeOutSmall : Settings :=
  { defaultSettings with setting_minFrameAge := 2, setting_maxFrames := 1 }

/-- A candidate of the frame `host` at pixel (10, 10) with last trace status
`status`, trace quality `quality`, a finite positive depth interval and a small
trace interval. -/
def candidateAt (host : Nat) (status : ImmaturePointStatus) (quality : ℚ) : ImmaturePoint where
  host := host
  u := 10
  v := 10
  my_type := 1
  idepth_min := Flt.fin (1 / 2)
  idepth_max := Flt.fin 1
  quality := quality
  energyTH := Flt.fin 100
  lastTracePixelInterval := 1
  lastTraceStatus := status
  idxInImmaturePoints := -1

/-- A frame flagged for marginalisation that hosts three candidates: one traced
well, one whose last trace was out of bounds, both of good quality, and one of
low quality. -/
def hostOfCandidates : FrameHessian :=
  { frame0 with
      shell := 0, frameID := 0, idx := 0, flaggedForMarginalization := true,
      immaturePoints :=
        [some (candidateAt 0 ImmaturePointStatus.IPS_GOOD 10),
         some (candidateAt 0 ImmaturePointStatus.IPS_OOB 10),
         some (candidateAt 0 ImmaturePointStatus.IPS_GOOD 0)] }

/-- A system whose window holds two frames: `hostOfCandidates` and a newer
frame without candidates. -/
def systemCandidates : FullSystem :=
  { system0 with
      initialized := true,
      allFrameHistory := historyTwo,
      allKeyFramesHistory := [0, 1],
      frameHessians := [hostOfCandidates, frameAt 1] }

/-- The sub-ranges that `reduce` makes of `[0, n)`: steps of 50. -/
def scheduleSteps (n : Nat) : List (Nat × Nat) :=
  (List.range ((n + 49) / 50)).map fun i => (50 * i, min (50 * i + 50) n)

/-- Three candidates of frame 0. -/
def candidatesThree : List ImmaturePoint :=
  [candidateAt 0 ImmaturePointStatus.IPS_GOOD 10, candidateAt 0 ImmaturePointStatus.IPS_OOB 10,
   candidateAt 0 ImmaturePointStatus.IPS_GOOD 0]

/-- External code for the examples: as `extFail`, but the point optimisation
returns a new point for a candidate of good quality traced well, the marker -1
for another candidate of good quality, and null otherwise. -/
def extOptimize : Ext :=
  { extFail with
      optimizeImmaturePoint := fun _ p =>
        if p.quality > 5 then
          if p.lastTraceStatus == ImmaturePointStatus.IPS_GOOD then
            OptimizedPtr.point p.host (pointWith 1 [])
          else OptimizedPtr.minusOne
        else OptimizedPtr.null }

/-- A shell as `addActiveFrame` creates it as record `i` of the history
(`marginalizedAt = id = i`), then tracked against record 0. -/
def shellAdded (i : Nat) : FrameShell :=
  { shell0 with id := i, incoming_id := i, marginalizedAt := i, timestamp := i,
                trackingRef := some 0 }

/-- A system with one key frame in its window and two records in its history;
the second frame has been tracked and is about to become a key frame. -/
def systemFresh : FullSystem :=
  { systemOneFrame with allFrameHistory := [shellAdded 0, shellAdded 1] }

/-- A shell whose pose is the rotation by a quarter turn about the third axis,
at position (1, 0, 0). -/
def shellTurned : FrameShell :=
  { shell0 with camToWorld := ⟨!![0, -1, 0; 1, 0, 0; 0, 0, 1], ![1, 0, 0]⟩ }

/-- The transform without rotation that shifts by (1, 0, 0). -/
def shiftSE3 : SE3 := ⟨1, ![1, 0, 0]⟩

/-- A shell at position (1, 0, 0), tracked against record 0. -/
def shellShifted : FrameShell :=
  { shell0 with id := 1, camToWorld := shiftSE3, trackingRef := some 0 }

/-- A system that tracks, with three frames in its history: the first, at the
origin, is the reference of the coarse tracker; the second is at (1, 0, 0); the
third is the new frame. -/
def systemMoving : FullSystem :=
  { systemTracking with allFrameHistory := [shell0, shellShifted, { shell0 with id := 2 }] }

/-- As `systemMoving`, but the pose of the second frame is not valid. -/
def systemInvalidPose : FullSystem :=
  { systemTracking with
      allFrameHistory := [shell0, { shellShifted with poseValid := false }, { shell0 with id := 2 }] }

/-- The last frame of `windowFive`. -/
def latestFive : FrameHessian :=
  { frameAt 4 with
      targetPrecalc :=
        [frameAt 0, frameAt 1, frameAt 2, frameAt 3, frameAt 4].map fun t =>
          extFail.precalcSet (frameAt 4) t }

/-- A frame that hosts two candidates: one whose last trace was an outlier and
one whose `idepth_max` is not finite. -/
def hostOfOutliers : FrameHessian :=
  { frame0 with
      shell := 0, frameID := 0, idx := 0,
      immaturePoints :=
        [some (candidateAt 0 ImmaturePointStatus.IPS_OUTLIER 10),
         some { candidateAt 0 ImmaturePointStatus.IPS_GOOD 10 with idepth_max := Flt.pinf }] }

/-- A system whose window holds two frames; the first is flagged for
marginalisation and hosts an active point with a residual to the second. -/
def systemFlaggedHost : FullSystem :=
  { systemOneResidual with
      frameHessians :=
        [{ frame0 with
             shell := 0, frameID := 0, idx := 0, flaggedForMarginalization := true,
             pointHessians := [some (pointWith 1 [residualTo 7 1])] },
         { frame0 with shell := 1, frameID := 1, idx := 1 }] }

/-- The events `l` leave the mutex free, hold no wait or join under the mutex
and no scope without an access, and their accesses without the mutex are among
`allowed`. -/
def WellLocked (allowed : List SourceLine) (l : List Event) : Prop :=
  heldAfter Held.free l = Held.free ∧ blockedFrom Held.free l = [] ∧
  emptyScopesFrom Held.free l = [] ∧ ∀ e ∈ unguardedFrom Held.free l, e.line ∈ allowed

/-- External code for the examples: as `extGood`, with the rounding of the
machine. -/
def extMachine : Ext :=
  { extGood with roundF := roundFloat, roundD := roundDouble }

/-- A shell without rotation at position (1 + 2^-30, 0, 0). -/
def shellNarrow : FrameShell :=
  { shell0 with
      camToWorld := ⟨!![1, 0, 0; 0, 1, 0; 0, 0, 1], ![1 + 1 / 1073741824, 0, 0]⟩ }

/-- A result of the coarse tracker that reports success with the residual
2^130 on every level, a `double` that no `float` holds. -/
def resultHuge : TrackResult :=
  { trackingIsGood := true, lastToNew_out := 1, aff_g2l_out := ⟨0, 0⟩,
    lastResiduals := fun _ => Flt.fin 1361129467683753853853498429727072845824, lastFlowIndicators := fun _ => Flt.fin 0 }

/-- A system with a key frame at time 0 and a second record whose time stamp,
0.949999989, lies between the `float` 0.95f and 0.95. -/
def systemNearRate : FullSystem :=
  { system0 with
      initialized := true,
      allFrameHistory :=
        [shell0, { shell0 with id := 1, timestamp := 1020054721 / 1073741824 }],
      allKeyFramesHistory := [0] }

/-! ## Theorems -/

/-! ### Frame intake and tracking -/

theorem trackStep_noSuccess (ext : Ext) (aff : AffLight) (i : Nat) (h : SE3) (st : TrackLoop)
    (hfail : ∀ i g a m, (ext.trackNewestCoarse i g a m).trackingIsGood = false)
    (hst : st.haveOneGood = false) :
    (trackStep ext aff i h st).haveOneGood = false ∧
      (trackStep ext aff i h st).achievedRes = st.achievedRes := by
  simp [trackStep, newWinner, hfail, hst]

theorem trackLoop_noSuccess (ext : Ext) (cfg : Settings) (rmse : Vec5) (aff : AffLight)
    (hfail : ∀ i g a m, (ext.trackNewestCoarse i g a m).trackingIsGood = false) :
    ∀ (tries : List SE3) (i : Nat) (st : TrackLoop), st.haveOneGood = false →
      (trackLoop ext cfg rmse aff tries i st).haveOneGood = false ∧
        (trackLoop ext cfg rmse aff tries i st).achievedRes = st.achievedRes := by
  intro tries
  induction tries with
  | nil => intro i st hst; simp [trackLoop, hst]
  | cons h rest ih =>
    intro i st hst
    obtain ⟨h1, h2⟩ := trackStep_noSuccess ext aff i h st hfail hst
    obtain ⟨h3, h4⟩ := ih (i + 1) (trackStep ext aff i h st) h1
    simp only [trackLoop, h1, Bool.false_and, Bool.false_eq_true, if_false]
    exact ⟨h3, h4.trans h2⟩

theorem trackHypotheses_noSuccess (ext : Ext) (cfg : Settings) (rmse : Vec5) (aff : AffLight)
    (tries : List SE3)
    (hfail : ∀ i g a m, (ext.trackNewestCoarse i g a m).trackingIsGood = false) :
    (trackHypotheses ext cfg rmse aff tries).achievedRes = Vec5.constant Flt.nan := by
  have h := trackLoop_noSuccess ext cfg rmse aff hfail tries 0
    { achievedRes := Vec5.constant Flt.nan, haveOneGood := false, tryIterations := 0,
      flowVecs := fun _ => Flt.fin 100, aff_g2l := ⟨0, 0⟩, lastF_2_fh := 1 } rfl
  simp only [trackHypotheses, h.1, Bool.not_false, if_true]
  exact h.2

theorem trackNewCoarse_noSuccess (ext : Ext) (cfg : Settings) (s : FullSystem)
    (fh : FrameHessian) (r : Vec4 × FullSystem)
    (hfail : ∀ i g a m, (ext.trackNewestCoarse i g a m).trackingIsGood = false)
    (h : trackNewCoarse ext cfg s fh = some r) : r.1 0 = Flt.nan := by
  unfold trackNewCoarse at h
  simp only [Option.bind_eq_some, Option.map_eq_some'] at h
  obtain ⟨⟨s1, tries, aff⟩, -, lastF, -, hist, -, rfl⟩ := h
  simp [trackResult, trackHypotheses_noSuccess ext cfg _ _ _ hfail, Vec5.constant]

theorem writeShell_eq_some (hist : List FrameShell) (p : Nat) (f : FrameShell → FrameShell)
    (hp : p < hist.length) :
    writeShell hist p f = some (hist.set p (f (hist.get ⟨p, hp⟩))) := by
  simp [writeShell, List.getElem?_eq_getElem hp]

theorem writeShell_some (hist hist1 : List FrameShell) (p : Nat) (f : FrameShell → FrameShell)
    (h : writeShell hist p f = some hist1) :
    ∃ sh, hist[p]? = some sh ∧ hist1 = hist.set p (f sh) := by
  simp only [writeShell, Option.map_eq_some'] at h
  obtain ⟨sh, h1, h2⟩ := h
  exact ⟨sh, h1, h2.symm⟩

theorem writeTrackedPose_isSome (hist : List FrameShell) (p q : Nat) (st : TrackLoop)
    (hp : p < hist.length) (hq : q < hist.length) :
    ∃ hist1, writeTrackedPose hist p q st = some hist1 := by
  unfold writeTrackedPose
  rw [writeShell_eq_some hist p _ hp]
  have hp1 : p < (hist.set p ({ hist.get ⟨p, hp⟩ with
      camToTrackingRef := st.lastF_2_fh.inverse, trackingRef := some q,
      aff_g2l := st.aff_g2l })).length := by simpa using hp
  have hq1 : q < (hist.set p ({ hist.get ⟨p, hp⟩ with
      camToTrackingRef := st.lastF_2_fh.inverse, trackingRef := some q,
      aff_g2l := st.aff_g2l })).length := by simpa using hq
  simp only [Option.bind_eq_bind, Option.some_bind, List.getElem?_eq_getElem hp1,
    List.getElem?_eq_getElem hq1, writeShell_eq_some _ p _ hp1]
  exact ⟨_, rfl⟩

theorem trackNewCoarse_isSome (ext : Ext) (cfg : Settings) (s : FullSystem) (fh : FrameHessian)
    (p : Nat) (hn : 3 ≤ s.allFrameHistory.length) (href : s.coarseTracker.lastRef = some p)
    (hp : p < s.allFrameHistory.length) (hfh : fh.shell < s.allFrameHistory.length) :
    ∃ r, trackNewCoarse ext cfg s fh = some r := by
  have h2 : (s.allFrameHistory.length == 2) = false := by
    simp only [beq_eq_false_iff_ne, ne_eq]; omega
  have ha : s.allFrameHistory.length - 2 < s.allFrameHistory.length := by omega
  have hb : s.allFrameHistory.length - 3 < s.allFrameHistory.length := by omega
  have hc : 2 ≤ s.allFrameHistory.length := by omega
  have hsetup : ∃ tries aff, trackSetup ext s fh = some (s, tries, aff) := by
    unfold trackSetup
    simp only [h2, Bool.false_eq_true, if_false, href, Option.bind_eq_bind, Option.some_bind,
      hc, hn, if_true, List.getElem?_eq_getElem ha, List.getElem?_eq_getElem hb,
      List.getElem?_eq_getElem hp, Option.pure_def]
    exact ⟨_, _, rfl⟩
  obtain ⟨tries, aff, hs⟩ := hsetup
  obtain ⟨hist1, h1⟩ := writeTrackedPose_isSome s.allFrameHistory fh.shell p
    (trackHypotheses ext cfg s.lastCoarseRMSE aff tries) hfh hp
  unfold trackNewCoarse
  simp only [hs, Option.some_bind, href, h1, Option.map_some']
  exact ⟨_, rfl⟩

/-- C1: when `isLost` is set, `addActiveFrame` returns the state it was given:
`allFrameHistory` and every other member are unchanged, no frame record is
created, and the call `deliverTrackedFrame` is not reached. -/
theorem addActiveFrame_isLost_noop (ext : Ext) (cfg : Settings) (s : FullSystem)
    (image : ImageAndExposure) (id : Int) (filePrefix : String) (h : s.isLost = true) :
    addActiveFrame ext cfg s image id filePrefix = some s ∧
      addActiveFrameTrack ext cfg s image id filePrefix = some (s, none) := by
  simp [addActiveFrame, addActiveFrameTrack, h]

theorem addActiveFrame_isLost_noop_witness :
    systemLost.isLost = true ∧
      addActiveFrame extFail defaultSettings systemLost ⟨3, 1⟩ 3 "frame3" = some systemLost ∧
      addActiveFrameTrack extFail defaultSettings systemLost ⟨3, 1⟩ 3 "frame3" =
        some (systemLost, none) :=
  ⟨rfl, addActiveFrame_isLost_noop extFail defaultSettings systemLost ⟨3, 1⟩ 3 "frame3" rfl⟩

theorem pushShell_initialized (s : FullSystem) (sh : FrameShell) :
    (pushShell s sh).initialized = s.initialized := rfl

theorem pushShell_allFrameHistory (s : FullSystem) (sh : FrameShell) :
    (pushShell s sh).allFrameHistory = s.allFrameHistory ++ [sh] := rfl

theorem swapTrackingReference_allFrameHistory (s : FullSystem) :
    (swapTrackingReference s).allFrameHistory = s.allFrameHistory := by
  unfold swapTrackingReference; split <;> rfl

theorem swapTrackingReference_lastRef (s : FullSystem) :
    (swapTrackingReference s).coarseTracker.lastRef = s.coarseTracker.lastRef ∨
      (swapTrackingReference s).coarseTracker.lastRef = s.coarseTracker_forNewKF.lastRef := by
  unfold swapTrackingReference; split
  · exact Or.inr rfl
  · exact Or.inl rfl

theorem addActiveFrameTrack_tracking (ext : Ext) (cfg : Settings) (s : FullSystem)
    (image : ImageAndExposure) (id : Int) (filePrefix : String)
    (hl : s.isLost = false) (hi : s.initialized = true) :
    addActiveFrameTrack ext cfg s image id filePrefix =
      (trackNewCoarse ext cfg
        (swapTrackingReference (pushShell s (addActiveFrameShell ext s image id filePrefix)))
        (addActiveFrameHessian ext s image)).bind
        (afterTrackNewCoarse ext cfg (addActiveFrameHessian ext s image)) := by
  simp [addActiveFrameTrack, hl, pushShell_initialized, hi]

theorem addActiveFrameTrack_noSuccess (ext : Ext) (cfg : Settings) (s : FullSystem)
    (image : ImageAndExposure) (id : Int) (filePrefix : String)
    (r : FullSystem × Option (FrameHessian × Bool))
    (hfail : ∀ i g a m, (ext.trackNewestCoarse i g a m).trackingIsGood = false)
    (hl : s.isLost = false) (hi : s.initialized = true)
    (h : addActiveFrameTrack ext cfg s image id filePrefix = some r) :
    r.1.isLost = true ∧ r.2 = none := by
  rw [addActiveFrameTrack_tracking ext cfg s image id filePrefix hl hi,
    Option.bind_eq_some] at h
  obtain ⟨r0, h0, h1⟩ := h
  have hnan := trackNewCoarse_noSuccess ext cfg _ _ r0 hfail h0
  simp only [afterTrackNewCoarse, hnan, Flt.isfinite, Bool.not_false, Bool.true_or, if_true,
    Option.some.injEq] at h1
  subst h1
  exact ⟨rfl, rfl⟩

/-- C2: when no hypothesis reports success, the hypothesis loop leaves
`achievedRes[0]` at NaN, so the first component of the vector returned by
`trackNewCoarse` is not finite, and `addActiveFrame` (called on a system that is
initialised and not lost) ends with `isLost` set without reaching the call
`deliverTrackedFrame`; with two or more frames in the history and valid
tracking references `addActiveFrame` does return. -/
theorem trackNewCoarse_fails_closed (ext : Ext) (cfg : Settings)
    (hfail : ∀ i g a m, (ext.trackNewestCoarse i g a m).trackingIsGood = false) :
    (∀ rmse aff tries,
        ((trackHypotheses ext cfg rmse aff tries).achievedRes 0).isfinite = false) ∧
    (∀ s fh r, trackNewCoarse ext cfg s fh = some r → (r.1 0).isfinite = false) ∧
    (∀ s image id pre r, s.isLost = false → s.initialized = true →
        addActiveFrameTrack ext cfg s image id pre = some r →
          r.1.isLost = true ∧ r.2 = none ∧ addActiveFrame ext cfg s image id pre = some r.1) ∧
    (∀ s image id pre p q, s.isLost = false → s.initialized = true →
        2 ≤ s.allFrameHistory.length →
        s.coarseTracker.lastRef = some p → p < s.allFrameHistory.length →
        s.coarseTracker_forNewKF.lastRef = some q → q < s.allFrameHistory.length →
        ∃ s1, addActiveFrame ext cfg s image id pre = some s1 ∧ s1.isLost = true) := by
  refine ⟨?_, ?_, ?_, ?_⟩
  · intro rmse aff tries
    rw [trackHypotheses_noSuccess ext cfg rmse aff tries hfail]
    rfl
  · intro s fh r h
    rw [trackNewCoarse_noSuccess ext cfg s fh r hfail h]
    rfl
  · intro s image id pre r hl hi h
    obtain ⟨h1, h2⟩ := addActiveFrameTrack_noSuccess ext cfg s image id pre r hfail hl hi h
    refine ⟨h1, h2, ?_⟩
    simp [addActiveFrame, h, h2]
  · intro s image id pre p q hl hi hn hp hpn hq hqn
    have key : ∃ r, addActiveFrameTrack ext cfg s image id pre = some r := by
      rw [addActiveFrameTrack_tracking ext cfg s image id pre hl hi]
      have hlen : (swapTrackingReference
          (pushShell s (addActiveFrameShell ext s image id pre))).allFrameHistory.length =
          s.allFrameHistory.length + 1 := by
        simp [swapTrackingReference_allFrameHistory, pushShell_allFrameHistory]
      have href : ∃ p1, (swapTrackingReference
          (pushShell s (addActiveFrameShell ext s image id pre))).coarseTracker.lastRef =
            some p1 ∧ p1 < s.allFrameHistory.length := by
        rcases swapTrackingReference_lastRef
          (pushShell s (addActiveFrameShell ext s image id pre)) with h | h
        · exact ⟨p, h.trans hp, hpn⟩
        · exact ⟨q, h.trans hq, hqn⟩
      obtain ⟨p1, hp1, hp1n⟩ := href
      obtain ⟨r0, h0⟩ := trackNewCoarse_isSome ext cfg _ (addActiveFrameHessian ext s image) p1
        (by rw [hlen]; omega) hp1 (by rw [hlen]; omega)
        (by rw [hlen]; simp [addActiveFrameHessian])
      rw [h0]
      have hnan := trackNewCoarse_noSuccess ext cfg _ _ r0 hfail h0
      simp [afterTrackNewCoarse, hnan, Flt.isfinite]
    obtain ⟨r, hr⟩ := key
    obtain ⟨h1, h2⟩ := addActiveFrameTrack_noSuccess ext cfg s image id pre r hfail hl hi hr
    exact ⟨r.1, by simp [addActiveFrame, hr, h2], h1⟩

theorem trackNewCoarse_fails_closed_witness :
    (∀ i g a m, (extFail.trackNewestCoarse i g a m).trackingIsGood = false) ∧
      ∃ s1, addActiveFrame extFail defaultSettings systemTracking ⟨3, 1⟩ 3 "frame3" = some s1 ∧
        s1.isLost = true :=
  ⟨fun _ _ _ _ => rfl,
    (trackNewCoarse_fails_closed extFail defaultSettings (fun _ _ _ _ => rfl)).2.2.2
      systemTracking ⟨3, 1⟩ 3 "frame3" 0 0 rfl rfl (by decide) rfl (by decide) rfl (by decide)⟩

/-! ### The pose invariant -/

theorem SE3.one_comp (x : SE3) : (1 : SE3) * x = x := by
  show SE3.comp SE3.identity x = x
  cases x
  simp [SE3.comp, SE3.identity]

theorem setPoseFromTrackingRef_poseComposed (hist hist1 : List FrameShell) (p : Nat)
    (h : setPoseFromTrackingRef hist p = some hist1) (href : hasTrackingRef hist1 p) :
    poseComposed hist1 p := by
  unfold setPoseFromTrackingRef at h
  simp only [Option.bind_eq_bind, Option.bind_eq_some] at h
  obtain ⟨sh, hsh, r, hr, ref, hrefq, hw⟩ := h
  obtain ⟨sh0, hsh0, rfl⟩ := writeShell_some _ _ _ _ hw
  have hp : p < hist.length := (List.getElem?_eq_some.mp hsh).1
  obtain ⟨sh1, r1, h1, h2, h3, -⟩ := href
  rw [List.getElem?_set_self hp] at h1
  cases h1
  rw [hsh] at hsh0
  cases hsh0
  simp only [hr, Option.some.injEq] at h2
  subst h2
  refine ⟨_, r, ref, List.getElem?_set_self hp, hr, ?_, rfl⟩
  rw [List.getElem?_set_ne (Ne.symm h3)]
  exact hrefq

theorem writeShell_spec (hist hist1 : List FrameShell) (p : Nat) (f : FrameShell → FrameShell)
    (h : writeShell hist p f = some hist1) :
    ∃ sh, hist[p]? = some sh ∧ hist1[p]? = some (f sh) ∧
      ∀ q, q ≠ p → hist1[q]? = hist[q]? := by
  obtain ⟨sh, h1, rfl⟩ := writeShell_some _ _ _ _ h
  have hp : p < hist.length := (List.getElem?_eq_some.mp h1).1
  exact ⟨sh, h1, List.getElem?_set_self hp, fun q hq => List.getElem?_set_ne (Ne.symm hq)⟩

theorem writeTrackedPose_poseComposed (hist hist1 : List FrameShell) (p q : Nat) (st : TrackLoop)
    (h : writeTrackedPose hist p q st = some hist1) (href : hasTrackingRef hist1 p) :
    poseComposed hist1 p := by
  unfold writeTrackedPose at h
  simp only [Option.bind_eq_bind, Option.bind_eq_some] at h
  obtain ⟨h1, hw1, sh, hsh, ref, hrefq, hw2⟩ := h
  obtain ⟨sh0, -, hb, -⟩ := writeShell_spec _ _ _ _ hw1
  obtain ⟨sh2, hc, hd, he⟩ := writeShell_spec _ _ _ _ hw2
  rw [hsh] at hb hc
  cases hb
  cases hc
  obtain ⟨sh1, r1, e1, e2, e3, -⟩ := href
  rw [hd] at e1
  cases e1
  simp only [Option.some.injEq] at e2
  subst e2
  exact ⟨_, q, ref, hd, rfl, by rw [he q e3]; exact hrefq, rfl⟩

theorem trackNewCoarse_poseComposed (ext : Ext) (cfg : Settings) (s : FullSystem)
    (fh : FrameHessian) (r : Vec4 × FullSystem) (h : trackNewCoarse ext cfg s fh = some r)
    (href : hasTrackingRef r.2.allFrameHistory fh.shell) :
    poseComposed r.2.allFrameHistory fh.shell := by
  unfold trackNewCoarse at h
  simp only [Option.bind_eq_some, Option.map_eq_some'] at h
  obtain ⟨⟨s1, tries, aff⟩, -, lastF, -, hist, hw, rfl⟩ := h
  exact writeTrackedPose_poseComposed _ _ _ _ _ hw href

theorem makeNonKeyFrame_poseComposed (ext : Ext) (s s1 : FullSystem) (fh : FrameHessian)
    (h : makeNonKeyFrame ext s fh = some s1) (href : hasTrackingRef s1.allFrameHistory fh.shell) :
    poseComposed s1.allFrameHistory fh.shell := by
  unfold makeNonKeyFrame at h
  simp only [Option.bind_eq_some, Option.map_eq_some'] at h
  obtain ⟨hist, hw, w, -, rfl⟩ := h
  exact setPoseFromTrackingRef_poseComposed _ _ _ hw href

theorem makeKeyFrame_setPose (ext : Ext) (cfg : Settings) (s s1 : FullSystem) (fh : FrameHessian)
    (h : makeKeyFrame ext cfg s fh = some s1) :
    ∃ hist, setPoseFromTrackingRef s.allFrameHistory fh.shell = some hist := by
  unfold makeKeyFrame at h
  simp only [Option.bind_eq_some] at h
  obtain ⟨hist, hw, -⟩ := h
  exact ⟨hist, hw⟩

theorem initializeFromInitializerCNN_poseComposed (ext : Ext) (s s1 : FullSystem)
    (newFrame : FrameHessian) (h : initializeFromInitializerCNN ext s newFrame = some s1)
    (href : hasTrackingRef s1.allFrameHistory newFrame.shell) :
    poseComposed s1.allFrameHistory newFrame.shell := by
  unfold initializeFromInitializerCNN at h
  simp only [Option.bind_eq_bind, Option.bind_eq_some, Option.pure_def, Option.some.injEq] at h
  obtain ⟨ff, hff, h1, hw1, h2, hw2, h3, hw3, rfl⟩ := h
  obtain ⟨a1, -, hb1, hc1⟩ := writeShell_spec _ _ _ _ hw1
  obtain ⟨a2, -, hb2, hc2⟩ := writeShell_spec _ _ _ _ hw2
  obtain ⟨a3, ha3, hb3, hc3⟩ := writeShell_spec _ _ _ _ hw3
  obtain ⟨sh, r, e1, e2, e3, -⟩ := href
  simp only at e1
  rw [hb3] at e1
  cases e1
  simp only [Option.some.injEq] at e2
  subst e2
  rw [hb2] at ha3
  cases ha3
  have href1 := hb1
  rw [← hc2 _ e3, ← hc3 _ e3] at href1
  exact ⟨_, ff.shell, _, hb3, rfl, href1, (SE3.one_comp _).symm⟩

/-- C5: right after `trackNewCoarse`, `makeKeyFrame`, `makeNonKeyFrame` or
`initializeFromInitializerCNN` has written the world pose of a frame record
that has a tracking reference (a pointer to another record of the history),
the record satisfies `camToWorld = trackingRef->camToWorld * camToTrackingRef`.
For `makeKeyFrame` the write is its first block, `setPoseFromTrackingRef`. -/
theorem camToWorld_composed_after_write (ext : Ext) (cfg : Settings) :
    (∀ s fh r, trackNewCoarse ext cfg s fh = some r →
        hasTrackingRef r.2.allFrameHistory fh.shell →
        poseComposed r.2.allFrameHistory fh.shell) ∧
    (∀ s fh s1, makeKeyFrame ext cfg s fh = some s1 →
        ∃ hist, setPoseFromTrackingRef s.allFrameHistory fh.shell = some hist ∧
          (hasTrackingRef hist fh.shell → poseComposed hist fh.shell)) ∧
    (∀ s fh s1, makeNonKeyFrame ext s fh = some s1 →
        hasTrackingRef s1.allFrameHistory fh.shell →
        poseComposed s1.allFrameHistory fh.shell) ∧
    (∀ s newFrame s1, initializeFromInitializerCNN ext s newFrame = some s1 →
        hasTrackingRef s1.allFrameHistory newFrame.shell →
        poseComposed s1.allFrameHistory newFrame.shell) := by
  refine ⟨?_, ?_, ?_, ?_⟩
  · intro s fh r h href
    exact trackNewCoarse_poseComposed ext cfg s fh r h href
  · intro s fh s1 h
    obtain ⟨hist, hw⟩ := makeKeyFrame_setPose ext cfg s s1 fh h
    exact ⟨hist, hw, setPoseFromTrackingRef_poseComposed _ _ _ hw⟩
  · intro s fh s1 h href
    exact makeNonKeyFrame_poseComposed ext s s1 fh h href
  · intro s newFrame s1 h href
    exact initializeFromInitializerCNN_poseComposed ext s s1 newFrame h href

theorem camToWorld_composed_after_write_witness :
    ∃ s1, makeNonKeyFrame extFail systemTracking { frame0 with shell := 2 } = some s1 ∧
      hasTrackingRef s1.allFrameHistory 2 ∧ poseComposed s1.allFrameHistory 2 :=
  ⟨_, rfl, ⟨_, 0, rfl, rfl, by decide, by decide⟩,
    (camToWorld_composed_after_write extFail defaultSettings).2.2.1 systemTracking
      { frame0 with shell := 2 } _ rfl ⟨_, 0, rfl, rfl, by decide, by decide⟩⟩

/-! ### Swap-with-last-and-pop and the compaction loop -/

theorem swapPop_concat {α : Type} (init : List α) (l : α) (i : Nat) :
    swapPop (init ++ [l]) i = if i < init.length then init.set i l else init := by
  have hl : (init ++ [l]).getLast? = some l := by simp
  simp only [swapPop, hl]
  by_cases h : i < init.length
  · rw [if_pos h, List.set_append_left i l h, List.dropLast_concat]
  · rw [if_neg h, List.set_append_right _ _ (by omega)]
    cases hi : i - init.length with
    | zero => simp
    | succ n => simp

theorem set_perm_cons_eraseIdx {α : Type} (x : α) :
    ∀ (v : List α) (i : Nat), i < v.length → (v.set i x).Perm (x :: v.eraseIdx i) := by
  intro v
  induction v with
  | nil => intro i h; simp at h
  | cons a t ih =>
    intro i h
    cases i with
    | zero => simp
    | succ j =>
      simp only [List.set_cons_succ, List.eraseIdx_cons_succ]
      have := ih j (by simpa using h)
      exact (List.Perm.cons a this).trans (List.Perm.swap x a _)

theorem swapPop_perm {α : Type} (v : List α) (i : Nat) (h : i < v.length) :
    (swapPop v i).Perm (v.eraseIdx i) := by
  rcases List.eq_nil_or_concat v with rfl | ⟨init, l, rfl⟩
  · simp at h
  · simp only [List.concat_eq_append] at h ⊢
    rw [swapPop_concat]
    by_cases hi : i < init.length
    · rw [if_pos hi, List.eraseIdx_append_of_lt_length hi]
      exact (set_perm_cons_eraseIdx l init i hi).trans (List.perm_append_singleton _ _).symm
    · have : i = init.length := by simp at h; omega
      subst this
      rw [if_neg hi, List.eraseIdx_append_of_length_le (le_refl _)]
      simp

theorem swapPop_length {α : Type} (v : List α) (i : Nat) (h : i < v.length) :
    (swapPop v i).length + 1 = v.length := by
  have := (swapPop_perm v i h).length_eq
  rw [this, List.length_eraseIdx]
  simp [h]; omega

theorem swapPop_take {α : Type} (v : List α) (i : Nat) (h : i < v.length) :
    (swapPop v i).take i = v.take i := by
  rcases List.eq_nil_or_concat v with rfl | ⟨init, l, rfl⟩
  · simp at h
  · simp only [List.concat_eq_append] at h ⊢
    rw [swapPop_concat]
    by_cases hi : i < init.length
    · rw [if_pos hi, List.take_append_of_le_length (by omega)]
      apply List.ext_getElem?
      intro n
      by_cases hn : n < i
      · simp [List.getElem?_take, hn, List.getElem?_set_ne (Nat.ne_of_gt hn)]
      · simp [List.getElem?_take, hn]
    · have : i = init.length := by simp at h; omega
      subst this
      simp

theorem perm_cons_eraseIdx {α : Type} (v : List α) (i : Nat) (x : α) (h : v[i]? = some x) :
    v.Perm (x :: v.eraseIdx i) := by
  obtain ⟨hi, hx⟩ := List.getElem?_eq_some.mp h
  have := set_perm_cons_eraseIdx x v i hi
  have hs : v.set i x = v := by
    apply List.ext_getElem?
    intro n
    by_cases hn : i = n
    · subst hn; rw [List.getElem?_set_self hi, h]
    · rw [List.getElem?_set_ne hn]
  rwa [hs] at this

theorem compactLoop_done {α : Type} (v : List (Option α)) (i : Nat) (hlen : v.length ≤ i)
    (hpre : ∀ e ∈ v.take i, e ≠ none) :
    (∀ e ∈ v, e ≠ none) ∧ v.Perm (v.filter fun e => e.isSome) := by
  rw [List.take_of_length_le hlen] at hpre
  refine ⟨hpre, ?_⟩
  rw [List.filter_eq_self.mpr]
  intro e he
  cases e with
  | none => exact absurd rfl (hpre _ he)
  | some x => rfl

theorem compactLoop_spec {α : Type} :
    ∀ (fuel : Nat) (v : List (Option α)) (i : Nat), v.length - i ≤ fuel →
      (∀ e ∈ v.take i, e ≠ none) →
      (∀ e ∈ compactLoop fuel v i, e ≠ none) ∧
        (compactLoop fuel v i).Perm (v.filter fun e => e.isSome) := by
  intro fuel
  induction fuel with
  | zero =>
    intro v i hf hpre
    exact compactLoop_done v i (by omega) hpre
  | succ n ih =>
    intro v i hf hpre
    unfold compactLoop
    cases hvi : v[i]? with
    | none =>
      exact compactLoop_done v i (List.getElem?_eq_none_iff.mp hvi) hpre
    | some e =>
      have hi : i < v.length := (List.getElem?_eq_some.mp hvi).1
      cases e with
      | some x =>
        simp only
        apply ih v (i + 1) (by omega)
        intro e he
        rw [List.take_succ, hvi] at he
        simp only [Option.toList_some, List.mem_append, List.mem_singleton] at he
        rcases he with he | he
        · exact hpre e he
        · rw [he]; simp
      | none =>
        simp only
        have hl := swapPop_length v i hi
        have h1 := ih (swapPop v i) i (by omega) (by rw [swapPop_take v i hi]; exact hpre)
        refine ⟨h1.1, h1.2.trans ?_⟩
        have hp1 := (swapPop_perm v i hi).filter (fun e => e.isSome)
        have hp2 := (perm_cons_eraseIdx v i none hvi).filter (fun e => e.isSome)
        simp only [List.filter_cons, Option.isSome_none, Bool.false_eq_true, if_false] at hp2
        exact hp1.trans hp2.symm

theorem compact_spec {α : Type} (v : List (Option α)) :
    (∀ e ∈ compact v, e ≠ none) ∧ (compact v).Perm (v.filter fun e => e.isSome) :=
  compactLoop_spec v.length v 0 (by omega) (by simp)


/-! ### `flagPointsForRemoval` -/

theorem classifyPoint_none (ext : Ext) (cfg : Settings) (toKeep toMarg : List Nat) (hf : Bool)
    (ph : PointHessian) (h : classifyPoint ext cfg toKeep toMarg hf ph = none) :
    ph.residuals ≠ [] ∧ Flt.lt ph.idepth_scaled (Flt.fin 0) = false := by
  unfold classifyPoint at h
  split at h
  · cases h
  · rename_i hc
    simp only [Bool.or_eq_true, beq_iff_eq, not_or, Bool.not_eq_true] at hc
    refine ⟨?_, hc.1⟩
    intro he
    exact hc.2 (by rw [he]; rfl)

theorem classifyPoint_drop (ext : Ext) (cfg : Settings) (toKeep toMarg : List Nat) (hf : Bool)
    (ph : PointHessian) (h : Flt.lt ph.idepth_scaled (Flt.fin 0) = true ∨ ph.residuals = []) :
    classifyPoint ext cfg toKeep toMarg hf ph =
      some (false, { ph with stateFlag := EFPointStatus.PS_DROP }) := by
  unfold classifyPoint
  rw [if_pos]
  simp only [Bool.or_eq_true, beq_iff_eq]
  rcases h with h | h
  · exact Or.inl h
  · exact Or.inr (by rw [h]; rfl)

theorem flagPointsLoop_entries (ext : Ext) (cfg : Settings) (toKeep toMarg : List Nat) (hf : Bool) :
    ∀ (l : List (Option PointHessian)) (marg out : List PointHessian),
      ∀ e ∈ (flagPointsLoop ext cfg toKeep toMarg hf l marg out).1,
        e = none ∨ ∃ ph, e = some ph ∧ some ph ∈ l ∧
          classifyPoint ext cfg toKeep toMarg hf ph = none := by
  intro l
  induction l with
  | nil => intro marg out e he; simp [flagPointsLoop] at he
  | cons a rest ih =>
    intro marg out e he
    cases a with
    | none =>
      simp only [flagPointsLoop, List.mem_cons] at he
      rcases he with he | he
      · exact Or.inl he
      · rcases ih marg out e he with h | ⟨ph, h1, h2, h3⟩
        · exact Or.inl h
        · exact Or.inr ⟨ph, h1, List.mem_cons_of_mem _ h2, h3⟩
    | some ph0 =>
      unfold flagPointsLoop at he
      split at he
      · rename_i hc
        simp only [List.mem_cons] at he
        rcases he with he | he
        · exact Or.inr ⟨ph0, he, List.mem_cons_self _ _, hc⟩
        · rcases ih marg out e he with h | ⟨ph, h1, h2, h3⟩
          · exact Or.inl h
          · exact Or.inr ⟨ph, h1, List.mem_cons_of_mem _ h2, h3⟩
      · simp only [List.mem_cons] at he
        rcases he with he | he
        · exact Or.inl he
        · rcases ih _ out e he with h | ⟨ph, h1, h2, h3⟩
          · exact Or.inl h
          · exact Or.inr ⟨ph, h1, List.mem_cons_of_mem _ h2, h3⟩
      · simp only [List.mem_cons] at he
        rcases he with he | he
        · exact Or.inl he
        · rcases ih marg _ e he with h | ⟨ph, h1, h2, h3⟩
          · exact Or.inl h
          · exact Or.inr ⟨ph, h1, List.mem_cons_of_mem _ h2, h3⟩

theorem flagPointsLoop_out_mono (ext : Ext) (cfg : Settings) (toKeep toMarg : List Nat)
    (hf : Bool) :
    ∀ (l : List (Option PointHessian)) (marg out : List PointHessian),
      ∀ x ∈ out, x ∈ (flagPointsLoop ext cfg toKeep toMarg hf l marg out).2.2 := by
  intro l
  induction l with
  | nil => intro marg out x hx; simpa [flagPointsLoop] using hx
  | cons a rest ih =>
    intro marg out x hx
    cases a with
    | none => simpa [flagPointsLoop] using ih marg out x hx
    | some ph0 =>
      unfold flagPointsLoop
      split
      · exact ih marg out x hx
      · exact ih _ out x hx
      · exact ih marg _ x (List.mem_append_left _ hx)

theorem flagPointsLoop_dropped (ext : Ext) (cfg : Settings) (toKeep toMarg : List Nat)
    (hf : Bool) :
    ∀ (l : List (Option PointHessian)) (marg out : List PointHessian) (p : PointHessian),
      some p ∈ l → (Flt.lt p.idepth_scaled (Flt.fin 0) = true ∨ p.residuals = []) →
      { p with stateFlag := EFPointStatus.PS_DROP } ∈
        (flagPointsLoop ext cfg toKeep toMarg hf l marg out).2.2 := by
  intro l
  induction l with
  | nil => intro marg out p hp; simp at hp
  | cons a rest ih =>
    intro marg out p hp hbad
    rcases List.mem_cons.mp hp with h | h
    · subst h
      unfold flagPointsLoop
      rw [classifyPoint_drop ext cfg toKeep toMarg hf p hbad]
      exact flagPointsLoop_out_mono ext cfg toKeep toMarg hf rest marg _ _ (by simp)
    · cases a with
      | none => simpa [flagPointsLoop] using ih marg out p h hbad
      | some ph0 =>
        unfold flagPointsLoop
        split
        · exact ih marg out p h hbad
        · exact ih _ out p h hbad
        · exact ih marg _ p h hbad

/-- C6 (amended): after `flagPointsForRemoval` every entry of the active list
of every window frame is a point with at least one residual and a scaled
inverse depth that is not negative (the test `idepth_scaled < 0` is false for
it: the depth is non-negative or NaN), and every point that had no residual or
a negative scaled depth is, with status `PS_DROP`, in `pointHessiansOut` of its
host and no longer in the active list. -/
theorem flagPointsForRemoval_active_points (ext : Ext) (cfg : Settings)
    (w : List FrameHessian) :
    (∀ f1 ∈ flagPointsForRemoval ext cfg w, ∀ e ∈ f1.pointHessians,
        ∃ p, e = some p ∧ p.residuals ≠ [] ∧ Flt.lt p.idepth_scaled (Flt.fin 0) = false) ∧
    (∀ f ∈ w, ∀ p, some p ∈ f.pointHessians →
        (Flt.lt p.idepth_scaled (Flt.fin 0) = true ∨ p.residuals = []) →
        ∃ f1 ∈ flagPointsForRemoval ext cfg w, f1.shell = f.shell ∧
          { p with stateFlag := EFPointStatus.PS_DROP } ∈ f1.pointHessiansOut ∧
          some p ∉ f1.pointHessians) := by
  have key : ∀ f : FrameHessian, ∀ e ∈
      (flagPointsHost ext cfg (fhsToKeepPoints w) (fhsToMargPoints w) f).pointHessians,
      ∃ p, e = some p ∧ p.residuals ≠ [] ∧ Flt.lt p.idepth_scaled (Flt.fin 0) = false := by
    intro f e he
    simp only [flagPointsHost] at he
    obtain ⟨hnn, hperm⟩ := compact_spec
      (flagPointsLoop ext cfg (fhsToKeepPoints w) (fhsToMargPoints w)
        f.flaggedForMarginalization f.pointHessians f.pointHessiansMarginalized
        f.pointHessiansOut).1
    have hmem := (List.mem_filter.mp (hperm.mem_iff.mp he)).1
    rcases flagPointsLoop_entries ext cfg _ _ _ _ _ _ e hmem with h | ⟨ph, h1, -, h3⟩
    · exact absurd h (hnn e he)
    · exact ⟨ph, h1, classifyPoint_none ext cfg _ _ _ ph h3⟩
  refine ⟨?_, ?_⟩
  · intro f1 hf1 e he
    simp only [flagPointsForRemoval, List.mem_map] at hf1
    obtain ⟨f, -, rfl⟩ := hf1
    exact key f e he
  · intro f hf p hp hbad
    refine ⟨flagPointsHost ext cfg (fhsToKeepPoints w) (fhsToMargPoints w) f,
      List.mem_map_of_mem _ hf, rfl, ?_, ?_⟩
    · exact flagPointsLoop_dropped ext cfg _ _ _ _ _ _ p hp hbad
    · intro hin
      obtain ⟨q, hq, h1, h2⟩ := key f _ hin
      cases hq
      rcases hbad with h | h
      · rw [h2] at h
        cases h
      · exact h1 h

theorem flagPointsForRemoval_active_points_witness :
    (flagPointsForRemoval extFail defaultSettings windowPoints).map
        (fun f => (f.pointHessians, f.pointHessiansOut)) =
      [([some (pointWith 1 [residualTo 2 1])],
        [{ pointWith (-1) [residualTo 1 1] with stateFlag := EFPointStatus.PS_DROP },
         { pointWith 1 [] with stateFlag := EFPointStatus.PS_DROP }]), ([], [])] ∧
    ∃ f1 ∈ flagPointsForRemoval extFail defaultSettings windowPoints, f1.shell = 0 ∧
      { pointWith (-1) [residualTo 1 1] with stateFlag := EFPointStatus.PS_DROP } ∈
        f1.pointHessiansOut ∧
      some (pointWith (-1) [residualTo 1 1]) ∉ f1.pointHessians :=
  ⟨by decide,
    (flagPointsForRemoval_active_points extFail defaultSettings windowPoints).2
      { frame0 with
          shell := 0, frameID := 0, idx := 0,
          pointHessians := [some (pointWith (-1) [residualTo 1 1]), some (pointWith 1 []),
                            some (pointWith 1 [residualTo 2 1])] }
      (by simp [windowPoints]) (pointWith (-1) [residualTo 1 1]) (by simp)
      (Or.inl (by decide))⟩

/-- C6 (counterexample): in `windowNaNDepth` the first frame hosts a point with
one residual whose scaled inverse depth is NaN. The test `idepth_scaled < 0` is
false for it, nothing else removes it, and after `flagPointsForRemoval` the
point is still in the active list, although its depth is not non-negative. -/
theorem flagPointsForRemoval_keeps_nan_depth :
    (flagPointsForRemoval extFail defaultSettings windowNaNDepth).map
        (fun f => f.pointHessians) = [[some pointNaNDepth], []] ∧
      pointNaNDepth.residuals ≠ [] ∧
      Flt.ge pointNaNDepth.idepth_scaled (Flt.fin 0) = false := by
  refine ⟨by decide, by decide, rfl⟩

/-! ### `marginalizeFrame` -/

theorem findTarget_some (frame : Nat) :
    ∀ (rs : List PointFrameResidual) (i j : Nat) (r : PointFrameResidual),
      findTarget frame rs i = some (j, r) →
      ∃ k, j = i + k ∧ rs[k]? = some r ∧ r.target = frame := by
  intro rs
  induction rs with
  | nil => intro i j r h; simp [findTarget] at h
  | cons a rest ih =>
    intro i j r h
    unfold findTarget at h
    split at h
    · rename_i ht
      simp only [Option.some.injEq, Prod.mk.injEq] at h
      obtain ⟨rfl, rfl⟩ := h
      exact ⟨0, rfl, by simp, by simpa using ht⟩
    · obtain ⟨k, hk, h1, h2⟩ := ih (i + 1) j r h
      exact ⟨k + 1, by omega, by simpa using h1, h2⟩

theorem findTarget_none (frame : Nat) :
    ∀ (rs : List PointFrameResidual) (i : Nat), findTarget frame rs i = none →
      ∀ r ∈ rs, r.target ≠ frame := by
  intro rs
  induction rs with
  | nil => intro i _ r hr; simp at hr
  | cons a rest ih =>
    intro i h r hr
    unfold findTarget at h
    split at h
    · cases h
    · rename_i ht
      rcases List.mem_cons.mp hr with rfl | hr
      · simpa using ht
      · exact ih (i + 1) h r hr

theorem dropObservation_spec (frame : Nat) (ph : PointHessian) :
    ((∀ r ∈ ph.residuals, r.target ≠ frame) ∧ dropObservation frame ph = ph) ∨
    ∃ k r, ph.residuals[k]? = some r ∧ r.target = frame ∧
      (dropObservation frame ph).residuals.Perm (ph.residuals.eraseIdx k) ∧
      ph.residuals.Perm (r :: ph.residuals.eraseIdx k) ∧
      (¬ (ph.lastResiduals0.1 = some r.addr ∧ ph.lastResiduals1.1 = some r.addr) →
        (dropObservation frame ph).lastResiduals0.1 ≠ some r.addr ∧
        (dropObservation frame ph).lastResiduals1.1 ≠ some r.addr) := by
  unfold dropObservation
  cases hft : findTarget frame ph.residuals 0 with
  | none => exact Or.inl ⟨findTarget_none frame _ 0 hft, rfl⟩
  | some x =>
    obtain ⟨j, r⟩ := x
    obtain ⟨k, hk, h1, h2⟩ := findTarget_some frame _ 0 j r hft
    have hj : j = k := by omega
    subst hj
    have hlt : j < ph.residuals.length := (List.getElem?_eq_some.mp h1).1
    refine Or.inr ⟨j, r, h1, h2, ?_, perm_cons_eraseIdx _ _ _ h1, ?_⟩
    · exact swapPop_perm _ _ hlt
    · intro hne
      simp only
      by_cases h0 : ph.lastResiduals0.1 = some r.addr
      · have h1n : ph.lastResiduals1.1 ≠ some r.addr := fun h => hne ⟨h0, h⟩
        simp [h0, h1n]
      · by_cases h1e : ph.lastResiduals1.1 = some r.addr
        · simp [h0, h1e]
        · simp [h0, h1e]

theorem dropObservation_keeps (frame : Nat) (ph : PointHessian) (r : PointFrameResidual)
    (hr : r ∈ ph.residuals) (ht : r.target ≠ frame) :
    r ∈ (dropObservation frame ph).residuals := by
  rcases dropObservation_spec frame ph with ⟨-, h⟩ | ⟨k, r0, -, h2, h3, h4, -⟩
  · rw [h]; exact hr
  · have := h4.mem_iff.mp hr
    rcases List.mem_cons.mp this with h | h
    · subst h; exact absurd h2 ht
    · exact h3.mem_iff.mpr h

theorem dropObservation_noTarget (frame : Nat) (ph : PointHessian)
    (hnd : (ph.residuals.map fun r => r.target).Nodup) :
    ∀ r ∈ (dropObservation frame ph).residuals, r.target ≠ frame := by
  rcases dropObservation_spec frame ph with ⟨h1, h⟩ | ⟨k, r0, -, h2, h3, h4, -⟩
  · rw [h]; exact h1
  · intro r hr
    have hr1 := h3.mem_iff.mp hr
    have hnd1 := (h4.map (fun r => r.target)).nodup_iff.mp hnd
    simp only [List.map_cons, List.nodup_cons, List.mem_map, not_exists, not_and] at hnd1
    intro h
    exact hnd1.1 r hr1 (by rw [h, h2])

theorem setPrecalcValues_map {β : Type} (ext : Ext) (g : FrameHessian → β)
    (hg : ∀ (f : FrameHessian) (tp : List FrameFramePrecalc),
      g { f with targetPrecalc := tp } = g f) (w : List FrameHessian) :
    (setPrecalcValues ext w).map g = w.map g := by
  simp only [setPrecalcValues, List.map_map]
  apply List.map_congr_left
  intro f _
  exact hg f _

theorem renumberFrom_map {β : Type} (g : FrameHessian → β)
    (hg : ∀ (f : FrameHessian) (i : Int), g { f with idx := i } = g f) :
    ∀ (w : List FrameHessian) (i : Nat), (renumberFrom i w).map g = w.map g := by
  intro w
  induction w with
  | nil => intro i; rfl
  | cons a rest ih =>
    intro i
    simp only [renumberFrom, List.map_cons, ih, hg]

theorem marginalizeFrame_some (ext : Ext) (s s1 : FullSystem) (frame : Nat)
    (h : marginalizeFrame ext s frame = some s1) :
    s1.frameHessians = setPrecalcValues ext
      (renumberFrom 0 (deleteOutOrder (s.frameHessians.map (dropObservations frame)) frame)) := by
  unfold marginalizeFrame at h
  simp only [Option.bind_eq_bind, Option.bind_eq_some] at h
  obtain ⟨fr, -, h⟩ := h
  split at h
  · cases h
  · simp only [Option.bind_eq_bind, Option.bind_eq_some, Option.pure_def, Option.some.injEq] at h
    obtain ⟨latest, -, lsh, -, hist, -, rfl⟩ := h
    rfl

theorem pointsNonNull_of_no_null (frame : Nat) (w : List FrameHessian)
    (hnull : ∀ f ∈ w, none ∉ f.pointHessians) : pointsNonNull frame w = true := by
  unfold pointsNonNull
  rw [List.all_eq_true]
  intro f hf
  rw [Bool.or_eq_true]
  right
  rw [List.all_eq_true]
  intro e he
  cases e with
  | none => exact absurd he (hnull f hf)
  | some p => rfl

theorem marginalizeFrame_isSome (ext : Ext) (s : FullSystem) (frame : Nat)
    (hvalid : ∀ f ∈ s.frameHessians, f.shell < s.allFrameHistory.length)
    (hin : ∃ f ∈ s.frameHessians, f.shell = frame)
    (hempty : ∀ f ∈ s.frameHessians, f.shell = frame → f.pointHessians = [])
    (hnull : ∀ f ∈ s.frameHessians, none ∉ f.pointHessians) :
    ∃ s1, marginalizeFrame ext s frame = some s1 := by
  obtain ⟨f, hf, hfs⟩ := hin
  have h1 : ∃ fr, lookupFrame s.frameHessians frame = some fr := by
    unfold lookupFrame
    cases hfind : s.frameHessians.find? fun f => f.shell == frame with
    | some fr => exact ⟨fr, rfl⟩
    | none =>
      rw [List.find?_eq_none] at hfind
      exact absurd (by simpa using hfs) (hfind f hf)
  obtain ⟨fr, hfr⟩ := h1
  have hfrmem : fr ∈ s.frameHessians := List.mem_of_find?_eq_some hfr
  have hfrshell : fr.shell = frame := by
    have := List.find?_some hfr
    simpa using this
  have hguard : (fr.pointHessians.length != 0 || !pointsNonNull frame s.frameHessians) = false := by
    rw [hempty fr hfrmem hfrshell, pointsNonNull_of_no_null frame _ hnull]
    rfl
  have hne : s.frameHessians ≠ [] := List.ne_nil_of_mem hf
  have h2 : s.frameHessians.getLast? = some (s.frameHessians.getLast hne) :=
    List.getLast?_eq_getLast _ hne
  have h3 := hvalid _ (List.getLast_mem hne)
  have h4 : frame < s.allFrameHistory.length := hfs ▸ hvalid f hf
  unfold marginalizeFrame
  simp only [hfr, hguard, h2, Option.bind_eq_bind, Option.some_bind,
    List.getElem?_eq_getElem h3, writeShell_eq_some _ frame _ h4, Option.pure_def]
  exact ⟨_, rfl⟩

theorem marginalizeFrame_core (ext : Ext) (s s1 : FullSystem) (frame : Nat)
    (h : marginalizeFrame ext s frame = some s1) :
    s1.frameHessians.map frameCore =
      (deleteOutOrder (s.frameHessians.map (dropObservations frame)) frame).map frameCore := by
  rw [marginalizeFrame_some ext s s1 frame h,
    setPrecalcValues_map ext frameCore (fun _ _ => rfl),
    renumberFrom_map frameCore (fun _ _ => rfl)]

theorem marginalizeFrame_mem (ext : Ext) (s s1 : FullSystem) (frame : Nat)
    (h : marginalizeFrame ext s frame = some s1) (f1 : FrameHessian)
    (hf1 : f1 ∈ s1.frameHessians) :
    ∃ f ∈ s.frameHessians, f1.shell = f.shell ∧
      f1.pointHessians = (dropObservations frame f).pointHessians ∧
      (dropObservations frame f) ∈
        deleteOutOrder (s.frameHessians.map (dropObservations frame)) frame := by
  have hc := marginalizeFrame_core ext s s1 frame h
  have hm : frameCore f1 ∈ s1.frameHessians.map frameCore := List.mem_map_of_mem _ hf1
  rw [hc, List.mem_map] at hm
  obtain ⟨f2, hf2, heq⟩ := hm
  have hf2w := List.mem_of_mem_eraseP hf2
  rw [List.mem_map] at hf2w
  obtain ⟨f, hf, rfl⟩ := hf2w
  simp only [frameCore, Prod.mk.injEq] at heq
  refine ⟨f, hf, ?_, heq.2.2.symm, hf2⟩
  rw [← heq.1]
  unfold dropObservations
  split <;> rfl

theorem mem_dropObservations (frame : Nat) (f : FrameHessian) (p1 : PointHessian)
    (h : some p1 ∈ (dropObservations frame f).pointHessians) :
    (some p1 ∈ f.pointHessians ∧ f.shell = frame) ∨
      (f.shell ≠ frame ∧ ∃ p, some p ∈ f.pointHessians ∧ p1 = dropObservation frame p) := by
  unfold dropObservations at h
  split at h
  · rename_i hs
    exact Or.inl ⟨h, by simpa using hs⟩
  · rename_i hs
    simp only [List.mem_map] at h
    obtain ⟨e, he, hmap⟩ := h
    cases e with
    | none => cases hmap
    | some p =>
      simp only [Option.map_some', Option.some.injEq] at hmap
      exact Or.inr ⟨by simpa using hs, p, he, hmap.symm⟩

/-- C7 (amended): in a well-formed window (every frame has its shell in the
history, `frame` is in the window and has no active point, no active list holds
a null entry), when every active point has at least one residual whose target
is not the frame being marginalised, `marginalizeFrame(frame)` returns and
every point in the active list of a remaining window frame still has at least
one residual. -/
theorem marginalizeFrame_keeps_other_residual (ext : Ext) (s : FullSystem) (frame : Nat)
    (hvalid : ∀ f ∈ s.frameHessians, f.shell < s.allFrameHistory.length)
    (hin : ∃ f ∈ s.frameHessians, f.shell = frame)
    (hempty : ∀ f ∈ s.frameHessians, f.shell = frame → f.pointHessians = [])
    (hnull : ∀ f ∈ s.frameHessians, none ∉ f.pointHessians)
    (hpre : ∀ f ∈ s.frameHessians, ∀ p, some p ∈ f.pointHessians →
      ∃ r ∈ p.residuals, r.target ≠ frame) :
    ∃ s1, marginalizeFrame ext s frame = some s1 ∧
      ∀ f1 ∈ s1.frameHessians, ∀ p1, some p1 ∈ f1.pointHessians → p1.residuals ≠ [] := by
  obtain ⟨s1, hs1⟩ := marginalizeFrame_isSome ext s frame hvalid hin hempty hnull
  refine ⟨s1, hs1, ?_⟩
  intro f1 hf1 p1 hp1
  obtain ⟨f, hf, -, hpts, -⟩ := marginalizeFrame_mem ext s s1 frame hs1 f1 hf1
  rw [hpts] at hp1
  rcases mem_dropObservations frame f p1 hp1 with ⟨h, -⟩ | ⟨-, p, hp, rfl⟩
  · obtain ⟨r, hr, -⟩ := hpre f hf p1 h
    exact List.ne_nil_of_mem hr
  · obtain ⟨r, hr, ht⟩ := hpre f hf p hp
    exact List.ne_nil_of_mem (dropObservation_keeps frame p r hr ht)

theorem marginalizeFrame_keeps_other_residual_witness :
    ∃ s1, marginalizeFrame extFail systemTwoResiduals 1 = some s1 ∧
      ∀ f1 ∈ s1.frameHessians, ∀ p1, some p1 ∈ f1.pointHessians → p1.residuals ≠ [] :=
  marginalizeFrame_keeps_other_residual extFail systemTwoResiduals 1 (by decide)
    ⟨{ frame0 with shell := 1, frameID := 1, idx := 1 }, by decide, rfl⟩
    (by decide) (by decide)
    (by
      intro f hf p hp
      refine ⟨residualTo 8 2, ?_, by decide⟩
      simp only [systemTwoResiduals, List.mem_cons, List.mem_singleton, List.not_mem_nil,
        or_false] at hf
      rcases hf with rfl | rfl | rfl
      · simp only [List.mem_singleton, Option.some.injEq] at hp
        subst hp
        decide
      · simp [frame0] at hp
      · simp [frame0] at hp)

/-- C7 (counterexample): in `systemOneResidual` every active point has one
residual, and after `marginalizeFrame` of frame 1 the point of the remaining
frame 0 is still in its active list with no residual. -/
theorem marginalizeFrame_leaves_point_without_residual :
    systemOneResidual.frameHessians.map
        (fun f => f.pointHessians.map (Option.map fun p => p.residuals.length)) =
      [[some 1], []] ∧
    (marginalizeFrame extFail systemOneResidual 1).map
        (fun s => s.frameHessians.map
          (fun f => (f.shell, f.pointHessians.map (Option.map fun p => p.residuals.length)))) =
      some [(0, [some 0])] := by
  decide

theorem dropObservations_shell (frame : Nat) (f : FrameHessian) :
    (dropObservations frame f).shell = f.shell := by
  unfold dropObservations
  split <;> rfl

/-- C8: for every window in which each active point has at most one residual
per target frame, after `marginalizeFrame(frame)` no active point of a
remaining window frame (a frame other than `frame`) has a residual whose target
is `frame`, neither cached `lastResiduals` entry of the point refers to the
dropped residual, and every residual with another target is still in the
residual list of its point. The two cached entries of the point are taken not to
be the same residual, as `makeKeyFrame` leaves them: it moves entry 0 to entry 1
before it stores a new residual in entry 0 (lines 1245-1247). The function
returns when the window is well formed: every frame has its shell in the
history, `frame` is in the window and has no active point (the `assert` of line
159), and no active list holds a null entry. -/
theorem marginalizeFrame_drops_observations (ext : Ext) (s : FullSystem) (frame : Nat)
    (hone : ∀ f ∈ s.frameHessians, ∀ p, some p ∈ f.pointHessians →
      (p.residuals.map fun r => r.target).Nodup) :
    ((∀ f ∈ s.frameHessians, f.shell < s.allFrameHistory.length) →
      (∃ f ∈ s.frameHessians, f.shell = frame) →
      (∀ f ∈ s.frameHessians, f.shell = frame → f.pointHessians = []) →
      (∀ f ∈ s.frameHessians, none ∉ f.pointHessians) →
      ∃ s1, marginalizeFrame ext s frame = some s1) ∧
    ∀ s1, marginalizeFrame ext s frame = some s1 →
      ∀ f1 ∈ s1.frameHessians, f1.shell ≠ frame → ∀ p1, some p1 ∈ f1.pointHessians →
        (∀ r ∈ p1.residuals, r.target ≠ frame) ∧
        ∃ f ∈ s.frameHessians, f.shell = f1.shell ∧ ∃ p, some p ∈ f.pointHessians ∧
          p1 = dropObservation frame p ∧
          ((∀ a, p.lastResiduals0.1 = some a → p.lastResiduals1.1 ≠ some a) →
            ∀ r ∈ p.residuals, r.target = frame →
              p1.lastResiduals0.1 ≠ some r.addr ∧ p1.lastResiduals1.1 ≠ some r.addr) ∧
          (∀ r ∈ p.residuals, r.target ≠ frame → r ∈ p1.residuals) := by
  refine ⟨fun hvalid hin hempty hnull => marginalizeFrame_isSome ext s frame hvalid hin hempty hnull,
    ?_⟩
  intro s1 hs1 f1 hf1 hne p1 hp1
  obtain ⟨f, hf, hsh, hpts, -⟩ := marginalizeFrame_mem ext s s1 frame hs1 f1 hf1
  rw [hpts] at hp1
  rcases mem_dropObservations frame f p1 hp1 with ⟨-, h⟩ | ⟨-, p, hp, rfl⟩
  · exact absurd (hsh.trans h) hne
  · refine ⟨dropObservation_noTarget frame p (hone f hf p hp), f, hf, hsh.symm, p, hp, rfl,
      ?_, fun r hr ht => dropObservation_keeps frame p r hr ht⟩
    intro hcache r hr ht
    rcases dropObservation_spec frame p with ⟨h1, -⟩ | ⟨k, r0, -, h2, -, h4, h5⟩
    · exact absurd ht (h1 r hr)
    · have hnd1 := (h4.map (fun r => r.target)).nodup_iff.mp (hone f hf p hp)
      simp only [List.map_cons, List.nodup_cons, List.mem_map, not_exists, not_and] at hnd1
      have hr0 : r = r0 := by
        rcases List.mem_cons.mp (h4.mem_iff.mp hr) with h | h
        · exact h
        · exact absurd (by rw [ht, h2]) (hnd1.1 r h)
      subst hr0
      exact h5 (fun hboth => hcache _ hboth.1 hboth.2)

theorem marginalizeFrame_drops_observations_witness :
    ∃ s1, marginalizeFrame extFail systemTwoResiduals 1 = some s1 ∧
      ∀ f1 ∈ s1.frameHessians, f1.shell ≠ 1 → ∀ p1, some p1 ∈ f1.pointHessians →
        (∀ r ∈ p1.residuals, r.target ≠ 1) ∧
        ∃ f ∈ systemTwoResiduals.frameHessians, f.shell = f1.shell ∧
          ∃ p, some p ∈ f.pointHessians ∧
          p1 = dropObservation 1 p ∧
          ((∀ a, p.lastResiduals0.1 = some a → p.lastResiduals1.1 ≠ some a) →
            ∀ r ∈ p.residuals, r.target = 1 →
              p1.lastResiduals0.1 ≠ some r.addr ∧ p1.lastResiduals1.1 ≠ some r.addr) ∧
          (∀ r ∈ p.residuals, r.target ≠ 1 → r ∈ p1.residuals) :=
  have h := marginalizeFrame_drops_observations extFail systemTwoResiduals 1
    (by
      intro f hf p hp
      simp only [systemTwoResiduals, List.mem_cons, List.mem_singleton, List.not_mem_nil,
        or_false] at hf
      rcases hf with rfl | rfl | rfl
      · simp only [List.mem_singleton, Option.some.injEq] at hp
        subst hp
        decide
      · simp [frame0] at hp
      · simp [frame0] at hp)
  match h.1 (by decide) ⟨{ frame0 with shell := 1, frameID := 1, idx := 1 }, by decide, rfl⟩
    (by decide) (by decide) with
  | ⟨s1, hs1⟩ => ⟨s1, hs1, h.2 s1 hs1⟩

/-! ### The frame-marginalisation loop of `makeKeyFrame` -/

theorem marginalizeFrame_length (ext : Ext) (s s1 : FullSystem) (frame : Nat)
    (h : marginalizeFrame ext s frame = some s1) (hin : ∃ f ∈ s.frameHessians, f.shell = frame) :
    s1.frameHessians.length + 1 = s.frameHessians.length := by
  have hc := congrArg List.length (marginalizeFrame_core ext s s1 frame h)
  simp only [List.length_map] at hc
  obtain ⟨f, hf, hfs⟩ := hin
  have hmem : dropObservations frame f ∈ s.frameHessians.map (dropObservations frame) :=
    List.mem_map_of_mem _ hf
  have hp : (fun f : FrameHessian => f.shell == frame) (dropObservations frame f) = true := by
    simp [dropObservations_shell, hfs]
  have hl := @List.length_eraseP_of_mem _ _ _ (fun f : FrameHessian => f.shell == frame)
    hmem hp
  simp only [List.length_map] at hl
  have hpos : 0 < s.frameHessians.length := List.length_pos_of_mem hf
  unfold deleteOutOrder at hc
  omega

theorem marginalizeLoop_length_le (ext : Ext) :
    ∀ (fuel : Nat) (s : FullSystem) (i : Nat) (s1 : FullSystem),
      marginalizeLoop ext fuel s i = some s1 →
      s1.frameHessians.length ≤ s.frameHessians.length := by
  intro fuel
  induction fuel with
  | zero =>
    intro s i s1 h
    simp only [marginalizeLoop, Option.some.injEq] at h
    subst h
    exact le_refl _
  | succ n ih =>
    intro s i s1 h
    unfold marginalizeLoop at h
    cases hget : s.frameHessians[i]? with
    | none =>
      simp only [hget, Option.some.injEq] at h
      subst h
      exact le_refl _
    | some fh =>
      simp only [hget] at h
      split at h
      · rw [Option.bind_eq_some] at h
        obtain ⟨s2, h2, h3⟩ := h
        have hl := marginalizeFrame_length ext s s2 fh.shell h2
          ⟨fh, List.getElem?_mem hget, rfl⟩
        have := ih s2 1 s1 h3
        omega
      · exact ih s (i + 1) s1 h

theorem marginalizeLoop_progress (ext : Ext) :
    ∀ (fuel : Nat) (s : FullSystem) (i j : Nat) (fj : FrameHessian) (s1 : FullSystem),
      marginalizeLoop ext fuel s i = some s1 → i ≤ j → j - i < fuel →
      s.frameHessians[j]? = some fj → fj.flaggedForMarginalization = true →
      s1.frameHessians.length < s.frameHessians.length := by
  intro fuel
  induction fuel with
  | zero => intro s i j fj s1 _ _ hf; omega
  | succ n ih =>
    intro s i j fj s1 h hij hfuel hj hflag
    unfold marginalizeLoop at h
    have hjlt : j < s.frameHessians.length := (List.getElem?_eq_some.mp hj).1
    have hilt : i < s.frameHessians.length := by omega
    rw [List.getElem?_eq_getElem hilt] at h
    simp only at h
    split at h
    · rw [Option.bind_eq_some] at h
      obtain ⟨s2, h2, h3⟩ := h
      have hl := marginalizeFrame_length ext s s2 _ h2
        ⟨_, List.getElem_mem hilt, rfl⟩
      have := marginalizeLoop_length_le ext n s2 1 s1 h3
      omega
    · rename_i hnf
      have hne : i ≠ j := by
        intro he
        subst he
        rw [List.getElem?_eq_getElem hilt] at hj
        cases hj
        exact hnf hflag
      exact ih s (i + 1) j fj s1 h (by omega) (by omega) hj hflag

/-! ### `flagFramesForMarginalization` -/

theorem flagFirst_length : ∀ (k : Nat) (w : List FrameHessian), (flagFirst k w).length = w.length := by
  intro k
  induction k with
  | zero => intro w; rfl
  | succ n ih =>
    intro w
    cases w with
    | nil => rfl
    | cons a t => simp [flagFirst, ih]

theorem flagFirstPass_length (ext : Ext) (cfg : Settings) (latest : FrameHessian) (size : Int) :
    ∀ (l : List FrameHessian) (k : Int),
      (flagFirstPass ext cfg latest size l k).1.length = l.length := by
  intro l
  induction l with
  | nil => intro k; rfl
  | cons a t ih =>
    intro k
    unfold flagFirstPass
    split <;> simp [ih]

theorem flagFirstPass_counter (ext : Ext) (cfg : Settings) (latest : FrameHessian) (size : Int) :
    ∀ (l : List FrameHessian) (k : Int),
      k ≤ (flagFirstPass ext cfg latest size l k).2 ∧
      (k < (flagFirstPass ext cfg latest size l k).2 →
        ∃ f ∈ (flagFirstPass ext cfg latest size l k).1, f.flaggedForMarginalization = true) := by
  intro l
  induction l with
  | nil => intro k; simp [flagFirstPass]
  | cons a t ih =>
    intro k
    unfold flagFirstPass
    split
    · obtain ⟨h1, -⟩ := ih (k + 1)
      refine ⟨by simp only; omega, fun _ => ⟨_, List.mem_cons_self _ _, rfl⟩⟩
    · obtain ⟨h1, h2⟩ := ih k
      refine ⟨h1, fun hlt => ?_⟩
      obtain ⟨f, hf, hfl⟩ := h2 hlt
      exact ⟨f, List.mem_cons_of_mem _ hf, hfl⟩

theorem selectToMarginalize_some (ext : Ext) (cfg : Settings) (w : List FrameHessian)
    (latest : FrameHessian) :
    ∀ (l : List FrameHessian) (sc : Flt) (tm : Option Nat) (sc1 : Flt) (p : Nat),
      selectToMarginalize ext cfg w latest l sc tm = some (sc1, some p) →
      tm = some p ∨ ∃ fh ∈ l, fh.shell = p ∧
        fh.frameID ≤ latest.frameID - cfg.setting_minFrameAge ∧ fh.frameID ≠ 0 := by
  intro l
  induction l with
  | nil =>
    intro sc tm sc1 p h
    simp only [selectToMarginalize, Option.some.injEq, Prod.mk.injEq] at h
    exact Or.inl h.2
  | cons a t ih =>
    intro sc tm sc1 p h
    unfold selectToMarginalize at h
    split at h
    · rcases ih sc tm sc1 p h with h1 | ⟨fh, hfh, h2⟩
      · exact Or.inl h1
      · exact Or.inr ⟨fh, List.mem_cons_of_mem _ hfh, h2⟩
    · rename_i hc
      simp only [Bool.or_eq_true, decide_eq_true_eq, beq_iff_eq, not_or, not_lt] at hc
      simp only [Option.bind_eq_bind, Option.bind_eq_some] at h
      obtain ⟨d, -, h⟩ := h
      split at h
      · rcases ih d (some a.shell) sc1 p h with h1 | ⟨fh, hfh, h2⟩
        · simp only [Option.some.injEq] at h1
          exact Or.inr ⟨a, List.mem_cons_self _ _, h1, hc.1, hc.2⟩
        · exact Or.inr ⟨fh, List.mem_cons_of_mem _ hfh, h2⟩
      · rcases ih sc tm sc1 p h with h1 | ⟨fh, hfh, h2⟩
        · exact Or.inl h1
        · exact Or.inr ⟨fh, List.mem_cons_of_mem _ hfh, h2⟩

theorem flagFrame_length (w : List FrameHessian) (p : Nat) : (flagFrame w p).length = w.length := by
  simp [flagFrame]

theorem flagFrame_flagged (w : List FrameHessian) (p : Nat) (f : FrameHessian) (hf : f ∈ w)
    (hp : f.shell = p) : ∃ f1 ∈ flagFrame w p, f1.flaggedForMarginalization = true := by
  refine ⟨{ f with flaggedForMarginalization := true }, ?_, rfl⟩
  simp only [flagFrame, List.mem_map]
  exact ⟨f, hf, by simp [hp]⟩

theorem flagFrames_length (ext : Ext) (cfg : Settings) (w w1 : List FrameHessian)
    (h : flagFramesForMarginalization ext cfg w = some w1) : w1.length = w.length := by
  unfold flagFramesForMarginalization at h
  split at h
  · unfold flagOldest at h
    split at h
    · cases h
    · simp only [Option.some.injEq] at h
      rw [← h, flagFirst_length]
  · cases hl : w.getLast? with
    | none =>
      simp only [hl] at h
      split at h
      · cases h
      · simp only [Option.some.injEq] at h
        rw [h]
    | some latest =>
      simp only [hl] at h
      split at h
      · simp only [Option.bind_eq_bind, Option.bind_eq_some, Option.pure_def,
          Option.some.injEq] at h
        obtain ⟨sel, -, p, -, rfl⟩ := h
        rw [flagFrame_length, flagFirstPass_length]
      · simp only [Option.some.injEq] at h
        rw [← h, flagFirstPass_length]

theorem flagFrames_flagged (ext : Ext) (cfg : Settings) (w w1 : List FrameHessian)
    (hage : cfg.setting_minFrameAge ≤ cfg.setting_maxFrames)
    (hlen : cfg.setting_maxFrames ≤ (w.length : Int))
    (h : flagFramesForMarginalization ext cfg w = some w1) :
    ∃ f ∈ w1, f.flaggedForMarginalization = true := by
  unfold flagFramesForMarginalization at h
  rw [if_neg (by omega)] at h
  cases hl : w.getLast? with
  | none =>
    simp only [hl] at h
    have hw : w = [] := List.getLast?_eq_none_iff.mp hl
    subst hw
    simp only [List.length_nil, Nat.cast_zero] at hlen
    rw [if_pos (by omega)] at h
    cases h
  | some latest =>
    simp only [hl] at h
    split at h
    · simp only [Option.bind_eq_bind, Option.bind_eq_some, Option.pure_def,
        Option.some.injEq] at h
      obtain ⟨sel, hsel, p, hp, rfl⟩ := h
      have hsel1 : selectToMarginalize ext cfg
          (flagFirstPass ext cfg latest w.length w 0).1 latest
          (flagFirstPass ext cfg latest w.length w 0).1 (Flt.fin 1) none = some (sel.1, some p) := by
        rw [hsel, ← hp]
      rcases selectToMarginalize_some ext cfg _ latest _ _ _ _ _ hsel1 with h1 | ⟨fh, hfh, h2, -⟩
      · cases h1
      · exact flagFrame_flagged _ p fh hfh h2
    · rename_i hc
      simp only [Option.some.injEq] at h
      subst h
      exact (flagFirstPass_counter ext cfg latest w.length w 0).2 (by omega)

theorem flagFrames_windowSeven :
    flagFramesForMarginalization extFail defaultSettings windowSeven =
      some (flagFirst 2 windowSeven) := by
  norm_num [flagFramesForMarginalization, flagFirstPass, notEnoughPoints, windowSeven,
    defaultSettings, extFail, wornFrameAt, frameAt, frame0, flagFirst, Flt.gt, Flt.lt, Flt.abs]

theorem makeKeyFrame_systemSeven :
    (makeKeyFrame extFail defaultSettings systemSeven frameSeven).map
        (fun s => frameFlags s.frameHessians) =
      some [(1, true), (2, false), (3, false), (4, false), (5, false), (6, false),
            (7, false)] := by
  unfold makeKeyFrame
  rw [show traceNewCoarse extFail frameSeven systemSeven.frameHessians = some windowSeven from rfl]
  simp only [Option.some_bind, flagFrames_windowSeven]
  rfl

/-! ### The window size after `makeKeyFrame` -/

theorem frameFlags_length (w : List FrameHessian) : (frameFlags w).length = w.length := by
  simp [frameFlags]

theorem frameFlags_setPrecalcValues (ext : Ext) (w : List FrameHessian) :
    frameFlags (setPrecalcValues ext w) = frameFlags w :=
  setPrecalcValues_map ext (fun f => (f.shell, f.flaggedForMarginalization)) (fun _ _ => rfl) w

theorem frameFlags_flagPointsForRemoval (ext : Ext) (cfg : Settings) (w : List FrameHessian) :
    frameFlags (flagPointsForRemoval ext cfg w) = frameFlags w := by
  simp only [frameFlags, flagPointsForRemoval, List.map_map]
  apply List.map_congr_left
  intro f _
  rfl

theorem traceNewCoarse_length (ext : Ext) (fh : FrameHessian) (w w0 : List FrameHessian)
    (h : traceNewCoarse ext fh w = some w0) : w0.length = w.length := by
  unfold traceNewCoarse at h
  split at h
  · simp only [Option.some.injEq] at h
    rw [← h, List.length_map]
  · cases h

theorem finishKeyFrame_flags (ext : Ext) (cfg : Settings) (s1 : FullSystem)
    (hExt : keepsWindow ext.optimizeWindow ∧ keepsWindow ext.afterOptimize ∧
      keepsWindow ext.afterFlagPoints) :
    frameFlags (ext.afterFlagPoints (flagPointsStep ext cfg
      (ext.afterOptimize (ext.optimizeWindow s1)))).frameHessians = frameFlags s1.frameHessians := by
  rw [(hExt.2.2 _).1]
  show frameFlags (flagPointsForRemoval ext cfg _) = _
  rw [frameFlags_flagPointsForRemoval, (hExt.2.1 _).1, (hExt.1 _).1]

theorem mem_flagged_getElem (w : List FrameHessian) (x : Nat × Bool) (hx : x ∈ frameFlags w)
    (hflag : x.2 = true) :
    ∃ (j : Nat) (fj : FrameHessian), w[j]? = some fj ∧ fj.flaggedForMarginalization = true := by
  simp only [frameFlags, List.mem_map] at hx
  obtain ⟨f, hf, rfl⟩ := hx
  obtain ⟨j, hj⟩ := List.mem_iff_getElem?.mp hf
  exact ⟨j, f, hj, hflag⟩

/-- C3 (amended): when `setting_minFrameAge <= setting_maxFrames`, the window
holds at most `setting_maxFrames` frames and the external steps of
`makeKeyFrame` keep the window frames, their flags and `isLost`, then after a
pass of `makeKeyFrame` that completes (frames flagged, new key frame appended,
flagged frames marginalised) the window holds at most `setting_maxFrames`
frames. -/
theorem makeKeyFrame_window_le_maxFrames (ext : Ext) (cfg : Settings) (s s1 : FullSystem)
    (fh : FrameHessian)
    (hage : cfg.setting_minFrameAge ≤ cfg.setting_maxFrames)
    (hlen : (s.frameHessians.length : Int) ≤ cfg.setting_maxFrames)
    (hExt : keepsWindow ext.optimizeWindow ∧ keepsWindow ext.afterOptimize ∧
      keepsWindow ext.afterFlagPoints)
    (hlost : s.isLost = false)
    (h : makeKeyFrame ext cfg s fh = some s1) :
    (s1.frameHessians.length : Int) ≤ cfg.setting_maxFrames := by
  unfold makeKeyFrame at h
  simp only [Option.bind_eq_some] at h
  obtain ⟨hist, -, w0, hw0, w1, hw1, hfin⟩ := h
  have hw0len : w0.length = s.frameHessians.length := traceNewCoarse_length ext fh _ w0 hw0
  have hw1len : w1.length = s.frameHessians.length := by
    rw [flagFrames_length ext cfg _ w1 hw1, hw0len]
  unfold finishKeyFrame at hfin
  have hl2 : (ext.optimizeWindow (insertKeyFrame ext s hist w1 fh)).isLost = false := by
    rw [(hExt.1 _).2]
    exact hlost
  rw [if_neg (by simp [hl2])] at hfin
  have hflags := finishKeyFrame_flags ext cfg (insertKeyFrame ext s hist w1 fh) hExt
  have hins : frameFlags (insertKeyFrame ext s hist w1 fh).frameHessians =
      frameFlags w1 ++ [(fh.shell, fh.flaggedForMarginalization)] := by
    show frameFlags (setPrecalcValues ext _) = _
    rw [frameFlags_setPrecalcValues]
    simp [frameFlags]
  rw [hins] at hflags
  have hlen5 := congrArg List.length hflags
  simp only [frameFlags_length, List.length_append, List.length_singleton] at hlen5
  unfold marginalizeFlaggedFrames at hfin
  have hle := marginalizeLoop_length_le ext _ _ _ _ hfin
  by_cases hfull : (s.frameHessians.length : Int) < cfg.setting_maxFrames
  · omega
  · have hmax : cfg.setting_maxFrames ≤ (w0.length : Int) := by
      rw [hw0len]; omega
    obtain ⟨f, hf, hfl⟩ := flagFrames_flagged ext cfg _ w1 hage hmax hw1
    have hx : (f.shell, f.flaggedForMarginalization) ∈
        frameFlags (ext.afterFlagPoints (flagPointsStep ext cfg
          (ext.afterOptimize (ext.optimizeWindow
            (insertKeyFrame ext s hist w1 fh))))).frameHessians := by
      rw [hflags]
      exact List.mem_append_left _ (List.mem_map_of_mem _ hf)
    obtain ⟨j, fj, hj, hfj⟩ := mem_flagged_getElem _ _ hx hfl
    have hjlt := (List.getElem?_eq_some.mp hj).1
    have hprog := marginalizeLoop_progress ext _ _ 0 j fj s1 hfin (Nat.zero_le _)
      (by
        have h1 : j < (ext.afterFlagPoints (flagPointsStep ext cfg
          (ext.afterOptimize (ext.optimizeWindow
            (insertKeyFrame ext s hist w1 fh))))).frameHessians.length + 1 := by omega
        have h2 := Nat.le_mul_self ((ext.afterFlagPoints (flagPointsStep ext cfg
          (ext.afterOptimize (ext.optimizeWindow
            (insertKeyFrame ext s hist w1 fh))))).frameHessians.length + 1)
        omega) hj hfj
    omega

theorem makeKeyFrame_window_le_maxFrames_witness :
    ∃ s1, makeKeyFrame extFail defaultSettings systemSeven frameSeven = some s1 ∧
      (s1.frameHessians.length : Int) ≤ defaultSettings.setting_maxFrames := by
  cases h : makeKeyFrame extFail defaultSettings systemSeven frameSeven with
  | none =>
    have h1 := makeKeyFrame_systemSeven
    rw [h] at h1
    cases h1
  | some s1 =>
    exact ⟨s1, rfl, makeKeyFrame_window_le_maxFrames extFail defaultSettings systemSeven s1
      frameSeven (by decide) (by decide)
      ⟨fun _ => ⟨rfl, rfl⟩, fun _ => ⟨rfl, rfl⟩, fun _ => ⟨rfl, rfl⟩⟩ rfl h⟩

/-- C3 (counterexample): with `setting_minFrameAge = 2 > setting_maxFrames = 1`
and a window of one unflagged frame, a pass of `makeKeyFrame` leaves a window of
two frames. -/
theorem makeKeyFrame_window_exceeds_maxFrames :
    (systemOneFrame.frameHessians.length : Int) ≤ settingsAgeOut.setting_maxFrames ∧
    frameFlags systemOneFrame.frameHessians = [(0, false)] ∧
    (makeKeyFrame extFail settingsAgeOut systemOneFrame { frame0 with shell := 1 }).map
        (fun s => frameFlags s.frameHessians) = some [(0, false), (1, false)] := by
  refine ⟨by decide, by decide, ?_⟩
  rfl

/-- C4 (failing input): under the default settings, `makeKeyFrame` on the full
window `windowSeven`, whose two oldest frames have lost all their points, flags
both; the loop at its end marginalises frame 0, restarts at index 1 and ends
with the flagged frame 1 still in `frameHessians`. -/
theorem makeKeyFrame_leaves_flagged_frame :
    frameFlags systemSeven.frameHessians =
      [(0, false), (1, false), (2, false), (3, false), (4, false), (5, false), (6, false)] ∧
    (makeKeyFrame extFail defaultSettings systemSeven frameSeven).map
        (fun s => frameFlags s.frameHessians) =
      some [(1, true), (2, false), (3, false), (4, false), (5, false), (6, false),
            (7, false)] :=
  ⟨by decide, makeKeyFrame_systemSeven⟩

/-! ### The key frame decision -/

theorem rotDeltas_twoFrames (n : Nat) :
    rotDeltas (fun rotDelta => rotDelta + 2 / 100) (n + 3) (2 / 100) = [2 / 100, 4 / 100] := by
  norm_num [rotDeltas]

theorem rotDeltas_moreFrames (n : Nat) :
    rotDeltas (fun rotDelta => rotDelta + 1) (n + 2) (2 / 100) = [2 / 100] := by
  norm_num [rotDeltas]

theorem triesTwoFrames_cons :
    triesTwoFrames = (1 : SE3) :: (fanAt 1 (2 / 100) ++ fanAt 1 (4 / 100)) := by
  unfold triesTwoFrames
  rw [rotDeltas_twoFrames 0]
  simp [List.flatMap]

theorem trackHypotheses_first_success (ext : Ext) (cfg : Settings) (rmse : Vec5)
    (aff : AffLight) (h : SE3) (rest : List SE3)
    (hgood : (ext.trackNewestCoarse 0 h aff (Vec5.constant Flt.nan)).trackingIsGood = true)
    (hfin : (toFloat ext
      ((ext.trackNewestCoarse 0 h aff (Vec5.constant Flt.nan)).lastResiduals 0)).isfinite = true)
    (hstop : Flt.lt ((ext.trackNewestCoarse 0 h aff (Vec5.constant Flt.nan)).lastResiduals 0)
      (Flt.mul (rmse 0) (Flt.fin cfg.setting_reTrackThreshold)) = true) :
    trackHypotheses ext cfg rmse aff (h :: rest) =
      { achievedRes := (ext.trackNewestCoarse 0 h aff (Vec5.constant Flt.nan)).lastResiduals,
        haveOneGood := true, tryIterations := 1,
        flowVecs := (ext.trackNewestCoarse 0 h aff (Vec5.constant Flt.nan)).lastFlowIndicators,
        aff_g2l := (ext.trackNewestCoarse 0 h aff (Vec5.constant Flt.nan)).aff_g2l_out,
        lastF_2_fh := (ext.trackNewestCoarse 0 h aff (Vec5.constant Flt.nan)).lastToNew_out } := by
  have htake : ∀ x : Vec5, takeOverRes ext (Vec5.constant Flt.nan) x = x := by
    intro x
    funext i
    simp [takeOverRes, Vec5.constant, toFloat, Flt.rnd, Flt.isfinite]
  have hwin : newWinner ext (ext.trackNewestCoarse 0 h aff (Vec5.constant Flt.nan))
      (Vec5.constant Flt.nan) = true := by
    simp only [newWinner, hgood, hfin, Bool.and_self, Bool.true_and, Vec5.constant,
      Bool.not_eq_true']
    cases (ext.trackNewestCoarse 0 h aff (Vec5.constant Flt.nan)).lastResiduals 0 <;> rfl
  simp [trackHypotheses, trackLoop, trackStep, hwin, htake, hstop]

theorem addActiveFrame_first : 
    addActiveFrame extGood settingsKfps system0 imageFirst 0 "frame0" = some systemFirst := rfl

theorem afterTrackNewCoarse_finite (ext : Ext) (cfg : Settings) (fh : FrameHessian)
    (r : Vec4 × FullSystem) (kf : Bool)
    (h0 : (r.1 0).isfinite = true) (h1 : (r.1 1).isfinite = true)
    (h2 : (r.1 2).isfinite = true) (h3 : (r.1 3).isfinite = true)
    (hk : needToMakeKF ext cfg r.2 fh r.1 = some kf) :
    afterTrackNewCoarse ext cfg fh r = some (r.2, some (fh, kf)) := by
  simp [afterTrackNewCoarse, h0, h1, h2, h3, hk]

theorem addActiveFrameTrack_second :
    ∃ s2, addActiveFrameTrack extGood settingsKfps systemFirst imageSecond 1 "frame1" =
        some (s2, some (addActiveFrameHessian extGood systemFirst imageSecond, false)) ∧
      s2.linearizeOperation = true ∧ s2.allFrameHistory.length = 2 := by
  rw [addActiveFrameTrack_tracking _ _ _ _ _ _ rfl rfl]
  have hsetup : ∃ s1 a b, trackSetup extGood
      (swapTrackingReference (pushShell systemFirst
        (addActiveFrameShell extGood systemFirst imageSecond 1 "frame1")))
      (addActiveFrameHessian extGood systemFirst imageSecond) =
        some (s1, triesTwoFrames, ⟨0, 0⟩) ∧
      s1.lastCoarseRMSE = Vec5.constant (Flt.fin 100) ∧
      s1.linearizeOperation = true ∧
      s1.coarseTracker.lastRef = some 0 ∧
      s1.allKeyFramesHistory = [0] ∧
      s1.allFrameHistory = [a, b] ∧ a.timestamp = 0 ∧ b.timestamp = 1 / 2 :=
    ⟨_, _, _, rfl, rfl, rfl, rfl, rfl, rfl, rfl, rfl⟩
  obtain ⟨s1, a, b, h1, h2, hlin, h3, h4, h5, h6, h7⟩ := hsetup
  have hstop : Flt.lt (Flt.fin 1)
      (Flt.mul (Flt.fin 100) (Flt.fin settingsKfps.setting_reTrackThreshold)) = true := by
    simp only [Flt.mul, Flt.lt, settingsKfps, defaultSettings, decide_eq_true_eq]
    norm_num
  have hst := trackHypotheses_first_success extGood settingsKfps s1.lastCoarseRMSE ⟨0, 0⟩ 1
    (fanAt 1 (2 / 100) ++ fanAt 1 (4 / 100)) rfl rfl (by rw [h2]; exact hstop)
  rw [← triesTwoFrames_cons] at hst
  unfold trackNewCoarse
  simp only [h1, Option.some_bind, h3, hst, h5]
  have hw : ∀ st : TrackLoop, ∃ b1 : FrameShell,
      writeTrackedPose [a, b] (addActiveFrameHessian extGood systemFirst imageSecond).shell 0 st =
        some [a, b1] ∧ b1.timestamp = b.timestamp := fun st => ⟨_, rfl, rfl⟩
  obtain ⟨b1, hb1, hb2⟩ := hw _
  rw [hb1]
  simp only [Option.map_some', Option.some_bind]
  have hkf : ∀ (s3 : FullSystem) (tres : Vec4), s3.allFrameHistory = [a, b1] →
      s3.allKeyFramesHistory = [0] →
      needToMakeKF extGood settingsKfps s3 (addActiveFrameHessian extGood systemFirst imageSecond)
        tres = some false := by
    intro s3 tres e1 e2
    have hk : settingsKfps.setting_keyframesPerSecond = 1 := rfl
    have hsh : (addActiveFrameHessian extGood systemFirst imageSecond).shell = 1 := rfl
    simp only [needToMakeKF, hk, e1, e2, hsh]
    norm_num [divF, Flt.rnd, Flt.div, Flt.gt, Flt.lt, literal095f, extGood, extFail]
    rw [hb2, h6, h7]
    norm_num
  exact ⟨_, afterTrackNewCoarse_finite extGood settingsKfps _ _ false rfl rfl rfl rfl
    (hkf _ _ rfl h4), hlin, rfl⟩

theorem writeShell_length (hist hist1 : List FrameShell) (p : Nat) (f : FrameShell → FrameShell)
    (h : writeShell hist p f = some hist1) : hist1.length = hist.length := by
  obtain ⟨sh, -, rfl⟩ := writeShell_some _ _ _ _ h
  simp

theorem writeTrackedPose_length (hist hist1 : List FrameShell) (p q : Nat) (st : TrackLoop)
    (h : writeTrackedPose hist p q st = some hist1) : hist1.length = hist.length := by
  unfold writeTrackedPose at h
  simp only [Option.bind_eq_bind, Option.bind_eq_some] at h
  obtain ⟨h1, hw1, sh, -, ref, -, hw2⟩ := h
  rw [writeShell_length _ _ _ _ hw2, writeShell_length _ _ _ _ hw1]

theorem initializeFromInitializerCNN_length (ext : Ext) (s s1 : FullSystem) (fh : FrameHessian)
    (h : initializeFromInitializerCNN ext s fh = some s1) :
    s1.allFrameHistory.length = s.allFrameHistory.length := by
  unfold initializeFromInitializerCNN at h
  simp only [Option.bind_eq_bind, Option.bind_eq_some, Option.pure_def, Option.some.injEq] at h
  obtain ⟨ff, -, h1, hw1, h2, hw2, h3, hw3, rfl⟩ := h
  show h3.length = _
  rw [writeShell_length _ _ _ _ hw3, writeShell_length _ _ _ _ hw2,
    writeShell_length _ _ _ _ hw1]

theorem trackSetup_length (ext : Ext) (s : FullSystem) (fh : FrameHessian)
    (x : FullSystem × List SE3 × AffLight) (h : trackSetup ext s fh = some x) :
    x.1.allFrameHistory.length = s.allFrameHistory.length ∧ 2 ≤ s.allFrameHistory.length := by
  unfold trackSetup at h
  split at h
  · rename_i h2
    simp only [Option.map_eq_some'] at h
    obtain ⟨s1, hs1, rfl⟩ := h
    refine ⟨initializeFromInitializerCNN_length ext s s1 fh hs1, ?_⟩
    have : s.allFrameHistory.length = 2 := by simpa using h2
    omega
  · simp only [Option.bind_eq_bind, Option.bind_eq_some, Option.pure_def,
      Option.some.injEq] at h
    obtain ⟨lastF, -, slast, hsl, -, -, -, -, rfl⟩ := h
    refine ⟨rfl, ?_⟩
    by_contra hlt
    rw [if_neg hlt] at hsl
    cases hsl

theorem trackNewCoarse_length (ext : Ext) (cfg : Settings) (s : FullSystem) (fh : FrameHessian)
    (r : Vec4 × FullSystem) (h : trackNewCoarse ext cfg s fh = some r) :
    r.2.allFrameHistory.length = s.allFrameHistory.length ∧ 2 ≤ s.allFrameHistory.length := by
  unfold trackNewCoarse at h
  simp only [Option.bind_eq_some, Option.map_eq_some'] at h
  obtain ⟨x, hx, lastF, -, hist, hw, rfl⟩ := h
  obtain ⟨h1, h2⟩ := trackSetup_length ext s fh x hx
  refine ⟨?_, h2⟩
  show hist.length = _
  rw [writeTrackedPose_length _ _ _ _ _ hw, h1]

theorem addActiveFrameTrack_history_ne_one (ext : Ext) (cfg : Settings) (s s1 : FullSystem)
    (image : ImageAndExposure) (id : Int) (filePrefix : String) (fh : FrameHessian) (kf : Bool)
    (h : addActiveFrameTrack ext cfg s image id filePrefix = some (s1, some (fh, kf))) :
    2 ≤ s1.allFrameHistory.length := by
  cases hl : s.isLost with
  | true => simp [addActiveFrameTrack, hl] at h
  | false =>
    cases hi : s.initialized with
    | false =>
      simp only [addActiveFrameTrack, hl, Bool.false_eq_true, if_false, pushShell_initialized,
        hi, Bool.not_false, if_true] at h
      split at h <;> simp at h
    | true =>
      rw [addActiveFrameTrack_tracking ext cfg s image id filePrefix hl hi,
        Option.bind_eq_some] at h
      obtain ⟨r, hr, h2⟩ := h
      obtain ⟨h3, h4⟩ := trackNewCoarse_length ext cfg _ _ r hr
      unfold afterTrackNewCoarse at h2
      split at h2
      · simp at h2
      · simp only [Option.map_eq_some', Prod.mk.injEq, Option.some.injEq] at h2
        obtain ⟨k, -, rfl, -⟩ := h2
        omega

/-- C9 (failing input): from the initial system, in synchronous mode and with
`setting_keyframesPerSecond = 1`, the first image is taken by the initialiser
and the second, half a second later, is the first frame that is tracked (two
records in `allFrameHistory`); tracking succeeds, `needToMakeKF` is false and
the frame is processed by `makeNonKeyFrame`. The test
`allFrameHistory.size() == 1` cannot hold where `needToMakeKF` is computed:
the history then holds two records or more. -/
theorem first_tracked_frame_is_not_forced_keyframe :
    addActiveFrame extGood settingsKfps system0 imageFirst 0 "frame0" = some systemFirst ∧
    (∃ s2, addActiveFrameTrack extGood settingsKfps systemFirst imageSecond 1 "frame1" =
        some (s2, some (addActiveFrameHessian extGood systemFirst imageSecond, false)) ∧
      s2.allFrameHistory.length = 2 ∧
      addActiveFrame extGood settingsKfps systemFirst imageSecond 1 "frame1" =
        makeNonKeyFrame extGood s2 (addActiveFrameHessian extGood systemFirst imageSecond)) ∧
    (∀ ext cfg s image id filePrefix s1 fh kf,
      addActiveFrameTrack ext cfg s image id filePrefix = some (s1, some (fh, kf)) →
      2 ≤ s1.allFrameHistory.length) := by
  refine ⟨addActiveFrame_first, ?_, ?_⟩
  · obtain ⟨s2, h1, h2, h3⟩ := addActiveFrameTrack_second
    refine ⟨s2, h1, h3, ?_⟩
    simp [addActiveFrame, h1, deliverTrackedFrame, h2]
  · intro ext cfg s image id filePrefix s1 fh kf h
    exact addActiveFrameTrack_history_ne_one ext cfg s s1 image id filePrefix fh kf h

/-! ### Which frames `flagFramesForMarginalization` protects -/

theorem flagFirstPass_unflagged (ext : Ext) (cfg : Settings) (latest : FrameHessian)
    (size : Int) :
    ∀ (l : List FrameHessian) (k : Int), (∀ f ∈ l, f.flaggedForMarginalization = false) →
      (unflaggedCount (flagFirstPass ext cfg latest size l k).1 : Int) =
        l.length - ((flagFirstPass ext cfg latest size l k).2 - k) ∧
      (flagFirstPass ext cfg latest size l k).2 ≤ max k (size - cfg.setting_minFrames) := by
  intro l
  induction l with
  | nil => intro k _; simp [flagFirstPass, unflaggedCount]
  | cons a t ih =>
    intro k hall
    have ha : a.flaggedForMarginalization = false := hall a (List.mem_cons_self _ _)
    have ht : ∀ f ∈ t, f.flaggedForMarginalization = false :=
      fun f hf => hall f (List.mem_cons_of_mem _ hf)
    unfold flagFirstPass
    split
    · rename_i hc
      simp only [Bool.and_eq_true, decide_eq_true_eq] at hc
      obtain ⟨h1, h2⟩ := ih (k + 1) ht
      have hk := (flagFirstPass_counter ext cfg latest size t (k + 1)).1
      simp only [unflaggedCount] at h1 ⊢
      simp only [List.filter_cons, Bool.not_true, Bool.false_eq_true, if_false,
        List.length_cons, Nat.cast_add, Nat.cast_one]
      constructor
      · omega
      · omega
    · obtain ⟨h1, h2⟩ := ih k ht
      simp only [unflaggedCount] at h1 ⊢
      simp only [List.filter_cons, ha, Bool.not_false, if_true, List.length_cons,
        Nat.cast_add, Nat.cast_one]
      constructor
      · omega
      · exact h2

/-- C10 (amended): in the branch `setting_minFrameAge <= setting_maxFrames`,
`flagFramesForMarginalization` protects frames by number and by age, not by
position in the window: its first pass leaves at least
`min(n, setting_minFrames)` of the `n` frames of an unflagged window unflagged,
and its result is the result of the first pass, possibly with one more frame
flagged, whose `frameID` is not 0 and at most
`newest.frameID - setting_minFrameAge`. -/
theorem flagFrames_protects_by_count_and_age (ext : Ext) (cfg : Settings)
    (w : List FrameHessian) (latest : FrameHessian)
    (hage : cfg.setting_minFrameAge ≤ cfg.setting_maxFrames)
    (hlast : w.getLast? = some latest) :
    ((∀ f ∈ w, f.flaggedForMarginalization = false) →
      min (w.length : Int) cfg.setting_minFrames ≤
        (unflaggedCount (flagFirstPass ext cfg latest w.length w 0).1 : Int)) ∧
    (∀ w1, flagFramesForMarginalization ext cfg w = some w1 →
      w1 = (flagFirstPass ext cfg latest w.length w 0).1 ∨
      ∃ fh ∈ (flagFirstPass ext cfg latest w.length w 0).1,
        fh.frameID ≤ latest.frameID - cfg.setting_minFrameAge ∧ fh.frameID ≠ 0 ∧
        w1 = flagFrame (flagFirstPass ext cfg latest w.length w 0).1 fh.shell) := by
  refine ⟨?_, ?_⟩
  · intro hall
    obtain ⟨h1, h2⟩ := flagFirstPass_unflagged ext cfg latest w.length w 0 hall
    have h3 := (flagFirstPass_counter ext cfg latest w.length w 0).1
    omega
  · intro w1 h
    unfold flagFramesForMarginalization at h
    rw [if_neg (by omega)] at h
    simp only [hlast] at h
    split at h
    · simp only [Option.bind_eq_bind, Option.bind_eq_some, Option.pure_def,
        Option.some.injEq] at h
      obtain ⟨sel, hsel, p, hp, rfl⟩ := h
      have hsel1 : selectToMarginalize ext cfg
          (flagFirstPass ext cfg latest w.length w 0).1 latest
          (flagFirstPass ext cfg latest w.length w 0).1 (Flt.fin 1) none = some (sel.1, some p) := by
        rw [hsel, ← hp]
      rcases selectToMarginalize_some ext cfg _ latest _ _ _ _ _ hsel1 with h1 | ⟨fh, hfh, h2, h3, h4⟩
      · cases h1
      · exact Or.inr ⟨fh, hfh, h3, h4, by rw [h2]⟩
    · simp only [Option.some.injEq] at h
      exact Or.inl h.symm

theorem flagFrames_protects_by_count_and_age_witness :
    min ((windowRecentWorn.length : Nat) : Int) defaultSettings.setting_minFrames ≤
      (unflaggedCount
        (flagFirstPass extFail defaultSettings (frameAt 6) windowRecentWorn.length
          windowRecentWorn 0).1 : Int) :=
  (flagFrames_protects_by_count_and_age extFail defaultSettings windowRecentWorn (frameAt 6)
    (by decide) rfl).1 (by decide)

/-- C10 (counterexample): under the default settings (`setting_minFrames = 5`)
and on the full window `windowRecentWorn`, none of whose frames is flagged,
`flagFramesForMarginalization` flags the frame at position 5, one of the last
five entries of `frameHessians`. -/
theorem flagFrames_flags_recent_frame :
    frameFlags windowRecentWorn =
      [(0, false), (1, false), (2, false), (3, false), (4, false), (5, false), (6, false)] ∧
    (flagFramesForMarginalization extFail defaultSettings windowRecentWorn).map
        (fun w => (frameFlags w).drop (w.length - 5)) =
      some [(2, false), (3, false), (4, false), (5, true), (6, false)] := by
  refine ⟨by decide, ?_⟩
  norm_num [flagFramesForMarginalization, flagFirstPass, notEnoughPoints, windowRecentWorn,
    defaultSettings, extFail, wornFrameAt, frameAt, frame0, Flt.gt, Flt.lt, Flt.abs, frameFlags]

/-! ### The minimum window size -/

theorem unflaggedCount_of_unflagged (w : List FrameHessian)
    (hall : ∀ f ∈ w, f.flaggedForMarginalization = false) : unflaggedCount w = w.length := by
  unfold unflaggedCount
  rw [List.filter_eq_self.mpr]
  intro f hf
  simp [hall f hf]

theorem unflaggedCount_cons (a : FrameHessian) (t : List FrameHessian) :
    unflaggedCount (a :: t) =
      (if a.flaggedForMarginalization then 0 else 1) + unflaggedCount t := by
  unfold unflaggedCount
  cases h : a.flaggedForMarginalization
  · simp [List.filter_cons, h]
    omega
  · simp [List.filter_cons, h]

theorem unflaggedCount_flagFirst :
    ∀ (k : Nat) (w : List FrameHessian), (∀ f ∈ w, f.flaggedForMarginalization = false) →
      unflaggedCount (flagFirst k w) = w.length - k := by
  intro k
  induction k with
  | zero => intro w hall; simpa [flagFirst] using unflaggedCount_of_unflagged w hall
  | succ n ih =>
    intro w hall
    cases w with
    | nil => simp [flagFirst, unflaggedCount]
    | cons a t =>
      have ht : ∀ f ∈ t, f.flaggedForMarginalization = false :=
        fun f hf => hall f (List.mem_cons_of_mem _ hf)
      simp only [flagFirst, unflaggedCount_cons, ih t ht, List.length_cons, if_true]
      omega

theorem flagFirstPass_shells (ext : Ext) (cfg : Settings) (latest : FrameHessian) (size : Int) :
    ∀ (l : List FrameHessian) (k : Int),
      (flagFirstPass ext cfg latest size l k).1.map (fun f => f.shell) =
        l.map (fun f => f.shell) := by
  intro l
  induction l with
  | nil => intro k; rfl
  | cons a t ih =>
    intro k
    unfold flagFirstPass
    split <;> simp [ih]

theorem flagFrame_of_not_mem (w : List FrameHessian) (p : Nat)
    (hp : p ∉ w.map (fun f => f.shell)) : flagFrame w p = w := by
  unfold flagFrame
  conv_rhs => rw [← List.map_id w]
  apply List.map_congr_left
  intro f hf
  have : f.shell ≠ p := fun h => hp (List.mem_map.mpr ⟨f, hf, h⟩)
  simp [this]

theorem flagFrame_cons (a : FrameHessian) (t : List FrameHessian) (p : Nat) :
    flagFrame (a :: t) p =
      (if a.shell == p then { a with flaggedForMarginalization := true } else a) ::
        flagFrame t p := rfl

theorem unflaggedCount_flagFrame (p : Nat) :
    ∀ (w : List FrameHessian), (w.map (fun f => f.shell)).Nodup →
      unflaggedCount w ≤ unflaggedCount (flagFrame w p) + 1 := by
  intro w
  induction w with
  | nil => intro _; simp [flagFrame, unflaggedCount]
  | cons a t ih =>
    intro hnd
    simp only [List.map_cons, List.nodup_cons] at hnd
    have hle : (if a.flaggedForMarginalization then 0 else 1) ≤ 1 := by split <;> omega
    by_cases ha : a.shell = p
    · have ht : flagFrame t p = t := flagFrame_of_not_mem t p (ha ▸ hnd.1)
      rw [flagFrame_cons, ht, unflaggedCount_cons, unflaggedCount_cons]
      omega
    · have hb : (a.shell == p) = false := by simpa using ha
      rw [flagFrame_cons, hb, unflaggedCount_cons, unflaggedCount_cons]
      have := ih hnd.2
      simp only [Bool.false_eq_true, if_false]
      omega

/-- C11 (amended): for every configuration with
`setting_minFrames < setting_maxFrames` and every window of `n` distinct,
unflagged frames, a call of `flagFramesForMarginalization` that returns keeps
all `n` frames in the window and leaves at least `min(n, setting_minFrames)` of
them unflagged. -/
theorem flagFrames_keeps_minFrames (ext : Ext) (cfg : Settings) (w w1 : List FrameHessian)
    (hcfg : cfg.setting_minFrames < cfg.setting_maxFrames)
    (hall : ∀ f ∈ w, f.flaggedForMarginalization = false)
    (hnd : (w.map fun f => f.shell).Nodup)
    (h : flagFramesForMarginalization ext cfg w = some w1) :
    w1.length = w.length ∧
      min (w.length : Int) cfg.setting_minFrames ≤ (unflaggedCount w1 : Int) := by
  refine ⟨flagFrames_length ext cfg w w1 h, ?_⟩
  unfold flagFramesForMarginalization at h
  split at h
  · unfold flagOldest at h
    split at h
    · cases h
    · rename_i hneg
      simp only [Option.some.injEq] at h
      rw [← h, unflaggedCount_flagFirst _ w hall]
      have : ((cfg.setting_maxFrames.toNat : Nat) : Int) = cfg.setting_maxFrames :=
        Int.toNat_of_nonneg (by omega)
      omega
  · cases hl : w.getLast? with
    | none =>
      have hw : w = [] := List.getLast?_eq_none_iff.mp hl
      subst hw
      simp only [List.getLast?_nil] at h
      split at h
      · cases h
      · simp only [Option.some.injEq] at h
        subst h
        simp [unflaggedCount]
    | some latest =>
      simp only [hl] at h
      obtain ⟨h1, h2⟩ := flagFirstPass_unflagged ext cfg latest w.length w 0 hall
      have h3 := (flagFirstPass_counter ext cfg latest w.length w 0).1
      split at h
      · rename_i hc
        simp only [Option.bind_eq_bind, Option.bind_eq_some, Option.pure_def,
          Option.some.injEq] at h
        obtain ⟨sel, -, p, -, rfl⟩ := h
        have hnd1 : ((flagFirstPass ext cfg latest w.length w 0).1.map fun f => f.shell).Nodup := by
          rw [flagFirstPass_shells]; exact hnd
        have h4 := unflaggedCount_flagFrame p _ hnd1
        omega
      · simp only [Option.some.injEq] at h
        subst h
        omega

theorem flagFrames_keeps_minFrames_witness :
    (flagFirst 2 windowSeven).length = windowSeven.length ∧
      min (windowSeven.length : Int) defaultSettings.setting_minFrames ≤
        (unflaggedCount (flagFirst 2 windowSeven) : Int) :=
  flagFrames_keeps_minFrames extFail defaultSettings windowSeven (flagFirst 2 windowSeven)
    (by decide) (by decide) (by decide) flagFrames_windowSeven

/-- C11 (counterexample): with `setting_maxFrames = setting_minFrames = 5` and
the window `windowFive` of five unflagged frames, the first pass flags nothing
and the second pass flags frame 1: four frames are left unflagged, fewer than
`min(5, setting_minFrames) = 5`. In the age-out branch, with
`setting_maxFrames = 1` and `setting_minFrames = 5`, a window of three unflagged
frames is left with one unflagged frame. -/
theorem flagFrames_drops_below_minFrames :
    frameFlags windowFive = [(0, false), (1, false), (2, false), (3, false), (4, false)] ∧
    (flagFramesForMarginalization extFail settingsMaxEqMin windowFive).map
        (fun w => (frameFlags w, unflaggedCount w)) =
      some ([(0, false), (1, true), (2, false), (3, false), (4, false)], 4) ∧
    (flagFramesForMarginalization extFail settingsAgeOutSmall
        [frameAt 0, frameAt 1, frameAt 2]).map (fun w => (frameFlags w, unflaggedCount w)) =
      some ([(0, true), (1, true), (2, false)], 1) := by
  refine ⟨by decide, ?_, by decide⟩
  norm_num [flagFramesForMarginalization, flagFirstPass, notEnoughPoints, windowFive,
    settingsMaxEqMin, defaultSettings, extFail, frameAt, frame0, Flt.gt, Flt.lt, Flt.abs,
    frameFlags, setPrecalcValues, selectToMarginalize, distScore, distScoreSum, lookupFrame,
    flagFrame, unflaggedCount, Flt.add, Flt.div, Flt.mul, Flt.neg]

/-! ### Point activation: the optimisation step -/

theorem reductorLoop_spec (f : ImmaturePoint → OptimizedPtr) (t : List ImmaturePoint) :
    ∀ (fuel k : Nat) (o : List OptimizedPtr), o.length = t.length → k + fuel ≤ t.length →
      ∃ o1, reductorLoop f t fuel k o = some o1 ∧ o1.length = t.length ∧
        ∀ j, o1[j]? = if k ≤ j ∧ j < k + fuel then (t[j]?).map f else o[j]? := by
  intro fuel
  induction fuel with
  | zero =>
    intro k o ho _
    refine ⟨o, rfl, ho, fun j => ?_⟩
    rw [if_neg (by omega)]
  | succ n ih =>
    intro k o ho hk
    have hkt : k < t.length := by omega
    have hko : k < o.length := by omega
    obtain ⟨o1, h1, h2, h3⟩ := ih (k + 1) (o.set k (f t[k])) (by simpa using ho) (by omega)
    refine ⟨o1, ?_, h2, fun j => ?_⟩
    · unfold reductorLoop
      simp only [List.getElem?_eq_getElem hkt, hko, if_true]
      exact h1
    · rw [h3 j]
      by_cases hj : k + 1 ≤ j ∧ j < k + 1 + n
      · rw [if_pos hj, if_pos (by omega)]
      · rw [if_neg hj]
        by_cases hjk : j = k
        · subst hjk
          rw [if_pos (by omega), List.getElem?_set_self hko, List.getElem?_eq_getElem hkt]
          rfl
        · rw [if_neg (by omega), List.getElem?_set_ne (Ne.symm hjk)]

theorem activatePointsMT_Reductor_spec (ext : Ext) (w : List FrameHessian)
    (t : List ImmaturePoint) (o : List OptimizedPtr) (a b : Nat) (ho : o.length = t.length)
    (hb : b ≤ t.length) :
    ∃ o1, activatePointsMT_Reductor ext w o t a b = some o1 ∧ o1.length = t.length ∧
      ∀ j, o1[j]? =
        if a ≤ j ∧ j < b then (t[j]?).map (ext.optimizeImmaturePoint w) else o[j]? := by
  unfold activatePointsMT_Reductor
  by_cases hab : a ≤ b
  · obtain ⟨o1, h1, h2, h3⟩ := reductorLoop_spec (ext.optimizeImmaturePoint w) t (b - a) a o ho
      (by omega)
    refine ⟨o1, h1, h2, fun j => ?_⟩
    rw [h3 j]
    have : a + (b - a) = b := by omega
    rw [this]
  · have h0 : b - a = 0 := by omega
    rw [h0]
    refine ⟨o, rfl, ho, fun j => ?_⟩
    rw [if_neg (by omega)]

theorem reduce_spec (ext : Ext) (w : List FrameHessian) (t : List ImmaturePoint) :
    ∀ (schedule : List (Nat × Nat)) (o : List OptimizedPtr), o.length = t.length →
      (∀ r ∈ schedule, r.2 ≤ t.length) →
      ∃ o1, reduce (fun o a b => activatePointsMT_Reductor ext w o t a b) schedule o = some o1 ∧
        o1.length = t.length ∧
        ∀ j, o1[j]? =
          if ∃ r ∈ schedule, r.1 ≤ j ∧ j < r.2 then (t[j]?).map (ext.optimizeImmaturePoint w)
          else o[j]? := by
  intro schedule
  induction schedule with
  | nil =>
    intro o ho _
    refine ⟨o, rfl, ho, fun j => ?_⟩
    rw [if_neg (by simp)]
  | cons r rest ih =>
    intro o ho hin
    obtain ⟨o1, h1, h2, h3⟩ := activatePointsMT_Reductor_spec ext w t o r.1 r.2 ho
      (hin r (List.mem_cons_self _ _))
    obtain ⟨o2, h4, h5, h6⟩ := ih o1 h2 (fun x hx => hin x (List.mem_cons_of_mem _ hx))
    refine ⟨o2, ?_, h5, fun j => ?_⟩
    · unfold reduce at h4 ⊢
      rw [List.foldlM_cons]
      simp only [h1, Option.bind_eq_bind, Option.some_bind]
      exact h4
    · rw [h6 j]
      by_cases hrest : ∃ x ∈ rest, x.1 ≤ j ∧ j < x.2
      · obtain ⟨x, hx, hxj⟩ := hrest
        rw [if_pos ⟨x, hx, hxj⟩, if_pos ⟨x, List.mem_cons_of_mem _ hx, hxj⟩]
      · rw [if_neg hrest, h3 j]
        by_cases hr : r.1 ≤ j ∧ j < r.2
        · rw [if_pos hr, if_pos ⟨r, List.mem_cons_self _ _, hr⟩]
        · rw [if_neg hr, if_neg]
          rintro ⟨x, hx, hxj⟩
          rcases List.mem_cons.mp hx with rfl | hx
          · exact hr hxj
          · exact hrest ⟨x, hx, hxj⟩

theorem eq_map_of_getElem? (f : ImmaturePoint → OptimizedPtr) (t : List ImmaturePoint)
    (o : List OptimizedPtr) (hlen : o.length = t.length)
    (h : ∀ j, j < t.length → o[j]? = (t[j]?).map f) : o = t.map f := by
  apply List.ext_getElem?
  intro j
  by_cases hj : j < t.length
  · rw [h j hj, List.getElem?_map]
  · rw [List.getElem?_eq_none (by omega), List.getElem?_eq_none (by simp; omega)]

/-- C12: for every list `toOptimize` of length `n`, every array `optimized` of
that length and every family of sub-ranges of `[0, n)` that covers `[0, n)` (a
partition of `[0, n)` is one), calling `activatePointsMT_Reductor` once per
sub-range, in any order, fills `optimized` with the same entries as one call on
`[0, n)`: entry `k` is `optimizeImmaturePoint(toOptimize[k])`. The optimisation
step of `activatePointsMT` therefore gives the same array with and without
`multiThreading`. -/
theorem activatePointsMT_Reductor_partition (ext : Ext) (cfg : Settings)
    (w : List FrameHessian) (toOptimize : List ImmaturePoint) (optimized : List OptimizedPtr)
    (schedule : List (Nat × Nat))
    (hlen : optimized.length = toOptimize.length)
    (hin : ∀ r ∈ schedule, r.2 ≤ toOptimize.length)
    (hcover : ∀ k < toOptimize.length, ∃ r ∈ schedule, r.1 ≤ k ∧ k < r.2) :
    reduce (fun o a b => activatePointsMT_Reductor ext w o toOptimize a b) schedule optimized =
        activatePointsMT_Reductor ext w optimized toOptimize 0 toOptimize.length ∧
      activatePointsMT_Reductor ext w optimized toOptimize 0 toOptimize.length =
        some (toOptimize.map (ext.optimizeImmaturePoint w)) ∧
      optimizeCandidates ext cfg (fun _ => schedule) w toOptimize =
        some (toOptimize.map (ext.optimizeImmaturePoint w)) := by
  obtain ⟨o1, h1, h2, h3⟩ := reduce_spec ext w toOptimize schedule optimized hlen hin
  obtain ⟨o2, h4, h5, h6⟩ := activatePointsMT_Reductor_spec ext w toOptimize optimized 0
    toOptimize.length hlen (le_refl _)
  have e1 : o1 = toOptimize.map (ext.optimizeImmaturePoint w) :=
    eq_map_of_getElem? _ _ _ h2 (fun j hj => by rw [h3 j, if_pos (hcover j hj)])
  have e2 : o2 = toOptimize.map (ext.optimizeImmaturePoint w) :=
    eq_map_of_getElem? _ _ _ h5 (fun j hj => by rw [h6 j, if_pos ⟨Nat.zero_le _, hj⟩])
  have hnull : (List.replicate toOptimize.length OptimizedPtr.null).length = toOptimize.length :=
    List.length_replicate _ _
  obtain ⟨o3, h7, h8, h9⟩ := reduce_spec ext w toOptimize schedule _ hnull hin
  obtain ⟨o4, h10, h11, h12⟩ := activatePointsMT_Reductor_spec ext w toOptimize _ 0
    toOptimize.length hnull (le_refl _)
  have e3 : o3 = toOptimize.map (ext.optimizeImmaturePoint w) :=
    eq_map_of_getElem? _ _ _ h8 (fun j hj => by rw [h9 j, if_pos (hcover j hj)])
  have e4 : o4 = toOptimize.map (ext.optimizeImmaturePoint w) :=
    eq_map_of_getElem? _ _ _ h11 (fun j hj => by rw [h12 j, if_pos ⟨Nat.zero_le _, hj⟩])
  refine ⟨by rw [h1, h4, e1, e2], by rw [h4, e2], ?_⟩
  unfold optimizeCandidates
  simp only
  split
  · rw [h7, e3]
  · rw [h10, e4]

theorem activatePointsMT_Reductor_partition_witness :
    reduce (fun o a b => activatePointsMT_Reductor extOptimize [] o candidatesThree a b)
        [(2, 3), (0, 2)] (List.replicate 3 OptimizedPtr.null) =
        activatePointsMT_Reductor extOptimize [] (List.replicate 3 OptimizedPtr.null)
          candidatesThree 0 candidatesThree.length ∧
      activatePointsMT_Reductor extOptimize [] (List.replicate 3 OptimizedPtr.null)
          candidatesThree 0 candidatesThree.length =
        some (candidatesThree.map (extOptimize.optimizeImmaturePoint [])) ∧
      optimizeCandidates extOptimize defaultSettings (fun _ => [(2, 3), (0, 2)]) []
          candidatesThree =
        some (candidatesThree.map (extOptimize.optimizeImmaturePoint [])) :=
  activatePointsMT_Reductor_partition extOptimize defaultSettings [] candidatesThree
    (List.replicate 3 OptimizedPtr.null) [(2, 3), (0, 2)] rfl (by decide) (by decide)

/-! ### Point activation: the density controller -/

theorem clampMinActDist_range (d : ℚ) : 0 ≤ clampMinActDist d ∧ clampMinActDist d ≤ 4 := by
  unfold clampMinActDist
  simp only
  split_ifs <;> constructor <;> linarith

theorem activatePointsMT_currentMinActDist (ext : Ext) (cfg : Settings) (nPoints : Int)
    (schedule : Nat → List (Nat × Nat)) (s s1 : FullSystem)
    (h : activatePointsMT ext cfg nPoints schedule s = some s1) :
    s1.currentMinActDist = densityController cfg nPoints s.currentMinActDist := by
  unfold activatePointsMT at h
  simp only [Option.bind_eq_some, Option.map_eq_some'] at h
  obtain ⟨newestHs, -, r, -, optimized, -, w2, -, rfl⟩ := h
  rfl

/-! ### Point activation on the window `systemCandidates` -/

theorem ptpPixel_extFail :
    ptpPixel extFail ![Flt.fin 10, Flt.fin 10, Flt.fin 1] = (10, 10) := by
  norm_num [ptpPixel, addF, divF, Flt.rnd, extFail, Flt.div, Flt.add, Flt.toInt,
    Int.floor_eq_iff]

theorem scanCandidateBody_kept (w : List FrameHessian) (n h : FrameHessian)
    (ph : ImmaturePoint) (m : CoarseDistanceMap) (t : List ImmaturePoint)
    (hs : ph.lastTraceStatus = ImmaturePointStatus.IPS_GOOD ∨
      ph.lastTraceStatus = ImmaturePointStatus.IPS_OOB)
    (hmax : ph.idepth_max = Flt.fin 1) (hmin : ph.idepth_min = Flt.fin (1 / 2))
    (hu : ph.u = 10) (hv : ph.v = 10) (hq : ph.quality = 10)
    (hi : ph.lastTracePixelInterval = 1) (ht : ph.my_type = 1)
    (hm : m.fwdWarpedIDDistFinal 3210 = Flt.fin 0) :
    scanCandidateBody extFail defaultSettings w n h 2 ph ⟨m, t⟩ = some (some ph, ⟨m, t⟩) := by
  have hp : extFail.ptp n h ph = ![Flt.fin ph.u, Flt.fin ph.v, Flt.fin 1] := rfl
  unfold scanCandidateBody
  simp only [hp, hu, hv, ptpPixel_extFail]
  rcases hs with hs | hs <;>
    norm_num [canActivate, hs, hmax, hmin, hq, hi, ht, Flt.isfinite, Flt.add, Flt.gt, Flt.lt,
      defaultSettings, distFinal, minDist, addF, subF, mulF, Flt.rnd, Flt.mul, extFail, hm,
      Flt.sub, Flt.floor, Flt.neg, Flt.ge, reduceCtorEq] <;>
    intro hc <;> cases hc

theorem scanCandidateBody_lowQuality (w : List FrameHessian) (n h phHost : FrameHessian)
    (ph : ImmaturePoint) (st : ActivateScan)
    (hs : ph.lastTraceStatus = ImmaturePointStatus.IPS_GOOD)
    (hmax : ph.idepth_max = Flt.fin 1) (hq : ph.quality = 0)
    (hl : lookupFrame w ph.host = some phHost)
    (hf : phHost.flaggedForMarginalization = true) :
    scanCandidateBody extFail defaultSettings w n h 2 ph st = some (none, st) := by
  unfold scanCandidateBody
  norm_num [canActivate, hs, hmax, hq, hl, hf, Flt.isfinite, defaultSettings, reduceCtorEq]

theorem densityController_default : densityController defaultSettings 2000 2 = 2 := by
  norm_num [densityController, densitySteps, clampMinActDist, defaultSettings]

theorem scanHosts_cons_of_ne (ext : Ext) (cfg : Settings) (w : List FrameHessian)
    (newestHs host : FrameHessian) (d : ℚ) (rest : List FrameHessian) (st : ActivateScan)
    (h : (host.shell == newestHs.shell) = false) :
    scanHosts ext cfg w newestHs d (host :: rest) st =
      (scanCandidates ext cfg w newestHs host d 0 host.immaturePoints st).bind fun r =>
        (scanHosts ext cfg w newestHs d rest r.2).map fun rs =>
          ({ host with immaturePoints := r.1 } :: rs.1, rs.2) := by
  simp [scanHosts, h]

theorem scanHosts_cons_of_eq (ext : Ext) (cfg : Settings) (w : List FrameHessian)
    (newestHs host : FrameHessian) (d : ℚ) (rest : List FrameHessian) (st : ActivateScan)
    (h : (host.shell == newestHs.shell) = true) :
    scanHosts ext cfg w newestHs d (host :: rest) st =
      (scanHosts ext cfg w newestHs d rest st).map fun rs => (host :: rs.1, rs.2) := by
  simp [scanHosts, h]

theorem scanHosts_hostOfCandidates (w : List FrameHessian)
    (hm : (extFail.makeDistanceMap w (frameAt 1)).fwdWarpedIDDistFinal 3210 = Flt.fin 0)
    (hl : lookupFrame w 0 = some hostOfCandidates) :
    scanHosts extFail defaultSettings w (frameAt 1) 2 [hostOfCandidates, frameAt 1]
        ⟨extFail.makeDistanceMap w (frameAt 1), []⟩ =
      some ([{ hostOfCandidates with
                 immaturePoints :=
                   [some { candidateAt 0 ImmaturePointStatus.IPS_GOOD 10 with
                             idxInImmaturePoints := 0 },
                    some { candidateAt 0 ImmaturePointStatus.IPS_OOB 10 with
                             idxInImmaturePoints := 1 },
                    none] },
             frameAt 1],
        ⟨extFail.makeDistanceMap w (frameAt 1), []⟩) := by
  rw [scanHosts_cons_of_ne extFail defaultSettings w (frameAt 1) hostOfCandidates 2 [frameAt 1]
    _ rfl]
  rw [show hostOfCandidates.immaturePoints =
    [some (candidateAt 0 ImmaturePointStatus.IPS_GOOD 10),
     some (candidateAt 0 ImmaturePointStatus.IPS_OOB 10),
     some (candidateAt 0 ImmaturePointStatus.IPS_GOOD 0)] from rfl]
  simp only [scanCandidates, scanCandidate]
  rw [scanCandidateBody_kept _ _ _ _ _ _ (Or.inl rfl) rfl rfl rfl rfl rfl rfl rfl hm]
  simp only [Option.some_bind]
  rw [scanCandidateBody_kept _ _ _ _ _ _ (Or.inr rfl) rfl rfl rfl rfl rfl rfl rfl hm]
  simp only [Option.some_bind]
  rw [scanCandidateBody_lowQuality w _ _ hostOfCandidates _ _ rfl rfl rfl hl rfl]
  simp only [Option.some_bind, Option.map_some']
  rw [scanHosts_cons_of_eq extFail defaultSettings w (frameAt 1) (frameAt 1) 2 [] _ rfl]
  rfl

theorem activatePointsMT_systemCandidates :
    (activatePointsMT extFail defaultSettings 2000 scheduleSteps systemCandidates).map
        (fun s => (s.currentMinActDist, s.frameHessians.map fun f =>
          (f.shell, f.flaggedForMarginalization,
            f.immaturePoints.map (Option.map fun p =>
              (p.lastTraceStatus, p.quality, p.idxInImmaturePoints))))) =
      some (2, [(0, true, [some (ImmaturePointStatus.IPS_GOOD, 10, 0),
                 some (ImmaturePointStatus.IPS_OOB, 10, 1)]), (1, false, [])]) := by
  unfold activatePointsMT
  rw [show systemCandidates.currentMinActDist = 2 from rfl, densityController_default,
    show systemCandidates.frameHessians.getLast? = some (frameAt 1) from rfl]
  simp only [Option.some_bind]
  rw [show scanHosts extFail defaultSettings systemCandidates.frameHessians (frameAt 1) 2
      systemCandidates.frameHessians
      ⟨extFail.makeDistanceMap systemCandidates.frameHessians (frameAt 1), []⟩ = _ from
    scanHosts_hostOfCandidates systemCandidates.frameHessians rfl rfl]
  rfl

/-- C13: the density controller leaves a value in the closed interval [0, 4],
for every previous value of `currentMinActDist`, every point count `nPoints`
and every `setting_desiredPointDensity`; when `activatePointsMT` returns,
`currentMinActDist` is that value. -/
theorem densityController_range (cfg : Settings) (nPoints : Int) (d : ℚ) :
    (0 ≤ densityController cfg nPoints d ∧ densityController cfg nPoints d ≤ 4) ∧
      ∀ (ext : Ext) (schedule : Nat → List (Nat × Nat)) (s s1 : FullSystem),
        s.currentMinActDist = d → activatePointsMT ext cfg nPoints schedule s = some s1 →
        0 ≤ s1.currentMinActDist ∧ s1.currentMinActDist ≤ 4 := by
  refine ⟨clampMinActDist_range _, ?_⟩
  intro ext schedule s s1 _ h
  rw [activatePointsMT_currentMinActDist ext cfg nPoints schedule s s1 h]
  exact clampMinActDist_range _

theorem densityController_range_witness :
    (0 ≤ densityController defaultSettings 2000 2 ∧
        densityController defaultSettings 2000 2 ≤ 4) ∧
      ∃ s1, activatePointsMT extFail defaultSettings 2000 scheduleSteps systemCandidates =
          some s1 ∧ 0 ≤ s1.currentMinActDist ∧ s1.currentMinActDist ≤ 4 := by
  refine ⟨(densityController_range defaultSettings 2000 2).1, ?_⟩
  cases h : activatePointsMT extFail defaultSettings 2000 scheduleSteps systemCandidates with
  | none =>
    have h1 := activatePointsMT_systemCandidates
    rw [h] at h1
    cases h1
  | some s1 =>
    exact ⟨s1, rfl, (densityController_range defaultSettings 2000 2).2 extFail scheduleSteps
      systemCandidates s1 rfl h⟩

/-! ### Point activation: the candidate loop -/

theorem scanCandidateBody_mayStay (ext : Ext) (cfg : Settings) (w : List FrameHessian)
    (newestHs host : FrameHessian) (minActDist : ℚ) (ph : ImmaturePoint) (st : ActivateScan)
    (r : Option ImmaturePoint × ActivateScan)
    (hr : scanCandidateBody ext cfg w newestHs host minActDist ph st = some r) :
    ∀ x, r.1 = some x → x = ph ∧ mayStay cfg w ph := by
  intro x hx
  unfold scanCandidateBody at hr
  split at hr
  · simp only [Option.some.injEq] at hr
    subst hr
    cases hx
  · rename_i hfin
    simp only [Bool.or_eq_true, Bool.not_eq_true', beq_iff_eq, not_or, Bool.not_eq_false] at hfin
    split at hr
    · rw [Option.map_eq_some'] at hr
      obtain ⟨phHost, hl, rfl⟩ := hr
      split at hx
      · cases hx
      · rename_i hc
        simp only [Bool.or_eq_true, beq_iff_eq, not_or, Bool.not_eq_true] at hc
        simp only [Option.some.injEq] at hx
        exact ⟨hx.symm, hfin.1, hfin.2, Or.inr ⟨phHost, hl, hc.1, hc.2⟩⟩
    · rename_i hc
      simp only [Bool.not_eq_true', Bool.not_eq_false] at hc
      simp only at hr
      split at hr
      · split at hr
        · simp only [Option.some.injEq] at hr
          subst hr
          simp only [Option.some.injEq] at hx
          exact ⟨hx.symm, hfin.1, hfin.2, Or.inl hc⟩
        · simp only [Option.some.injEq] at hr
          subst hr
          simp only [Option.some.injEq] at hx
          exact ⟨hx.symm, hfin.1, hfin.2, Or.inl hc⟩
      · simp only [Option.some.injEq] at hr
        subst hr
        cases hx

theorem scanCandidates_mayStay (ext : Ext) (cfg : Settings) (w : List FrameHessian)
    (newestHs host : FrameHessian) (minActDist : ℚ) :
    ∀ (l : List (Option ImmaturePoint)) (i : Nat) (st : ActivateScan)
      (r : List (Option ImmaturePoint) × ActivateScan),
      scanCandidates ext cfg w newestHs host minActDist i l st = some r →
      ∀ x, some x ∈ r.1 → mayStay cfg w x := by
  intro l
  induction l with
  | nil =>
    intro i st r h x hx
    simp only [scanCandidates, Option.some.injEq] at h
    subst h
    simp at hx
  | cons a rest ih =>
    intro i st r h x hx
    cases a with
    | none => simp [scanCandidates] at h
    | some ph =>
      simp only [scanCandidates, Option.bind_eq_some, Option.map_eq_some'] at h
      obtain ⟨r1, h1, rs, h2, rfl⟩ := h
      rcases List.mem_cons.mp hx with hx | hx
      · obtain ⟨he, hm⟩ := scanCandidateBody_mayStay ext cfg w newestHs host minActDist _ st r1 h1
          x hx.symm
        rw [he]
        exact hm
      · exact ih (i + 1) r1.2 rs h2 x hx

theorem scanHosts_mayStay (ext : Ext) (cfg : Settings) (w : List FrameHessian)
    (newestHs : FrameHessian) (minActDist : ℚ) :
    ∀ (l : List FrameHessian) (st : ActivateScan) (r : List FrameHessian × ActivateScan),
      scanHosts ext cfg w newestHs minActDist l st = some r →
      allCandidates (fun sh x => sh ≠ newestHs.shell → mayStay cfg w x) r.1 := by
  intro l
  induction l with
  | nil =>
    intro st r h
    simp only [scanHosts, Option.some.injEq] at h
    subst h
    intro f hf
    simp at hf
  | cons host rest ih =>
    intro st r h
    unfold scanHosts at h
    split at h
    · rename_i hc
      rw [Option.map_eq_some'] at h
      obtain ⟨rs, h2, rfl⟩ := h
      intro f hf x hx hne
      rcases List.mem_cons.mp hf with rfl | hf
      · exact absurd (by simpa using hc) hne
      · exact ih st rs h2 f hf x hx hne
    · simp only [Option.bind_eq_some, Option.map_eq_some'] at h
      obtain ⟨r1, h1, rs, h2, rfl⟩ := h
      intro f hf x hx hne
      rcases List.mem_cons.mp hf with rfl | hf
      · exact scanCandidates_mayStay ext cfg w newestHs host minActDist _ 0 st r1 h1 x hx
      · exact ih r1.2 rs h2 f hf x hx hne

theorem clearCandidate_allCandidates (Q : Nat → ImmaturePoint → Prop) (w w1 : List FrameHessian)
    (host : Nat) (idx : Int) (hQ : allCandidates Q w)
    (h : clearCandidate w host idx = some w1) : allCandidates Q w1 := by
  unfold clearCandidate at h
  rw [Option.bind_eq_some] at h
  obtain ⟨fh, -, h⟩ := h
  split at h
  · simp only [Option.some.injEq] at h
    subst h
    intro f1 hf1 x hx
    rw [List.mem_map] at hf1
    obtain ⟨f, hf, rfl⟩ := hf1
    by_cases hc : (f.shell == host) = true
    · rw [if_pos hc] at hx ⊢
      rcases List.mem_or_eq_of_mem_set hx with hx | hx
      · exact hQ f hf x hx
      · cases hx
    · rw [if_neg hc] at hx ⊢
      exact hQ f hf x hx
  · cases h

theorem takeOptimized_allCandidates (Q : Nat → ImmaturePoint → Prop) (w w1 : List FrameHessian)
    (newpoint : OptimizedPtr) (ph : ImmaturePoint) (hQ : allCandidates Q w)
    (h : takeOptimized w newpoint ph = some w1) : allCandidates Q w1 := by
  unfold takeOptimized at h
  cases newpoint with
  | null =>
    simp only at h
    split at h
    · exact clearCandidate_allCandidates Q w w1 _ _ hQ h
    · simp only [Option.some.injEq] at h
      subst h
      exact hQ
  | minusOne => exact clearCandidate_allCandidates Q w w1 _ _ hQ h
  | point host p =>
    simp only [Option.map_eq_some'] at h
    obtain ⟨w2, h2, rfl⟩ := h
    have hQ2 := clearCandidate_allCandidates Q w w2 _ _ hQ h2
    intro f1 hf1 x hx
    rw [List.mem_map] at hf1
    obtain ⟨f, hf, rfl⟩ := hf1
    by_cases hc : (f.shell == host) = true
    · rw [if_pos hc] at hx ⊢
      exact hQ2 f hf x hx
    · rw [if_neg hc] at hx ⊢
      exact hQ2 f hf x hx

theorem takeAllOptimized_allCandidates (Q : Nat → ImmaturePoint → Prop) :
    ∀ (toOptimize : List ImmaturePoint) (optimized : List OptimizedPtr)
      (w w1 : List FrameHessian), allCandidates Q w →
      takeAllOptimized w optimized toOptimize = some w1 → allCandidates Q w1 := by
  intro toOptimize
  induction toOptimize with
  | nil =>
    intro optimized w w1 hQ h
    simp only [takeAllOptimized, Option.some.injEq] at h
    subst h
    exact hQ
  | cons ph rest ih =>
    intro optimized w w1 hQ h
    cases optimized with
    | nil => simp [takeAllOptimized] at h
    | cons newpoint optimized =>
      simp only [takeAllOptimized, Option.bind_eq_some] at h
      obtain ⟨w2, h2, h3⟩ := h
      exact ih optimized w2 w1 (takeOptimized_allCandidates Q w w2 newpoint ph hQ h2) h3

theorem compactCandidates_allCandidates (Q : Nat → ImmaturePoint → Prop) (w : List FrameHessian)
    (hQ : allCandidates Q w) :
    allCandidates Q (compactCandidates w) ∧
      ∀ f ∈ compactCandidates w, none ∉ f.immaturePoints := by
  constructor
  · intro f1 hf1 x hx
    unfold compactCandidates at hf1
    rw [List.mem_map] at hf1
    obtain ⟨f, hf, rfl⟩ := hf1
    have hp := (compact_spec f.immaturePoints).2
    have hx1 : some x ∈ compact f.immaturePoints := hx
    exact hQ f hf x (List.mem_of_mem_filter (hp.mem_iff.mp hx1))
  · intro f1 hf1 hn
    unfold compactCandidates at hf1
    rw [List.mem_map] at hf1
    obtain ⟨f, hf, rfl⟩ := hf1
    exact (compact_spec f.immaturePoints).1 none hn rfl

theorem printResultLoop_eq_filter (ext : Ext) (cfg : Settings) :
    ∀ (hist : List FrameShell),
      printResultLoop ext cfg hist =
        (hist.filter fun sh =>
          sh.poseValid && !(cfg.setting_onlyLogKFPoses && sh.marginalizedAt == sh.id)).map
          (printResultRow ext) := by
  intro hist
  induction hist with
  | nil => rfl
  | cons a t ih =>
    unfold printResultLoop
    rw [ih, List.filter_cons]
    cases hp : a.poseValid
    · simp
    · cases hk : (cfg.setting_onlyLogKFPoses && a.marginalizedAt == a.id)
      · simp
      · simp

theorem coeff_values (m : Matrix (Fin 3) (Fin 3) ℚ) :
    [coeff m 0, coeff m 1, coeff m 2, coeff m 3, coeff m 4, coeff m 5, coeff m 6, coeff m 7,
        coeff m 8] =
      [m 0 0, m 1 0, m 2 0, m 0 1, m 1 1, m 2 1, m 0 2, m 1 2, m 2 2] := rfl

theorem rowDot_exact (ext : Ext) (x0 x1 x2 : ℚ) (p : Fin 3 → ℚ)
    (h : ∀ q ∈ dotSteps x0 x1 x2 p, ext.roundD q = Flt.fin q ∧ ext.roundF q = Flt.fin q) :
    pushNegated ext (rowDot ext x0 x1 x2 p) = Flt.fin (-(x0 * p 0 + x1 * p 1 + x2 * p 2)) := by
  have h0 := (h (x0 * p 0) (by simp [dotSteps])).1
  have h1 := (h (x1 * p 1) (by simp [dotSteps])).1
  have h2 := (h (x2 * p 2) (by simp [dotSteps])).1
  have h3 := (h (x0 * p 0 + x1 * p 1) (by simp [dotSteps])).1
  have h4 := h (x0 * p 0 + x1 * p 1 + x2 * p 2) (by simp [dotSteps])
  have h5 := h (-1 * (x0 * p 0 + x1 * p 1 + x2 * p 2)) (by simp [dotSteps])
  simp only [pushNegated, rowDot, toFloat, mulD, addD, Flt.mul, Flt.add, Flt.rnd, h0, h1, h2, h3,
    h4.1, h4.2, h5.1, h5.2]
  congr 1
  ring

/-- C15 (amended): in every row written by `printResult`, the nine rotation
values are the entries of the stored `camToWorld` rotation matrix `R` in
column-major order, which is the transpose of `R` in row-major order. The
translation value `k` is computed from column `k` of `R` and the stored
translation `p`: the sum `R[0][k] p[0] + R[1][k] p[1] + R[2][k] p[2]` is
evaluated in `double`, narrowed to `float` and negated. When none of these
operations rounds, the three translation values are the components of
`-(Rᵀ p)`. -/
theorem printResultRow_values (ext : Ext) (s : FrameShell) :
    (printResultRow ext s).rotation = rowMajor s.camToWorld.R.transpose ∧
    (printResultRow ext s).translation =
      [pushNegated ext (rowDot ext (s.camToWorld.R 0 0) (s.camToWorld.R 1 0)
          (s.camToWorld.R 2 0) s.camToWorld.t),
        pushNegated ext (rowDot ext (s.camToWorld.R 0 1) (s.camToWorld.R 1 1)
          (s.camToWorld.R 2 1) s.camToWorld.t),
        pushNegated ext (rowDot ext (s.camToWorld.R 0 2) (s.camToWorld.R 1 2)
          (s.camToWorld.R 2 2) s.camToWorld.t)] ∧
    (exactRow ext s →
      (printResultRow ext s).translation =
        (components (-(s.camToWorld.R.transpose.mulVec s.camToWorld.t))).map Flt.fin) := by
  have h := coeff_values s.camToWorld.R
  simp only [List.cons.injEq, and_true] at h
  obtain ⟨h0, h1, h2, h3, h4, h5, h6, h7, h8⟩ := h
  refine ⟨?_, ?_, ?_⟩
  · simp only [printResultRow, h0, h1, h2, h3, h4, h5, h6, h7, h8, rowMajor,
      Matrix.transpose_apply]
  · simp only [printResultRow, h0, h1, h2, h3, h4, h5, h6, h7, h8]
  · intro hex
    have e0 := rowDot_exact ext (s.camToWorld.R 0 0) (s.camToWorld.R 1 0) (s.camToWorld.R 2 0)
      s.camToWorld.t (fun q hq => hex q (by simp [hq]))
    have e1 := rowDot_exact ext (s.camToWorld.R 0 1) (s.camToWorld.R 1 1) (s.camToWorld.R 2 1)
      s.camToWorld.t (fun q hq => hex q (by simp [hq]))
    have e2 := rowDot_exact ext (s.camToWorld.R 0 2) (s.camToWorld.R 1 2) (s.camToWorld.R 2 2)
      s.camToWorld.t (fun q hq => hex q (by simp [hq]))
    simp only [printResultRow, h0, h1, h2, h3, h4, h5, h6, h7, h8, e0, e1, e2, components,
      Pi.neg_apply, Matrix.mulVec, Matrix.dotProduct, Fin.sum_univ_three, Matrix.transpose_apply,
      List.map_cons, List.map_nil]

theorem printResultRow_values_witness :
    exactRow extFail shellTurned ∧
      (printResultRow extFail shellTurned).translation =
        (components
          (-(shellTurned.camToWorld.R.transpose.mulVec shellTurned.camToWorld.t))).map Flt.fin :=
  ⟨fun _ _ => ⟨rfl, rfl⟩,
    (printResultRow_values extFail shellTurned).2.2 (fun _ _ => ⟨rfl, rfl⟩)⟩

/-- C15 (counterexample): for the shell `shellTurned`, whose rotation `R` is a
quarter turn about the third axis and whose position `p` is (1, 0, 0), the
rotation values written are 0 1 0 -1 0 0 0 0 1 while `R` in row-major order is
0 -1 0 1 0 0 0 0 1, and the translation values written are 0 1 0 while
`-(R p)` is 0 -1 0. All the numbers are 0, 1 or -1: no operation rounds. -/
theorem printResultRow_is_not_row_major :
    (printResultRow extFail shellTurned).rotation = [0, 1, 0, -1, 0, 0, 0, 0, 1] ∧
    rowMajor shellTurned.camToWorld.R = [0, -1, 0, 1, 0, 0, 0, 0, 1] ∧
    (printResultRow extFail shellTurned).translation = [Flt.fin 0, Flt.fin 1, Flt.fin 0] ∧
    components (-(shellTurned.camToWorld.R.mulVec shellTurned.camToWorld.t)) = [0, -1, 0] := by
  have h := coeff_values shellTurned.camToWorld.R
  simp only [List.cons.injEq, and_true] at h
  obtain ⟨h0, h1, h2, h3, h4, h5, h6, h7, h8⟩ := h
  refine ⟨?_, ?_, ?_, ?_⟩
  · simp only [printResultRow, h0, h1, h2, h3, h4, h5, h6, h7, h8]
    norm_num [shellTurned, Matrix.vecHead, Matrix.vecTail]
  · norm_num [rowMajor, shellTurned, Matrix.vecHead, Matrix.vecTail]
  · simp only [printResultRow, h0, h1, h2, h3, h4, h5, h6, h7, h8, pushNegated, rowDot, toFloat,
      mulD, addD, Flt.mul, Flt.add, Flt.rnd, extFail]
    norm_num [shellTurned, Matrix.vecHead, Matrix.vecTail]
  · norm_num [components, shellTurned, Matrix.mulVec, Matrix.dotProduct, Fin.sum_univ_three,
      Matrix.vecHead, Matrix.vecTail]

/-! ### The history is append-only -/

theorem writeShell_keys (hist hist1 : List FrameShell) (p : Nat) (f : FrameShell → FrameShell)
    (h : writeShell hist p f = some hist1) (hf : ∀ sh, shellKey (f sh) = shellKey sh) :
    hist1.map shellKey = hist.map shellKey := by
  obtain ⟨sh, h1, rfl⟩ := writeShell_some _ _ _ _ h
  apply List.ext_getElem?
  intro j
  rw [List.getElem?_map, List.getElem?_map]
  by_cases hj : j = p
  · subst hj
    have hp : j < hist.length := (List.getElem?_eq_some.mp h1).1
    rw [List.getElem?_set_self hp, h1]
    simp [hf]
  · rw [List.getElem?_set_ne (Ne.symm hj)]

theorem setPoseFromTrackingRef_keys (hist hist1 : List FrameShell) (p : Nat)
    (h : setPoseFromTrackingRef hist p = some hist1) :
    hist1.map shellKey = hist.map shellKey := by
  unfold setPoseFromTrackingRef at h
  simp only [Option.bind_eq_bind, Option.bind_eq_some] at h
  obtain ⟨sh, -, refp, -, ref, -, hw⟩ := h
  exact writeShell_keys _ _ _ _ hw (fun _ => rfl)

theorem writeTrackedPose_keys (hist hist1 : List FrameShell) (p q : Nat) (st : TrackLoop)
    (h : writeTrackedPose hist p q st = some hist1) :
    hist1.map shellKey = hist.map shellKey := by
  unfold writeTrackedPose at h
  simp only [Option.bind_eq_bind, Option.bind_eq_some] at h
  obtain ⟨h1, hw1, sh, -, ref, -, hw2⟩ := h
  rw [writeShell_keys _ _ _ _ hw2 (fun _ => rfl), writeShell_keys _ _ _ _ hw1 (fun _ => rfl)]

theorem initializeFromInitializerCNN_keys (ext : Ext) (s s1 : FullSystem) (fh : FrameHessian)
    (h : initializeFromInitializerCNN ext s fh = some s1) :
    s1.allFrameHistory.map shellKey = s.allFrameHistory.map shellKey := by
  unfold initializeFromInitializerCNN at h
  simp only [Option.bind_eq_bind, Option.bind_eq_some, Option.pure_def, Option.some.injEq] at h
  obtain ⟨ff, -, h1, hw1, h2, hw2, h3, hw3, rfl⟩ := h
  show h3.map shellKey = _
  rw [writeShell_keys _ _ _ _ hw3 (fun _ => rfl), writeShell_keys _ _ _ _ hw2 (fun _ => rfl),
    writeShell_keys _ _ _ _ hw1 (fun _ => rfl)]

theorem trackSetup_keys (ext : Ext) (s : FullSystem) (fh : FrameHessian)
    (x : FullSystem × List SE3 × AffLight) (h : trackSetup ext s fh = some x) :
    x.1.allFrameHistory.map shellKey = s.allFrameHistory.map shellKey := by
  unfold trackSetup at h
  split at h
  · simp only [Option.map_eq_some'] at h
    obtain ⟨s1, hs1, rfl⟩ := h
    exact initializeFromInitializerCNN_keys ext s s1 fh hs1
  · simp only [Option.bind_eq_bind, Option.bind_eq_some, Option.pure_def,
      Option.some.injEq] at h
    obtain ⟨lastF, -, slast, -, -, -, -, -, rfl⟩ := h
    rfl

theorem trackNewCoarse_keys (ext : Ext) (cfg : Settings) (s : FullSystem) (fh : FrameHessian)
    (r : Vec4 × FullSystem) (h : trackNewCoarse ext cfg s fh = some r) :
    r.2.allFrameHistory.map shellKey = s.allFrameHistory.map shellKey := by
  unfold trackNewCoarse at h
  simp only [Option.bind_eq_some, Option.map_eq_some'] at h
  obtain ⟨x, hx, lastF, -, hist, hw, rfl⟩ := h
  show hist.map shellKey = _
  rw [writeTrackedPose_keys _ _ _ _ _ hw, trackSetup_keys ext s fh x hx]

theorem marginalizeFrame_keys (ext : Ext) (s s1 : FullSystem) (frame : Nat)
    (h : marginalizeFrame ext s frame = some s1) :
    s1.allFrameHistory.map shellKey = s.allFrameHistory.map shellKey := by
  unfold marginalizeFrame at h
  simp only [Option.bind_eq_bind, Option.bind_eq_some] at h
  obtain ⟨fr, -, h⟩ := h
  split at h
  · cases h
  · simp only [Option.bind_eq_bind, Option.bind_eq_some, Option.pure_def,
      Option.some.injEq] at h
    obtain ⟨latest, -, lsh, -, hist, hw, rfl⟩ := h
    exact writeShell_keys _ _ _ _ hw (fun _ => rfl)

theorem marginalizeLoop_keys (ext : Ext) :
    ∀ (fuel : Nat) (s : FullSystem) (i : Nat) (s1 : FullSystem),
      marginalizeLoop ext fuel s i = some s1 →
      s1.allFrameHistory.map shellKey = s.allFrameHistory.map shellKey := by
  intro fuel
  induction fuel with
  | zero =>
    intro s i s1 h
    simp only [marginalizeLoop, Option.some.injEq] at h
    rw [h]
  | succ n ih =>
    intro s i s1 h
    unfold marginalizeLoop at h
    cases hget : s.frameHessians[i]? with
    | none =>
      simp only [hget, Option.some.injEq] at h
      rw [h]
    | some fh =>
      simp only [hget] at h
      split at h
      · rw [Option.bind_eq_some] at h
        obtain ⟨s2, h2, h3⟩ := h
        rw [ih s2 1 s1 h3, marginalizeFrame_keys ext s s2 _ h2]
      · exact ih s (i + 1) s1 h

theorem makeNonKeyFrame_keys (ext : Ext) (s s1 : FullSystem) (fh : FrameHessian)
    (h : makeNonKeyFrame ext s fh = some s1) :
    s1.allFrameHistory.map shellKey = s.allFrameHistory.map shellKey := by
  unfold makeNonKeyFrame at h
  simp only [Option.bind_eq_some, Option.map_eq_some'] at h
  obtain ⟨hist, hw, w, -, rfl⟩ := h
  exact setPoseFromTrackingRef_keys _ _ _ hw

theorem makeKeyFrame_keys (ext : Ext) (cfg : Settings) (s s1 : FullSystem) (fh : FrameHessian)
    (hExt : keepsHistory ext.optimizeWindow ∧ keepsHistory ext.afterOptimize ∧
      keepsHistory ext.afterFlagPoints)
    (h : makeKeyFrame ext cfg s fh = some s1) :
    s1.allFrameHistory.map shellKey = s.allFrameHistory.map shellKey := by
  unfold makeKeyFrame at h
  simp only [Option.bind_eq_some] at h
  obtain ⟨hist, hw, w0, -, w1, -, hfin⟩ := h
  have h0 : (insertKeyFrame ext s hist w1 fh).allFrameHistory.map shellKey =
      s.allFrameHistory.map shellKey := setPoseFromTrackingRef_keys _ _ _ hw
  unfold finishKeyFrame at hfin
  split at hfin
  · simp only [Option.some.injEq] at hfin
    rw [← hfin, hExt.1 _, h0]
  · unfold marginalizeFlaggedFrames at hfin
    rw [marginalizeLoop_keys ext _ _ _ _ hfin, hExt.2.2 _]
    show (ext.afterOptimize (ext.optimizeWindow _)).allFrameHistory.map shellKey = _
    rw [hExt.2.1 _, hExt.1 _, h0]

theorem deliverTrackedFrame_keys (ext : Ext) (cfg : Settings) (s s1 : FullSystem)
    (fh : FrameHessian) (needKF : Bool)
    (hExt : keepsHistory ext.optimizeWindow ∧ keepsHistory ext.afterOptimize ∧
      keepsHistory ext.afterFlagPoints)
    (h : deliverTrackedFrame ext cfg s fh needKF = some s1) :
    s1.allFrameHistory.map shellKey = s.allFrameHistory.map shellKey := by
  unfold deliverTrackedFrame at h
  split at h
  · split at h
    · exact makeKeyFrame_keys ext cfg s s1 fh hExt h
    · exact makeNonKeyFrame_keys ext s s1 fh h
  · split at h
    · simp only [Option.bind_eq_bind, Option.bind_eq_some, Option.pure_def,
        Option.some.injEq] at h
      obtain ⟨sh, -, refp, -, ref, -, rfl⟩ := h
      rfl
    · simp only [Option.some.injEq] at h
      rw [← h]

theorem addActiveFrameTrack_keys (ext : Ext) (cfg : Settings) (s : FullSystem)
    (image : ImageAndExposure) (id : Int) (filePrefix : String)
    (r : FullSystem × Option (FrameHessian × Bool)) (hlost : s.isLost = false)
    (h : addActiveFrameTrack ext cfg s image id filePrefix = some r) :
    r.1.allFrameHistory.map shellKey =
      s.allFrameHistory.map shellKey ++
        [((s.allFrameHistory.length : Int), id, image.timestamp, filePrefix)] := by
  have hpush : (pushShell s (addActiveFrameShell ext s image id filePrefix)).allFrameHistory.map
      shellKey = s.allFrameHistory.map shellKey ++
        [((s.allFrameHistory.length : Int), id, image.timestamp, filePrefix)] := by
    rw [pushShell_allFrameHistory, List.map_append]
    rfl
  cases hi : s.initialized with
  | false =>
    simp only [addActiveFrameTrack, hlost, Bool.false_eq_true, if_false, pushShell_initialized,
      hi, Bool.not_false, if_true] at h
    split at h
    · simp only [Option.some.injEq] at h
      rw [← h]
      exact hpush
    · simp only [Option.some.injEq] at h
      rw [← h]
      exact hpush
  | true =>
    rw [addActiveFrameTrack_tracking ext cfg s image id filePrefix hlost hi,
      Option.bind_eq_some] at h
    obtain ⟨r1, hr1, h2⟩ := h
    have hk := trackNewCoarse_keys ext cfg _ _ r1 hr1
    rw [swapTrackingReference_allFrameHistory, hpush] at hk
    unfold afterTrackNewCoarse at h2
    split at h2
    · simp only [Option.some.injEq] at h2
      rw [← h2]
      exact hk
    · simp only [Option.map_eq_some'] at h2
      obtain ⟨k, -, rfl⟩ := h2
      exact hk

theorem addActiveFrame_keys (ext : Ext) (cfg : Settings) (s s1 : FullSystem)
    (image : ImageAndExposure) (id : Int) (filePrefix : String)
    (hExt : keepsHistory ext.optimizeWindow ∧ keepsHistory ext.afterOptimize ∧
      keepsHistory ext.afterFlagPoints)
    (hlost : s.isLost = false)
    (h : addActiveFrame ext cfg s image id filePrefix = some s1) :
    s1.allFrameHistory.map shellKey =
      s.allFrameHistory.map shellKey ++
        [((s.allFrameHistory.length : Int), id, image.timestamp, filePrefix)] := by
  unfold addActiveFrame at h
  rw [Option.bind_eq_some] at h
  obtain ⟨r, hr, h2⟩ := h
  have hk := addActiveFrameTrack_keys ext cfg s image id filePrefix r hlost hr
  cases hr2 : r.2 with
  | none =>
    simp only [hr2, Option.some.injEq] at h2
    rw [← h2]
    exact hk
  | some x =>
    simp only [hr2] at h2
    rw [deliverTrackedFrame_keys ext cfg r.1 s1 x.1 x.2 hExt h2]
    exact hk

theorem ids_of_keys (hist : List FrameShell)
    (h : ∀ (i : Nat) (k : Int × Int × ℚ × String), (hist.map shellKey)[i]? = some k → k.1 = i) :
    ∀ (i : Nat) (sh : FrameShell), hist[i]? = some sh → sh.id = i := by
  intro i sh hsh
  exact h i (shellKey sh) (by rw [List.getElem?_map, hsh]; rfl)

theorem reachable_keys (ext : Ext) (cfg : Settings)
    (hExt : keepsHistory ext.optimizeWindow ∧ keepsHistory ext.afterOptimize ∧
      keepsHistory ext.afterFlagPoints) (s : FullSystem) (hs : Reachable ext cfg s) :
    ∀ (i : Nat) (k : Int × Int × ℚ × String),
      (s.allFrameHistory.map shellKey)[i]? = some k → k.1 = i := by
  induction hs with
  | init s h0 =>
    intro i k hk
    rw [h0] at hk
    simp at hk
  | step s s1 image id filePrefix _ hstep ih =>
    intro i k hk
    cases hl : s.isLost with
    | true =>
      have : s1 = s := by
        simp [addActiveFrame, addActiveFrameTrack, hl] at hstep
        exact hstep.symm
      rw [this] at hk
      exact ih i k hk
    | false =>
      rw [addActiveFrame_keys ext cfg s s1 image id filePrefix hExt hl hstep] at hk
      by_cases hi : i < (s.allFrameHistory.map shellKey).length
      · rw [List.getElem?_append_left hi] at hk
        exact ih i k hk
      · rw [List.getElem?_append_right (by omega)] at hk
        have hlen : (s.allFrameHistory.map shellKey).length = s.allFrameHistory.length := by simp
        cases hd : i - (s.allFrameHistory.map shellKey).length with
        | zero =>
          rw [hd] at hk
          simp only [List.getElem?_cons_zero, Option.some.injEq] at hk
          rw [← hk]
          simp only
          omega
        | succ n =>
          rw [hd] at hk
          simp at hk

/-- C16: when the external steps of `makeKeyFrame` leave the records of the
history in place, every call of `addActiveFrame` made while `isLost` is false
and that returns appends exactly one record at the end of `allFrameHistory`
and leaves the records that were there in place, in the same order; the new
record has an `id` equal to its index. So in every state reached from an empty
history, `allFrameHistory[i].id = i` for every `i`. -/
theorem addActiveFrame_appends_one_record (ext : Ext) (cfg : Settings)
    (hExt : keepsHistory ext.optimizeWindow ∧ keepsHistory ext.afterOptimize ∧
      keepsHistory ext.afterFlagPoints) :
    (∀ (s s1 : FullSystem) (image : ImageAndExposure) (id : Int) (filePrefix : String),
      s.isLost = false → addActiveFrame ext cfg s image id filePrefix = some s1 →
      s1.allFrameHistory.length = s.allFrameHistory.length + 1 ∧
      s1.allFrameHistory.map shellKey =
        s.allFrameHistory.map shellKey ++
          [((s.allFrameHistory.length : Int), id, image.timestamp, filePrefix)]) ∧
    (∀ s, Reachable ext cfg s →
      ∀ (i : Nat) (sh : FrameShell), s.allFrameHistory[i]? = some sh → sh.id = i) := by
  refine ⟨?_, ?_⟩
  · intro s s1 image id filePrefix hlost h
    have hk := addActiveFrame_keys ext cfg s s1 image id filePrefix hExt hlost h
    refine ⟨?_, hk⟩
    have := congrArg List.length hk
    simpa using this
  · intro s hs
    exact ids_of_keys _ (reachable_keys ext cfg hExt s hs)

theorem addActiveFrame_appends_one_record_witness :
    addActiveFrame extGood settingsKfps system0 imageFirst 0 "frame0" = some systemFirst ∧
      systemFirst.allFrameHistory.length = system0.allFrameHistory.length + 1 ∧
      systemFirst.allFrameHistory.map shellKey =
        system0.allFrameHistory.map shellKey ++
          [((system0.allFrameHistory.length : Int), 0, imageFirst.timestamp, "frame0")] :=
  ⟨rfl, (addActiveFrame_appends_one_record extGood settingsKfps
    ⟨fun _ => rfl, fun _ => rfl, fun _ => rfl⟩).1 system0 systemFirst imageFirst 0 "frame0"
    rfl rfl⟩

/-! ### The decisions of `flagPointsForRemoval` -/

theorem flagPointsLoop_eq (ext : Ext) (cfg : Settings) (toKeep toMarg : List Nat) (hf : Bool) :
    ∀ (l : List (Option PointHessian)) (marg out : List PointHessian),
      flagPointsLoop ext cfg toKeep toMarg hf l marg out =
        (l.map (fun e => if pointStays (classifyPoint ext cfg toKeep toMarg hf) e then e
            else none),
          marg ++ l.filterMap (pointMarginalized (classifyPoint ext cfg toKeep toMarg hf)),
          out ++ l.filterMap (pointDropped (classifyPoint ext cfg toKeep toMarg hf))) := by
  intro l
  induction l with
  | nil => intro marg out; simp [flagPointsLoop]
  | cons a rest ih =>
    intro marg out
    cases a with
    | none =>
      simp [flagPointsLoop, ih, pointStays, pointMarginalized, pointDropped]
    | some ph =>
      unfold flagPointsLoop
      cases hc : classifyPoint ext cfg toKeep toMarg hf ph with
      | none =>
        simp [ih, pointStays, pointMarginalized, pointDropped, hc]
      | some x =>
        obtain ⟨b, p⟩ := x
        cases b
        · simp [ih, pointStays, pointMarginalized, pointDropped, hc]
        · simp [ih, pointStays, pointMarginalized, pointDropped, hc]

theorem filter_isSome_stays (c : PointHessian → Option (Bool × PointHessian)) :
    ∀ (l : List (Option PointHessian)),
      (l.map (fun e => if pointStays c e then e else none)).filter (fun e => e.isSome) =
        l.filter (pointStays c) := by
  intro l
  induction l with
  | nil => rfl
  | cons a rest ih =>
    cases a with
    | none => simpa [pointStays] using ih
    | some ph =>
      cases hs : pointStays c (some ph)
      · simp [hs, ih]
      · simp [hs, ih]

theorem newWinner_iff (ext : Ext) (r : TrackResult) (achievedRes : Vec5) :
    newWinner ext r achievedRes = true ↔ winnerBetter ext r achievedRes := by
  unfold newWinner winnerBetter
  cases hr : r.lastResiduals 0 <;> cases ha : achievedRes 0 <;>
    simp [toFloat, Flt.rnd, Flt.isfinite, Flt.ge, Flt.lt, and_assoc]

/-- C21 (amended): in the hypothesis loop of `trackNewCoarse`, whatever the
tracker returns, a hypothesis is taken over as the current winner if and only if
the tracker reports success, its residual `lastResiduals[0]` is finite when it
is converted to `float`, and that residual is strictly less than
`achievedRes[0]` or `achievedRes[0]` is NaN. When it is taken over,
`lastF_2_fh`, `aff_g2l` and `flowVecs` are those of the hypothesis and
`haveOneGood` is set; otherwise the four are left as they were. -/
theorem trackStep_takes_over_iff (ext : Ext) (aff : AffLight) (i : Nat) (h : SE3)
    (st : TrackLoop) :
    (newWinner ext (ext.trackNewestCoarse i h aff st.achievedRes) st.achievedRes = true ↔
      winnerBetter ext (ext.trackNewestCoarse i h aff st.achievedRes) st.achievedRes) ∧
    (winnerBetter ext (ext.trackNewestCoarse i h aff st.achievedRes) st.achievedRes →
      (trackStep ext aff i h st).lastF_2_fh =
          (ext.trackNewestCoarse i h aff st.achievedRes).lastToNew_out ∧
        (trackStep ext aff i h st).aff_g2l =
          (ext.trackNewestCoarse i h aff st.achievedRes).aff_g2l_out ∧
        (trackStep ext aff i h st).flowVecs =
          (ext.trackNewestCoarse i h aff st.achievedRes).lastFlowIndicators ∧
        (trackStep ext aff i h st).haveOneGood = true) ∧
    (¬ winnerBetter ext (ext.trackNewestCoarse i h aff st.achievedRes) st.achievedRes →
      (trackStep ext aff i h st).lastF_2_fh = st.lastF_2_fh ∧
        (trackStep ext aff i h st).aff_g2l = st.aff_g2l ∧
        (trackStep ext aff i h st).flowVecs = st.flowVecs ∧
        (trackStep ext aff i h st).haveOneGood = st.haveOneGood) := by
  refine ⟨newWinner_iff _ _ _, fun hw => ?_, fun hw => ?_⟩
  · have hn := (newWinner_iff _ _ _).mpr hw
    simp [trackStep, hn]
  · have hn : newWinner ext (ext.trackNewestCoarse i h aff st.achievedRes) st.achievedRes =
        false := by
      rw [← Bool.not_eq_true, newWinner_iff]; exact hw
    simp only [trackStep, hn, Bool.false_eq_true, if_false]
    by_cases hg : st.haveOneGood = true <;> simp [hg]

theorem trackStep_takes_over_iff_witness :
    (trackStep extGood ⟨0, 0⟩ 0 shiftSE3
        { achievedRes := Vec5.constant Flt.nan, haveOneGood := false, tryIterations := 0,
          flowVecs := fun _ => Flt.fin 100, aff_g2l := ⟨0, 0⟩, lastF_2_fh := 1 }).lastF_2_fh =
      shiftSE3 :=
  ((trackStep_takes_over_iff extGood ⟨0, 0⟩ 0 shiftSE3
      { achievedRes := Vec5.constant Flt.nan, haveOneGood := false, tryIterations := 0,
        flowVecs := fun _ => Flt.fin 100, aff_g2l := ⟨0, 0⟩, lastF_2_fh := 1 }).2.1
    ⟨rfl, rfl, Or.inr rfl⟩).1

/-- C21 (counterexample): the tracker of `extGood` reports success with residual
1 on every hypothesis. After the first hypothesis (the identity) is taken over,
`achievedRes[0]` is 1; the second hypothesis `shiftSE3` succeeds with the finite
residual 1, which is no worse than the best so far, and is not taken over: the
loop ends with the identity as `lastF_2_fh`. -/
theorem trackStep_equal_residual_not_taken :
    (trackHypotheses extGood defaultSettings (Vec5.constant (Flt.fin 0)) ⟨0, 0⟩ [1]).achievedRes 0 =
      Flt.fin 1 ∧
    winnerNoWorse
      (extGood.trackNewestCoarse 1 shiftSE3 ⟨0, 0⟩
        (trackHypotheses extGood defaultSettings (Vec5.constant (Flt.fin 0)) ⟨0, 0⟩
          [1]).achievedRes)
      (trackHypotheses extGood defaultSettings (Vec5.constant (Flt.fin 0)) ⟨0, 0⟩
        [1]).achievedRes ∧
    (extGood.trackNewestCoarse 1 shiftSE3 ⟨0, 0⟩
        (trackHypotheses extGood defaultSettings (Vec5.constant (Flt.fin 0)) ⟨0, 0⟩
          [1]).achievedRes).lastToNew_out = shiftSE3 ∧
    (trackHypotheses extGood defaultSettings (Vec5.constant (Flt.fin 0)) ⟨0, 0⟩
      [1, shiftSE3]).lastF_2_fh = 1 ∧
    (trackHypotheses extGood defaultSettings (Vec5.constant (Flt.fin 0)) ⟨0, 0⟩
      [1, shiftSE3]).tryIterations = 2 ∧
    shiftSE3 ≠ 1 := by
  have h1 : (trackHypotheses extGood defaultSettings (Vec5.constant (Flt.fin 0)) ⟨0, 0⟩
      [1]).achievedRes 0 = Flt.fin 1 := by
    simp [trackHypotheses, trackLoop, trackStep, newWinner, extGood, extFail, takeOverRes,
      Vec5.constant, toFloat, Flt.rnd, Flt.isfinite, Flt.ge, Flt.lt, Flt.mul, defaultSettings]
  refine ⟨h1, ⟨rfl, rfl, Or.inl ?_⟩, rfl, ?_, ?_, ?_⟩
  · rw [h1]; simp [extGood, Flt.ge, Flt.lt]
  · norm_num [trackHypotheses, trackLoop, trackStep, newWinner, extGood, extFail, takeOverRes,
      Vec5.constant, toFloat, Flt.rnd, Flt.isfinite, Flt.ge, Flt.lt, Flt.mul, Flt.gt,
      defaultSettings]
  · norm_num [trackHypotheses, trackLoop, trackStep, newWinner, extGood, extFail, takeOverRes,
      Vec5.constant, toFloat, Flt.rnd, Flt.isfinite, Flt.ge, Flt.lt, Flt.mul, Flt.gt,
      defaultSettings]
  · intro hc
    have := congrArg (fun x : SE3 => x.t 0) hc
    simp [shiftSE3, show ((1 : SE3).t) = 0 from rfl] at this

/-! ### The hypotheses of `trackNewCoarse` -/

theorem SE3.comp_rot_t (base : SE3) (x y z : ℚ) : (base * rotSE3 x y z).t = base.t := by
  show (SE3.comp base (rotSE3 x y z)).t = base.t
  simp [SE3.comp, rotSE3]

theorem fanAt_t (base : SE3) (d : ℚ) : ∀ x ∈ fanAt base d, x.t = base.t := by
  intro x hx
  simp only [fanAt, List.mem_map] at hx
  obtain ⟨⟨a, b, c⟩, -, rfl⟩ := hx
  exact SE3.comp_rot_t base _ _ _

theorem fanAt_length (base : SE3) (d : ℚ) : (fanAt base d).length = 26 := by
  simp [fanAt, rotationFan]

theorem trackSetup_moreFrames (ext : Ext) (s : FullSystem) (fh : FrameHessian) (lastF : Nat)
    (slast sprelast lastFShell : FrameShell)
    (hn : 3 ≤ s.allFrameHistory.length)
    (href : s.coarseTracker.lastRef = some lastF)
    (hslast : s.allFrameHistory[s.allFrameHistory.length - 2]? = some slast)
    (hsprelast : s.allFrameHistory[s.allFrameHistory.length - 3]? = some sprelast)
    (hlastF : s.allFrameHistory[lastF]? = some lastFShell) :
    trackSetup ext s fh =
      some (s, triesMoreFrames ext slast sprelast lastFShell, slast.aff_g2l) := by
  have h2 : (s.allFrameHistory.length == 2) = false := by
    simp only [beq_eq_false_iff_ne, ne_eq]; omega
  have hc : 2 ≤ s.allFrameHistory.length := by omega
  unfold trackSetup
  simp only [h2, Bool.false_eq_true, if_false, href, Option.bind_eq_bind, Option.some_bind,
    hc, hn, if_true, hslast, hsprelast, hlastF, Option.pure_def]

/-- C22 (amended): when `allFrameHistory` holds three or more frames and the
poses of the previous frame, the pre-previous frame and the tracking reference
are valid, the hypothesis list built by `trackNewCoarse` consists of the five
base hypotheses (constant motion, double motion, half motion, zero motion, zero
motion from the reference) followed, for each value of `rotDelta` that the loop
of this case visits, by the compositions of the first of them, the
constant-motion hypothesis, with the 26 rotations of the fan at that magnitude.
No entry is a composition made from one of the other four base hypotheses. The
values of `rotDelta` are those of the loop as it is written, whatever fuel the
model of the loop is given beyond the one used. -/
theorem trackSetup_tries_valid (ext : Ext) (s : FullSystem) (fh : FrameHessian) (lastF : Nat)
    (slast sprelast lastFShell : FrameShell)
    (hn : 3 ≤ s.allFrameHistory.length)
    (href : s.coarseTracker.lastRef = some lastF)
    (hslast : s.allFrameHistory[s.allFrameHistory.length - 2]? = some slast)
    (hsprelast : s.allFrameHistory[s.allFrameHistory.length - 3]? = some sprelast)
    (hlastF : s.allFrameHistory[lastF]? = some lastFShell)
    (hvalid : slast.poseValid = true ∧ sprelast.poseValid = true ∧
      lastFShell.poseValid = true) :
    ∃ tries, trackSetup ext s fh = some (s, tries, slast.aff_g2l) ∧
      (∀ m f : SE3, m = sprelast.camToWorld.inverse * slast.camToWorld →
        f = slast.camToWorld.inverse * lastFShell.camToWorld →
        tries =
          [m.inverse * f, m.inverse * m.inverse * f, (ext.halfMotion m).inverse * f, f, 1] ++
            (rotDeltas (fun rotDelta => rotDelta + 1) 2 (2 / 100)).flatMap fun rotDelta =>
              rotationFan.map fun x =>
                m.inverse * f *
                  rotSE3 (x.1 * rotDelta) (x.2.1 * rotDelta) (x.2.2 * rotDelta)) ∧
      ∀ n, rotDeltas (fun rotDelta => rotDelta + 1) (n + 2) (2 / 100) =
        rotDeltas (fun rotDelta => rotDelta + 1) 2 (2 / 100) := by
  refine ⟨_, trackSetup_moreFrames ext s fh lastF slast sprelast lastFShell hn href hslast
    hsprelast hlastF, ?_, ?_⟩
  · intro m f hm hf
    subst hm hf
    simp only [triesMoreFrames, hvalid.1, hvalid.2.1, hvalid.2.2, Bool.not_true, Bool.or_self,
      Bool.false_eq_true, if_false]
    rfl
  · intro n
    rw [rotDeltas_moreFrames n, rotDeltas_moreFrames 0]

theorem trackSetup_tries_valid_witness :
    ∃ tries, trackSetup extFail systemMoving { frame0 with shell := 2 } =
        some (systemMoving, tries, shellShifted.aff_g2l) ∧
      tries =
        [(shell0.camToWorld.inverse * shellShifted.camToWorld).inverse *
            (shellShifted.camToWorld.inverse * shell0.camToWorld),
          (shell0.camToWorld.inverse * shellShifted.camToWorld).inverse *
            (shell0.camToWorld.inverse * shellShifted.camToWorld).inverse *
            (shellShifted.camToWorld.inverse * shell0.camToWorld),
          (extFail.halfMotion (shell0.camToWorld.inverse * shellShifted.camToWorld)).inverse *
            (shellShifted.camToWorld.inverse * shell0.camToWorld),
          shellShifted.camToWorld.inverse * shell0.camToWorld, 1] ++
          (rotDeltas (fun rotDelta => rotDelta + 1) 2 (2 / 100)).flatMap fun rotDelta =>
            rotationFan.map fun x =>
              (shell0.camToWorld.inverse * shellShifted.camToWorld).inverse *
                (shellShifted.camToWorld.inverse * shell0.camToWorld) *
                rotSE3 (x.1 * rotDelta) (x.2.1 * rotDelta) (x.2.2 * rotDelta) := by
  obtain ⟨tries, h1, h2, -⟩ := trackSetup_tries_valid extFail systemMoving
    { frame0 with shell := 2 } 0 shellShifted shell0 shell0 (by decide) rfl rfl rfl rfl
    ⟨rfl, rfl, rfl⟩
  exact ⟨tries, h1, h2 _ _ rfl rfl⟩

theorem SE3.trans_comp (a b : Fin 3 → ℚ) : (⟨1, a⟩ : SE3) * ⟨1, b⟩ = ⟨1, b + a⟩ := by
  show SE3.comp ⟨1, a⟩ ⟨1, b⟩ = ⟨1, b + a⟩
  simp [SE3.comp]

theorem SE3.trans_inverse (a : Fin 3 → ℚ) : SE3.inverse ⟨1, a⟩ = ⟨1, -a⟩ := by
  simp [SE3.inverse]

theorem SE3.one_eq : (1 : SE3) = ⟨1, 0⟩ := rfl

theorem rotSE3_R_ne_one (d : ℚ) (hd : 0 < d) : (rotSE3 d 0 0).R ≠ 1 := by
  intro hc
  have h := congrFun (congrFun hc 2) 1
  simp [rotSE3, quatRotation] at h
  have hpos : (0 : ℚ) < 1 + d * d := by positivity
  rcases h with h | h
  · exact absurd h (ne_of_gt hd)
  · exact absurd h (ne_of_gt hpos)

theorem triesMoreFrames_systemMoving :
    triesMoreFrames extFail shellShifted shell0 shell0 =
      [⟨1, ![-2, 0, 0]⟩, ⟨1, ![-3, 0, 0]⟩, ⟨1, ![-2, 0, 0]⟩, ⟨1, ![-1, 0, 0]⟩, 1] ++
        fanAt ⟨1, ![-2, 0, 0]⟩ (2 / 100) := by
  have hs : shellShifted.camToWorld = ⟨1, ![1, 0, 0]⟩ := rfl
  have h0 : shell0.camToWorld = ⟨1, 0⟩ := rfl
  have hv : ∀ a b c d e f : ℚ, (![a, b, c] : Fin 3 → ℚ) + ![d, e, f] = ![a + d, b + e, c + f] := by
    intro a b c d e f; simp
  simp only [triesMoreFrames, hs, h0, SE3.trans_inverse, SE3.trans_comp, extFail,
    show shellShifted.poseValid = true from rfl, show shell0.poseValid = true from rfl,
    rotDeltas_moreFrames 0, List.flatMap_cons, List.flatMap_nil, List.append_nil]
  norm_num [hv]

/-- C22 (counterexample): in `systemMoving` the previous frame is at (1, 0, 0)
and the pre-previous frame and the tracking reference are at the origin, all
poses valid. The zero-motion hypothesis `lastF_2_slast` is one of the five base
hypotheses of the list; its composition with the first rotation of the fan at
the magnitude 0.02, a rotation that the two-frame case uses, is not in the
list. -/
theorem trackSetup_fan_only_on_first_hypothesis :
    ∃ tries aff, trackSetup extFail systemMoving { frame0 with shell := 2 } =
        some (systemMoving, tries, aff) ∧
      shellShifted.camToWorld.inverse * shell0.camToWorld = ⟨1, ![-1, 0, 0]⟩ ∧
      (⟨1, ![-1, 0, 0]⟩ : SE3) ∈ tries ∧
      (1 : SE3) * rotSE3 (2 / 100) 0 0 ∈ triesTwoFrames ∧
      (⟨1, ![-1, 0, 0]⟩ : SE3) * rotSE3 (2 / 100) 0 0 ∉ tries := by
  refine ⟨_, _, trackSetup_moreFrames extFail systemMoving { frame0 with shell := 2 } 0
    shellShifted shell0 shell0 (by decide) rfl rfl rfl rfl, ?_, ?_, ?_, ?_⟩
  · rw [show shellShifted.camToWorld = ⟨1, ![1, 0, 0]⟩ from rfl,
      show shell0.camToWorld = ⟨1, 0⟩ from rfl, SE3.trans_inverse, SE3.trans_comp]
    norm_num
  · rw [triesMoreFrames_systemMoving]; simp
  · rw [triesTwoFrames_cons]
    refine List.mem_cons_of_mem _ (List.mem_append_left _ ?_)
    simp only [fanAt, List.mem_map]
    exact ⟨(1, 0, 0), by simp [rotationFan], by norm_num⟩
  · rw [triesMoreFrames_systemMoving]
    intro hmem
    have ht : ((⟨1, ![-1, 0, 0]⟩ : SE3) * rotSE3 (2 / 100) 0 0).t 0 = -1 := by
      rw [SE3.comp_rot_t]; rfl
    have hR : ((⟨1, ![-1, 0, 0]⟩ : SE3) * rotSE3 (2 / 100) 0 0).R ≠ 1 := by
      show (SE3.comp ⟨1, ![-1, 0, 0]⟩ (rotSE3 (2 / 100) 0 0)).R ≠ 1
      simp only [SE3.comp, one_mul]
      exact rotSE3_R_ne_one _ (by norm_num)
    rw [List.mem_append] at hmem
    rcases hmem with hmem | hmem
    · simp only [List.mem_cons, List.mem_singleton, List.not_mem_nil, or_false] at hmem
      rcases hmem with h | h | h | h | h
      · rw [h] at ht; norm_num at ht
      · rw [h] at ht; norm_num at ht
      · rw [h] at ht; norm_num at ht
      · rw [h] at hR; exact hR rfl
      · rw [h] at hR; exact hR rfl
    · have := fanAt_t _ _ _ hmem
      rw [this] at ht; norm_num at ht

/-- C23: in `trackNewCoarse` with three or more frames in the history, if the
previous frame, the pre-previous frame or the tracking reference has
`poseValid = false`, the list of hypotheses is the one-element list holding the
identity transform, and the hypothesis loop calls the tracker once. -/
theorem trackSetup_tries_invalid (ext : Ext) (cfg : Settings) (s : FullSystem)
    (fh : FrameHessian) (lastF : Nat) (slast sprelast lastFShell : FrameShell)
    (hn : 3 ≤ s.allFrameHistory.length)
    (href : s.coarseTracker.lastRef = some lastF)
    (hslast : s.allFrameHistory[s.allFrameHistory.length - 2]? = some slast)
    (hsprelast : s.allFrameHistory[s.allFrameHistory.length - 3]? = some sprelast)
    (hlastF : s.allFrameHistory[lastF]? = some lastFShell)
    (hinvalid : slast.poseValid = false ∨ sprelast.poseValid = false ∨
      lastFShell.poseValid = false) :
    trackSetup ext s fh = some (s, [(1 : SE3)], slast.aff_g2l) ∧
      (trackHypotheses ext cfg s.lastCoarseRMSE slast.aff_g2l [(1 : SE3)]).tryIterations = 1 := by
  constructor
  · rw [trackSetup_moreFrames ext s fh lastF slast sprelast lastFShell hn href hslast
      hsprelast hlastF]
    have : triesMoreFrames ext slast sprelast lastFShell = [(1 : SE3)] := by
      unfold triesMoreFrames
      rcases hinvalid with h | h | h <;> simp [h]
    rw [this]
  · simp only [trackHypotheses, trackLoop, trackStep]
    split <;> split <;> split <;> simp

theorem trackSetup_tries_invalid_witness :
    trackSetup extFail systemInvalidPose { frame0 with shell := 2 } =
        some (systemInvalidPose, [(1 : SE3)], shellShifted.aff_g2l) ∧
      (trackHypotheses extFail defaultSettings systemInvalidPose.lastCoarseRMSE
        shellShifted.aff_g2l [(1 : SE3)]).tryIterations = 1 :=
  trackSetup_tries_invalid extFail defaultSettings systemInvalidPose { frame0 with shell := 2 } 0
    { shellShifted with poseValid := false } shell0 shell0 (by decide) rfl rfl rfl rfl
    (Or.inl rfl)

/-! ### The age-out branch of `flagFramesForMarginalization` -/

theorem flagFirst_getElem? :
    ∀ (k : Nat) (w : List FrameHessian) (i : Nat),
      (flagFirst k w)[i]? =
        (w[i]?).map fun f => if i < k then { f with flaggedForMarginalization := true } else f := by
  intro k
  induction k with
  | zero => intro w i; simp [flagFirst]
  | succ n ih =>
    intro w i
    cases w with
    | nil => simp [flagFirst]
    | cons a t =>
      cases i with
      | zero => simp [flagFirst]
      | succ j => simp [flagFirst, ih]

/-- C27: when `setting_minFrameAge > setting_maxFrames` (and `setting_maxFrames`
is not negative), `flagFramesForMarginalization` on a window of `n` frames
returns, sets the flag of the first `n - setting_maxFrames` frames of
`frameHessians` (of none when `n <= setting_maxFrames`) and leaves every other
frame, and every other member of the flagged frames, as it was. -/
theorem flagFrames_ageOut (ext : Ext) (cfg : Settings) (w : List FrameHessian)
    (hage : cfg.setting_minFrameAge > cfg.setting_maxFrames)
    (hmax : 0 ≤ cfg.setting_maxFrames) :
    ∃ w1, flagFramesForMarginalization ext cfg w = some w1 ∧ w1.length = w.length ∧
      (∀ (i : Nat) (f : FrameHessian), w[i]? = some f →
        ((i : Int) < (w.length : Int) - cfg.setting_maxFrames →
          w1[i]? = some { f with flaggedForMarginalization := true }) ∧
        ((w.length : Int) - cfg.setting_maxFrames ≤ (i : Int) → w1[i]? = some f)) ∧
      ((w.length : Int) ≤ cfg.setting_maxFrames → w1 = w) := by
  refine ⟨flagFirst (w.length - cfg.setting_maxFrames.toNat) w, ?_, flagFirst_length _ _, ?_, ?_⟩
  · unfold flagFramesForMarginalization flagOldest
    rw [if_pos hage, if_neg (by omega)]
  · intro i f hf
    rw [flagFirst_getElem?, hf]
    constructor
    · intro hi
      have : i < w.length - cfg.setting_maxFrames.toNat := by omega
      simp [this]
    · intro hi
      have : ¬ i < w.length - cfg.setting_maxFrames.toNat := by omega
      simp [this]
  · intro hle
    have : w.length - cfg.setting_maxFrames.toNat = 0 := by omega
    rw [this]
    rfl

theorem flagFrames_ageOut_witness :
    ∃ w1, flagFramesForMarginalization extFail settingsAgeOut [frameAt 0, frameAt 1, frameAt 2] =
        some w1 ∧
      frameFlags w1 = [(0, true), (1, true), (2, false)] := by
  obtain ⟨w1, h1, -, -, -⟩ := flagFrames_ageOut extFail settingsAgeOut
    [frameAt 0, frameAt 1, frameAt 2] (by decide) (by decide)
  refine ⟨w1, h1, ?_⟩
  have h2 : flagFramesForMarginalization extFail settingsAgeOut
      [frameAt 0, frameAt 1, frameAt 2] =
      some (flagFirst 2 [frameAt 0, frameAt 1, frameAt 2]) := by decide
  rw [h2] at h1
  cases h1
  decide

/-! ### The second pass of `flagFramesForMarginalization` -/

theorem lookupFrame_of_mem :
    ∀ (w : List FrameHessian), (w.map fun f => f.shell).Nodup → ∀ t ∈ w,
      lookupFrame w t.shell = some t := by
  intro w
  induction w with
  | nil => intro _ t ht; simp at ht
  | cons a r ih =>
    intro hnd t ht
    simp only [List.map_cons, List.nodup_cons] at hnd
    unfold lookupFrame
    rcases List.mem_cons.mp ht with rfl | ht
    · simp [List.find?]
    · have hne : a.shell ≠ t.shell := by
        intro hc
        exact hnd.1 (hc ▸ List.mem_map_of_mem (fun f => f.shell) ht)
      rw [List.find?_cons_of_neg _ (by simpa using hne)]
      exact ih hnd.2 t ht

theorem distScoreSum_precalc (cfg : Settings) (dist : Nat → Nat → Flt) (w : List FrameHessian)
    (latest fh : FrameHessian) (hnd : (w.map fun f => f.shell).Nodup) :
    ∀ (ts : List FrameHessian) (acc : Flt), (∀ t ∈ ts, t ∈ w) →
      distScoreSum cfg w latest
          (ts.map fun t => (⟨fh.shell, t.shell, dist fh.shell t.shell⟩ : FrameFramePrecalc)) acc =
        some ((ts.filter (scoreTarget cfg latest fh)).foldl
          (fun acc t =>
            Flt.add acc
              (Flt.div (Flt.fin 1) (Flt.add (Flt.fin (1 / 100000)) (dist fh.shell t.shell))))
          acc) := by
  intro ts
  induction ts with
  | nil => intro acc _; rfl
  | cons a r ih =>
    intro acc hts
    have ha := lookupFrame_of_mem w hnd a (hts a (List.mem_cons_self _ _))
    have hr : ∀ t ∈ r, t ∈ w := fun t ht => hts t (List.mem_cons_of_mem _ ht)
    simp only [List.map_cons, distScoreSum, ha, Option.bind_eq_bind, Option.some_bind]
    by_cases hc : scoreTarget cfg latest fh a = true
    · rw [List.filter_cons_of_pos hc, List.foldl_cons]
      simp only [scoreTarget, Bool.and_eq_true, decide_eq_true_eq, bne_iff_ne, ne_eq] at hc
      rw [if_neg (by simp only [Bool.or_eq_true, decide_eq_true_eq, beq_iff_eq, not_or, not_lt]
                     exact ⟨hc.1, hc.2⟩)]
      exact ih _ hr
    · rw [List.filter_cons_of_neg hc]
      simp only [scoreTarget, Bool.and_eq_true, decide_eq_true_eq, bne_iff_ne, ne_eq, not_and,
        Decidable.not_not] at hc
      rw [if_pos (by simp only [Bool.or_eq_true, decide_eq_true_eq, beq_iff_eq]
                     by_cases h1 : a.frameID ≤ latest.frameID - cfg.setting_minFrameAge + 1
                     · exact Or.inr (hc h1)
                     · exact Or.inl (by omega))]
      exact ih _ hr

theorem distScore_eq_windowScore (ext : Ext) (cfg : Settings) (dist : Nat → Nat → Flt)
    (w : List FrameHessian) (latest fh : FrameHessian)
    (hnd : (w.map fun f => f.shell).Nodup)
    (hlast : (w.map fun f => f.shell).getLast? = some latest.shell)
    (hpre : fh.targetPrecalc = precalcOf dist w fh) :
    distScore ext cfg w latest fh = some (windowScore ext cfg dist w latest fh) := by
  unfold distScore windowScore
  rw [hpre]
  unfold precalcOf
  rw [distScoreSum_precalc cfg dist w latest fh hnd w _ (fun _ h => h)]
  have hl : (w.map fun t =>
      (⟨fh.shell, t.shell, dist fh.shell t.shell⟩ : FrameFramePrecalc)).getLast? =
      some ⟨fh.shell, latest.shell, dist fh.shell latest.shell⟩ := by
    have : (w.map fun t => (⟨fh.shell, t.shell, dist fh.shell t.shell⟩ : FrameFramePrecalc)) =
        (w.map fun f => f.shell).map fun p => ⟨fh.shell, p, dist fh.shell p⟩ := by
      simp [List.map_map]
    rw [this, List.getLast?_map, hlast]
    rfl
  simp [hl]

theorem Flt.lt_self (a : Flt) : Flt.lt a a = false := by
  cases a <;> simp [Flt.lt]

theorem Flt.lt_of_lt_of_lt {a b c : Flt} (h1 : Flt.lt a b = true) (h2 : Flt.lt b c = true) :
    Flt.lt a c = true := by
  cases a <;> cases b <;> cases c <;> simp [Flt.lt] at h1 h2 ⊢
  exact lt_trans h1 h2

theorem Flt.ne_nan_of_lt {a b : Flt} (h : Flt.lt a b = true) : a ≠ Flt.nan ∧ b ≠ Flt.nan := by
  cases a <;> cases b <;> simp [Flt.lt] at h ⊢

theorem Flt.lt_of_lt_of_not_lt {a b c : Flt} (h1 : Flt.lt a b = true)
    (h2 : Flt.lt c b = false) (hc : c ≠ Flt.nan) : Flt.lt a c = true := by
  cases a <;> cases b <;> cases c <;> simp [Flt.lt] at h1 h2 hc ⊢
  exact lt_of_lt_of_le h1 h2

theorem selectToMarginalize_spec (ext : Ext) (cfg : Settings) (w : List FrameHessian)
    (latest : FrameHessian) :
    ∀ (l : List FrameHessian) (sc : Flt) (tm : Option Nat) (sc1 : Flt) (tm1 : Option Nat),
      sc ≠ Flt.nan → selectToMarginalize ext cfg w latest l sc tm = some (sc1, tm1) →
      sc1 ≠ Flt.nan ∧ Flt.lt sc sc1 = false ∧
      (∀ g ∈ l, oldEnough cfg latest g → ∀ dg, distScore ext cfg w latest g = some dg →
        Flt.lt dg sc1 = false) ∧
      ((sc1 = sc ∧ tm1 = tm) ∨
        ∃ pre fh post, l = pre ++ fh :: post ∧ oldEnough cfg latest fh ∧
          distScore ext cfg w latest fh = some sc1 ∧ tm1 = some fh.shell ∧
          Flt.lt sc1 sc = true ∧
          ∀ g ∈ pre, oldEnough cfg latest g → distScore ext cfg w latest g ≠ some sc1) := by
  intro l
  induction l with
  | nil =>
    intro sc tm sc1 tm1 hsc h
    simp only [selectToMarginalize, Option.some.injEq, Prod.mk.injEq] at h
    obtain ⟨rfl, rfl⟩ := h
    exact ⟨hsc, Flt.lt_self _, by simp, Or.inl ⟨rfl, rfl⟩⟩
  | cons a t ih =>
    intro sc tm sc1 tm1 hsc h
    unfold selectToMarginalize at h
    split at h
    · rename_i hskip
      have hna : ¬ oldEnough cfg latest a := by
        simp only [Bool.or_eq_true, decide_eq_true_eq, beq_iff_eq] at hskip
        unfold oldEnough
        rcases hskip with h1 | h1
        · omega
        · simp [h1]
      obtain ⟨h1, h2, h3, h4⟩ := ih sc tm sc1 tm1 hsc h
      refine ⟨h1, h2, ?_, ?_⟩
      · intro g hg hold dg hdg
        rcases List.mem_cons.mp hg with rfl | hg
        · exact absurd hold hna
        · exact h3 g hg hold dg hdg
      · rcases h4 with h4 | ⟨pre, fh, post, rfl, h5, h6, h7, h8, h9⟩
        · exact Or.inl h4
        · refine Or.inr ⟨a :: pre, fh, post, rfl, h5, h6, h7, h8, ?_⟩
          intro g hg hold
          rcases List.mem_cons.mp hg with rfl | hg
          · exact absurd hold hna
          · exact h9 g hg hold
    · rename_i hskip
      have ha : oldEnough cfg latest a := by
        simp only [Bool.or_eq_true, decide_eq_true_eq, beq_iff_eq, not_or, not_lt] at hskip
        exact ⟨hskip.1, hskip.2⟩
      simp only [Option.bind_eq_bind, Option.bind_eq_some] at h
      obtain ⟨d, hd, h⟩ := h
      split at h
      · rename_i hlt
        have hdn := (Flt.ne_nan_of_lt hlt).1
        obtain ⟨h1, h2, h3, h4⟩ := ih d (some a.shell) sc1 tm1 hdn h
        refine ⟨h1, ?_, ?_, ?_⟩
        · cases hx : Flt.lt sc sc1 with
          | false => rfl
          | true =>
            have := Flt.lt_of_lt_of_lt hlt hx
            rw [h2] at this
            cases this
        · intro g hg hold dg hdg
          rcases List.mem_cons.mp hg with rfl | hg
          · rw [hd] at hdg
            cases hdg
            exact h2
          · exact h3 g hg hold dg hdg
        · rcases h4 with ⟨rfl, rfl⟩ | ⟨pre, fh, post, rfl, h5, h6, h7, h8, h9⟩
          · exact Or.inr ⟨[], a, t, rfl, ha, hd, rfl, hlt, by simp⟩
          · refine Or.inr ⟨a :: pre, fh, post, rfl, h5, h6, h7, Flt.lt_of_lt_of_lt h8 hlt, ?_⟩
            intro g hg hold
            rcases List.mem_cons.mp hg with rfl | hg
            · rw [hd]
              intro hc
              cases hc
              rw [Flt.lt_self] at h8
              cases h8
            · exact h9 g hg hold
      · rename_i hlt
        simp only [Bool.not_eq_true] at hlt
        obtain ⟨h1, h2, h3, h4⟩ := ih sc tm sc1 tm1 hsc h
        refine ⟨h1, h2, ?_, ?_⟩
        · intro g hg hold dg hdg
          rcases List.mem_cons.mp hg with rfl | hg
          · rw [hd] at hdg
            cases hdg
            cases hx : Flt.lt d sc1 with
            | false => rfl
            | true =>
              have := Flt.lt_of_lt_of_not_lt hx h2 hsc
              rw [hlt] at this
              cases this
          · exact h3 g hg hold dg hdg
        · rcases h4 with h4 | ⟨pre, fh, post, rfl, h5, h6, h7, h8, h9⟩
          · exact Or.inl h4
          · refine Or.inr ⟨a :: pre, fh, post, rfl, h5, h6, h7, h8, ?_⟩
            intro g hg hold
            rcases List.mem_cons.mp hg with rfl | hg
            · rw [hd]
              intro hc
              cases hc
              rw [hlt] at h8
              cases h8
            · exact h9 g hg hold

theorem increasing_head_le_last :
    ∀ (l : List Int) (a b : Int), l.Pairwise (· < ·) → l.head? = some a →
      l.getLast? = some b → a + l.length - 1 ≤ b := by
  intro l
  induction l with
  | nil => intro a b _ h; simp at h
  | cons x t ih =>
    intro a b hp ha hb
    simp only [List.head?_cons, Option.some.injEq] at ha
    subst ha
    cases t with
    | nil =>
      simp only [List.getLast?_singleton, Option.some.injEq] at hb
      subst hb
      simp
    | cons y t1 =>
      rw [List.getLast?_cons_cons] at hb
      have hp1 := List.pairwise_cons.mp hp
      have hxy : x < y := hp1.1 y (List.mem_cons_self _ _)
      have := ih y b hp1.2 rfl hb
      simp only [List.length_cons, Nat.cast_add, Nat.cast_one] at this ⊢
      omega

theorem selectToMarginalize_isSome (ext : Ext) (cfg : Settings) (w : List FrameHessian)
    (latest : FrameHessian) :
    ∀ (l : List FrameHessian) (sc : Flt) (tm : Option Nat),
      (∀ g ∈ l, ∃ d, distScore ext cfg w latest g = some d) →
      ∃ r, selectToMarginalize ext cfg w latest l sc tm = some r := by
  intro l
  induction l with
  | nil => intro sc tm _; exact ⟨_, rfl⟩
  | cons a t ih =>
    intro sc tm hl
    have ht : ∀ g ∈ t, ∃ d, distScore ext cfg w latest g = some d :=
      fun g hg => hl g (List.mem_cons_of_mem _ hg)
    obtain ⟨d, hd⟩ := hl a (List.mem_cons_self _ _)
    unfold selectToMarginalize
    split
    · exact ih sc tm ht
    · simp only [hd, Option.bind_eq_bind, Option.some_bind]
      split
      · exact ih _ _ ht
      · exact ih _ _ ht

theorem scoreSum_nonneg (dist : Nat → Nat → Flt) (p : Nat) :
    ∀ (ts : List FrameHessian) (a : ℚ), 0 ≤ a →
      (∀ t ∈ ts, ∃ q : ℚ, 0 ≤ q ∧ dist p t.shell = Flt.fin q) →
      ∃ s : ℚ, 0 ≤ s ∧
        ts.foldl (fun acc t =>
          Flt.add acc (Flt.div (Flt.fin 1) (Flt.add (Flt.fin (1 / 100000)) (dist p t.shell))))
          (Flt.fin a) = Flt.fin s := by
  intro ts
  induction ts with
  | nil => intro a ha _; exact ⟨a, ha, rfl⟩
  | cons x t ih =>
    intro a ha hd
    obtain ⟨q, hq, hx⟩ := hd x (List.mem_cons_self _ _)
    have hpos : (0 : ℚ) < 1 / 100000 + q := by positivity
    have hne : (100000 : ℚ)⁻¹ + q ≠ 0 := by positivity
    have hstep : Flt.add (Flt.fin a)
        (Flt.div (Flt.fin 1) (Flt.add (Flt.fin (1 / 100000)) (dist p x.shell))) =
        Flt.fin (a + 1 / (1 / 100000 + q)) := by
      rw [hx]
      simp [Flt.add, Flt.div, hne]
    rw [List.foldl_cons, hstep]
    exact ih _ (by positivity) (fun t ht => hd t (List.mem_cons_of_mem _ ht))

theorem windowScore_le_zero (ext : Ext) (cfg : Settings) (dist : Nat → Nat → Flt)
    (w : List FrameHessian) (latest fh : FrameHessian)
    (hdist : ∀ t ∈ w, ∃ q : ℚ, 0 ≤ q ∧ dist fh.shell t.shell = Flt.fin q)
    (hlatest : ∃ q : ℚ, 0 ≤ q ∧ dist fh.shell latest.shell = Flt.fin q)
    (hsqrt : ∀ q : ℚ, 0 ≤ q → ∃ r : ℚ, 0 ≤ r ∧ ext.sqrtf (Flt.fin q) = Flt.fin r) :
    ∃ d : ℚ, d ≤ 0 ∧ windowScore ext cfg dist w latest fh = Flt.fin d := by
  obtain ⟨s, hs, hsum⟩ := scoreSum_nonneg dist fh.shell
    (w.filter (scoreTarget cfg latest fh)) 0 (le_refl _)
    (fun t ht => hdist t (List.mem_of_mem_filter ht))
  obtain ⟨q, hq, hql⟩ := hlatest
  obtain ⟨r, hr, hqr⟩ := hsqrt q hq
  refine ⟨s * -r, ?_, ?_⟩
  · nlinarith
  · unfold windowScore
    rw [hsum, hql, hqr]
    rfl

theorem selectToMarginalize_selects_core (ext : Ext) (cfg : Settings) (dist : Nat → Nat → Flt)
    (w : List FrameHessian) (latest : FrameHessian)
    (hlastShell : (w.map fun f => f.shell).getLast? = some latest.shell)
    (hlastID : (w.map fun f => f.frameID).getLast? = some latest.frameID)
    (hage : cfg.setting_minFrameAge + 2 ≤ (w.length : Int))
    (hn : 2 ≤ w.length)
    (hids : (w.map fun f => f.frameID).Pairwise (· < ·))
    (hnonneg : ∀ x ∈ w.map fun f => f.frameID, (0 : Int) ≤ x)
    (hnd : (w.map fun f => f.shell).Nodup)
    (hpre : ∀ f ∈ w, f.targetPrecalc = precalcOf dist w f)
    (hdist : ∀ a ∈ w.map fun f => f.shell, ∀ b ∈ w.map fun f => f.shell,
      ∃ q : ℚ, 0 ≤ q ∧ dist a b = Flt.fin q)
    (hsqrt : ∀ q : ℚ, 0 ≤ q → ∃ r : ℚ, 0 ≤ r ∧ ext.sqrtf (Flt.fin q) = Flt.fin r) :
    ∃ sc p, selectToMarginalize ext cfg w latest w (Flt.fin 1) none = some (sc, some p) := by
  have hscore : ∀ g ∈ w, distScore ext cfg w latest g =
      some (windowScore ext cfg dist w latest g) :=
    fun g hg => distScore_eq_windowScore ext cfg dist w latest g hnd hlastShell (hpre g hg)
  have hlm : latest.shell ∈ w.map fun f => f.shell := List.mem_of_mem_getLast? (Option.mem_def.mpr hlastShell)
  have hneg : ∀ g ∈ w, ∃ d : ℚ, d ≤ 0 ∧ windowScore ext cfg dist w latest g = Flt.fin d := by
    intro g hg
    have hgm : g.shell ∈ w.map fun f => f.shell := List.mem_map_of_mem (fun f => f.shell) hg
    exact windowScore_le_zero ext cfg dist w latest g
      (fun t ht => hdist _ hgm _ (List.mem_map_of_mem (fun f => f.shell) ht))
      (hdist _ hgm _ hlm) hsqrt
  obtain ⟨r, hr⟩ := selectToMarginalize_isSome ext cfg w latest w (Flt.fin 1) none
    (fun g hg => ⟨_, hscore g hg⟩)
  obtain ⟨sc1, tm1⟩ := r
  cases tm1 with
  | some p => exact ⟨sc1, p, hr⟩
  | none =>
    exfalso
    obtain ⟨-, -, hmin, hcase⟩ := selectToMarginalize_spec ext cfg w latest w (Flt.fin 1) none
      sc1 none (by simp) hr
    have hsc : sc1 = Flt.fin 1 := by
      rcases hcase with ⟨h1, -⟩ | ⟨pre, fh, post, -, -, -, h2, -⟩
      · exact h1
      · cases h2
    subst hsc
    rcases w with _ | ⟨a, _ | ⟨b, rest⟩⟩
    · simp at hn
    · simp at hn
    · simp only [List.map_cons, List.pairwise_cons] at hids
      have hab : a.frameID < b.frameID := hids.1 _ (List.mem_cons_self _ _)
      have ha0 : 0 ≤ a.frameID := hnonneg _ (by simp)
      have hlast2 : ((b :: rest).map fun f : FrameHessian => f.frameID).getLast? =
          some latest.frameID := by
        simpa [List.getLast?_cons_cons] using hlastID
      have hinc := increasing_head_le_last
        ((b :: rest).map fun f : FrameHessian => f.frameID) b.frameID
        latest.frameID (by simpa using hids.2) rfl hlast2
      simp only [List.length_map, List.length_cons, Nat.cast_add, Nat.cast_one] at hinc hage
      have hold : oldEnough cfg latest b := ⟨by omega, by omega⟩
      obtain ⟨d, hd, hdb⟩ := hneg b (by simp)
      have := hmin b (by simp) hold _ (hscore b (by simp))
      rw [hdb] at this
      simp only [Flt.lt, decide_eq_false_iff_not, not_lt] at this
      linarith
theorem flagFirstPass_keys (ext : Ext) (cfg : Settings) (latest : FrameHessian) (size : Int) :
    ∀ (l : List FrameHessian) (k : Int),
      (flagFirstPass ext cfg latest size l k).1.map frameKey = l.map frameKey := by
  intro l
  induction l with
  | nil => intro k; rfl
  | cons a t ih =>
    intro k
    unfold flagFirstPass
    split <;> simp [ih, frameKey]

theorem precalcOf_eq (dist : Nat → Nat → Flt) (w : List FrameHessian) (f : FrameHessian) :
    precalcOf dist w f =
      (w.map frameKey).map fun k => (⟨f.shell, k.1, dist f.shell k.1⟩ : FrameFramePrecalc) := by
  simp [precalcOf, List.map_map, frameKey]

/-- C30: on a window of `n >= max(2, setting_minFrameAge + 2)` distinct frames
whose `frameID`s are non-negative and strictly increasing in window order, whose
`targetPrecalc` tables are up to date and hold finite non-negative distances
(`sqrtf` of such a distance being finite and non-negative), the second pass of
`flagFramesForMarginalization` selects a frame, whatever the first pass has
flagged: `toMarginalize` is not null when the loop ends, and
`flagFramesForMarginalization` returns. -/
theorem flagFrames_selects_a_frame (ext : Ext) (cfg : Settings) (dist : Nat → Nat → Flt)
    (w : List FrameHessian) (latest : FrameHessian)
    (hlast : w.getLast? = some latest)
    (hn : 2 ≤ w.length)
    (hage : cfg.setting_minFrameAge + 2 ≤ (w.length : Int))
    (hids : (w.map fun f => f.frameID).Pairwise (· < ·))
    (hnonneg : ∀ f ∈ w, 0 ≤ f.frameID)
    (hnd : (w.map fun f => f.shell).Nodup)
    (hpre : ∀ f ∈ w, f.targetPrecalc = precalcOf dist w f)
    (hdist : ∀ a ∈ w, ∀ b ∈ w, ∃ q : ℚ, 0 ≤ q ∧ dist a.shell b.shell = Flt.fin q)
    (hsqrt : ∀ q : ℚ, 0 ≤ q → ∃ r : ℚ, 0 ≤ r ∧ ext.sqrtf (Flt.fin q) = Flt.fin r) :
    (∃ sc p, selectToMarginalize ext cfg (flagFirstPass ext cfg latest w.length w 0).1 latest
        (flagFirstPass ext cfg latest w.length w 0).1 (Flt.fin 1) none = some (sc, some p)) ∧
    (cfg.setting_minFrameAge ≤ cfg.setting_maxFrames →
      ∃ w1, flagFramesForMarginalization ext cfg w = some w1) := by
  have hk := flagFirstPass_keys ext cfg latest w.length w 0
  have hshell : (flagFirstPass ext cfg latest w.length w 0).1.map (fun f => f.shell) =
      w.map fun f => f.shell := flagFirstPass_shells ext cfg latest w.length w 0
  have hid : (flagFirstPass ext cfg latest w.length w 0).1.map (fun f => f.frameID) =
      w.map fun f => f.frameID := by
    have := congrArg (List.map fun k : Nat × Int × List FrameFramePrecalc => k.2.1) hk
    simpa [List.map_map, frameKey, Function.comp_def] using this
  have hsel : ∃ sc p, selectToMarginalize ext cfg (flagFirstPass ext cfg latest w.length w 0).1
      latest (flagFirstPass ext cfg latest w.length w 0).1 (Flt.fin 1) none =
      some (sc, some p) := by
    apply selectToMarginalize_selects_core ext cfg dist _ latest
    · rw [hshell, List.getLast?_map, hlast]; rfl
    · rw [hid, List.getLast?_map, hlast]; rfl
    · rw [flagFirstPass_length]; exact hage
    · rw [flagFirstPass_length]; exact hn
    · rw [hid]; exact hids
    · rw [hid]
      intro x hx
      obtain ⟨f, hf, rfl⟩ := List.mem_map.mp hx
      exact hnonneg f hf
    · rw [hshell]; exact hnd
    · intro f hf
      have hfk : frameKey f ∈ w.map frameKey := by
        rw [← hk]; exact List.mem_map_of_mem frameKey hf
      obtain ⟨f0, hf0, hkey⟩ := List.mem_map.mp hfk
      simp only [frameKey, Prod.mk.injEq] at hkey
      rw [precalcOf_eq, hk, ← hkey.2.2, hpre f0 hf0, precalcOf_eq, hkey.1]
    · rw [hshell]
      intro a ha b hb
      obtain ⟨fa, hfa, rfl⟩ := List.mem_map.mp ha
      obtain ⟨fb, hfb, rfl⟩ := List.mem_map.mp hb
      exact hdist fa hfa fb hfb
    · exact hsqrt
  refine ⟨hsel, fun hmax => ?_⟩
  obtain ⟨sc, p, hsp⟩ := hsel
  unfold flagFramesForMarginalization
  rw [if_neg (by omega)]
  simp only [hlast]
  split
  · simp only [hsp, Option.bind_eq_bind, Option.some_bind, Option.pure_def]
    exact ⟨_, rfl⟩
  · exact ⟨_, rfl⟩

theorem flagFrames_selects_a_frame_witness :
    ∃ w1, flagFramesForMarginalization extFail settingsMaxEqMin windowFive = some w1 :=
  (flagFrames_selects_a_frame extFail settingsMaxEqMin (fun _ _ => Flt.fin 1) windowFive
    latestFive rfl (by decide) (by decide) (by decide) (by decide) (by decide) (by decide)
    (fun _ _ _ _ => ⟨1, by norm_num, rfl⟩) (fun q hq => ⟨q, hq, rfl⟩)).2 (by decide)

/-! ### The frame sets of `flagPointsForRemoval` -/

theorem fhsToKeepPoints_nil (w : List FrameHessian) : fhsToKeepPoints w = [] := by
  unfold fhsToKeepPoints
  cases hn : w.length with
  | zero => simp
  | succ n =>
    rw [List.range_succ, List.reverse_append]
    simp

/-- C25 (amended): in `flagPointsForRemoval` the keep set handed to the
out-of-bounds test (`isOOB`) is empty for every window, and the marginalise set
is exactly the window frames that are flagged for marginalisation, in window
order. The loop over `fhsToKeepPoints` starts at `i = size - 1` under the test
`i >= 0 && i >= size`: it looks at a visibility window of no frame, and its body
never runs. Every point is classified against the empty keep set and the flagged
frames. -/
theorem flagPointsForRemoval_frame_sets (w : List FrameHessian) :
    fhsToKeepPoints w = [] ∧
    fhsToMargPoints w = (w.filter fun f => f.flaggedForMarginalization).map (fun f => f.shell) ∧
    (∀ (ext : Ext) (cfg : Settings),
      flagPointsForRemoval ext cfg w = w.map (flagPointsHost ext cfg [] (fhsToMargPoints w))) := by
  refine ⟨fhsToKeepPoints_nil w, rfl, ?_⟩
  intro ext cfg
  unfold flagPointsForRemoval
  rw [fhsToKeepPoints_nil w]

/-- C25 (counterexample): in the window `windowPoints` no frame is flagged for
marginalisation, so the window frames that are not flagged are both frames, and
the keep set handed to `isOOB` is empty. -/
theorem flagPointsForRemoval_keep_set_empty :
    frameFlags windowPoints = [(0, false), (1, false)] ∧
    (windowPoints.filter fun f => !f.flaggedForMarginalization).map (fun f => f.shell) = [0, 1] ∧
    fhsToKeepPoints windowPoints = [] := by
  refine ⟨by decide, by decide, by decide⟩

/-! ### The candidates after `traceNewCoarse` -/

/-- C26 (amended): `traceNewCoarse(fh)` deletes no candidate. When no candidate
list holds a null entry it returns, and every candidate list then holds the
candidates it held before, each traced on `fh`, whatever `idepth_max` and the
trace status have become. The candidates with a non-finite `idepth_max` or an
outlier status are deleted by `activatePointsMT`, from the lists of the window
frames other than the newest. -/
theorem traceNewCoarse_deletes_nothing (ext : Ext) (fh : FrameHessian) (w : List FrameHessian) :
    ((∀ host ∈ w, none ∉ host.immaturePoints) →
      traceNewCoarse ext fh w =
        some (w.map fun host =>
          { host with
              immaturePoints := host.immaturePoints.map (Option.map (ext.traceOn fh host)) })) ∧
    (∀ w1, traceNewCoarse ext fh w = some w1 →
      w1.map (fun host => host.immaturePoints.length) =
          w.map (fun host => host.immaturePoints.length) ∧
        ∀ host ∈ w, ∀ p, some p ∈ host.immaturePoints →
          ∃ host1 ∈ w1, host1.shell = host.shell ∧
            some (ext.traceOn fh host p) ∈ host1.immaturePoints) ∧
    (∀ (cfg : Settings) (nPoints : Int) (schedule : Nat → List (Nat × Nat))
        (s s1 : FullSystem) (newestHs : FrameHessian),
      s.frameHessians.getLast? = some newestHs →
      activatePointsMT ext cfg nPoints schedule s = some s1 →
      ∀ f ∈ s1.frameHessians, f.shell ≠ newestHs.shell → ∀ x, some x ∈ f.immaturePoints →
        x.idepth_max.isfinite = true ∧
          x.lastTraceStatus ≠ ImmaturePointStatus.IPS_OUTLIER) := by
  have hret : ∀ w1, traceNewCoarse ext fh w = some w1 →
      w1 = w.map fun host =>
        { host with
            immaturePoints := host.immaturePoints.map (Option.map (ext.traceOn fh host)) } := by
    intro w1 h
    unfold traceNewCoarse at h
    split at h
    · exact (Option.some.inj h).symm
    · cases h
  refine ⟨?_, ?_, ?_⟩
  · intro hnull
    unfold traceNewCoarse
    rw [if_pos]
    simp only [List.all_eq_true]
    intro host hhost e he
    cases e with
    | none => exact absurd he (hnull host hhost)
    | some x => rfl
  · intro w1 h
    rw [hret w1 h]
    refine ⟨by simp [List.map_map, Function.comp_def], ?_⟩
    intro host hhost p hp
    refine ⟨_, List.mem_map_of_mem _ hhost, rfl, ?_⟩
    exact List.mem_map.mpr ⟨some p, hp, rfl⟩
  · intro cfg nPoints schedule s s1 newestHs hlast h
    unfold activatePointsMT at h
    simp only [hlast, Option.some_bind, Option.bind_eq_some, Option.map_eq_some'] at h
    obtain ⟨r, h1, optimized, -, w2, h3, rfl⟩ := h
    have hQ1 := scanHosts_mayStay ext cfg s.frameHessians newestHs _ _ _ r h1
    have hQ2 := takeAllOptimized_allCandidates _ _ _ _ _ hQ1 h3
    obtain ⟨hQ3, -⟩ := compactCandidates_allCandidates _ w2 hQ2
    intro f hf hne x hx
    have := hQ3 f hf x hx hne
    exact ⟨this.1, this.2.1⟩

theorem traceNewCoarse_deletes_nothing_witness :
    traceNewCoarse extFail (frameAt 1) [hostOfCandidates, frameAt 1] =
      some ([hostOfCandidates, frameAt 1].map fun host =>
        { host with
            immaturePoints :=
              host.immaturePoints.map (Option.map (extFail.traceOn (frameAt 1) host)) }) :=
  (traceNewCoarse_deletes_nothing extFail (frameAt 1) [hostOfCandidates, frameAt 1]).1
    (by decide)

/-- C26 (counterexample): `hostOfOutliers` hosts a candidate whose trace status
is outlier and a candidate whose `idepth_max` is infinite, and the trace of
`extFail` leaves a candidate as it is. When `traceNewCoarse` returns, both are
still in the candidate list of their host. -/
theorem traceNewCoarse_keeps_outliers :
    traceNewCoarse extFail (frameAt 1) [hostOfOutliers, frameAt 1] =
      some [hostOfOutliers, frameAt 1] ∧
    hostOfOutliers.immaturePoints.map
        (Option.map fun p => (p.lastTraceStatus, p.idepth_max.isfinite)) =
      [some (ImmaturePointStatus.IPS_OUTLIER, true), some (ImmaturePointStatus.IPS_GOOD, false)] := by
  constructor
  · simp [traceNewCoarse, extFail, hostOfOutliers, frameAt, frame0]
  · decide

/-! ### The compaction loops -/

theorem compactSteps_eq {α : Type} :
    ∀ (fuel : Nat) (v : List (Option α)) (i : Nat), v.length - i ≤ fuel →
      compactSteps fuel v i = some (compactLoop fuel v i) := by
  intro fuel
  induction fuel with
  | zero =>
    intro v i h
    simp only [compactSteps, compactLoop]
    rw [if_pos (by omega)]
  | succ n ih =>
    intro v i h
    unfold compactSteps compactLoop
    cases hvi : v[i]? with
    | none => rfl
    | some e =>
      have hi : i < v.length := (List.getElem?_eq_some.mp hvi).1
      cases e with
      | some x => exact ih v (i + 1) (by omega)
      | none =>
        have hl := swapPop_length v i hi
        exact ih (swapPop v i) i (by omega)

/-- C28: the compaction loop ends after at most `size` executions of its body,
for every list (also when the last entry or every entry is null), and leaves a
list without null entry that holds the non-null entries it held before, each
once, in some order. Both `activatePointsMT` (for `immaturePoints`) and
`flagPointsForRemoval` (for `pointHessians`) end with this loop. -/
theorem compact_terminates_and_keeps {α : Type} (v : List (Option α)) :
    compactSteps v.length v 0 = some (compact v) ∧
    (∀ e ∈ compact v, e ≠ none) ∧
    (compact v).Perm (v.filter fun e => e.isSome) ∧
    (∀ w : List FrameHessian, (compactCandidates w).map (fun f => f.immaturePoints) =
      w.map fun f => compact f.immaturePoints) ∧
    (∀ (ext : Ext) (cfg : Settings) (toKeep toMarg : List Nat) (host : FrameHessian),
      (flagPointsHost ext cfg toKeep toMarg host).pointHessians =
        compact (flagPointsLoop ext cfg toKeep toMarg host.flaggedForMarginalization
          host.pointHessians host.pointHessiansMarginalized host.pointHessiansOut).1) := by
  refine ⟨compactSteps_eq v.length v 0 (by omega), (compact_spec v).1, (compact_spec v).2, ?_, ?_⟩
  · intro w
    simp [compactCandidates, List.map_map, Function.comp_def]
  · intro ext cfg toKeep toMarg host
    rfl

/-! ### Flagged frames have no active point -/

theorem classifyPoint_flagged (ext : Ext) (cfg : Settings) (toKeep toMarg : List Nat)
    (ph : PointHessian) : (classifyPoint ext cfg toKeep toMarg true ph).isNone = false := by
  unfold classifyPoint
  simp only [Bool.or_true, if_true]
  split
  · rfl
  · split
    · split <;> rfl
    · rfl

theorem flagPointsHost_flagged (ext : Ext) (cfg : Settings) (toKeep toMarg : List Nat)
    (host : FrameHessian) (hflag : host.flaggedForMarginalization = true) :
    (flagPointsHost ext cfg toKeep toMarg host).pointHessians = [] := by
  have hp := (compact_spec (flagPointsLoop ext cfg toKeep toMarg host.flaggedForMarginalization
      host.pointHessians host.pointHessiansMarginalized host.pointHessiansOut).1).2
  rw [flagPointsLoop_eq, filter_isSome_stays, hflag] at hp
  have hnil : host.pointHessians.filter
      (pointStays (classifyPoint ext cfg toKeep toMarg true)) = [] := by
    rw [List.filter_eq_nil_iff]
    intro e _
    cases e with
    | none => simp [pointStays]
    | some ph => simp [pointStays, classifyPoint_flagged]
  rw [hnil] at hp
  have := List.Perm.eq_nil hp
  simp only [flagPointsHost]
  rw [hflag, flagPointsLoop_eq]
  exact this

theorem flagPointsForRemoval_flaggedEmpty (ext : Ext) (cfg : Settings) (w : List FrameHessian) :
    flaggedEmpty (flagPointsForRemoval ext cfg w) := by
  intro f hf hflag
  simp only [flagPointsForRemoval, List.mem_map] at hf
  obtain ⟨host, -, rfl⟩ := hf
  exact flagPointsHost_flagged ext cfg _ _ host hflag

theorem flagPointsForRemoval_nonNull (ext : Ext) (cfg : Settings) (w : List FrameHessian) :
    ∀ f ∈ flagPointsForRemoval ext cfg w, none ∉ f.pointHessians := by
  intro f hf hnone
  simp only [flagPointsForRemoval, List.mem_map] at hf
  obtain ⟨host, -, rfl⟩ := hf
  exact (compact_spec _).1 none hnone rfl

theorem mem_of_frameCore_eq (w1 w2 : List FrameHessian)
    (h : w1.map frameCore = w2.map frameCore) (f1 : FrameHessian) (hf1 : f1 ∈ w1) :
    ∃ f2 ∈ w2, frameCore f2 = frameCore f1 := by
  have : frameCore f1 ∈ w2.map frameCore := h ▸ List.mem_map_of_mem frameCore hf1
  obtain ⟨f2, hf2, he⟩ := List.mem_map.mp this
  exact ⟨f2, hf2, he⟩

theorem shells_of_frameCore_eq (w1 w2 : List FrameHessian)
    (h : w1.map frameCore = w2.map frameCore) :
    w1.map (fun f => f.shell) = w2.map fun f => f.shell := by
  have := congrArg (List.map fun c : Nat × Bool × List (Option PointHessian) => c.1) h
  simpa [List.map_map, frameCore, Function.comp_def] using this

theorem loopReady_of_frameCore_eq (s1 s2 : FullSystem)
    (h : s1.frameHessians.map frameCore = s2.frameHessians.map frameCore)
    (hlen : s1.allFrameHistory.length = s2.allFrameHistory.length) (h2 : loopReady s2) :
    loopReady s1 := by
  obtain ⟨hnd, hvalid, hnull, hempty⟩ := h2
  refine ⟨?_, ?_, ?_, ?_⟩
  · rw [shells_of_frameCore_eq _ _ h]; exact hnd
  · intro f hf
    obtain ⟨g, hg, he⟩ := mem_of_frameCore_eq _ _ h f hf
    simp only [frameCore, Prod.mk.injEq] at he
    rw [hlen, ← he.1]
    exact hvalid g hg
  · intro f hf
    obtain ⟨g, hg, he⟩ := mem_of_frameCore_eq _ _ h f hf
    simp only [frameCore, Prod.mk.injEq] at he
    rw [← he.2.2]
    exact hnull g hg
  · intro f hf hflag
    obtain ⟨g, hg, he⟩ := mem_of_frameCore_eq _ _ h f hf
    simp only [frameCore, Prod.mk.injEq] at he
    rw [← he.2.2]
    exact hempty g hg (by rw [he.2.1]; exact hflag)

theorem marginalizeFrame_loopReady (ext : Ext) (s s1 : FullSystem) (frame : Nat)
    (hs : loopReady s) (h : marginalizeFrame ext s frame = some s1) : loopReady s1 := by
  obtain ⟨hnd, hvalid, hnull, hempty⟩ := hs
  have hcore := marginalizeFrame_core ext s s1 frame h
  have hlen : s1.allFrameHistory.length = s.allFrameHistory.length := by
    have := congrArg List.length (marginalizeFrame_keys ext s s1 frame h)
    simpa using this
  have hmem : ∀ f1 ∈ s1.frameHessians, ∃ f ∈ s.frameHessians,
      frameCore (dropObservations frame f) = frameCore f1 := by
    intro f1 hf1
    obtain ⟨g, hg, he⟩ := mem_of_frameCore_eq _ _ hcore f1 hf1
    have hg1 : g ∈ s.frameHessians.map (dropObservations frame) := by
      unfold deleteOutOrder at hg
      exact List.mem_of_mem_eraseP hg
    obtain ⟨f, hf, rfl⟩ := List.mem_map.mp hg1
    exact ⟨f, hf, he⟩
  have hdrop : ∀ f : FrameHessian,
      (dropObservations frame f).flaggedForMarginalization = f.flaggedForMarginalization ∧
      (f.pointHessians = [] → (dropObservations frame f).pointHessians = []) ∧
      (none ∉ f.pointHessians → none ∉ (dropObservations frame f).pointHessians) := by
    intro f
    unfold dropObservations
    split
    · exact ⟨rfl, id, id⟩
    · refine ⟨rfl, fun h => by simp [h], fun h hc => ?_⟩
      simp only [List.mem_map] at hc
      obtain ⟨e, he, hnone⟩ := hc
      cases e with
      | none => exact h he
      | some x => cases hnone
  refine ⟨?_, ?_, ?_, ?_⟩
  · rw [shells_of_frameCore_eq _ _ hcore]
    have hsub : (deleteOutOrder (s.frameHessians.map (dropObservations frame)) frame).Sublist
        (s.frameHessians.map (dropObservations frame)) := by
      unfold deleteOutOrder
      exact List.eraseP_sublist _
    have hsub2 := hsub.map fun f : FrameHessian => f.shell
    have heq : (s.frameHessians.map (dropObservations frame)).map (fun f => f.shell) =
        s.frameHessians.map fun f => f.shell := by
      simp [List.map_map, Function.comp_def, dropObservations_shell]
    rw [heq] at hsub2
    exact hnd.sublist hsub2
  · intro f1 hf1
    obtain ⟨f, hf, he⟩ := hmem f1 hf1
    simp only [frameCore, Prod.mk.injEq, dropObservations_shell] at he
    rw [hlen, ← he.1]
    exact hvalid f hf
  · intro f1 hf1
    obtain ⟨f, hf, he⟩ := hmem f1 hf1
    simp only [frameCore, Prod.mk.injEq] at he
    rw [← he.2.2]
    exact (hdrop f).2.2 (hnull f hf)
  · intro f1 hf1 hflag
    obtain ⟨f, hf, he⟩ := hmem f1 hf1
    simp only [frameCore, Prod.mk.injEq] at he
    rw [← he.2.2]
    apply (hdrop f).2.1
    apply hempty f hf
    rw [← (hdrop f).1, he.2.1]
    exact hflag

theorem marginalizeLoop_returns (ext : Ext) :
    ∀ (fuel : Nat) (s : FullSystem) (i : Nat), loopReady s →
      ∃ s1, marginalizeLoop ext fuel s i = some s1 ∧ loopReady s1 := by
  intro fuel
  induction fuel with
  | zero => intro s i hs; exact ⟨s, rfl, hs⟩
  | succ n ih =>
    intro s i hs
    unfold marginalizeLoop
    cases hi : s.frameHessians[i]? with
    | none => exact ⟨s, rfl, hs⟩
    | some fh =>
      simp only
      have hfh : fh ∈ s.frameHessians := List.mem_iff_getElem?.mpr ⟨i, hi⟩
      by_cases hflag : fh.flaggedForMarginalization = true
      · rw [if_pos hflag]
        obtain ⟨hnd, hvalid, hnull, hempty⟩ := hs
        have hemp : ∀ f ∈ s.frameHessians, f.shell = fh.shell → f.pointHessians = [] := by
          intro f hf hsh
          have : f = fh := List.inj_on_of_nodup_map hnd hf hfh hsh
          rw [this]
          exact hempty fh hfh hflag
        obtain ⟨s1, h1⟩ := marginalizeFrame_isSome ext s fh.shell hvalid ⟨fh, hfh, rfl⟩ hemp hnull
        rw [h1]
        exact ih s1 1 (marginalizeFrame_loopReady ext s s1 fh.shell ⟨hnd, hvalid, hnull, hempty⟩ h1)
      · rw [if_neg hflag]
        exact ih s (i + 1) hs

/-- C29: after `flagPointsForRemoval` every window frame that is flagged for
marginalisation has an empty list of active points. When the window frames are
distinct, their shells are records of the history, and the steps between
`flagPointsForRemoval` and the frame-marginalisation loop (lines 1303-1315)
leave the frames, their flags, their active points and the length of the
history as they are, every call `marginalizeFrame` of that loop finds its
assertion `pointHessians.size() == 0` true: the loop returns, and `marginalizeFrame`
keeps the lists of the flagged frames that are left empty. -/
theorem flagPointsForRemoval_empties_flagged_frames (ext : Ext) (cfg : Settings) :
    (∀ w, ∀ f ∈ flagPointsForRemoval ext cfg w,
      f.flaggedForMarginalization = true → f.pointHessians = []) ∧
    (∀ (s s1 : FullSystem) (frame : Nat), flaggedEmpty s.frameHessians →
      marginalizeFrame ext s frame = some s1 → flaggedEmpty s1.frameHessians) ∧
    (∀ s : FullSystem, (s.frameHessians.map fun f => f.shell).Nodup →
      (∀ f ∈ s.frameHessians, f.shell < s.allFrameHistory.length) →
      (∀ x, (ext.afterFlagPoints x).frameHessians.map frameCore =
          x.frameHessians.map frameCore ∧
        (ext.afterFlagPoints x).allFrameHistory.length = x.allFrameHistory.length) →
      ∃ s1, marginalizeFlaggedFrames ext (ext.afterFlagPoints (flagPointsStep ext cfg s)) =
          some s1 ∧
        flaggedEmpty s1.frameHessians) := by
  refine ⟨fun w => flagPointsForRemoval_flaggedEmpty ext cfg w, ?_, ?_⟩
  · intro s s1 frame hemp h
    have hcore := marginalizeFrame_core ext s s1 frame h
    intro f1 hf1 hflag
    obtain ⟨g, hg, he⟩ := mem_of_frameCore_eq _ _ hcore f1 hf1
    have hg1 : g ∈ s.frameHessians.map (dropObservations frame) := by
      unfold deleteOutOrder at hg
      exact List.mem_of_mem_eraseP hg
    obtain ⟨f, hf, rfl⟩ := List.mem_map.mp hg1
    simp only [frameCore, Prod.mk.injEq] at he
    rw [← he.2.2]
    have hfl : f.flaggedForMarginalization = true := by
      rw [← hflag, ← he.2.1]
      unfold dropObservations
      split <;> rfl
    have := hemp f hf hfl
    unfold dropObservations
    split
    · exact this
    · simp [this]
  · intro s hnd hvalid hExt
    have hstep : loopReady (flagPointsStep ext cfg s) := by
      have hshell : (flagPointsForRemoval ext cfg s.frameHessians).map (fun f => f.shell) =
          s.frameHessians.map fun f => f.shell := by
        have := congrArg (List.map fun c : Nat × Bool => c.1)
          (frameFlags_flagPointsForRemoval ext cfg s.frameHessians)
        simpa [List.map_map, frameFlags, Function.comp_def] using this
      refine ⟨?_, ?_, flagPointsForRemoval_nonNull ext cfg _,
        flagPointsForRemoval_flaggedEmpty ext cfg _⟩
      · show ((flagPointsForRemoval ext cfg s.frameHessians).map fun f => f.shell).Nodup
        rw [hshell]; exact hnd
      · intro f hf
        have hf1 : f ∈ flagPointsForRemoval ext cfg s.frameHessians := hf
        have : f.shell ∈ s.frameHessians.map fun f => f.shell := by
          rw [← hshell]; exact List.mem_map_of_mem (fun f => f.shell) hf1
        obtain ⟨g, hg, he⟩ := List.mem_map.mp this
        show f.shell < s.allFrameHistory.length
        rw [← he]
        exact hvalid g hg
    have hready := loopReady_of_frameCore_eq _ _ (hExt (flagPointsStep ext cfg s)).1
      (hExt (flagPointsStep ext cfg s)).2 hstep
    obtain ⟨s1, h1, h2⟩ := marginalizeLoop_returns ext _ _ 0 hready
    exact ⟨s1, h1, h2.2.2.2⟩

theorem flagPointsForRemoval_empties_flagged_frames_witness :
    ∃ s1, marginalizeFlaggedFrames extFail
        (extFail.afterFlagPoints (flagPointsStep extFail defaultSettings systemFlaggedHost)) =
          some s1 ∧
      flaggedEmpty s1.frameHessians :=
  (flagPointsForRemoval_empties_flagged_frames extFail defaultSettings).2.2 systemFlaggedHost
    (by decide) (by decide) (fun _ => ⟨rfl, rfl⟩)

/-! ### The frame chosen by the second pass -/

theorem logInvV_push (L : List (Int × Int)) (K W : List Nat) (h : logInvV L K W L.length) :
    logInvV (L ++ [((L.length : Int), (L.length : Int))]) K W L.length := by
  obtain ⟨h1, h2, h3, h4, h5, -⟩ := h
  have hget : ∀ (i : Nat) (x : Int × Int),
      (L ++ [((L.length : Int), (L.length : Int))])[i]? = some x →
      L[i]? = some x ∨ (i = L.length ∧ x = ((L.length : Int), (L.length : Int))) := by
    intro i x hx
    by_cases hi : i < L.length
    · rw [List.getElem?_append_left hi] at hx
      exact Or.inl hx
    · rw [List.getElem?_append_right (by omega)] at hx
      cases hd : i - L.length with
      | zero =>
        rw [hd] at hx
        simp only [List.getElem?_cons_zero, Option.some.injEq] at hx
        exact Or.inr ⟨by omega, hx.symm⟩
      | succ n =>
        rw [hd] at hx
        simp at hx
  refine ⟨?_, h2, h3, h4, ?_, by simp⟩
  · intro i x hx
    rcases hget i x hx with h | ⟨rfl, rfl⟩
    · exact h1 i x h
    · rfl
  · intro i x hx
    rcases hget i x hx with h | ⟨rfl, rfl⟩
    · exact h5 i x h
    · constructor
      · intro hne
        exact absurd rfl hne
      · intro hk
        exact absurd (h4 _ hk.1) (lt_irrefl _)

theorem logInvV_weaken (L : List (Int × Int)) (K W : List Nat) (b b1 : Nat)
    (h : logInvV L K W b) (hb : b ≤ b1) (hb1 : b1 ≤ L.length) : logInvV L K W b1 := by
  obtain ⟨h1, h2, h3, h4, h5, -⟩ := h
  exact ⟨h1, fun p hp => ⟨lt_of_lt_of_le (h2 p hp).1 hb, (h2 p hp).2⟩, h3,
    fun p hp => lt_of_lt_of_le (h4 p hp) hb, h5, hb1⟩

theorem logInvV_insert (L : List (Int × Int)) (K W : List Nat) (b p : Nat)
    (h : logInvV L K W b) (hp : p < b) (hpK : p ∉ K) :
    logInvV L (K ++ [p]) (W ++ [p]) b := by
  obtain ⟨h1, h2, h3, h4, h5, h6⟩ := h
  have hpW : p ∉ W := fun hw => hpK (h2 p hw).2
  refine ⟨h1, ?_, ?_, ?_, ?_, h6⟩
  · intro q hq
    rcases List.mem_append.mp hq with hq | hq
    · exact ⟨(h2 q hq).1, List.mem_append_left _ (h2 q hq).2⟩
    · simp only [List.mem_singleton] at hq
      subst hq
      exact ⟨hp, List.mem_append_right _ (List.mem_singleton_self _)⟩
  · rw [List.nodup_append]
    refine ⟨h3, List.nodup_singleton _, ?_⟩
    intro a ha hb
    simp only [List.mem_singleton] at hb
    subst hb
    exact hpW ha
  · intro q hq
    rcases List.mem_append.mp hq with hq | hq
    · exact h4 q hq
    · simp only [List.mem_singleton] at hq
      subst hq
      exact hp
  · intro i x hx
    rw [h5 i x hx]
    by_cases hi : i = p
    · subst hi
      simp [hpK, hpW]
    · simp [hi]

theorem logInvV_marginalize (L : List (Int × Int)) (K W : List Nat) (b x : Nat) (v : Int)
    (h : logInvV L K W b) (hx : x ∈ W) (hv : v ≠ (x : Int)) :
    logInvV (L.set x ((x : Int), v)) K (W.erase x) b := by
  obtain ⟨h1, h2, h3, h4, h5, h6⟩ := h
  have hget : ∀ (i : Nat) (y : Int × Int), (L.set x ((x : Int), v))[i]? = some y →
      (i = x ∧ y = ((x : Int), v)) ∨ (i ≠ x ∧ L[i]? = some y) := by
    intro i y hy
    by_cases hi : i = x
    · subst hi
      have hlt : i < L.length := by
        have := (List.getElem?_eq_some.mp hy).1
        simpa using this
      rw [List.getElem?_set_self hlt] at hy
      exact Or.inl ⟨rfl, (Option.some.inj hy).symm⟩
    · rw [List.getElem?_set_ne (Ne.symm hi)] at hy
      exact Or.inr ⟨hi, hy⟩
  refine ⟨?_, ?_, h3.erase x, h4, ?_, by simpa using h6⟩
  · intro i y hy
    rcases hget i y hy with ⟨rfl, rfl⟩ | ⟨-, h⟩
    · rfl
    · exact h1 i y h
  · intro p hp
    exact h2 p (List.mem_of_mem_erase hp)
  · intro i y hy
    rcases hget i y hy with ⟨rfl, rfl⟩ | ⟨hne, h⟩
    · simp only [ne_eq, hv, not_false_eq_true, true_iff]
      exact ⟨(h2 i hx).2, fun hm => (List.Nodup.mem_erase_iff h3).mp hm |>.1 rfl⟩
    · rw [h5 i y h]
      constructor
      · intro hk
        exact ⟨hk.1, fun hm => hk.2 (List.mem_of_mem_erase hm)⟩
      · intro hk
        exact ⟨hk.1, fun hm => hk.2 ((List.mem_erase_of_ne hne).mpr hm)⟩

theorem writeShell_log (hist hist1 : List FrameShell) (p : Nat) (f : FrameShell → FrameShell)
    (h : writeShell hist p f = some hist1) (hf : ∀ sh, shellLog (f sh) = shellLog sh) :
    hist1.map shellLog = hist.map shellLog := by
  obtain ⟨sh, h1, rfl⟩ := writeShell_some _ _ _ _ h
  apply List.ext_getElem?
  intro j
  rw [List.getElem?_map, List.getElem?_map]
  by_cases hj : j = p
  · subst hj
    have hp : j < hist.length := (List.getElem?_eq_some.mp h1).1
    rw [List.getElem?_set_self hp, h1]
    simp [hf]
  · rw [List.getElem?_set_ne (Ne.symm hj)]

theorem setPoseFromTrackingRef_log (hist hist1 : List FrameShell) (p : Nat)
    (h : setPoseFromTrackingRef hist p = some hist1) :
    hist1.map shellLog = hist.map shellLog := by
  unfold setPoseFromTrackingRef at h
  simp only [Option.bind_eq_bind, Option.bind_eq_some] at h
  obtain ⟨sh, -, refp, -, ref, -, hw⟩ := h
  exact writeShell_log _ _ _ _ hw (fun _ => rfl)

theorem writeTrackedPose_log (hist hist1 : List FrameShell) (p q : Nat) (st : TrackLoop)
    (h : writeTrackedPose hist p q st = some hist1) :
    hist1.map shellLog = hist.map shellLog := by
  unfold writeTrackedPose at h
  simp only [Option.bind_eq_bind, Option.bind_eq_some] at h
  obtain ⟨h1, hw1, sh, -, ref, -, hw2⟩ := h
  rw [writeShell_log _ _ _ _ hw2 (fun _ => rfl), writeShell_log _ _ _ _ hw1 (fun _ => rfl)]

theorem initializeFromInitializerCNN_log (ext : Ext) (s s1 : FullSystem) (fh : FrameHessian)
    (h : initializeFromInitializerCNN ext s fh = some s1) :
    ∃ ff, s.coarseInitializer.firstFrame = some ff ∧
      s1.allFrameHistory.map shellLog = s.allFrameHistory.map shellLog ∧
      s1.allKeyFramesHistory = s.allKeyFramesHistory ++ [ff.shell] ∧
      windowShells s1 = windowShells s ++ [ff.shell] := by
  unfold initializeFromInitializerCNN at h
  simp only [Option.bind_eq_bind, Option.bind_eq_some, Option.pure_def, Option.some.injEq] at h
  obtain ⟨ff, hff, h1, hw1, h2, hw2, h3, hw3, rfl⟩ := h
  refine ⟨ff, hff, ?_, rfl, ?_⟩
  · show h3.map shellLog = _
    rw [writeShell_log _ _ _ _ hw3 (fun _ => rfl), writeShell_log _ _ _ _ hw2 (fun _ => rfl),
      writeShell_log _ _ _ _ hw1 (fun _ => rfl)]
  · simp only [windowShells, List.map_map]
    rw [show ((fun f : FrameHessian => f.shell) ∘ fun f : FrameHessian =>
        if (f.shell == ff.shell) = true then
          { f with pointHessians :=
              f.pointHessians ++
                (ext.initializerPoints
                  { ff with idx := s.frameHessians.length,
                            frameID := s.allKeyFramesHistory.length }).map some }
        else f) = fun f : FrameHessian => f.shell from by
      funext f
      simp only [Function.comp]
      split <;> rfl]
    rw [setPrecalcValues_map ext (fun f : FrameHessian => f.shell) (fun _ _ => rfl)]
    simp

theorem trackSetup_log (ext : Ext) (s : FullSystem) (fh : FrameHessian)
    (x : FullSystem × List SE3 × AffLight) (h : trackSetup ext s fh = some x) :
    (s.allFrameHistory.length = 2 ∧ ∃ ff, s.coarseInitializer.firstFrame = some ff ∧
      x.1.allFrameHistory.map shellLog = s.allFrameHistory.map shellLog ∧
      x.1.allKeyFramesHistory = s.allKeyFramesHistory ++ [ff.shell] ∧
      windowShells x.1 = windowShells s ++ [ff.shell]) ∨
    (3 ≤ s.allFrameHistory.length ∧
      x.1.allFrameHistory.map shellLog = s.allFrameHistory.map shellLog ∧
      x.1.allKeyFramesHistory = s.allKeyFramesHistory ∧
      windowShells x.1 = windowShells s) := by
  unfold trackSetup at h
  split at h
  · rename_i h2
    simp only [Option.map_eq_some'] at h
    obtain ⟨s1, hs1, rfl⟩ := h
    left
    refine ⟨by simpa using h2, ?_⟩
    exact initializeFromInitializerCNN_log ext s s1 fh hs1
  · rename_i h2
    simp only [Option.bind_eq_bind, Option.bind_eq_some, Option.pure_def,
      Option.some.injEq] at h
    obtain ⟨lastF, -, slast, hsl, sprelast, hsp, -, -, rfl⟩ := h
    right
    refine ⟨?_, rfl, rfl, rfl⟩
    by_contra hlt
    rw [if_neg hlt] at hsp
    cases hsp

theorem trackNewCoarse_log (ext : Ext) (cfg : Settings) (s : FullSystem) (fh : FrameHessian)
    (r : Vec4 × FullSystem) (h : trackNewCoarse ext cfg s fh = some r) :
    (s.allFrameHistory.length = 2 ∧ ∃ ff, s.coarseInitializer.firstFrame = some ff ∧
      r.2.allFrameHistory.map shellLog = s.allFrameHistory.map shellLog ∧
      r.2.allKeyFramesHistory = s.allKeyFramesHistory ++ [ff.shell] ∧
      windowShells r.2 = windowShells s ++ [ff.shell]) ∨
    (3 ≤ s.allFrameHistory.length ∧
      r.2.allFrameHistory.map shellLog = s.allFrameHistory.map shellLog ∧
      r.2.allKeyFramesHistory = s.allKeyFramesHistory ∧
      windowShells r.2 = windowShells s) := by
  unfold trackNewCoarse at h
  simp only [Option.bind_eq_some, Option.map_eq_some'] at h
  obtain ⟨x, hx, lastF, -, hist, hw, rfl⟩ := h
  have hl : hist.map shellLog = x.1.allFrameHistory.map shellLog :=
    writeTrackedPose_log _ _ _ _ _ hw
  rcases trackSetup_log ext s fh x hx with ⟨h2, ff, hff, h3, h4, h5⟩ | ⟨h2, h3, h4, h5⟩
  · left
    exact ⟨h2, ff, hff, hl.trans h3, h4, h5⟩
  · right
    exact ⟨h2, hl.trans h3, h4, h5⟩

theorem traceNewCoarse_flags (ext : Ext) (fh : FrameHessian) (w w0 : List FrameHessian)
    (h : traceNewCoarse ext fh w = some w0) : frameFlags w0 = frameFlags w := by
  unfold traceNewCoarse at h
  split at h
  · simp only [Option.some.injEq] at h
    subst h
    simp only [frameFlags, List.map_map]
    apply List.map_congr_left
    intro f _
    rfl
  · cases h

theorem flagFirst_shells :
    ∀ (k : Nat) (w : List FrameHessian),
      (flagFirst k w).map (fun f => f.shell) = w.map (fun f => f.shell) := by
  intro k
  induction k with
  | zero => intro w; rfl
  | succ n ih =>
    intro w
    cases w with
    | nil => rfl
    | cons a t => simp [flagFirst, ih]

theorem flagFrame_shells (w : List FrameHessian) (p : Nat) :
    (flagFrame w p).map (fun f => f.shell) = w.map (fun f => f.shell) := by
  simp only [flagFrame, List.map_map]
  apply List.map_congr_left
  intro f _
  simp only [Function.comp]
  split <;> rfl

theorem flagFrames_shells (ext : Ext) (cfg : Settings) (w w1 : List FrameHessian)
    (h : flagFramesForMarginalization ext cfg w = some w1) :
    w1.map (fun f => f.shell) = w.map (fun f => f.shell) := by
  unfold flagFramesForMarginalization at h
  split at h
  · unfold flagOldest at h
    split at h
    · cases h
    · simp only [Option.some.injEq] at h
      rw [← h, flagFirst_shells]
  · cases hl : w.getLast? with
    | none =>
      simp only [hl] at h
      split at h
      · cases h
      · simp only [Option.some.injEq] at h
        rw [h]
    | some latest =>
      simp only [hl] at h
      split at h
      · simp only [Option.bind_eq_bind, Option.bind_eq_some, Option.pure_def,
          Option.some.injEq] at h
        obtain ⟨sel, -, p, -, rfl⟩ := h
        rw [flagFrame_shells, flagFirstPass_shells]
      · simp only [Option.some.injEq] at h
        rw [← h, flagFirstPass_shells]

theorem shells_of_frameFlags (w w1 : List FrameHessian) (h : frameFlags w1 = frameFlags w) :
    w1.map (fun f => f.shell) = w.map (fun f => f.shell) := by
  have := congrArg (List.map Prod.fst) h
  simpa [frameFlags, List.map_map, Function.comp] using this

theorem lastUnflagged_of_frameFlags (w w1 : List FrameHessian)
    (h : frameFlags w1 = frameFlags w) (hl : lastUnflagged w) : lastUnflagged w1 := by
  obtain ⟨l, hl1, hl2⟩ := hl
  have h1 : (frameFlags w).getLast? = some (l.shell, l.flaggedForMarginalization) := by
    simp [frameFlags, List.getLast?_map, hl1]
  rw [← h] at h1
  simp only [frameFlags, List.getLast?_map, Option.map_eq_some'] at h1
  obtain ⟨l1, hl3, hl4⟩ := h1
  simp only [Prod.mk.injEq] at hl4
  exact ⟨l1, hl3, hl4.2.trans hl2⟩

theorem makeNonKeyFrame_log (ext : Ext) (s s1 : FullSystem) (fh : FrameHessian)
    (h : makeNonKeyFrame ext s fh = some s1) :
    s1.allFrameHistory.map shellLog = s.allFrameHistory.map shellLog ∧
      s1.allKeyFramesHistory = s.allKeyFramesHistory ∧ windowShells s1 = windowShells s := by
  unfold makeNonKeyFrame at h
  simp only [Option.bind_eq_some, Option.map_eq_some'] at h
  obtain ⟨hist, hw, w, hw0, rfl⟩ := h
  exact ⟨setPoseFromTrackingRef_log _ _ _ hw, rfl,
    shells_of_frameFlags _ _ (traceNewCoarse_flags ext fh _ w hw0)⟩

theorem getLast?_eraseP {α : Type} (p : α → Bool) :
    ∀ (l : List α) (x : α), l.getLast? = some x → p x = false →
      (l.eraseP p).getLast? = some x := by
  intro l
  induction l with
  | nil => intro x h; simp at h
  | cons a t ih =>
    intro x h hp
    cases t with
    | nil =>
      simp only [List.getLast?_singleton, Option.some.injEq] at h
      subst h
      simp [List.eraseP_cons, hp]
    | cons b t1 =>
      rw [List.getLast?_cons_cons] at h
      rw [List.eraseP_cons]
      cases hpa : p a
      · have h1 := ih x h hp
        simp only [cond_false]
        cases he : List.eraseP p (b :: t1) with
        | nil => rw [he] at h1; simp at h1
        | cons c t2 =>
          rw [he] at h1
          rw [List.getLast?_cons_cons]
          exact h1
      · simp only [cond_true]
        exact h

theorem lastUnflagged_iff (w : List FrameHessian) :
    lastUnflagged w ↔ ∃ x, (frameFlags w).getLast? = some x ∧ x.2 = false := by
  constructor
  · rintro ⟨l, h1, h2⟩
    exact ⟨(l.shell, l.flaggedForMarginalization), by simp [frameFlags, List.getLast?_map, h1],
      h2⟩
  · rintro ⟨x, h1, h2⟩
    simp only [frameFlags, List.getLast?_map, Option.map_eq_some'] at h1
    obtain ⟨l, h3, rfl⟩ := h1
    exact ⟨l, h3, h2⟩

theorem marginalizeFrame_flags (ext : Ext) (s s1 : FullSystem) (frame : Nat)
    (h : marginalizeFrame ext s frame = some s1) :
    frameFlags s1.frameHessians =
      (frameFlags s.frameHessians).eraseP (fun x => x.1 == frame) := by
  rw [marginalizeFrame_some ext s s1 frame h, frameFlags_setPrecalcValues]
  unfold frameFlags
  rw [renumberFrom_map (fun f => (f.shell, f.flaggedForMarginalization)) (fun _ _ => rfl)]
  unfold deleteOutOrder
  have hd : s.frameHessians.map (fun f => (f.shell, f.flaggedForMarginalization)) =
      (s.frameHessians.map (dropObservations frame)).map
        (fun f => (f.shell, f.flaggedForMarginalization)) := by
    rw [List.map_map]
    apply List.map_congr_left
    intro f _
    simp only [Function.comp, dropObservations]
    split <;> rfl
  conv_rhs => rw [hd, List.eraseP_map]
  rfl

theorem erase_map_fst (l : List (Nat × Bool)) (a : Nat) :
    (l.eraseP (fun x => x.1 == a)).map Prod.fst = (l.map Prod.fst).erase a := by
  induction l with
  | nil => rfl
  | cons x t ih =>
    simp only [List.map_cons, List.eraseP_cons, List.erase_cons]
    by_cases h : x.1 = a
    · simp [h]
    · have hb : (x.1 == a) = false := by simpa using h
      simp [h, hb, ih]

theorem windowShells_eq (s : FullSystem) :
    windowShells s = (frameFlags s.frameHessians).map Prod.fst := by
  simp [windowShells, frameFlags, List.map_map, Function.comp]

theorem marginalizeFrame_logInv (ext : Ext) (s s1 : FullSystem) (fh : FrameHessian) (b : Nat)
    (hinv : logInvV (s.allFrameHistory.map shellLog) s.allKeyFramesHistory (windowShells s) b)
    (hlast : lastUnflagged s.frameHessians) (hfh : fh ∈ s.frameHessians)
    (hflag : fh.flaggedForMarginalization = true)
    (h : marginalizeFrame ext s fh.shell = some s1) :
    logInvV (s1.allFrameHistory.map shellLog) s1.allKeyFramesHistory (windowShells s1) b ∧
      lastUnflagged s1.frameHessians ∧
      s1.allFrameHistory.length = s.allFrameHistory.length := by
  have hflags := marginalizeFrame_flags ext s s1 fh.shell h
  obtain ⟨l, hl1, hl2⟩ := hlast
  have hlmem : l ∈ s.frameHessians := List.mem_of_mem_getLast? (Option.mem_def.mpr hl1)
  have hne : l.shell ≠ fh.shell := by
    intro he
    have hnd : (s.frameHessians.map fun f => f.shell).Nodup := hinv.2.2.1
    have := List.inj_on_of_nodup_map hnd hlmem hfh he
    rw [this, hflag] at hl2
    cases hl2
  have hW : windowShells s1 = (windowShells s).erase fh.shell := by
    rw [windowShells_eq, windowShells_eq, hflags, erase_map_fst]
  have hlast1 : lastUnflagged s1.frameHessians := by
    rw [lastUnflagged_iff, hflags]
    refine ⟨(l.shell, l.flaggedForMarginalization), ?_, hl2⟩
    apply getLast?_eraseP
    · simp [frameFlags, List.getLast?_map, hl1]
    · simpa using hne
  unfold marginalizeFrame at h
  simp only [Option.bind_eq_bind, Option.bind_eq_some] at h
  obtain ⟨fr, -, h⟩ := h
  split at h
  · cases h
  · simp only [Option.bind_eq_bind, Option.bind_eq_some, Option.pure_def,
      Option.some.injEq] at h
    obtain ⟨latest, hlat, lsh, hls, hist, hw, rfl⟩ := h
    rw [hl1] at hlat
    cases hlat
    obtain ⟨sh, hsh, rfl⟩ := writeShell_some _ _ _ _ hw
    have hid1 : sh.id = (fh.shell : Int) :=
      hinv.1 fh.shell (shellLog sh) (by rw [List.getElem?_map, hsh]; rfl)
    have hid2 : lsh.id = (l.shell : Int) :=
      hinv.1 l.shell (shellLog lsh) (by rw [List.getElem?_map, hls]; rfl)
    refine ⟨?_, hlast1, by simp⟩
    rw [hW]
    have hL : (s.allFrameHistory.set fh.shell
        { sh with marginalizedAt := lsh.id, movedByOpt := ext.movedByOpt fr }).map shellLog =
        (s.allFrameHistory.map shellLog).set fh.shell ((fh.shell : Int), (l.shell : Int)) := by
      rw [List.map_set]
      simp only [shellLog, hid1, hid2]
    show logInvV ((s.allFrameHistory.set fh.shell _).map shellLog) s.allKeyFramesHistory _ b
    rw [hL]
    apply logInvV_marginalize _ _ _ _ _ _ hinv
    · exact List.mem_map_of_mem _ hfh
    · intro hc
      exact hne (by exact_mod_cast hc)

theorem marginalizeLoop_logInv (ext : Ext) (b : Nat) :
    ∀ (fuel : Nat) (s : FullSystem) (i : Nat) (s1 : FullSystem),
      logInvV (s.allFrameHistory.map shellLog) s.allKeyFramesHistory (windowShells s) b →
      lastUnflagged s.frameHessians →
      marginalizeLoop ext fuel s i = some s1 →
      logInvV (s1.allFrameHistory.map shellLog) s1.allKeyFramesHistory (windowShells s1) b ∧
        s1.allFrameHistory.length = s.allFrameHistory.length := by
  intro fuel
  induction fuel with
  | zero =>
    intro s i s1 hinv _ h
    simp only [marginalizeLoop, Option.some.injEq] at h
    subst h
    exact ⟨hinv, rfl⟩
  | succ n ih =>
    intro s i s1 hinv hlast h
    unfold marginalizeLoop at h
    cases hget : s.frameHessians[i]? with
    | none =>
      simp only [hget, Option.some.injEq] at h
      subst h
      exact ⟨hinv, rfl⟩
    | some fh =>
      simp only [hget] at h
      split at h
      · rename_i hflag
        rw [Option.bind_eq_some] at h
        obtain ⟨s2, h2, h3⟩ := h
        obtain ⟨hinv2, hlast2, hlen2⟩ := marginalizeFrame_logInv ext s s2 fh b hinv hlast
          (List.getElem?_mem hget) hflag h2
        obtain ⟨h4, h5⟩ := ih s2 1 s1 hinv2 hlast2 h3
        exact ⟨h4, h5.trans hlen2⟩
      · exact ih s (i + 1) s1 hinv hlast h

theorem logInvV_of_keepsLog (g : FullSystem → FullSystem) (hg : keepsLog g) (s : FullSystem)
    (b : Nat)
    (hinv : logInvV (s.allFrameHistory.map shellLog) s.allKeyFramesHistory (windowShells s) b) :
    logInvV ((g s).allFrameHistory.map shellLog) (g s).allKeyFramesHistory
      (windowShells (g s)) b := by
  obtain ⟨h1, h2, h3⟩ := hg s
  rw [h1, h2, windowShells_eq, h3, ← windowShells_eq]
  exact hinv

theorem makeKeyFrame_logInv (ext : Ext) (cfg : Settings) (s s1 : FullSystem) (fh : FrameHessian)
    (hExt : keepsLog ext.optimizeWindow ∧ keepsLog ext.afterOptimize ∧
      keepsLog ext.afterFlagPoints)
    (hinv : logInvV (s.allFrameHistory.map shellLog) s.allKeyFramesHistory (windowShells s)
      fh.shell)
    (hlt : fh.shell < s.allFrameHistory.length)
    (hflag : fh.flaggedForMarginalization = false)
    (h : makeKeyFrame ext cfg s fh = some s1) :
    logInvV (s1.allFrameHistory.map shellLog) s1.allKeyFramesHistory (windowShells s1)
        (fh.shell + 1) ∧
      s1.allFrameHistory.length = s.allFrameHistory.length := by
  unfold makeKeyFrame at h
  simp only [Option.bind_eq_some] at h
  obtain ⟨hist, hw, w0, hw0, w1, hw1, hfin⟩ := h
  have hL : hist.map shellLog = s.allFrameHistory.map shellLog :=
    setPoseFromTrackingRef_log _ _ _ hw
  have hsh1 : w1.map (fun f => f.shell) = windowShells s := by
    rw [flagFrames_shells ext cfg _ w1 hw1,
      shells_of_frameFlags _ _ (traceNewCoarse_flags ext fh _ w0 hw0)]
    rfl
  have hfl : frameFlags (insertKeyFrame ext s hist w1 fh).frameHessians =
      frameFlags w1 ++ [(fh.shell, fh.flaggedForMarginalization)] := by
    show frameFlags (setPrecalcValues ext _) = _
    rw [frameFlags_setPrecalcValues]
    simp [frameFlags]
  have hW : windowShells (insertKeyFrame ext s hist w1 fh) = windowShells s ++ [fh.shell] := by
    rw [windowShells_eq, hfl, List.map_append, ← hsh1]
    simp [frameFlags, List.map_map, Function.comp]
  have hnK : fh.shell ∉ s.allKeyFramesHistory := fun hk => lt_irrefl _ (hinv.2.2.2.1 _ hk)
  have hlen : (s.allFrameHistory.map shellLog).length = s.allFrameHistory.length := by simp
  have hins : logInvV ((insertKeyFrame ext s hist w1 fh).allFrameHistory.map shellLog)
      (insertKeyFrame ext s hist w1 fh).allKeyFramesHistory
      (windowShells (insertKeyFrame ext s hist w1 fh)) (fh.shell + 1) := by
    rw [hW]
    show logInvV (hist.map shellLog) (s.allKeyFramesHistory ++ [fh.shell]) _ _
    rw [hL]
    exact logInvV_insert _ _ _ _ _
      (logInvV_weaken _ _ _ _ _ hinv (Nat.le_succ _) (by rw [hlen]; omega))
      (Nat.lt_succ_self _) hnK
  have hlast : lastUnflagged (insertKeyFrame ext s hist w1 fh).frameHessians := by
    rw [lastUnflagged_iff, hfl]
    exact ⟨(fh.shell, fh.flaggedForMarginalization), by simp, hflag⟩
  have hlenk : ∀ (g : FullSystem → FullSystem), keepsLog g → ∀ x,
      (g x).allFrameHistory.length = x.allFrameHistory.length := by
    intro g hg x
    have := congrArg List.length (hg x).1
    simpa using this
  have hlenins : (insertKeyFrame ext s hist w1 fh).allFrameHistory.length =
      s.allFrameHistory.length := by
    have := congrArg List.length hL
    simpa using this
  unfold finishKeyFrame at hfin
  split at hfin
  · simp only [Option.some.injEq] at hfin
    subst hfin
    exact ⟨logInvV_of_keepsLog _ hExt.1 _ _ hins, (hlenk _ hExt.1 _).trans hlenins⟩
  · unfold marginalizeFlaggedFrames at hfin
    have hpre : logInvV
        ((ext.afterFlagPoints (flagPointsStep ext cfg (ext.afterOptimize
          (ext.optimizeWindow (insertKeyFrame ext s hist w1 fh))))).allFrameHistory.map shellLog)
        (ext.afterFlagPoints (flagPointsStep ext cfg (ext.afterOptimize
          (ext.optimizeWindow (insertKeyFrame ext s hist w1 fh))))).allKeyFramesHistory
        (windowShells (ext.afterFlagPoints (flagPointsStep ext cfg (ext.afterOptimize
          (ext.optimizeWindow (insertKeyFrame ext s hist w1 fh)))))) (fh.shell + 1) := by
      apply logInvV_of_keepsLog _ hExt.2.2
      have h2 := logInvV_of_keepsLog _ hExt.2.1 _ _ (logInvV_of_keepsLog _ hExt.1 _ _ hins)
      have hf : windowShells (flagPointsStep ext cfg (ext.afterOptimize
          (ext.optimizeWindow (insertKeyFrame ext s hist w1 fh)))) =
          windowShells (ext.afterOptimize
            (ext.optimizeWindow (insertKeyFrame ext s hist w1 fh))) := by
        rw [windowShells_eq, windowShells_eq]
        show (frameFlags (flagPointsForRemoval ext cfg _)).map Prod.fst = _
        rw [frameFlags_flagPointsForRemoval]
      rw [hf]
      exact h2
    have hlastpre : lastUnflagged
        (ext.afterFlagPoints (flagPointsStep ext cfg (ext.afterOptimize
          (ext.optimizeWindow (insertKeyFrame ext s hist w1 fh))))).frameHessians := by
      apply lastUnflagged_of_frameFlags _ _ _ hlast
      rw [(hExt.2.2 _).2.2]
      show frameFlags (flagPointsForRemoval ext cfg _) = _
      rw [frameFlags_flagPointsForRemoval, (hExt.2.1 _).2.2, (hExt.1 _).2.2]
    obtain ⟨h5, h6⟩ := marginalizeLoop_logInv ext _ _ _ _ _ hpre hlastpre hfin
    refine ⟨h5, h6.trans ?_⟩
    rw [hlenk _ hExt.2.2]
    show (ext.afterOptimize _).allFrameHistory.length = _
    rw [hlenk _ hExt.2.1, hlenk _ hExt.1, hlenins]

theorem deliverTrackedFrame_logInv (ext : Ext) (cfg : Settings) (s s1 : FullSystem)
    (fh : FrameHessian) (needKF : Bool)
    (hExt : keepsLog ext.optimizeWindow ∧ keepsLog ext.afterOptimize ∧
      keepsLog ext.afterFlagPoints)
    (hinv : logInvV (s.allFrameHistory.map shellLog) s.allKeyFramesHistory (windowShells s)
      fh.shell)
    (hlt : fh.shell < s.allFrameHistory.length)
    (hflag : fh.flaggedForMarginalization = false)
    (h : deliverTrackedFrame ext cfg s fh needKF = some s1) :
    logInvV (s1.allFrameHistory.map shellLog) s1.allKeyFramesHistory (windowShells s1)
        (fh.shell + 1) ∧
      s1.allFrameHistory.length = s.allFrameHistory.length := by
  have hweak : logInvV (s.allFrameHistory.map shellLog) s.allKeyFramesHistory (windowShells s)
      (fh.shell + 1) :=
    logInvV_weaken _ _ _ _ _ hinv (Nat.le_succ _) (by simpa using hlt)
  unfold deliverTrackedFrame at h
  split at h
  · split at h
    · exact makeKeyFrame_logInv ext cfg s s1 fh hExt hinv hlt hflag h
    · obtain ⟨h1, h2, h3⟩ := makeNonKeyFrame_log ext s s1 fh h
      rw [h1, h2, h3]
      refine ⟨hweak, ?_⟩
      have := congrArg List.length h1
      simpa using this
  · split at h
    · simp only [Option.bind_eq_bind, Option.bind_eq_some, Option.pure_def,
        Option.some.injEq] at h
      obtain ⟨sh, -, refp, -, ref, -, rfl⟩ := h
      exact ⟨hweak, rfl⟩
    · simp only [Option.some.injEq] at h
      subst h
      exact ⟨hweak, rfl⟩

theorem logInv_nil (s : FullSystem) (h1 : s.allFrameHistory = [])
    (h2 : s.allKeyFramesHistory = []) (h3 : s.frameHessians = []) : logInv s ∧ initInv s := by
  constructor
  · unfold logInv logInvV windowShells
    rw [h1, h2, h3]
    simp
  · unfold initInv
    rw [h1, h2, h3]
    simp

theorem addActiveFrameTrack_logInv (ext : Ext) (cfg : Settings) (s : FullSystem)
    (image : ImageAndExposure) (id : Int) (filePrefix : String)
    (r : FullSystem × Option (FrameHessian × Bool))
    (hfirst : ∀ ci fh ff, (ext.setFirst ci fh).firstFrame = some ff → ff.shell = fh.shell)
    (hinv : logInv s) (hinit : initInv s) (hlost : s.isLost = false)
    (h : addActiveFrameTrack ext cfg s image id filePrefix = some r) :
    logInvV (r.1.allFrameHistory.map shellLog) r.1.allKeyFramesHistory (windowShells r.1)
        s.allFrameHistory.length ∧
      r.1.allFrameHistory.length = s.allFrameHistory.length + 1 ∧
      initInv r.1 ∧
      (s.allFrameHistory.length = 0 → r.2 = none) ∧
      ∀ x, r.2 = some x → x.1 = addActiveFrameHessian ext s image := by
  have hpushL : (pushShell s (addActiveFrameShell ext s image id filePrefix)).allFrameHistory.map
      shellLog = s.allFrameHistory.map shellLog ++
        [(((s.allFrameHistory.map shellLog).length : Int),
          ((s.allFrameHistory.map shellLog).length : Int))] := by
    rw [pushShell_allFrameHistory, List.map_append]
    simp [shellLog, addActiveFrameShell]
  have hpush : logInvV
      ((pushShell s (addActiveFrameShell ext s image id filePrefix)).allFrameHistory.map shellLog)
      s.allKeyFramesHistory (windowShells s) s.allFrameHistory.length := by
    rw [hpushL]
    have := logInvV_push (s.allFrameHistory.map shellLog) s.allKeyFramesHistory (windowShells s)
      (by simpa [logInv] using hinv)
    simpa using this
  have hpushlen : (pushShell s (addActiveFrameShell ext s image id filePrefix)).allFrameHistory.length
      = s.allFrameHistory.length + 1 := by
    rw [pushShell_allFrameHistory]
    simp
  cases hi : s.initialized with
  | false =>
    simp only [addActiveFrameTrack, hlost, Bool.false_eq_true, if_false, pushShell_initialized,
      hi, Bool.not_false, if_true] at h
    split at h
    · simp only [Option.some.injEq] at h
      subst h
      refine ⟨hpush, hpushlen, ⟨?_, ?_⟩, fun _ => rfl, fun x hx => by cases hx⟩
      · intro hle
        exact hinit.1 (by
          have : (pushShell s (addActiveFrameShell ext s image id filePrefix)).allFrameHistory.length
              ≤ 1 := hle
          omega)
      · intro hl1 _ ff hff
        have h0 : s.allFrameHistory.length = 0 := by
          have : (pushShell s (addActiveFrameShell ext s image id filePrefix)).allFrameHistory.length
              = 1 := hl1
          omega
        have := hfirst _ _ ff hff
        rw [this]
        exact h0
    · simp only [Option.some.injEq] at h
      subst h
      refine ⟨hpush, hpushlen, ⟨?_, ?_⟩, fun _ => rfl, fun x hx => by cases hx⟩
      · intro hle
        exact hinit.1 (by
          have : (pushShell s (addActiveFrameShell ext s image id filePrefix)).allFrameHistory.length
              ≤ 1 := hle
          omega)
      · intro _ hini
        have : (pushShell s (addActiveFrameShell ext s image id filePrefix)).initialized = true :=
          hini
        rw [pushShell_initialized, hi] at this
        cases this
  | true =>
    rw [addActiveFrameTrack_tracking ext cfg s image id filePrefix hlost hi,
      Option.bind_eq_some] at h
    obtain ⟨r1, hr1, h2⟩ := h
    obtain ⟨hlen1, hlen2⟩ := trackNewCoarse_length ext cfg _ _ r1 hr1
    rw [swapTrackingReference_allFrameHistory, hpushlen] at hlen1 hlen2
    have hsw : ∀ (x : FullSystem),
        (swapTrackingReference x).allKeyFramesHistory = x.allKeyFramesHistory ∧
        windowShells (swapTrackingReference x) = windowShells x ∧
        (swapTrackingReference x).coarseInitializer = x.coarseInitializer := by
      intro x
      unfold swapTrackingReference
      split <;> exact ⟨rfl, rfl, rfl⟩
    have hmid : logInvV (r1.2.allFrameHistory.map shellLog) r1.2.allKeyFramesHistory
        (windowShells r1.2) s.allFrameHistory.length := by
      rcases trackNewCoarse_log ext cfg _ _ r1 hr1 with ⟨h3, ff, hff, h4, h5, h6⟩ | ⟨-, h4, h5, h6⟩
      · rw [swapTrackingReference_allFrameHistory] at h3 h4
        rw [hpushlen] at h3
        have hn : s.allFrameHistory.length = 1 := by omega
        rw [(hsw _).2.2] at hff
        have hff0 : ff.shell = 0 := hinit.2 hn hi ff hff
        have hK : s.allKeyFramesHistory = [] := (hinit.1 (by omega)).2
        rw [h4, h5, h6, (hsw _).1, (hsw _).2.1, hff0]
        apply logInvV_insert _ _ _ _ _ hpush (by omega)
        show 0 ∉ s.allKeyFramesHistory
        rw [hK]
        simp
      · rw [swapTrackingReference_allFrameHistory] at h4
        rw [h4, h5, h6, (hsw _).1, (hsw _).2.1]
        exact hpush
    have hinit1 : initInv r1.2 := by
      constructor
      · intro hle
        omega
      · intro hl1
        omega
    unfold afterTrackNewCoarse at h2
    split at h2
    · simp only [Option.some.injEq] at h2
      subst h2
      exact ⟨hmid, hlen1, hinit1, fun _ => rfl, fun x hx => by cases hx⟩
    · simp only [Option.map_eq_some'] at h2
      obtain ⟨k, -, rfl⟩ := h2
      refine ⟨hmid, hlen1, hinit1, fun h0 => by omega, fun x hx => ?_⟩
      simp only [Option.some.injEq] at hx
      rw [← hx]

theorem addActiveFrame_logInv (ext : Ext) (cfg : Settings) (s s1 : FullSystem)
    (image : ImageAndExposure) (id : Int) (filePrefix : String)
    (hExt : keepsLog ext.optimizeWindow ∧ keepsLog ext.afterOptimize ∧
      keepsLog ext.afterFlagPoints)
    (hnew : ext.newFrameHessian.flaggedForMarginalization = false)
    (hfirst : ∀ ci fh ff, (ext.setFirst ci fh).firstFrame = some ff → ff.shell = fh.shell)
    (hinv : logInv s) (hinit : initInv s)
    (h : addActiveFrame ext cfg s image id filePrefix = some s1) :
    logInv s1 ∧ initInv s1 := by
  cases hl : s.isLost with
  | true =>
    have : s1 = s := by
      simp [addActiveFrame, addActiveFrameTrack, hl] at h
      exact h.symm
    rw [this]
    exact ⟨hinv, hinit⟩
  | false =>
    unfold addActiveFrame at h
    rw [Option.bind_eq_some] at h
    obtain ⟨r, hr, h2⟩ := h
    obtain ⟨hmid, hlen, hinit1, hnone, hfh⟩ :=
      addActiveFrameTrack_logInv ext cfg s image id filePrefix r hfirst hinv hinit hl hr
    cases hr2 : r.2 with
    | none =>
      simp only [hr2, Option.some.injEq] at h2
      subst h2
      refine ⟨?_, hinit1⟩
      unfold logInv
      rw [hlen]
      exact logInvV_weaken _ _ _ _ _ hmid (Nat.le_succ _) (by simp [hlen])
    | some x =>
      simp only [hr2] at h2
      have hx := hfh x hr2
      have hsh : x.1.shell = s.allFrameHistory.length := by rw [hx]; rfl
      have hfl : x.1.flaggedForMarginalization = false := by rw [hx]; exact hnew
      obtain ⟨h3, h4⟩ := deliverTrackedFrame_logInv ext cfg r.1 s1 x.1 x.2 hExt
        (by rw [hsh]; exact hmid) (by rw [hsh, hlen]; omega) hfl h2
      have hpos : s.allFrameHistory.length ≠ 0 := by
        intro h0
        rw [hnone h0] at hr2
        cases hr2
      refine ⟨?_, ?_⟩
      · unfold logInv
        rw [h4, hlen, ← hsh]
        exact h3
      · constructor
        · intro hle
          omega
        · intro hl1
          omega

theorem reachableFrom_logInv (ext : Ext) (cfg : Settings)
    (hExt : keepsLog ext.optimizeWindow ∧ keepsLog ext.afterOptimize ∧
      keepsLog ext.afterFlagPoints)
    (hnew : ext.newFrameHessian.flaggedForMarginalization = false)
    (hfirst : ∀ ci fh ff, (ext.setFirst ci fh).firstFrame = some ff → ff.shell = fh.shell)
    (s0 s : FullSystem) (h1 : s0.allFrameHistory = []) (h2 : s0.allKeyFramesHistory = [])
    (h3 : s0.frameHessians = []) (hs : ReachableFrom ext cfg s0 s) : logInv s ∧ initInv s := by
  induction hs with
  | start => exact logInv_nil s0 h1 h2 h3
  | step s s1 image id filePrefix _ hstep ih =>
    exact addActiveFrame_logInv ext cfg s s1 image id filePrefix hExt hnew hfirst ih.1 ih.2 hstep

/-- C14 (amended): `printResult` writes, in history order, one row for each
frame of `allFrameHistory` whose pose is valid when `setting_onlyLogKFPoses` is
off; when it is on, it writes one row for each pose-valid frame whose
`marginalizedAt` differs from its `id`, and no row for any other frame. In
every state reached from the initial state (no record, no key frame, an empty
window) by calls of `addActiveFrame`, the frames whose `marginalizedAt` differs
from their `id` are exactly the frames that have been marginalised: the frames
that were made key frames and are no longer in the window. So a frame that was
never a key frame gets no row, and neither does a key frame that is still in the
window. The external steps of `makeKeyFrame` are taken to keep `id` and
`marginalizedAt` of the records, the list of the key frames, and the window
frames with their flags; a new `FrameHessian` is not flagged, and the
initialiser keeps the frame it is given. -/
theorem printResult_rows (ext : Ext) (cfg : Settings)
    (hExt : keepsLog ext.optimizeWindow ∧ keepsLog ext.afterOptimize ∧
      keepsLog ext.afterFlagPoints)
    (hnew : ext.newFrameHessian.flaggedForMarginalization = false)
    (hfirst : ∀ ci fh ff, (ext.setFirst ci fh).firstFrame = some ff → ff.shell = fh.shell) :
    (∀ s : FullSystem, cfg.setting_onlyLogKFPoses = false →
      (printResult ext cfg s).2 =
        (s.allFrameHistory.filter fun sh => sh.poseValid).map (printResultRow ext)) ∧
    (∀ s : FullSystem, cfg.setting_onlyLogKFPoses = true →
      (printResult ext cfg s).2 =
        (s.allFrameHistory.filter fun sh =>
          sh.poseValid && !(sh.marginalizedAt == sh.id)).map (printResultRow ext)) ∧
    (∀ s0 s : FullSystem, s0.allFrameHistory = [] → s0.allKeyFramesHistory = [] →
      s0.frameHessians = [] → ReachableFrom ext cfg s0 s →
      ∀ (i : Nat) (sh : FrameShell), s.allFrameHistory[i]? = some sh →
        (sh.marginalizedAt ≠ sh.id ↔ marginalizedOut s i)) := by
  refine ⟨?_, ?_, ?_⟩
  · intro s h
    show printResultLoop ext cfg s.allFrameHistory = _
    rw [printResultLoop_eq_filter]
    simp [h]
  · intro s h
    show printResultLoop ext cfg s.allFrameHistory = _
    rw [printResultLoop_eq_filter]
    simp [h]
  · intro s0 s h1 h2 h3 hs i sh hsh
    have hinv := (reachableFrom_logInv ext cfg hExt hnew hfirst s0 s h1 h2 h3 hs).1
    exact hinv.2.2.2.2.1 i (shellLog sh) (by rw [List.getElem?_map, hsh]; rfl)

theorem printResult_rows_witness :
    ReachableFrom extGood settingsKfps system0 systemFirst ∧
      ∀ (i : Nat) (sh : FrameShell), systemFirst.allFrameHistory[i]? = some sh →
        (sh.marginalizedAt ≠ sh.id ↔ marginalizedOut systemFirst i) :=
  have hr : ReachableFrom extGood settingsKfps system0 systemFirst :=
    ReachableFrom.step system0 systemFirst imageFirst 0 "frame0" ReachableFrom.start rfl
  ⟨hr, (printResult_rows extGood settingsKfps ⟨fun _ => ⟨rfl, rfl, rfl⟩, fun _ => ⟨rfl, rfl, rfl⟩,
      fun _ => ⟨rfl, rfl, rfl⟩⟩ rfl
    (fun _ _ ff h => by
      simp only [extGood, extFail, Option.some.injEq] at h
      rw [← h])).2.2 system0 systemFirst rfl rfl rfl hr⟩

/-- C14 (counterexample): `systemFresh` has one key frame in its window and two
records in its history, both with `marginalizedAt = id` as `addActiveFrame`
creates them. `makeKeyFrame` promotes the second frame: both frames are key
frames, both are in the window, both poses are valid, and with
`setting_onlyLogKFPoses` on `printResult` writes no row at all. -/
theorem printResult_skips_window_keyframes :
    settingsAgeOut.setting_onlyLogKFPoses = true ∧
    (makeKeyFrame extFail settingsAgeOut systemFresh { frame0 with shell := 1 }).map
        (fun s => (s.allKeyFramesHistory, frameFlags s.frameHessians,
          s.allFrameHistory.map (fun sh => (sh.id, sh.poseValid, sh.marginalizedAt)),
          (printResult extFail settingsAgeOut s).2)) =
      some ([0, 1], [(0, false), (1, false)], [(0, true, 0), (1, true, 1)], []) :=
  ⟨rfl, rfl⟩

/-! ### Point activation: the list of the candidates to optimise -/

theorem heldAfter_append (l1 l2 : List Event) :
    ∀ h, heldAfter h (l1 ++ l2) = heldAfter (heldAfter h l1) l2 := by
  induction l1 with
  | nil => intro h; rfl
  | cons e rest ih => intro h; exact ih (h.step e)

theorem scanEvents_append (f : Held → Event → Bool) (l1 l2 : List Event) :
    ∀ h, scanEvents f h (l1 ++ l2) = scanEvents f h l1 ++ scanEvents f (heldAfter h l1) l2 := by
  induction l1 with
  | nil => intro h; rfl
  | cons e rest ih =>
    intro h
    have ih1 := ih (h.step e)
    simp only [List.cons_append, scanEvents, heldAfter]
    split
    · exact congrArg (List.cons e) ih1
    · exact ih1

theorem wellLocked_nil (allowed : List SourceLine) : WellLocked allowed [] :=
  ⟨rfl, rfl, rfl, fun e he => by cases he⟩

theorem wellLocked_append (allowed : List SourceLine) (l1 l2 : List Event)
    (h1 : WellLocked allowed l1) (h2 : WellLocked allowed l2) : WellLocked allowed (l1 ++ l2) := by
  obtain ⟨a1, b1, c1, d1⟩ := h1
  obtain ⟨a2, b2, c2, d2⟩ := h2
  refine ⟨?_, ?_, ?_, ?_⟩
  · rw [heldAfter_append, a1, a2]
  · unfold blockedFrom at *
    rw [scanEvents_append, a1, b1, b2]
    rfl
  · unfold emptyScopesFrom at *
    rw [scanEvents_append, a1, c1, c2]
    rfl
  · intro e he
    unfold unguardedFrom at *
    rw [scanEvents_append, a1, List.mem_append] at he
    rcases he with he | he
    · exact d1 e he
    · exact d2 e he

theorem wellLocked_mono (a1 a2 : List SourceLine) (l : List Event) (hsub : ∀ x ∈ a1, x ∈ a2)
    (h : WellLocked a1 l) : WellLocked a2 l :=
  ⟨h.1, h.2.1, h.2.2.1, fun e he => hsub _ (h.2.2.2 e he)⟩

theorem wellLocked_waits (allowed : List SourceLine) (line : SourceLine) :
    ∀ n, WellLocked allowed (List.replicate n (Event.wait line)) := by
  intro n
  induction n with
  | zero => exact wellLocked_nil allowed
  | succ k ih =>
    rw [List.replicate_succ]
    exact wellLocked_append allowed [Event.wait line] _
      ⟨rfl, rfl, rfl, fun e he => by cases he⟩ ih

theorem wellLocked_flatMap {α : Type} (allowed : List SourceLine) (f : α → List Event)
    (hf : ∀ x, WellLocked allowed (f x)) : ∀ l : List α, WellLocked allowed (l.flatMap f) := by
  intro l
  induction l with
  | nil => exact wellLocked_nil allowed
  | cons x rest ih =>
    rw [List.flatMap_cons]
    exact wellLocked_append allowed _ _ (hf x) ih

/-- A scope of the mutex that holds a write of a pose between two reads, or
after one. -/
theorem wellLocked_scope (allowed : List SourceLine) (a b c d e : SourceLine) (shell : Nat) :
    WellLocked allowed
      [Event.lockPose a, Event.readPose b, Event.writePose c shell, Event.readPose d,
       Event.unlockPose e] :=
  ⟨rfl, rfl, rfl, fun x hx => by cases hx⟩

theorem wellLocked_initializer (allowed : List SourceLine) (a b c d e f : SourceLine)
    (shell1 shell2 : Nat) :
    WellLocked allowed
      [Event.lockPose a, Event.writePose b shell1, Event.readPose c, Event.writePose d shell2,
       Event.readPose e, Event.unlockPose f] :=
  ⟨rfl, rfl, rfl, fun x hx => by cases hx⟩

theorem disciplined_of_facts (allowed : List SourceLine) (l : List Event)
    (h1 : heldAfter Held.free l = Held.free) (h2 : blockedFrom Held.free l = [])
    (h3 : ∀ e ∈ unguardedFrom Held.free l, e.line ∈ allowed) : Disciplined allowed l := by
  refine ⟨h1, fun p t hl => ?_⟩
  subst hl
  unfold blockedFrom at h2
  unfold unguardedFrom at h3
  rw [scanEvents_append] at h2 h3
  refine ⟨(List.append_eq_nil.mp h2).1, fun e he => h3 e (List.mem_append_left _ he)⟩

theorem disciplined_of_wellLocked (allowed : List SourceLine) (l : List Event)
    (h : WellLocked allowed l) : Disciplined allowed l :=
  disciplined_of_facts allowed l h.1 h.2.1 h.2.2.2

theorem wellLocked_initializeFromInitializerCNN (allowed : List SourceLine) (s : FullSystem)
    (newFrame : FrameHessian) :
    WellLocked allowed (initializeFromInitializerCNNEvents s newFrame) := by
  unfold initializeFromInitializerCNNEvents
  split
  · exact wellLocked_nil _
  · exact wellLocked_initializer _ _ _ _ _ _ _ _ _

theorem wellLocked_initializeFromInitializer (allowed : List SourceLine) (s : FullSystem)
    (newFrame : FrameHessian) :
    WellLocked allowed (initializeFromInitializerEvents s newFrame) := by
  unfold initializeFromInitializerEvents
  split
  · exact wellLocked_nil _
  · exact wellLocked_initializer _ _ _ _ _ _ _ _ _

theorem wellLocked_trackNewCoarse (ext : Ext) (setting_logStuff : Bool) (s : FullSystem)
    (fh : FrameHessian) :
    WellLocked unguardedTracking (trackNewCoarseEvents ext setting_logStuff s fh) := by
  unfold trackNewCoarseEvents
  apply wellLocked_append
  · split
    · exact wellLocked_initializeFromInitializerCNN _ s fh
    · exact ⟨rfl, rfl, rfl, fun e he => by cases he⟩
  · split
    · cases setting_logStuff
      · refine ⟨rfl, rfl, rfl, fun e he => ?_⟩
        have he1 : e ∈ [Event.readPose (SourceLine.fullSystem 663),
            Event.writePose (SourceLine.fullSystem 662) fh.shell] := he
        simp only [List.mem_cons, List.mem_singleton, List.not_mem_nil, or_false] at he1
        rcases he1 with rfl | rfl
        · show SourceLine.fullSystem 663 ∈ unguardedTracking
          decide
        · show SourceLine.fullSystem 662 ∈ unguardedTracking
          decide
      · refine ⟨rfl, rfl, rfl, fun e he => ?_⟩
        have he1 : e ∈ [Event.readPose (SourceLine.fullSystem 663),
            Event.writePose (SourceLine.fullSystem 662) fh.shell,
            Event.readPose (SourceLine.fullSystem 675)] := he
        simp only [List.mem_cons, List.mem_singleton, List.not_mem_nil, or_false] at he1
        rcases he1 with rfl | rfl | rfl
        · show SourceLine.fullSystem 663 ∈ unguardedTracking
          decide
        · show SourceLine.fullSystem 662 ∈ unguardedTracking
          decide
        · show SourceLine.fullSystem 675 ∈ unguardedTracking
          decide
    · exact wellLocked_nil _

theorem wellLocked_makeNonKeyFrame (allowed : List SourceLine) (fh : FrameHessian) :
    WellLocked allowed (makeNonKeyFrameEvents fh) :=
  wellLocked_scope _ _ _ _ _ _ _

theorem wellLocked_marginalizeFrame (s : FullSystem) (frame : Nat) :
    WellLocked unguardedMapping (marginalizeFrameEvents s frame) := by
  unfold marginalizeFrameEvents
  split
  · split
    · refine ⟨rfl, rfl, rfl, ?_⟩
      decide
    · exact wellLocked_nil _
  · exact wellLocked_nil _

theorem wellLocked_marginalizeLoop (ext : Ext) :
    ∀ (fuel : Nat) (s : FullSystem) (i : Nat),
      WellLocked unguardedMapping (marginalizeLoopEvents ext fuel s i) := by
  intro fuel
  induction fuel with
  | zero => intro s i; exact wellLocked_nil _
  | succ n ih =>
    intro s i
    unfold marginalizeLoopEvents
    split
    · exact wellLocked_nil _
    · split
      · apply wellLocked_append _ _ _ (wellLocked_marginalizeFrame s _)
        split
        · exact wellLocked_nil _
        · exact ih _ _
      · exact ih _ _

theorem wellLocked_makeKeyFrame (ext : Ext) (cfg : Settings) (s : FullSystem)
    (fh : FrameHessian) : WellLocked unguardedMapping (makeKeyFrameEvents ext cfg s fh) := by
  unfold makeKeyFrameEvents
  apply wellLocked_append
  · exact wellLocked_scope _ _ _ _ _ _ _
  · split
    · exact wellLocked_nil _
    · apply wellLocked_append
      · split
        · exact ⟨rfl, rfl, rfl, fun e he => by cases he⟩
        · exact wellLocked_nil _
      · split
        · exact wellLocked_nil _
        · exact wellLocked_marginalizeLoop ext _ _ _

theorem unguardedMapping_subset : ∀ x ∈ unguardedMapping, x ∈ unguardedTracking := by
  decide

theorem wellLocked_deliverTrackedFrame (ext : Ext) (cfg : Settings) (waits : Nat)
    (s : FullSystem) (fh : FrameHessian) (needKF : Bool) :
    WellLocked unguardedMapping (deliverTrackedFrameEvents ext cfg waits s fh needKF) := by
  unfold deliverTrackedFrameEvents
  split
  · split
    · exact wellLocked_makeKeyFrame ext cfg s fh
    · exact wellLocked_makeNonKeyFrame _ _
  · exact wellLocked_waits _ _ _

theorem wellLocked_addActiveFrame (ext : Ext) (cfg : Settings) (setting_logStuff : Bool)
    (waits : Nat) (s : FullSystem) (image : ImageAndExposure) (id : Int) (filePrefix : String) :
    WellLocked unguardedTracking
      (addActiveFrameEvents ext cfg setting_logStuff waits s image id filePrefix) := by
  unfold addActiveFrameEvents
  split
  · exact wellLocked_nil _
  · simp only
    have hw : WellLocked unguardedTracking
        [Event.writePose (SourceLine.fullSystem 1002) s.allFrameHistory.length] := by
      refine ⟨rfl, rfl, rfl, fun e he => ?_⟩
      have he1 : e ∈ [Event.writePose (SourceLine.fullSystem 1002) s.allFrameHistory.length] := he
      simp only [List.mem_singleton] at he1
      subst he1
      show SourceLine.fullSystem 1002 ∈ unguardedTracking
      decide
    refine wellLocked_append unguardedTracking
      [Event.writePose (SourceLine.fullSystem 1002) s.allFrameHistory.length] _ hw ?_
    cases hinit : !(pushShell s (addActiveFrameShell ext s image id filePrefix)).initialized
    · simp only [Bool.false_eq_true, if_false]
      apply wellLocked_append _ _ _ (wellLocked_trackNewCoarse ext setting_logStuff _ _)
      split
      · exact wellLocked_mono _ _ _ unguardedMapping_subset
          (wellLocked_deliverTrackedFrame ext cfg waits _ _ _)
      · exact wellLocked_nil _
    · simp only [if_true]
      exact wellLocked_nil _

theorem wellLocked_mappingPass (ext : Ext) (cfg : Settings) (setting_realTimeMaxKF : Bool)
    (pass : MappingPass) :
    WellLocked unguardedMapping (mappingPassEvents ext cfg setting_realTimeMaxKF pass) := by
  unfold mappingPassEvents
  apply wellLocked_append _ _ _ (wellLocked_waits _ _ _)
  split
  · exact wellLocked_nil _
  · simp only
    split
    · exact wellLocked_makeKeyFrame ext cfg _ _
    · split
      · apply wellLocked_append _ _ _ (wellLocked_makeNonKeyFrame _ _)
        split
        · exact wellLocked_nil _
        · split
          · split
            · exact wellLocked_nil _
            · exact wellLocked_scope _ _ _ _ _ _ _
          · exact wellLocked_nil _
      · split
        · exact wellLocked_makeKeyFrame ext cfg _ _
        · split
          · exact wellLocked_nil _
          · split
            · exact wellLocked_makeKeyFrame ext cfg _ _
            · exact wellLocked_makeNonKeyFrame _ _

theorem heldAfter_rows {α : Type} (rows : List α) :
    heldAfter Held.used (rows.flatMap fun _ =>
      [Event.readPose (SourceLine.fullSystem 292), Event.readPose (SourceLine.fullSystem 297),
       Event.readPose (SourceLine.fullSystem 302), Event.readPose (SourceLine.fullSystem 316)]) =
      Held.used ∧
    ∀ f, (∀ line, f Held.used (Event.readPose line) = false) →
      scanEvents f Held.used (rows.flatMap fun _ =>
        [Event.readPose (SourceLine.fullSystem 292), Event.readPose (SourceLine.fullSystem 297),
         Event.readPose (SourceLine.fullSystem 302),
         Event.readPose (SourceLine.fullSystem 316)]) = [] := by
  induction rows with
  | nil => exact ⟨rfl, fun _ _ => rfl⟩
  | cons x rest ih =>
    refine ⟨?_, fun f hf => ?_⟩
    · rw [List.flatMap_cons, heldAfter_append]
      exact ih.1
    · rw [List.flatMap_cons, scanEvents_append]
      have h1 : heldAfter Held.used
          [Event.readPose (SourceLine.fullSystem 292), Event.readPose (SourceLine.fullSystem 297),
           Event.readPose (SourceLine.fullSystem 302),
           Event.readPose (SourceLine.fullSystem 316)] = Held.used := rfl
      rw [h1, ih.2 f hf]
      simp [scanEvents, hf, Held.step]

theorem printResultEvents_facts (ext : Ext) (cfg : Settings) (s : FullSystem) :
    heldAfter Held.free (printResultEvents ext cfg s) = Held.free ∧
    blockedFrom Held.free (printResultEvents ext cfg s) = [] ∧
    unguardedFrom Held.free (printResultEvents ext cfg s) = [] ∧
    emptyScopesFrom Held.free (printResultEvents ext cfg s) =
      if (printResult ext cfg s).2.isEmpty then [Event.unlockPose (SourceLine.fullSystem 327)]
      else [] := by
  unfold printResultEvents blockedFrom unguardedFrom emptyScopesFrom
  cases hrows : (printResult ext cfg s).2 with
  | nil => exact ⟨rfl, rfl, rfl, rfl⟩
  | cons x rest =>
    have hr := heldAfter_rows rest
    simp only [List.flatMap_cons, List.append_assoc, List.cons_append, List.nil_append,
      List.isEmpty_cons, Bool.false_eq_true, if_false]
    refine ⟨?_, ?_, ?_, ?_⟩
    · simp only [heldAfter, Held.step]
      rw [heldAfter_append, hr.1]
      rfl
    · simp only [scanEvents, isBlocked, Held.step, Bool.false_eq_true, if_false]
      rw [scanEvents_append, hr.1, hr.2 _ (fun _ => rfl)]
      rfl
    · simp only [scanEvents, isUnguarded, Held.step, Bool.false_eq_true, if_false]
      rw [scanEvents_append, hr.1, hr.2 _ (fun _ => rfl)]
      rfl
    · simp only [scanEvents, closesEmpty, Held.step, Bool.false_eq_true, if_false]
      rw [scanEvents_append, hr.1, hr.2 _ (fun _ => rfl)]
      rfl

/-! The writes of the trace are the writes of the embedded functions. -/

theorem writeTrackedPose_getElem? (hist hist1 : List FrameShell) (p q : Nat) (st : TrackLoop)
    (h : writeTrackedPose hist p q st = some hist1) :
    ∀ i, i ≠ p → hist1[i]? = hist[i]? := by
  unfold writeTrackedPose at h
  simp only [Option.bind_eq_bind, Option.bind_eq_some] at h
  obtain ⟨h1, hw1, sh, -, ref, -, hw2⟩ := h
  obtain ⟨-, -, -, e1⟩ := writeShell_spec _ _ _ _ hw1
  obtain ⟨-, -, -, e2⟩ := writeShell_spec _ _ _ _ hw2
  intro i hi
  rw [e2 i hi, e1 i hi]

theorem initializeFromInitializerCNN_getElem? (ext : Ext) (s s1 : FullSystem)
    (newFrame : FrameHessian) (h : initializeFromInitializerCNN ext s newFrame = some s1) :
    ∃ ff, s.coarseInitializer.firstFrame = some ff ∧
      ∀ i, i ≠ ff.shell → i ≠ newFrame.shell → s1.allFrameHistory[i]? = s.allFrameHistory[i]? := by
  unfold initializeFromInitializerCNN at h
  simp only [Option.bind_eq_bind, Option.bind_eq_some, Option.pure_def, Option.some.injEq] at h
  obtain ⟨ff, hff, h1, hw1, h2, hw2, h3, hw3, rfl⟩ := h
  obtain ⟨-, -, -, e1⟩ := writeShell_spec _ _ _ _ hw1
  obtain ⟨-, -, -, e2⟩ := writeShell_spec _ _ _ _ hw2
  obtain ⟨-, -, -, e3⟩ := writeShell_spec _ _ _ _ hw3
  refine ⟨ff, hff, fun i hi1 hi2 => ?_⟩
  show h3[i]? = _
  rw [e3 i hi2, e2 i hi2, e1 i hi1]

theorem trackNewCoarse_writes (ext : Ext) (cfg : Settings) (setting_logStuff : Bool)
    (s : FullSystem) (fh : FrameHessian) (r : Vec4 × FullSystem)
    (h : trackNewCoarse ext cfg s fh = some r) :
    ∀ i, r.2.allFrameHistory[i]? ≠ s.allFrameHistory[i]? →
      ∃ line, Event.writePose line i ∈ trackNewCoarseEvents ext setting_logStuff s fh := by
  intro i hi
  have hsome : (trackSetup ext s fh).isSome = true := by
    unfold trackNewCoarse at h
    cases hx : trackSetup ext s fh with
    | none => simp [hx] at h
    | some x => rfl
  unfold trackNewCoarse at h
  simp only [Option.bind_eq_some, Option.map_eq_some'] at h
  obtain ⟨x, hx, lastF, -, hist, hw, rfl⟩ := h
  have hwr := writeTrackedPose_getElem? _ _ _ _ _ hw
  by_cases hfh : i = fh.shell
  · refine ⟨SourceLine.fullSystem 662, ?_⟩
    unfold trackNewCoarseEvents
    rw [hsome, hfh]
    simp
  · have hi1 : x.1.allFrameHistory[i]? ≠ s.allFrameHistory[i]? := by
      intro heq
      apply hi
      show hist[i]? = _
      rw [hwr i hfh, heq]
    unfold trackSetup at hx
    split at hx
    · rename_i h2
      simp only [Option.map_eq_some'] at hx
      obtain ⟨s1, hs1, rfl⟩ := hx
      obtain ⟨ff, hff, hsame⟩ := initializeFromInitializerCNN_getElem? ext s s1 fh hs1
      have hiff : i = ff.shell := by
        by_contra hne
        exact hi1 (hsame i hne hfh)
      refine ⟨SourceLine.fullSystem 1510, ?_⟩
      unfold trackNewCoarseEvents initializeFromInitializerCNNEvents
      rw [h2, hff, hiff]
      simp
    · simp only [Option.bind_eq_bind, Option.bind_eq_some, Option.pure_def,
        Option.some.injEq] at hx
      obtain ⟨_, -, _, -, _, -, _, -, rfl⟩ := hx
      exact absurd rfl hi1

theorem addActiveFrameTrack_writes (ext : Ext) (cfg : Settings) (setting_logStuff : Bool)
    (waits : Nat) (s : FullSystem) (image : ImageAndExposure) (id : Int) (filePrefix : String)
    (r : FullSystem × Option (FrameHessian × Bool))
    (h : addActiveFrameTrack ext cfg s image id filePrefix = some r) :
    ∀ i, poseAt r.1 i ≠ poseAt s i →
      ∃ line, Event.writePose line i ∈
        addActiveFrameEvents ext cfg setting_logStuff waits s image id filePrefix := by
  intro i hi
  cases hl : s.isLost with
  | true =>
    simp only [addActiveFrameTrack, hl, if_true, Option.some.injEq] at h
    subst h
    exact absurd rfl hi
  | false =>
    have hnew : ∃ line, Event.writePose line s.allFrameHistory.length ∈
        addActiveFrameEvents ext cfg setting_logStuff waits s image id filePrefix := by
      refine ⟨SourceLine.fullSystem 1002, ?_⟩
      unfold addActiveFrameEvents
      simp [hl]
    by_cases hlen : i = s.allFrameHistory.length
    · rw [hlen]
      exact hnew
    · have hpush : (pushShell s (addActiveFrameShell ext s image id filePrefix)).allFrameHistory[i]?
          = s.allFrameHistory[i]? := by
        rw [pushShell_allFrameHistory]
        rcases Nat.lt_or_ge i s.allFrameHistory.length with hlt | hge
        · rw [List.getElem?_append_left hlt]
        · have hgt : s.allFrameHistory.length < i := by omega
          rw [List.getElem?_eq_none (by simp; omega), List.getElem?_eq_none (by omega)]
      cases hini : (pushShell s (addActiveFrameShell ext s image id filePrefix)).initialized with
      | false =>
        exfalso
        apply hi
        simp only [addActiveFrameTrack, hl, Bool.false_eq_true, if_false, hini, Bool.not_false,
          if_true] at h
        split at h
        · simp only [Option.some.injEq] at h
          subst h
          show Option.map _ (pushShell s _).allFrameHistory[i]? = _
          rw [hpush]
          rfl
        · simp only [Option.some.injEq] at h
          subst h
          show Option.map _ (pushShell s _).allFrameHistory[i]? = _
          rw [hpush]
          rfl
      | true =>
        have hi0 : s.initialized = true := by
          rw [pushShell_initialized] at hini
          exact hini
        rw [addActiveFrameTrack_tracking ext cfg s image id filePrefix hl hi0,
          Option.bind_eq_some] at h
        obtain ⟨r1, hr1, h2⟩ := h
        have hr : r.1.allFrameHistory = r1.2.allFrameHistory := by
          unfold afterTrackNewCoarse at h2
          split at h2
          · simp only [Option.some.injEq] at h2
            subst h2
            rfl
          · simp only [Option.map_eq_some'] at h2
            obtain ⟨k, -, rfl⟩ := h2
            rfl
        have hne : r1.2.allFrameHistory[i]? ≠
            (swapTrackingReference (pushShell s
              (addActiveFrameShell ext s image id filePrefix))).allFrameHistory[i]? := by
          intro heq
          apply hi
          unfold poseAt
          rw [hr, heq, swapTrackingReference_allFrameHistory, hpush]
        obtain ⟨line, hline⟩ := trackNewCoarse_writes ext cfg setting_logStuff _ _ r1 hr1 i hne
        refine ⟨line, ?_⟩
        unfold addActiveFrameEvents
        simp only [hl, Bool.false_eq_true, if_false, hini, Bool.not_true, List.mem_cons,
          List.mem_append]
        exact Or.inr (Or.inl hline)

theorem makeNonKeyFrame_writes (ext : Ext) (s s1 : FullSystem) (fh : FrameHessian)
    (h : makeNonKeyFrame ext s fh = some s1) :
    ∀ i, poseAt s1 i ≠ poseAt s i → ∃ line, Event.writePose line i ∈ makeNonKeyFrameEvents fh := by
  intro i hi
  unfold makeNonKeyFrame at h
  simp only [Option.bind_eq_some, Option.map_eq_some'] at h
  obtain ⟨hist, hh, w, -, rfl⟩ := h
  unfold setPoseFromTrackingRef at hh
  simp only [Option.bind_eq_bind, Option.bind_eq_some] at hh
  obtain ⟨sh, -, refp, -, ref, -, hw⟩ := hh
  obtain ⟨-, -, -, e⟩ := writeShell_spec _ _ _ _ hw
  have hfh : i = fh.shell := by
    by_contra hne
    apply hi
    show Option.map _ hist[i]? = _
    rw [e i hne]
    rfl
  exact ⟨SourceLine.fullSystem 1196, by rw [hfh]; simp [makeNonKeyFrameEvents]⟩

/-- C17 (amended): in the two source files, on every run, `shellPoseMutex` is
never held across a wait on a condition variable, the wait for the worker
threads of `treadReduce.reduce` or a thread join, and every scope of the mutex
is closed by the function that opens it: this holds at every moment of every
call of `addActiveFrame` (the tracking thread), of every sequence of passes of
`mappingLoop` (the mapping thread), and of `printResult`, `printPC`,
`blockUntilMappingIsFinished` and `initializeFromInitializer`. Every scope of
the mutex on the tracking thread and on the mapping thread holds a read or a
write of a pose; `printPC` holds the mutex without touching a pose, and so does
`printResult` when it writes no line. The reads and writes of poses are made
while the mutex is held, except these: on the tracking thread the write of the
pose of the new record (line 1002), the read of the pose of the tracking
reference and the write of the pose of the new frame at the end of
`trackNewCoarse` (lines 662-663) and the read for the log (line 675); on the
thread that runs `makeKeyFrame`, the read of `savePoints` (line 242 of
`FullSystemMarginalize.cpp`). The writes of these events are the writes of the
code: every record whose pose is not the same after `addActiveFrame` has come
to its call of `deliverTrackedFrame`, or after `makeNonKeyFrame`, as it was
before, is written by an event of the call. -/
theorem shellPoseMutex_discipline (ext : Ext) (cfg : Settings)
    (setting_logStuff setting_realTimeMaxKF : Bool) :
    (∀ (waits : Nat) (s : FullSystem) (image : ImageAndExposure) (id : Int)
        (filePrefix : String),
      Disciplined unguardedTracking
          (addActiveFrameEvents ext cfg setting_logStuff waits s image id filePrefix) ∧
        emptyScopesFrom Held.free
          (addActiveFrameEvents ext cfg setting_logStuff waits s image id filePrefix) = [] ∧
        ∀ r, addActiveFrameTrack ext cfg s image id filePrefix = some r →
          ∀ i, poseAt r.1 i ≠ poseAt s i →
            ∃ line, Event.writePose line i ∈
              addActiveFrameEvents ext cfg setting_logStuff waits s image id filePrefix) ∧
    (∀ passes : List MappingPass,
      Disciplined unguardedMapping (mappingLoopEvents ext cfg setting_realTimeMaxKF passes) ∧
        emptyScopesFrom Held.free (mappingLoopEvents ext cfg setting_realTimeMaxKF passes) =
          []) ∧
    (∀ (s s1 : FullSystem) (fh : FrameHessian), makeNonKeyFrame ext s fh = some s1 →
      ∀ i, poseAt s1 i ≠ poseAt s i →
        ∃ line, Event.writePose line i ∈ makeNonKeyFrameEvents fh) ∧
    (∀ s : FullSystem,
      Disciplined [] (printResultEvents ext cfg s) ∧
        emptyScopesFrom Held.free (printResultEvents ext cfg s) =
          if (printResult ext cfg s).2.isEmpty then
            [Event.unlockPose (SourceLine.fullSystem 327)]
          else []) ∧
    (Disciplined [] printPCEvents ∧
      emptyScopesFrom Held.free printPCEvents = [Event.unlockPose (SourceLine.fullSystem 355)]) ∧
    Disciplined [] blockUntilMappingIsFinishedEvents ∧
    ∀ (s : FullSystem) (newFrame : FrameHessian),
      Disciplined [] (initializeFromInitializerEvents s newFrame) := by
  refine ⟨fun waits s image id filePrefix => ?_, fun passes => ?_,
    fun s s1 fh h => makeNonKeyFrame_writes ext s s1 fh h, fun s => ?_, ⟨?_, rfl⟩, ?_,
    fun s newFrame => ?_⟩
  · have h := wellLocked_addActiveFrame ext cfg setting_logStuff waits s image id filePrefix
    exact ⟨disciplined_of_wellLocked _ _ h, h.2.2.1,
      fun r hr => addActiveFrameTrack_writes ext cfg setting_logStuff waits s image id filePrefix
        r hr⟩
  · have h := wellLocked_flatMap unguardedMapping
      (mappingPassEvents ext cfg setting_realTimeMaxKF)
      (wellLocked_mappingPass ext cfg setting_realTimeMaxKF) passes
    exact ⟨disciplined_of_wellLocked _ _ h, h.2.2.1⟩
  · obtain ⟨h1, h2, h3, h4⟩ := printResultEvents_facts ext cfg s
    exact ⟨disciplined_of_facts _ _ h1 h2 (fun e he => by rw [h3] at he; cases he), h4⟩
  · exact disciplined_of_facts _ _ rfl rfl (fun e he => by cases he)
  · exact disciplined_of_facts _ _ rfl rfl (fun e he => by cases he)
  · exact disciplined_of_wellLocked _ _ (wellLocked_initializeFromInitializer [] s newFrame)

theorem shellPoseMutex_discipline_witness :
    Disciplined unguardedTracking
        (addActiveFrameEvents extGood settingsKfps false 0 systemFirst imageSecond 1 "frame1") ∧
      Disciplined unguardedMapping
        (mappingLoopEvents extGood settingsKfps false
          [⟨2, false, { systemFirst with
                          unmappedTrackedFrames :=
                            [addActiveFrameHessian extGood systemFirst imageSecond] }⟩]) :=
  ⟨((shellPoseMutex_discipline extGood settingsKfps false false).1 0 systemFirst imageSecond 1
      "frame1").1,
    ((shellPoseMutex_discipline extGood settingsKfps false false).2.1 _).1⟩

theorem addActiveFrameEvents_second :
    addActiveFrameEvents extGood settingsKfps false 0 systemFirst imageSecond 1 "frame1" =
      [Event.writePose (SourceLine.fullSystem 1002) 1,
       Event.lockPose (SourceLine.fullSystem 1509),
       Event.writePose (SourceLine.fullSystem 1510) 0,
       Event.readPose (SourceLine.fullSystem 1512),
       Event.writePose (SourceLine.fullSystem 1517) 1,
       Event.readPose (SourceLine.fullSystem 1519), Event.unlockPose (SourceLine.fullSystem 1523),
       Event.readPose (SourceLine.fullSystem 663), Event.writePose (SourceLine.fullSystem 662) 1,
       Event.lockPose (SourceLine.fullSystem 1194), Event.readPose (SourceLine.fullSystem 1197),
       Event.writePose (SourceLine.fullSystem 1196) 1,
       Event.readPose (SourceLine.fullSystem 1198),
       Event.unlockPose (SourceLine.fullSystem 1199)] := by
  obtain ⟨s2, h1, h2, -⟩ := addActiveFrameTrack_second
  have hsetup : (trackSetup extGood
      (swapTrackingReference (pushShell systemFirst
        (addActiveFrameShell extGood systemFirst imageSecond 1 "frame1")))
      (addActiveFrameHessian extGood systemFirst imageSecond)).isSome = true := rfl
  have hlen : ((swapTrackingReference (pushShell systemFirst
        (addActiveFrameShell extGood systemFirst imageSecond 1 "frame1"))).allFrameHistory.length
      == 2) = true := rfl
  have hl : systemFirst.isLost = false := rfl
  have hi : (pushShell systemFirst
      (addActiveFrameShell extGood systemFirst imageSecond 1 "frame1")).initialized = true := rfl
  simp only [addActiveFrameEvents, hl, Bool.false_eq_true, if_false, hi, Bool.not_true,
    trackNewCoarseEvents, hlen, if_true, hsetup, h1, deliverTrackedFrameEvents, h2,
    List.append_nil, List.singleton_append, List.cons_append, List.append_assoc, List.nil_append]
  rfl

/-- C17 (counterexample): the second image is given to `addActiveFrame` in the
state `systemFirst`, in which the initialiser holds the first frame. The system
is initialised (`initializeFromInitializerCNN`, under the mutex), the frame is
tracked, and `trackNewCoarse` then reads the pose of the tracking reference and
writes the pose of the new frame, record 1 of the history (lines 662-663),
while `shellPoseMutex` is not held, as `addActiveFrame` wrote the pose of the
new record before (line 1002). -/
theorem shellPoseMutex_unguarded_accesses :
    (∃ s2, addActiveFrameTrack extGood settingsKfps systemFirst imageSecond 1 "frame1" =
      some (s2, some (addActiveFrameHessian extGood systemFirst imageSecond, false))) ∧
    addActiveFrameEvents extGood settingsKfps false 0 systemFirst imageSecond 1 "frame1" =
      [Event.writePose (SourceLine.fullSystem 1002) 1,
       Event.lockPose (SourceLine.fullSystem 1509),
       Event.writePose (SourceLine.fullSystem 1510) 0,
       Event.readPose (SourceLine.fullSystem 1512),
       Event.writePose (SourceLine.fullSystem 1517) 1,
       Event.readPose (SourceLine.fullSystem 1519), Event.unlockPose (SourceLine.fullSystem 1523),
       Event.readPose (SourceLine.fullSystem 663), Event.writePose (SourceLine.fullSystem 662) 1,
       Event.lockPose (SourceLine.fullSystem 1194), Event.readPose (SourceLine.fullSystem 1197),
       Event.writePose (SourceLine.fullSystem 1196) 1,
       Event.readPose (SourceLine.fullSystem 1198),
       Event.unlockPose (SourceLine.fullSystem 1199)] ∧
    unguardedFrom Held.free
        (addActiveFrameEvents extGood settingsKfps false 0 systemFirst imageSecond 1 "frame1") =
      [Event.writePose (SourceLine.fullSystem 1002) 1, Event.readPose (SourceLine.fullSystem 663),
       Event.writePose (SourceLine.fullSystem 662) 1] := by
  refine ⟨?_, addActiveFrameEvents_second, ?_⟩
  · obtain ⟨s2, h1, -, -⟩ := addActiveFrameTrack_second
    exact ⟨s2, h1⟩
  · rw [addActiveFrameEvents_second]
    rfl

/-! ### The embedded code on the numbers of the machine -/

theorem log_two_eq (q : ℚ) (k : Int) (h1 : (2 : ℚ) ^ k ≤ q) (h2 : q < (2 : ℚ) ^ (k + 1)) :
    Int.log 2 q = k := by
  have hq : 0 < q := lt_of_lt_of_le (by positivity) h1
  have a : k ≤ Int.log 2 q :=
    (Int.zpow_le_iff_le_log (by norm_num) hq).mp (by exact_mod_cast h1)
  have b : Int.log 2 q < k + 1 :=
    (Int.lt_zpow_iff_log_lt (by norm_num) hq).mp (by exact_mod_cast h2)
  omega

theorem roundHalfEven_below (x : ℚ) (f : Int) (h1 : (f : ℚ) ≤ x) (h2 : x < f + 1 / 2) :
    roundHalfEven x = f := by
  have hf : ⌊x⌋ = f := Int.floor_eq_iff.mpr ⟨h1, by linarith⟩
  unfold roundHalfEven
  rw [hf, if_pos (by linarith)]

theorem roundHalfEven_tie (x : ℚ) (f : Int) (h : x = f + 1 / 2) :
    roundHalfEven x = if f % 2 = 0 then f else f + 1 := by
  have hf : ⌊x⌋ = f := Int.floor_eq_iff.mpr ⟨by linarith, by linarith⟩
  unfold roundHalfEven
  rw [hf, if_neg (by linarith), if_neg (by linarith)]

theorem roundBinary_of_binade (prec : Nat) (emin emax : Int) (q : ℚ) (k n : Int)
    (h1 : (2 : ℚ) ^ k ≤ |q|) (h2 : |q| < (2 : ℚ) ^ (k + 1))
    (hn : roundHalfEven (q / 2 ^ (max k emin - (prec - 1))) = n) :
    roundBinary prec emin emax q =
      if (2 : ℚ) ^ (emax + 1) ≤ |(n : ℚ) * 2 ^ (max k emin - (prec - 1))| then
        (if 0 < q then Flt.pinf else Flt.ninf)
      else Flt.fin (n * 2 ^ (max k emin - (prec - 1))) := by
  have hq : q ≠ 0 := by
    intro h0
    rw [h0, abs_zero] at h1
    have : (0 : ℚ) < 2 ^ k := by positivity
    linarith
  unfold roundBinary
  rw [if_neg hq]
  simp only [log_two_eq |q| k h1 h2, hn]

theorem roundFloat_zero : roundFloat 0 = Flt.fin 0 := by
  simp [roundFloat, roundBinary]

theorem roundDouble_zero : roundDouble 0 = Flt.fin 0 := by
  simp [roundDouble, roundBinary]

/-- The `float` nearest to 1 + 2^-30 is 1. -/
theorem roundFloat_narrow : roundFloat (1073741825 / 1073741824) = Flt.fin 1 := by
  unfold roundFloat
  rw [roundBinary_of_binade 24 (-126) 127 _ 0 8388608 (by norm_num [abs_of_pos])
    (by norm_num [abs_of_pos])
    (by apply roundHalfEven_below <;> norm_num)]
  norm_num [abs_of_pos]

/-- The number 1 + 2^-30 is a `double`. -/
theorem roundDouble_narrow :
    roundDouble (1073741825 / 1073741824) = Flt.fin (1073741825 / 1073741824) := by
  unfold roundDouble
  rw [roundBinary_of_binade 53 (-1022) 1023 _ 0 4503599631564800 (by norm_num [abs_of_pos])
    (by norm_num [abs_of_pos])
    (by apply roundHalfEven_below <;> norm_num)]
  norm_num [abs_of_pos]

theorem roundFloat_one : roundFloat 1 = Flt.fin 1 := by
  unfold roundFloat
  rw [roundBinary_of_binade 24 (-126) 127 _ 0 8388608 (by norm_num) (by norm_num)
    (by apply roundHalfEven_below <;> norm_num)]
  norm_num [abs_of_pos]

theorem roundFloat_neg_one : roundFloat (-1) = Flt.fin (-1) := by
  unfold roundFloat
  rw [roundBinary_of_binade 24 (-126) 127 _ 0 (-8388608) (by norm_num) (by norm_num)
    (by apply roundHalfEven_below <;> norm_num)]
  norm_num [abs_of_pos]

theorem roundDouble_neg_one : roundDouble (-1) = Flt.fin (-1) := by
  unfold roundDouble
  rw [roundBinary_of_binade 53 (-1022) 1023 _ 0 (-4503599627370496) (by norm_num) (by norm_num)
    (by apply roundHalfEven_below <;> norm_num)]
  norm_num [abs_of_pos]

/-- The number 2^130 is above the range of `float`. -/
theorem roundFloat_huge : roundFloat 1361129467683753853853498429727072845824 = Flt.pinf := by
  unfold roundFloat
  rw [roundBinary_of_binade 24 (-126) 127 _ 130 8388608 (by norm_num [abs_of_pos])
    (by norm_num [abs_of_pos])
    (by apply roundHalfEven_below <;> norm_num)]
  norm_num [abs_of_pos]

/-- The number 1/2 - 2^-25, the `float` below 1/2, is a `float`. -/
theorem roundFloat_belowHalf :
    roundFloat (16777215 / 33554432) = Flt.fin (16777215 / 33554432) := by
  unfold roundFloat
  rw [roundBinary_of_binade 24 (-126) 127 _ (-2) 16777215 (by norm_num [abs_of_pos])
    (by norm_num [abs_of_pos])
    (by apply roundHalfEven_below <;> norm_num)]
  norm_num [abs_of_pos]

/-- The number 1 - 2^-25 is half way between two numbers of the format
`float`, and is rounded to the even one, 1. -/
theorem roundFloat_tie : roundFloat (33554431 / 33554432) = Flt.fin 1 := by
  unfold roundFloat
  rw [roundBinary_of_binade 24 (-126) 127 _ (-1) 16777216 (by norm_num [abs_of_pos])
    (by norm_num [abs_of_pos])
    (by
      rw [roundHalfEven_tie _ 16777215 (by norm_num)]
      decide)]
  norm_num [abs_of_pos]

theorem roundFloat_half : roundFloat (1 / 2) = Flt.fin (1 / 2) := by
  unfold roundFloat
  rw [roundBinary_of_binade 24 (-126) 127 _ (-1) 8388608 (by norm_num [abs_of_pos])
    (by norm_num [abs_of_pos])
    (by apply roundHalfEven_below <;> norm_num)]
  norm_num [abs_of_pos]

theorem roundFloat_large : roundFloat 1099511627776 = Flt.fin 1099511627776 ∧
    roundFloat (1099511627776 + 1 / 2) = Flt.fin 1099511627776 := by
  constructor
  · unfold roundFloat
    rw [roundBinary_of_binade 24 (-126) 127 _ 40 8388608 (by norm_num [abs_of_pos])
      (by norm_num [abs_of_pos])
      (by apply roundHalfEven_below <;> norm_num)]
    norm_num [abs_of_pos]
  · unfold roundFloat
    rw [roundBinary_of_binade 24 (-126) 127 _ 40 8388608 (by norm_num [abs_of_pos])
      (by norm_num [abs_of_pos])
      (by apply roundHalfEven_below <;> norm_num)]
    norm_num [abs_of_pos]

/-- The literal `0.95f` is a `float`. -/
theorem roundFloat_literal095f : roundFloat literal095f = Flt.fin literal095f := by
  unfold roundFloat literal095f
  rw [roundBinary_of_binade 24 (-126) 127 _ (-1) 15938355 (by norm_num [abs_of_pos])
    (by norm_num [abs_of_pos])
    (by apply roundHalfEven_below <;> norm_num)]
  norm_num [abs_of_pos]

theorem roundDouble_nearRate :
    roundDouble (1020054721 / 1073741824) = Flt.fin (1020054721 / 1073741824) := by
  unfold roundDouble
  rw [roundBinary_of_binade 53 (-1022) 1023 _ (-1) 8556839193018368 (by norm_num [abs_of_pos])
    (by norm_num [abs_of_pos])
    (by apply roundHalfEven_below <;> norm_num)]
  norm_num [abs_of_pos]

/-- On the machine the translation written by `printResult` is narrowed to
`float`: for a frame without rotation at position (1 + 2^-30, 0, 0) the values
written are -1, 0, 0, where `-(Rᵀ p)` is -(1 + 2^-30), 0, 0. -/
theorem printResultRow_machine :
    (printResultRow extMachine shellNarrow).translation = [Flt.fin (-1), Flt.fin 0, Flt.fin 0] ∧
    components (-(shellNarrow.camToWorld.R.transpose.mulVec shellNarrow.camToWorld.t)) =
      [-(1 + 1 / 1073741824), 0, 0] := by
  have h := coeff_values shellNarrow.camToWorld.R
  simp only [List.cons.injEq, and_true] at h
  obtain ⟨h0, h1, h2, h3, h4, h5, h6, h7, h8⟩ := h
  constructor
  · simp only [printResultRow, h0, h1, h2, h3, h4, h5, h6, h7, h8, pushNegated, rowDot, toFloat,
      mulD, addD, extMachine]
    norm_num [shellNarrow, Matrix.vecHead, Matrix.vecTail, Flt.mul, Flt.add, Flt.rnd,
      roundDouble_zero, roundDouble_narrow, roundFloat_narrow, roundFloat_zero,
      roundDouble_neg_one, roundFloat_neg_one]
  · norm_num [components, shellNarrow, Matrix.mulVec, Matrix.dotProduct, Fin.sum_univ_three,
      Matrix.vecHead, Matrix.vecTail]

/-- On the machine a residual above the range of `float` is not finite when it
is converted, and the hypothesis is refused although the tracker reports
success and no residual has been achieved yet; without the conversion it would
be taken over. -/
theorem newWinner_machine :
    newWinner extMachine resultHuge (Vec5.constant Flt.nan) = false ∧
    (resultHuge.trackingIsGood = true ∧ (resultHuge.lastResiduals 0).isfinite = true ∧
      Flt.ge (resultHuge.lastResiduals 0) (Vec5.constant Flt.nan 0) = false) := by
  refine ⟨?_, rfl, rfl, rfl⟩
  have hf : ∀ q : ℚ, toFloat extMachine (Flt.fin q) = roundFloat q := fun _ => rfl
  have hr : resultHuge.lastResiduals 0 = Flt.fin 1361129467683753853853498429727072845824 := rfl
  unfold newWinner
  rw [hr, hf, roundFloat_huge]
  rfl

/-- On the machine an achieved residual above the range of `float` is replaced
by the residual of the next hypothesis, also by a greater one: the test is
`!std::isfinite((float)achievedRes[i]) || achievedRes[i] > lastResiduals[i]`. -/
theorem takeOverRes_machine :
    takeOverRes extMachine (Vec5.constant (Flt.fin 1361129467683753853853498429727072845824))
        (Vec5.constant (Flt.fin 2722258935367507707706996859454145691648)) 0 =
      Flt.fin 2722258935367507707706996859454145691648 ∧
    Flt.gt (Flt.fin 1361129467683753853853498429727072845824) (Flt.fin 2722258935367507707706996859454145691648) = false := by
  have hf : ∀ q : ℚ, toFloat extMachine (Flt.fin q) = roundFloat q := fun _ => rfl
  have hr : ∀ x : Flt, Vec5.constant x 0 = x := fun _ => rfl
  constructor
  · unfold takeOverRes
    rw [hr, hr, hf, roundFloat_huge]
    rfl
  · simp only [Flt.gt, Flt.lt, decide_eq_false_iff_not, not_lt]
    norm_num

/-- On the machine the pixel of the candidate loop is computed in `float`: for
`ptp[0] / ptp[2] = 16777215 / 33554432`, which is 1/2 - 2^-25, the sum with
`0.5f` is rounded to 1 and the pixel is 1, where the sum without rounding is
below 1. A value that does not fit an `int` is converted to the number
`invalidInt`. -/
theorem ptpPixel_machine :
    ptpPixel extMachine ![Flt.fin (16777215 / 33554432), Flt.fin 0, Flt.fin 1] = (1, 0) ∧
    ((16777215 / 33554432 : ℚ) / 1 + 1 / 2 < 1) ∧
    ptpPixel extMachine ![Flt.fin 1099511627776, Flt.fin 0, Flt.fin 1] = (-2147483648, 0) := by
  have hdiv : ∀ q : ℚ, divF extMachine (Flt.fin q) (Flt.fin 1) = roundFloat q := by
    intro q
    show Flt.rnd roundFloat (Flt.div (Flt.fin q) (Flt.fin 1)) = roundFloat q
    simp [Flt.div, Flt.rnd]
  have hadd : ∀ a b : ℚ, addF extMachine (Flt.fin a) (Flt.fin b) = roundFloat (a + b) :=
    fun _ _ => rfl
  have hv : Flt.toInt extMachine.invalidInt
      (addF extMachine (divF extMachine (Flt.fin 0) (Flt.fin 1)) (Flt.fin (1 / 2))) = 0 := by
    rw [hdiv, roundFloat_zero, hadd, show (0 + 1 / 2 : ℚ) = 1 / 2 by norm_num, roundFloat_half]
    norm_num [Flt.toInt]
  refine ⟨?_, by norm_num, ?_⟩
  · have hu : Flt.toInt extMachine.invalidInt
        (addF extMachine (divF extMachine (Flt.fin (16777215 / 33554432)) (Flt.fin 1))
          (Flt.fin (1 / 2))) = 1 := by
      rw [hdiv, roundFloat_belowHalf, hadd,
        show (16777215 / 33554432 + 1 / 2 : ℚ) = 33554431 / 33554432 by norm_num, roundFloat_tie]
      norm_num [Flt.toInt]
    exact Prod.ext hu hv
  · have hu : Flt.toInt extMachine.invalidInt
        (addF extMachine (divF extMachine (Flt.fin 1099511627776) (Flt.fin 1))
          (Flt.fin (1 / 2))) = -2147483648 := by
      rw [hdiv, roundFloat_large.1, hadd, roundFloat_large.2]
      have hi : extMachine.invalidInt = -2147483648 := rfl
      rw [hi]
      norm_num [Flt.toInt]
    exact Prod.ext hu hv

/-- On the machine the bound of the key frame rate is `0.95f`, not 0.95: a frame
0.949999989 s after the last key frame is made a key frame at one key frame per
second, although 0.949999989 is not above 0.95. -/
theorem needToMakeKF_machine :
    needToMakeKF extMachine settingsKfps systemNearRate { frame0 with shell := 1 }
        (fun _ => Flt.fin 0) = some true ∧
    ¬ ((1020054721 / 1073741824 : ℚ) > 95 / 100) := by
  refine ⟨?_, by norm_num⟩
  have hk : settingsKfps.setting_keyframesPerSecond = 1 := rfl
  simp only [needToMakeKF, hk, systemNearRate, divF, extMachine, Flt.div, Flt.rnd]
  norm_num [shell0, roundDouble_nearRate, roundFloat_literal095f, Flt.gt, Flt.lt]
  norm_num [literal095f]

theorem roundFloat_quarter : roundFloat (1 / 4) = Flt.fin (1 / 4) := by
  unfold roundFloat
  rw [roundBinary_of_binade 24 (-126) 127 _ (-2) 8388608 (by norm_num [abs_of_pos])
    (by norm_num [abs_of_pos])
    (by apply roundHalfEven_below <;> norm_num)]
  norm_num [abs_of_pos]

theorem roundFloat_fiveQuarters : roundFloat (5 / 4) = Flt.fin (5 / 4) := by
  unfold roundFloat
  rw [roundBinary_of_binade 24 (-126) 127 _ 0 10485760 (by norm_num [abs_of_pos])
    (by norm_num [abs_of_pos])
    (by apply roundHalfEven_below <;> norm_num)]
  norm_num [abs_of_pos]

theorem roundFloat_three : roundFloat 3 = Flt.fin 3 := by
  unfold roundFloat
  rw [roundBinary_of_binade 24 (-126) 127 _ 1 12582912 (by norm_num [abs_of_pos])
    (by norm_num [abs_of_pos])
    (by apply roundHalfEven_below <;> norm_num)]
  norm_num [abs_of_pos]

/-- On the machine the value `dist` of a candidate that is projected to
(10.25, ·) on a pixel whose distance-map value is 1 is 1.25, and the bound for
`currentMinActDist = 1.5` and a candidate of type 2 is 3. -/
theorem distFinal_machine :
    distFinal extMachine defaultSettings ⟨fun _ => Flt.fin 1⟩
        ![Flt.fin (41 / 4), Flt.fin 10, Flt.fin 1] 10 10 = Flt.fin (5 / 4) ∧
    minDist extMachine (3 / 2) { candidateAt 0 ImmaturePointStatus.IPS_GOOD 10 with my_type := 2 } =
      Flt.fin 3 := by
  have hadd : ∀ a b : ℚ, addF extMachine (Flt.fin a) (Flt.fin b) = roundFloat (a + b) :=
    fun _ _ => rfl
  have hsub : ∀ a b : ℚ, subF extMachine (Flt.fin a) (Flt.fin b) = roundFloat (a + -b) :=
    fun _ _ => rfl
  have hmul : ∀ a b : ℚ, mulF extMachine (Flt.fin a) (Flt.fin b) = roundFloat (a * b) :=
    fun _ _ => rfl
  constructor
  · have hx : (![Flt.fin (41 / 4), Flt.fin 10, Flt.fin 1] : Fin 3 → Flt) 0 = Flt.fin (41 / 4) := rfl
    have hfl : Flt.floor (Flt.fin (41 / 4)) = Flt.fin 10 := by
      simp only [Flt.floor]
      norm_num [Int.floor_eq_iff]
    unfold distFinal
    rw [hx, hfl, hsub, show (41 / 4 + -10 : ℚ) = 1 / 4 by norm_num, roundFloat_quarter]
    show addF extMachine (Flt.fin 1) (Flt.fin (1 / 4)) = _
    rw [hadd, show (1 + 1 / 4 : ℚ) = 5 / 4 by norm_num, roundFloat_fiveQuarters]
  · show mulF extMachine (Flt.fin (3 / 2)) (Flt.fin 2) = _
    rw [hmul, show (3 / 2 * 2 : ℚ) = 3 by norm_num, roundFloat_three]

end dso
